import Mathlib

set_option autoImplicit false

/-!
# go-dnsdb: the streaming result pipeline

A shallow embedding of the envelope decoder (`pkg/dnsdb/v2/saf`), of the v2 record streams
(`pkg/dnsdb/v2/result.go`, `pkg/dnsdb/v2/flex_result.go`), of the v1 record stream
(`pkg/dnsdb/v1/result.go`), of the status mapper (`pkg/dnsdb/v2/status.go`,
`pkg/dnsdb/errors.go`), of the rate limits (`pkg/dnsdb/ratelimit.go`), of the records
(`pkg/dnsdb/types.go`, `pkg/dnsdb/flex/types.go`), of the queries (`pkg/dnsdb/query.go`,
`pkg/dnsdb/flex/query.go`) and of the v2 client (`pkg/dnsdb/v2/client.go`), followed by
theorems about them.

Conventions of the embedding.

* An `error` value is a `GoError`; the Go value `nil` of type `error` is `none : Option GoError`.
* A channel is represented by the list of the values that have been sent on it (and so received
  by its reader, the channels being unbuffered), oldest first, together with a flag `closed`.
* `bufio.Scanner` and `encoding/json` are library code. The loops over a response body take
  the list of tokens that `scanner.Scan()` yields before it returns false, in order: these are
  the lines of the body, up to the end of the body, a read error or a line that exceeds the
  scanner's buffer. `bufio.Scanner.tokens` gives the tokens of a body that is read to its end,
  from the lines of the body and their numbers of bytes.
  `json.Unmarshal` into a given Go type is a function argument, which returns `none` exactly
  when `json.Unmarshal` returns a non-nil error.
* A pointer is an `Option`, `nil` being `none`. An `http.Header` is given by what its method
  `Get` returns, so that a header whose value is empty reads as an absent header, as it does
  for the program.
* A `select` between `<-ctx.Done()` and a channel operation is resolved by a counter
  (`Context.done`): `none` means the context is never cancelled from outside, `some n` means
  that exactly `n` more selects complete their channel operation and every later one takes the
  `ctx.Done()` branch.
* The pointer fields of a query point to variables that other queries may share: they are
  addresses in a `Memory`, and a method that allocates returns the memory after the call.
* For the statements on the order in which the goroutines of a stream run, an execution is a
  sequence of events (`saf.Execution`), each one step of `run`, of `closer` or of a
  cancellation.
* A `float64` is `m * 2 ^ e`; the operations on it round to the nearest `float64`, a tie going
  to the even mantissa. A panic is `none`.
-/

/-! ## Error values -/

/-- The error values of the program. Package-level sentinel errors are constant constructors;
errors built at run time carry the data they are built from. -/
inductive GoError where
  /-- `saf.ErrStreamTruncated = errors.New("saf stream truncated")` -/
  | streamTruncated
  /-- `saf.ErrStreamLimited = fmt.Errorf("saf stream %s", CondLimited)` -/
  | streamLimited
  /-- A value `safError(e)` of the string type `saf.safError` -/
  | saf (e : String)
  /-- `context.Canceled` -/
  | canceled
  /-- `context.DeadlineExceeded` -/
  | deadlineExceeded
  /-- `dnsdb.ErrResultLimitExceeded` -/
  | resultLimitExceeded
  /-- `dnsdb.ErrBadRequest` -/
  | badRequest
  /-- `dnsdb.ErrUnauthorized` -/
  | unauthorized
  /-- `dnsdb.ErrForbidden` -/
  | forbidden
  /-- `dnsdb.ErrBadRange` -/
  | badRange
  /-- `dnsdb.ErrQuotaExceeded` -/
  | quotaExceeded
  /-- `dnsdb.ErrConcurrencyLimit` -/
  | concurrencyLimit
  /-- `dnsdb.HttpStatusError(code)`, that is
  `fmt.Errorf("http status %03d: %s", code, http.StatusText(code))` -/
  | httpStatus (code : Int)
  /-- `dnsdb.ErrInvalidReset` -/
  | invalidReset
  /-- `dnsdb.ErrInvalidLimit` -/
  | invalidLimit
  /-- `dnsdb.ErrInvalidRemaining` -/
  | invalidRemaining
  /-- `dnsdb.ErrInvalidExpires` -/
  | invalidExpires
  /-- `dnsdb.ErrInvalidRData` -/
  | invalidRData
  /-- `strconv.ErrSyntax` -/
  | errSyntax
  /-- `strconv.ErrRange` -/
  | errRange
  /-- A `*strconv.NumError` with the fields `Func`, `Num` and `Err` -/
  | numError (fn num : String) (err : GoError)
  /-- The value `fmt.Errorf("%s: %s", a, b)` for two error values `a` and `b` -/
  | errorfErr (a b : GoError)
  /-- The value `fmt.Errorf("%s: %s", a, b)` for an error value `a` and a string `b` -/
  | errorfStr (a : GoError) (b : String)
  /-- The value `fmt.Errorf("%s: %s", a, b)` for the nil error `a` and a string `b` -/
  | errorfNilStr (b : String)
  /-- Any other error value (a transport failure, the error of a reader's `Close`), which has
  neither an `Is` nor an `Unwrap` method reaching one of the values above -/
  | other (text : String)
  deriving DecidableEq, Repr

namespace strings

/-- `strings.HasPrefix(s, pre)` -/
def HasPrefix (s pre : String) : Bool :=
  pre.data.isPrefixOf s.data

end strings

namespace dnsdb

/-- `dnsdb.ErrResultLimitExceeded` -/
abbrev ErrResultLimitExceeded : GoError := GoError.resultLimitExceeded

end dnsdb

/-! ## Package `saf`: the envelope decoder -/

namespace saf

def CondBegin : String := "begin"
def CondOngoing : String := "ongoing"
def CondSucceeded : String := "succeeded"
def CondLimited : String := "limited"
def CondFailed : String := "failed"

/-- `json.RawMessage`: the undecoded bytes of a JSON value -/
abbrev RawMessage := String

/-- `saf.Message`, one decoded envelope
(`Cond`, `Msg` and `Obj` are the members `cond`, `msg` and `obj` of the JSON object) -/
structure Message where
  Cond : String := ""
  Msg : String := ""
  Obj : RawMessage := ""
  deriving DecidableEq, Repr

/-- `saf.ErrStreamTruncated` -/
abbrev ErrStreamTruncated : GoError := GoError.streamTruncated

/-- `saf.ErrStreamLimited` -/
abbrev ErrStreamLimited : GoError := GoError.streamLimited

/-- `ErrStreamLimited.Error()`: the text `fmt.Errorf("saf stream %s", CondLimited)` is built
with -/
def ErrStreamLimited.Error : String := "saf stream " ++ CondLimited

/-- `func (e safError) Error() string` -/
def safError.Error (e : String) : String := e

/-- `func (e safError) Is(target error) bool` -/
def safError.Is (e : String) (target : GoError) : Bool :=
  match target with
  | GoError.streamLimited => strings.HasPrefix e ErrStreamLimited.Error
  | _ => e == safError.Error e

/-- `func Error(cond, msg string) error` -/
def Error (cond msg : String) : GoError :=
  if msg = "" then GoError.saf cond
  else GoError.saf ("saf stream " ++ cond ++ ": " ++ msg)

end saf

namespace errors

/-- `errors.Is(err, target)`: `err == target` when either is nil; otherwise `err` matches when it
is equal to `target` or has an `Is` method that accepts `target`. Of the error values here only
`safError` has an `Is` method and none has `Unwrap`. -/
def Is (err target : Option GoError) : Bool :=
  match err, target with
  | none, none => true
  | none, some _ => false
  | some _, none => false
  | some e, some t =>
    e == t ||
      match e with
      | GoError.saf s => saf.safError.Is s t
      | _ => false

end errors

/-- What a goroutine sees of its `context.Context`. -/
structure Context where
  /-- `none`: the context is never cancelled from outside. `some n`: the next `n` selects
  complete their channel operation, every later select finds `ctx.Done()` ready. -/
  done : Option Nat
  /-- The value of `ctx.Err()` once the context is done -/
  err : GoError
  deriving DecidableEq, Repr

/-- The counter after a select whose channel operation completed. -/
def Context.tick (ctx : Context) : Context :=
  { ctx with done := ctx.done.map Nat.pred }

/-- Whether the select that is reached now takes the branch `case <-ctx.Done()`. -/
def Context.isDone (ctx : Context) : Bool :=
  ctx.done == some 0

/-- The counter after `n` selects whose channel operation completed. -/
def Context.after (ctx : Context) (n : Nat) : Context :=
  { ctx with done := ctx.done.map (fun k => k - n) }

namespace saf

/-- `saf.Stream`: `ch` lists the payloads sent on `s.ch`, `closed` records `close(s.ch)`,
`cancelled` records that `s.cancel()` has been called, `err` is `s.err`. -/
structure Stream where
  ch : List RawMessage := []
  closed : Bool := false
  cancelled : Bool := false
  err : Option GoError := none
  deriving DecidableEq, Repr

variable {Line : Type}

/-- The loop `for scanner.Scan() { ... }` of `Stream.run` together with the assignment of
`ErrStreamTruncated` that follows it, over the tokens that are still to be scanned. -/
def Stream.scan (unmarshal : Line → Option Message) :
    Context → List Line → Stream → Stream
  | _, [], s =>
    -- the scanner is exhausted: s.err = ErrStreamTruncated
    { s with err := some ErrStreamTruncated }
  | ctx, line :: rest, s =>
    match unmarshal line with
    | none => Stream.scan unmarshal ctx rest s
    | some msg =>
      if msg.Obj.length > 0 ∧ ctx.isDone = true then
        -- case <-ctx.Done(): if s.err == nil { s.err = ctx.Err() }; return
        { s with err := if s.err = none then some ctx.err else s.err }
      else
        -- case s.ch <- msg.Obj, when there is a payload
        let s1 := if msg.Obj.length > 0 then { s with ch := s.ch ++ [msg.Obj] } else s
        let ctx1 := if msg.Obj.length > 0 then ctx.tick else ctx
        if msg.Cond = "" ∨ msg.Cond = CondOngoing then Stream.scan unmarshal ctx1 rest s1
        else if msg.Cond = CondBegin then Stream.scan unmarshal ctx1 rest s1
        else if msg.Cond = CondSucceeded then { s1 with cancelled := true }
        else if msg.Cond = CondLimited then { s1 with err := some (Error msg.Cond msg.Msg) }
        else if msg.Cond = CondFailed then
          { s1 with err := some (Error msg.Cond msg.Msg), cancelled := true }
        else Stream.scan unmarshal ctx1 rest s1

/-- `func (s *Stream) run(ctx context.Context, r io.Reader)`: the scan loop, then the deferred
`close(s.ch)`. -/
def Stream.run (unmarshal : Line → Option Message) (ctx : Context) (r : List Line)
    (s : Stream) : Stream :=
  { Stream.scan unmarshal ctx r s with closed := true }

/-- `func (s *Stream) closer(ctx context.Context, c io.Closer)` once `ctx.Done()` is ready:
`closeErr` is what `c.Close()` returns. -/
def Stream.closer (closeErr : Option GoError) (s : Stream) : Stream :=
  if s.err = none then { s with err := closeErr } else s

/-- `func (s *Stream) Run(ctx context.Context, r io.ReadCloser)`, as the state its reader finds
when it sees `s.ch` closed. `run` starts from the fresh stream. The closer goroutine waits for
the derived context, which `run` cancels by `s.cancel()`; `closerRan` tells whether the closer
has finished by the time the state is read. -/
def Stream.Run (unmarshal : Line → Option Message) (ctx : Context) (r : List Line)
    (closeErr : Option GoError) (closerRan : Bool) : Stream :=
  let s := Stream.run unmarshal ctx r {}
  if s.cancelled ∧ closerRan = true then Stream.closer closeErr s else s

/-- `func (s *Stream) Ch() <-chan json.RawMessage`: everything received from the channel. -/
def Stream.Ch (s : Stream) : List RawMessage := s.ch

/-- `func (s *Stream) Err() error` -/
def Stream.Err (s : Stream) : Option GoError := s.err

end saf

/-! ## Record shapes -/

/-- A `time.Time` value in UTC: seconds and nanoseconds since the Unix epoch. -/
structure Time where
  sec : Int
  nsec : Nat := 0
  deriving DecidableEq, Repr

/-- The zero value `time.Time{}`: January 1, year 1, 00:00:00 UTC. -/
def Time.zero : Time := { sec := -62135596800 }

namespace dnsdb

/-- `dnsdb.RRSet` (a nil slice is the empty list) -/
structure RRSet where
  RRName : String := ""
  RRType : String := ""
  RData : List String := []
  RawRData : List UInt8 := []
  Bailiwick : String := ""
  Count : Int := 0
  NumResults : Int := 0
  TimeFirst : Time := Time.zero
  TimeLast : Time := Time.zero
  ZoneTimeFirst : Time := Time.zero
  ZoneTimeLast : Time := Time.zero
  deriving DecidableEq, Repr

end dnsdb

namespace flex

/-- `flex.Record` (a nil slice is the empty list) -/
structure Record where
  RRName : String := ""
  RData : String := ""
  RawRData : List UInt8 := []
  RRType : String := ""
  Count : Int := 0
  TimeFirst : Time := Time.zero
  TimeLast : Time := Time.zero
  deriving DecidableEq, Repr

end flex

/-! ## Library functions

`bufio`, `strconv`, `fmt`, `strings`, `unicode` and `net/http` are library code. The functions
of them that the program calls on values it computes are written out here, for a platform whose
`int` has 64 bits; `http.StatusText` and `strconv.Quote`, whose values are tables, are taken as
arguments. -/

namespace bufio

/-- `bufio.MaxScanTokenSize`: the size that the buffer of a scanner may grow to, when the
scanner is the one that `bufio.NewScanner` returns. -/
def MaxScanTokenSize : Nat := 64 * 1024

/-- The tokens that `scanner.Scan()` yields, for the scanner that `bufio.NewScanner(r)` returns
(split function `ScanLines`, buffer of at most `MaxScanTokenSize` bytes), when the reader `r`
delivers the lines `lines` and then the end of the input. `size` is the number of bytes of a
line before its newline, or before the end of the input for a last line without one. A line of
fewer than `MaxScanTokenSize` bytes fits in the buffer together with its newline and is
yielded; at the first line that does not fit, `Scan` finds the buffer full without a newline
in it, records `ErrTooLong` and returns false, as it does on every later call. -/
def Scanner.tokens {Line : Type} (size : Line → Nat) : List Line → List Line
  | [] => []
  | l :: rest => if size l < MaxScanTokenSize then l :: Scanner.tokens size rest else []

end bufio

/-- The library tables that enter the text of an error. -/
structure Library where
  /-- `http.StatusText(code)` -/
  StatusText : Int → String
  /-- `strconv.Quote(s)` -/
  Quote : String → String

namespace strconv

/-- The decimal digit of a number below ten. -/
def digitChar (d : Nat) : Char :=
  match d with
  | 0 => '0'
  | 1 => '1'
  | 2 => '2'
  | 3 => '3'
  | 4 => '4'
  | 5 => '5'
  | 6 => '6'
  | 7 => '7'
  | 8 => '8'
  | _ => '9'

/-- The decimal digits of `n`, most significant first, without leading zero. The first
argument bounds the number of digits; `n + 1` is enough for `n`. -/
def digits : Nat → Nat → List Char
  | 0, _ => []
  | fuel + 1, n =>
    if n < 10 then [digitChar n] else digits fuel (n / 10) ++ [digitChar (n % 10)]

/-- `strconv.Itoa(n)`, which is also what the verb `%d` of `fmt` writes. -/
def Itoa (n : Int) : String :=
  if n < 0 then String.mk ('-' :: digits (n.natAbs + 1) n.natAbs)
  else String.mk (digits (n.natAbs + 1) n.natAbs)

/-- The value of a byte as a decimal digit: `ch -= '0'`, with none for `ch > 9`. -/
def digitVal (c : Char) : Option Nat :=
  if '0' ≤ c ∧ c ≤ '9' then some (c.toNat - 48) else none

/-- The loop of `strconv.ParseUint(s, 10, 64)` over the bytes still to be read, `n` being the
value read so far: a byte that is no digit is a syntax error, a value above `1<<64 - 1` a range
error. -/
def parseUint : List Char → Nat → Except GoError Nat
  | [], n => Except.ok n
  | c :: cs, n =>
    match digitVal c with
    | none => Except.error GoError.errSyntax
    | some d =>
      if n * 10 + d > 2 ^ 64 - 1 then Except.error GoError.errRange
      else parseUint cs (n * 10 + d)

/-- `strconv.Atoi(s)`: an optional sign, then at least one digit and only digits, the value
within the range of `int64`; the error is a `*NumError` that names `Atoi` and `s`. -/
def Atoi (s : String) : Except GoError Int :=
  let neg : Bool := s.data.head? = some '-'
  let ds : List Char :=
    if s.data.head? = some '+' ∨ s.data.head? = some '-' then s.data.tail else s.data
  if ds = [] then Except.error (GoError.numError "Atoi" s GoError.errSyntax)
  else
    match parseUint ds 0 with
    | Except.error e => Except.error (GoError.numError "Atoi" s e)
    | Except.ok un =>
      if neg = false ∧ un ≥ 2 ^ 63 then
        Except.error (GoError.numError "Atoi" s GoError.errRange)
      else if neg = true ∧ un > 2 ^ 63 then
        Except.error (GoError.numError "Atoi" s GoError.errRange)
      else Except.ok (if neg = true then -(un : Int) else (un : Int))

end strconv

namespace fmt

/-- The verb `%03d` on an `int`: the decimal digits padded with zeros to the width 3, the sign
of a negative number taking one place of the width. -/
def d03 (n : Int) : String :=
  let ds := strconv.digits (n.natAbs + 1) n.natAbs
  if n < 0 then String.mk ('-' :: (List.replicate (2 - ds.length) '0' ++ ds))
  else String.mk (List.replicate (3 - ds.length) '0' ++ ds)

end fmt

namespace unicode

/-- `unicode.IsSpace(r)`: the code points with the Unicode property White Space. -/
def IsSpace (r : Char) : Bool :=
  let n := r.toNat
  (9 ≤ n && n ≤ 13) || n == 32 || n == 0x85 || n == 0xA0 || n == 0x1680 ||
    (0x2000 ≤ n && n ≤ 0x200A) || n == 0x2028 || n == 0x2029 || n == 0x202F ||
    n == 0x205F || n == 0x3000

end unicode

namespace strings

/-- `strings.TrimSpace(s)`: `s` without its leading and trailing white space. -/
def TrimSpace (s : String) : String :=
  String.mk ((s.data.dropWhile unicode.IsSpace).reverse.dropWhile unicode.IsSpace).reverse

end strings

namespace http

/-- An `http.Header` as the program reads it: `Get key` is `header.Get(key)`, the first value
of the header `key`, and the empty string when the header has no such entry. -/
structure Header where
  Get : String → String := fun _ => ""

/-- The header with the entries `entries`, each a name with its values, as `Get` reads it:
`Get key` is the first value of the entry `key`, and the empty string when there is no such
entry or the entry has no value. The names of the entries are in the form that `Get` looks
up. -/
def Header.ofEntries (entries : List (String × List String)) : Header :=
  { Get := fun key => ((entries.lookup key).getD []).headD "" }

end http

/-- `func (e error) Error() string` for the error values at hand. -/
def GoError.Error (lib : Library) : GoError → String
  | GoError.streamTruncated => "saf stream truncated"
  | GoError.streamLimited => saf.ErrStreamLimited.Error
  | GoError.saf e => saf.safError.Error e
  | GoError.canceled => "context canceled"
  | GoError.deadlineExceeded => "context deadline exceeded"
  | GoError.resultLimitExceeded => "result limit reached"
  | GoError.badRequest => "bad request"
  | GoError.unauthorized => "api key not authorized"
  | GoError.forbidden => "invalid api key or ip not authorized"
  | GoError.badRange => "offset is greater than the maximum allowed"
  | GoError.quotaExceeded => "quota exceeded"
  | GoError.concurrencyLimit => "concurrency limit exceeded"
  | GoError.httpStatus code => "http status " ++ fmt.d03 code ++ ": " ++ lib.StatusText code
  | GoError.invalidReset => "invalid reset value"
  | GoError.invalidLimit => "invalid limit value"
  | GoError.invalidRemaining => "invalid remaining value"
  | GoError.invalidExpires => "invalid expires value"
  | GoError.invalidRData => "rdata not []string or string"
  | GoError.errSyntax => "invalid syntax"
  | GoError.errRange => "value out of range"
  | GoError.numError fn num err =>
    "strconv." ++ fn ++ ": parsing " ++ lib.Quote num ++ ": " ++ GoError.Error lib err
  | GoError.errorfErr a b => GoError.Error lib a ++ ": " ++ GoError.Error lib b
  | GoError.errorfStr a b => GoError.Error lib a ++ ": " ++ b
  | GoError.errorfNilStr b => "%!s(<nil>): " ++ b
  | GoError.other text => text

/-- A finite `float64`: the number `m * 2 ^ e`. -/
structure Float64 where
  m : Int
  e : Int
  deriving DecidableEq, Repr

/-- The binary logarithm of `n`, rounded down: the number of times that `n` can be halved
before it is below 2. The first argument bounds the number of halvings; `n` is enough for
`n`. -/
def Float64.log2 : Nat → Nat → Nat
  | 0, _ => 0
  | fuel + 1, n => if n < 2 then 0 else Float64.log2 fuel (n / 2) + 1

/-- The exponent `e` of the `float64` nearest to `a / b`, for `a` and `b` that are not zero:
the one that puts `a / (b * 2 ^ e)` between `2 ^ 52` and `2 ^ 53`. It is one of two
candidates, since `a / b` lies between `2 ^ (l - 1)` and `2 ^ (l + 1)` for the difference `l`
of the binary logarithms of `a` and `b`. -/
def Float64.exponent (a b : Nat) : Int :=
  let e1 : Int := (Float64.log2 a a : Int) - (Float64.log2 b b : Int) - 52
  if a * 2 ^ (-e1).toNat < 2 ^ 52 * (b * 2 ^ e1.toNat) then e1 - 1 else e1

/-- The number `a / (b * 2 ^ e)` rounded to the nearest integer, a tie going to the even one,
as the mantissa of a `float64` with the exponent `e`. -/
def Float64.roundAt (a b : Nat) (e : Int) : Float64 :=
  let num := a * 2 ^ (-e).toNat
  let den := b * 2 ^ e.toNat
  let q := num / den
  let r := num % den
  { m := ((if den < 2 * r ∨ (2 * r = den ∧ q % 2 = 1) then q + 1 else q : Nat) : Int), e := e }

/-- The `float64` nearest to the rational number `a / b`, a tie going to the even mantissa, for
`a / b` that is zero or within the range of the normal numbers of `float64`. -/
def Float64.nearest (a b : Nat) : Float64 :=
  if a = 0 ∨ b = 0 then { m := 0, e := 0 }
  else Float64.roundAt a b (Float64.exponent a b)

/-- The `float64` nearest to the rational number `n / d`. -/
def Float64.ofRat (n : Int) (d : Nat) : Float64 :=
  let f := Float64.nearest n.natAbs d
  if n < 0 then { m := -f.m, e := f.e } else f

/-- The conversion `float64(n)` of an integer, which is also the `float64` that
`encoding/json` stores for the JSON number `n`: the integer itself for `|n| ≤ 2 ^ 53`, which
`float64` represents exactly, and beyond that the `float64` nearest to `n`, a tie going to the
even mantissa. -/
def Float64.ofInt (n : Int) : Float64 :=
  if n.natAbs ≤ 2 ^ 53 then { m := n, e := 0 } else Float64.ofRat n 1

/-- The integer part of a `float64`, the fraction discarded (rounding toward zero). -/
def Float64.trunc (f : Float64) : Int :=
  if 0 ≤ f.e then f.m * 2 ^ f.e.toNat else Int.tdiv f.m (2 ^ (-f.e).toNat)

/-- The conversions `int64(f)` and `int(f)`: the integer part of `f`. For a value outside the
range of `int64` the Go specification leaves the result to the implementation; the value taken
here is the one of amd64, `-1 << 63`. -/
def Float64.toInt64 (f : Float64) : Int :=
  if -(2 ^ 63) ≤ f.trunc ∧ f.trunc < 2 ^ 63 then f.trunc else -(2 ^ 63)

namespace json

/-- What `json.Unmarshal` stores in a variable of type `interface{}`: `nil` for the JSON value
null (and the variable stays `nil` when the member is absent), a `bool`, a `float64` for a
number, a `string`, a `[]interface{}` for an array, a `map[string]interface{}` for an
object. -/
inductive Value where
  | nil
  | bool (b : Bool)
  | float64 (f : Float64)
  | string (s : String)
  | array (elems : List Value)
  | object (members : List (String × Value))

end json

/-! ## Package `dnsdb`: rate limits -/

namespace dnsdb

def NA : String := "n/a"
def Unlimited : String := "unlimited"

/-- `dnsdb.ErrInvalidReset` -/
abbrev ErrInvalidReset : GoError := GoError.invalidReset

/-- `dnsdb.ErrInvalidLimit` -/
abbrev ErrInvalidLimit : GoError := GoError.invalidLimit

/-- `dnsdb.ErrInvalidRemaining` -/
abbrev ErrInvalidRemaining : GoError := GoError.invalidRemaining

/-- `dnsdb.ErrInvalidExpires` -/
abbrev ErrInvalidExpires : GoError := GoError.invalidExpires

/-- `func unix(secs int64) time.Time` -/
def unix (secs : Int) : Time :=
  if secs = 0 then Time.zero else { sec := secs }

/-- `func unixPtr(secs int64) *time.Time`: a pointer is an `Option`, `nil` being `none` -/
def unixPtr (secs : Int) : Option Time := some (unix secs)

/-- `func intPtr(i int) *int` -/
def intPtr (i : Int) : Option Int := some i

/-- `dnsdb.Rate`: a pointer field is an `Option`, `nil` being `none` -/
structure Rate where
  Reset : Option Time := none
  Limit : Option Int := none
  Remaining : Option Int := none
  Expires : Option Time := none
  ResultsMax : Int := 0
  OffsetMax : Int := 0
  BurstSize : Int := 0
  BurstWindow : Int := 0
  deriving DecidableEq, Repr

/-- `dnsdb.RateLimit` -/
structure RateLimit where
  Rate : Rate := {}
  deriving DecidableEq, Repr

/-- One of the four switches of `NewRateLimitFromHeaders`, on the value `value` of a header
whose sentinel is `sentinel`: none for the empty value and for the sentinel, otherwise the
number `strconv.Atoi` reads, or the error `fmt.Errorf("%s: %s", invalid, err)`. -/
def headerValue (value sentinel : String) (invalid : GoError) : Except GoError (Option Int) :=
  if value = "" then Except.ok none
  else if value = sentinel then Except.ok none
  else
    match strconv.Atoi value with
    | Except.error err => Except.error (GoError.errorfErr invalid err)
    | Except.ok v => Except.ok (some v)

/-- `func NewRateLimitFromHeaders(header http.Header) (*RateLimit, error)`: the four switches
in the order of the source, the first error ending the function with a nil result. -/
def NewRateLimitFromHeaders (header : http.Header) : Option RateLimit × Option GoError :=
  match headerValue (header.Get "X-RateLimit-Limit") Unlimited ErrInvalidLimit with
  | Except.error err => (none, some err)
  | Except.ok limit =>
    match headerValue (header.Get "X-RateLimit-Remaining") NA ErrInvalidRemaining with
    | Except.error err => (none, some err)
    | Except.ok remaining =>
      match headerValue (header.Get "X-RateLimit-Reset") NA ErrInvalidReset with
      | Except.error err => (none, some err)
      | Except.ok reset =>
        match headerValue (header.Get "X-RateLimit-Expires") NA ErrInvalidExpires with
        | Except.error err => (none, some err)
        | Except.ok expires =>
          (some
            { Rate :=
              { Limit := limit.bind intPtr
                Remaining := remaining.bind intPtr
                Reset := reset.bind unixPtr
                Expires := expires.bind unixPtr } },
            none)

/-- The struct `raw` that `Rate.UnmarshalJSON` decodes into. -/
structure rateRaw where
  Reset : json.Value := json.Value.nil
  Limit : json.Value := json.Value.nil
  Remaining : json.Value := json.Value.nil
  Expires : json.Value := json.Value.nil
  ResultsMax : Int := 0
  OffsetMax : Int := 0
  BurstSize : Int := 0
  BurstWindow : Int := 0

/-- The type switch of `Rate.UnmarshalJSON` on `raw.Reset` and on `raw.Expires`. -/
def switchTime (v : json.Value) (invalid : GoError) : Except GoError (Option Time) :=
  match v with
  | json.Value.nil => Except.ok none
  | json.Value.string s => if s ≠ NA then Except.error invalid else Except.ok none
  | json.Value.float64 f => Except.ok (some (unix f.toInt64))
  | _ => Except.error invalid

/-- The type switch of `Rate.UnmarshalJSON` on `raw.Limit`, with the sentinel `Unlimited`, and
on `raw.Remaining`, with the sentinel `NA`. -/
def switchInt (v : json.Value) (sentinel : String) (invalid : GoError) :
    Except GoError (Option Int) :=
  match v with
  | json.Value.nil => Except.ok none
  | json.Value.string s => if s ≠ sentinel then Except.error invalid else Except.ok none
  | json.Value.float64 f => Except.ok (some f.toInt64)
  | _ => Except.error invalid

/-- `func (r *Rate) UnmarshalJSON(data []byte) error`: the receiver after the call and the
error returned. `unmarshal` is `json.Unmarshal(data, &raw)`. The type switches come in the
order reset, limit, remaining, expires, and the receiver is assigned only at the end. -/
def Rate.UnmarshalJSON {Data : Type} (unmarshal : Data → Except GoError rateRaw) (data : Data)
    (r : Rate) : Rate × Option GoError :=
  match unmarshal data with
  | Except.error err => (r, some err)
  | Except.ok raw =>
    match switchTime raw.Reset ErrInvalidReset with
    | Except.error err => (r, some err)
    | Except.ok reset =>
      match switchInt raw.Limit Unlimited ErrInvalidLimit with
      | Except.error err => (r, some err)
      | Except.ok limit =>
        match switchInt raw.Remaining NA ErrInvalidRemaining with
        | Except.error err => (r, some err)
        | Except.ok remaining =>
          match switchTime raw.Expires ErrInvalidExpires with
          | Except.error err => (r, some err)
          | Except.ok expires =>
            ({ Reset := reset
               Limit := limit
               Remaining := remaining
               Expires := expires
               ResultsMax := raw.ResultsMax
               OffsetMax := raw.OffsetMax
               BurstSize := raw.BurstSize
               BurstWindow := raw.BurstWindow },
              none)

end dnsdb

/-- What `run` reads of the `*http.Response` that `httpClient.Do` returns: the status code, the
header, the tokens a `bufio.Scanner` yields from `res.Body`, what `ioutil.ReadAll(res.Body)`
returns and what `res.Body.Close()` returns. -/
structure Response (Line : Type) where
  StatusCode : Int
  Header : http.Header := {}
  Body : List Line
  ReadAll : Except GoError String := Except.ok ""
  Close : Option GoError := none

/-! ## Package `v2`: the record streams over the envelope decoder -/

namespace v2

/-- `func statusError(code int) error` of `pkg/dnsdb/v2/status.go` -/
def statusError (code : Int) : Option GoError :=
  if code = 200 then none
  else if code = 204 then none
  else if code = 400 then some GoError.badRequest
  else if code = 401 then some GoError.unauthorized
  else if code = 403 then some GoError.forbidden
  else if code = 416 then some GoError.badRange
  else if code = 429 then some GoError.quotaExceeded
  else if code = 503 then some GoError.concurrencyLimit
  else some (GoError.httpStatus code)

/-- The fields `ch`, `rl` and `err` of `v2.result` (records of type `dnsdb.RRSet`) and of
`v2.flexResult` (records of type `flex.Record`); `closed` records `close(r.ch)`. -/
structure result (Record : Type) where
  ch : List Record := []
  closed : Bool := false
  err : Option GoError := none
  rl : Option dnsdb.RateLimit := none

/-- `func (r *result) Rate() *dnsdb.RateLimit` and `func (r *flexResult) Rate()` -/
def result.Rate {Record : Type} (r : result Record) : Option dnsdb.RateLimit := r.rl

variable {Line Record : Type}

/-- The branch `case <-ctx.Done()` of the selects of `run`. -/
def result.ctxDone (ctx : Context) (r : result Record) : result Record :=
  { r with err := if r.err = none then some ctx.err else r.err }

/-- The loop `for { ... }` of `result.run` and of `flexResult.run`, which is the same text at
the two record types. `raws` is what is still to be received from `r.stream.Ch()` before that
channel is closed and `streamErr` is the value of `r.stream.Err()` read once it is closed. -/
def result.loop (unmarshal : saf.RawMessage → Option Record) (streamErr : Option GoError) :
    Context → List saf.RawMessage → result Record → result Record
  | ctx, [], r =>
    if ctx.isDone = true then result.ctxDone ctx r
    else if errors.Is streamErr (some saf.ErrStreamLimited) = true then
      { r with err := some dnsdb.ErrResultLimitExceeded }
    else { r with err := streamErr }
  | ctx, raw :: rest, r =>
    if ctx.isDone = true then result.ctxDone ctx r
    else
      match unmarshal raw with
      | none => result.loop unmarshal streamErr ctx.tick rest r
      | some res =>
        if ctx.tick.isDone = true then result.ctxDone ctx.tick r
        else result.loop unmarshal streamErr ctx.tick.tick rest { r with ch := r.ch ++ [res] }

/-- The part of `run` from `r.stream.Run(ctx, res.Body)` on, for a response with status 200:
the decoder is started on the body and the loop reads its channel. The sends of the decoder
have this loop as their reader; a cancellation from outside is resolved in the selects of this
loop, which then stops reading. -/
def result.stream (unmarshalMsg : Line → Option saf.Message)
    (unmarshal : saf.RawMessage → Option Record) (ctx : Context) (res : Response Line)
    (closerRan : Bool) (r : result Record) : result Record :=
  let s := saf.Stream.Run unmarshalMsg { ctx with done := none } res.Body res.Close closerRan
  result.loop unmarshal s.Err ctx s.Ch r

/-- `func (r *result) run(ctx context.Context, req *http.Request)` of `pkg/dnsdb/v2/result.go`,
with `resp` for what `httpClient.Do(req)` returns, followed by the deferred `close(r.ch)`. -/
def result.run (unmarshalMsg : Line → Option saf.Message)
    (unmarshal : saf.RawMessage → Option dnsdb.RRSet) (ctx : Context)
    (resp : Except GoError (Response Line)) (closerRan : Bool) : result dnsdb.RRSet :=
  match resp with
  | Except.error err => { err := some err, closed := true }
  | Except.ok res =>
    -- r.rl, _ = dnsdb.NewRateLimitFromHeaders(res.Header)
    let rl := (dnsdb.NewRateLimitFromHeaders res.Header).1
    if res.StatusCode = 200 then
      { result.stream unmarshalMsg unmarshal ctx res closerRan { rl := rl }
          with closed := true }
    else { rl := rl, err := statusError res.StatusCode, closed := true }

/-- `func (r *flexResult) run(ctx context.Context, req *http.Request)` of
`pkg/dnsdb/v2/flex_result.go`, followed by the deferred `close(r.ch)`. -/
def flexResult.run (unmarshalMsg : Line → Option saf.Message)
    (unmarshal : saf.RawMessage → Option flex.Record) (ctx : Context)
    (resp : Except GoError (Response Line)) (closerRan : Bool) : result flex.Record :=
  match resp with
  | Except.error err => { err := some err, closed := true }
  | Except.ok res =>
    -- r.rl, _ = dnsdb.NewRateLimitFromHeaders(res.Header)
    let rl := (dnsdb.NewRateLimitFromHeaders res.Header).1
    if res.StatusCode = 200 then
      { result.stream unmarshalMsg unmarshal ctx res closerRan { rl := rl }
          with closed := true }
    else if res.Header.Get "content-type" ≠ "text/html" then
      match res.ReadAll with
      | Except.ok b =>
        -- r.err = fmt.Errorf("%s: %s", r.err, strings.TrimSpace(string(b)))
        match statusError res.StatusCode with
        | none =>
          { rl := rl, err := some (GoError.errorfNilStr (strings.TrimSpace b)), closed := true }
        | some e =>
          { rl := rl, err := some (GoError.errorfStr e (strings.TrimSpace b)), closed := true }
      | Except.error _ => { rl := rl, err := statusError res.StatusCode, closed := true }
    else { rl := rl, err := statusError res.StatusCode, closed := true }

end v2

/-! ## Package `v1`: the record stream over a line-delimited body -/

namespace v1

/-- The fields `ch`, `rl` and `err` of `v1.result`; `closed` records `close(r.ch)`. -/
structure result where
  ch : List dnsdb.RRSet := []
  closed : Bool := false
  err : Option GoError := none
  rl : Option dnsdb.RateLimit := none
  deriving DecidableEq, Repr

/-- `func (r *result) Rate() *dnsdb.RateLimit` -/
def result.Rate (r : result) : Option dnsdb.RateLimit := r.rl

variable {Line : Type}

/-- The loop `for scanner.Scan() { ... }` of `result.run`, over the tokens still to be
scanned. -/
def result.scan (unmarshal : Line → Option dnsdb.RRSet) :
    Context → List Line → result → result
  | _, [], r => r
  | ctx, line :: rest, r =>
    match unmarshal line with
    | none => result.scan unmarshal ctx rest r
    | some res =>
      if ctx.isDone = true then
        -- case <-ctx.Done(): if r.err == nil { r.err = ctx.Err() }; return
        { r with err := if r.err = none then some ctx.err else r.err }
      else
        -- case r.ch <- res
        result.scan unmarshal ctx.tick rest { r with ch := r.ch ++ [res] }

/-- `func (r *result) closer(ctx context.Context, c io.Closer)` once `ctx.Done()` is ready:
`closeErr` is what `c.Close()` returns. -/
def result.closer (closeErr : Option GoError) (r : result) : result :=
  if r.err = none then { r with err := closeErr } else r

/-- `func (r *result) run(ctx context.Context, req *http.Request)` of `pkg/dnsdb/v1/result.go`,
with `resp` for what `httpClient.Do(req)` returns, followed by the deferred `close(r.ch)`; the
result is the state the reader of `r.ch` finds when it sees the channel closed. `statusError` is
the status mapper of package `v1`, whose source file is not part of the sources at hand. The
closer goroutine waits for the context; `closerRan` tells whether it has finished by the time
the state is read. -/
def result.run (statusError : Int → Option GoError) (unmarshal : Line → Option dnsdb.RRSet)
    (ctx : Context) (resp : Except GoError (Response Line)) (closerRan : Bool) : result :=
  match resp with
  | Except.error err => { err := some err, closed := true }
  | Except.ok res =>
    -- r.rl, _ = dnsdb.NewRateLimitFromHeaders(res.Header)
    let rl := (dnsdb.NewRateLimitFromHeaders res.Header).1
    if res.StatusCode = 200 then
      let r := result.scan unmarshal ctx res.Body { rl := rl }
      let r := if (ctx.after r.ch.length).isDone = true ∧ closerRan = true
        then result.closer res.Close r else r
      { r with closed := true }
    else { rl := rl, err := statusError res.StatusCode, closed := true }

end v1

/-! ## Library functions of the request path

`path`, `strings.Replace`, `encoding/hex`, `net` and `net/url` are library code. `path.Clean` is
written by the elements of a path, `net.IPMask.Size` and `net.IPNet.String` by the bytes of the
address and of the mask; `idna.ToASCII` and `net.IP.String`, whose values are tables and number
formats, are taken as arguments. -/

/-- The library functions that enter a request path. -/
structure PathLibrary where
  /-- `idna.ToASCII(name)` -/
  ToASCII : String → Except GoError String
  /-- `net.IP.String()` -/
  IPString : List UInt8 → String

namespace path

/-- The elements of a path, that is what stands between its slashes: `a//b` has the elements
`a`, the empty element and `b`. -/
def elements : List Char → List (List Char)
  | [] => [[]]
  | c :: cs =>
    if c = '/' then [] :: elements cs
    else
      match elements cs with
      | [] => [[c]]
      | e :: es => (c :: e) :: es

/-- The elements written one after the other with a slash between two of them. -/
def joinElements : List (List Char) → List Char
  | [] => []
  | e :: es =>
    match es with
    | [] => e
    | _ :: _ => e ++ '/' :: joinElements es

/-- One element in the loop of `path.Clean`, `out` being the elements written so far: an empty
element and the element `.` are dropped; the element `..` removes the element before it,
unless there is none or it is `..` itself, in which case `..` is dropped in a rooted path and
written in the others; any other element is written. -/
def cleanElement (rooted : Bool) (out : List (List Char)) (elem : List Char) :
    List (List Char) :=
  if elem = [] then out
  else if elem = ['.'] then out
  else if elem = ['.', '.'] then
    match out.getLast? with
    | some last => if last = ['.', '.'] then out ++ [elem] else out.dropLast
    | none => if rooted = true then out else out ++ [elem]
  else out ++ [elem]

/-- `path.Clean(p)` -/
def Clean (p : String) : String :=
  if p = "" then "."
  else
    let rooted : Bool := p.data.head? = some '/'
    let out := (elements p.data).foldl (cleanElement rooted) []
    if rooted = true then String.mk ('/' :: joinElements out)
    else if out = [] then "."
    else String.mk (joinElements out)

/-- `path.Join(elem...)`: the elements that are not empty, joined by slashes, and the result
cleaned; the empty string when there is none. -/
def Join (elem : List String) : String :=
  let parts := elem.filter (fun e => e ≠ "")
  if parts = [] then "" else Clean (String.mk (joinElements (parts.map String.data)))

end path

namespace strings

/-- The bytes of `strings.Replace(s, old, new, n)` for an `old` of one byte and `n ≥ 0`. -/
def replace (old : Char) (new : List Char) : Nat → List Char → List Char
  | _, [] => []
  | n, c :: cs =>
    match n with
    | 0 => c :: cs
    | k + 1 => if c = old then new ++ replace old new k cs else c :: replace old new (k + 1) cs

/-- `strings.Replace(s, old, new, n)` for an `old` of one byte and `n ≥ 0`: the first `n`
occurrences of `old` replaced by `new`. -/
def Replace (s : String) (old : Char) (new : String) (n : Nat) : String :=
  String.mk (replace old new.data n s.data)

end strings

namespace hex

/-- The digits of `encoding/hex`. -/
def hextable : List Char := "0123456789abcdef".data

/-- `hex.EncodeToString(src)` -/
def EncodeToString (src : List UInt8) : String :=
  String.mk (src.flatMap fun b =>
    [hextable.getD (b.toNat / 16) '0', hextable.getD (b.toNat % 16) '0'])

/-- `func fromHexChar(c byte) (byte, bool)`, none when `c` is no hexadecimal digit -/
def fromHexChar (c : Char) : Option Nat :=
  if '0' ≤ c ∧ c ≤ '9' then some (c.toNat - 48)
  else if 'a' ≤ c ∧ c ≤ 'f' then some (c.toNat - 87)
  else if 'A' ≤ c ∧ c ≤ 'F' then some (c.toNat - 55)
  else none

/-- The loop of `hex.Decode` over the characters in pairs, none when a character is no
hexadecimal digit or is left without its pair. -/
def decode : List Char → Option (List UInt8)
  | [] => some []
  | [_] => none
  | p :: q :: rest =>
    match fromHexChar p, fromHexChar q, decode rest with
    | some a, some b, some bytes => some (UInt8.ofNat (a * 16 + b) :: bytes)
    | _, _, _ => none

/-- `hex.DecodeString(s)`, none when it returns an error (`ErrLength` or an
`InvalidByteError`) -/
def DecodeString (s : String) : Option (List UInt8) := decode s.data

end hex

namespace net

/-- `net.IP`, a slice of bytes (the nil slice is the empty list) -/
abbrev IP := List UInt8

/-- `net.IPMask`, a slice of bytes (the nil slice is the empty list) -/
abbrev IPMask := List UInt8

/-- `net.IPNet` -/
structure IPNet where
  IP : IP := []
  Mask : IPMask := []
  deriving DecidableEq, Repr

/-- `func (ip IP) To4() IP`, none being the nil result -/
def IP.To4 (ip : IP) : Option IP :=
  if ip.length = 4 then some ip
  else if ip.length = 16 ∧ (ip.take 10).all (fun b => b = 0) = true ∧ ip.getD 10 0 = 0xff ∧
      ip.getD 11 0 = 0xff then some (ip.drop 12)
  else none

/-- The loop `for v&0x80 != 0 { n++; v <<= 1 }` of `simpleMaskLength` on the byte `v`: the
count `n` and the byte `v` after the loop, which ends within eight turns. -/
def onesLoop : Nat → Nat → Nat → Nat × Nat
  | 0, n, v => (n, v)
  | fuel + 1, n, v => if 128 ≤ v % 256 then onesLoop fuel (n + 1) (v * 2 % 256) else (n, v)

/-- `func simpleMaskLength(mask IPMask) int`, none being the result -1: the number of leading
one bits of a mask that is ones followed by zeros. -/
def simpleMaskLength : IPMask → Option Nat
  | [] => some 0
  | v :: rest =>
    if v = 0xff then (simpleMaskLength rest).map (fun n => n + 8)
    else
      let r := onesLoop 8 0 v.toNat
      if r.2 ≠ 0 then none
      else if rest.any (fun b => b ≠ 0) = true then none
      else some r.1

/-- `func (m IPMask) Size() (ones, bits int)` -/
def IPMask.Size (m : IPMask) : Int × Int :=
  match simpleMaskLength m with
  | none => (0, 0)
  | some ones => ((ones : Int), (m.length : Int) * 8)

/-- `func (m IPMask) String() string` -/
def IPMask.String (m : IPMask) : String :=
  if m.length = 0 then "<nil>" else hex.EncodeToString m

/-- `func networkNumberAndMask(n *IPNet) (ip IP, m IPMask)`, none being the result
`nil, nil` -/
def networkNumberAndMask (n : IPNet) : Option (IP × IPMask) :=
  let ip? : Option IP :=
    match n.IP.To4 with
    | some ip => some ip
    | none => if n.IP.length ≠ 16 then none else some n.IP
  match ip? with
  | none => none
  | some ip =>
    if n.Mask.length = 4 then
      if ip.length ≠ 4 then none else some (ip, n.Mask)
    else if n.Mask.length = 16 then
      if ip.length = 4 then some (ip, n.Mask.drop 12) else some (ip, n.Mask)
    else none

/-- `func (n *IPNet) String() string` -/
def IPNet.String (lib : PathLibrary) (n : IPNet) : String :=
  match networkNumberAndMask n with
  | none => "<nil>"
  | some (nn, m) =>
    match simpleMaskLength m with
    | none => lib.IPString nn ++ "/" ++ IPMask.String m
    | some l => lib.IPString nn ++ "/" ++ strconv.Itoa (l : Int)

/-- The loop of `func (ip IP) Mask(mask IPMask) IP` over the bytes of the address and of the
mask, which have the same length: `out[i] = ip[i] & mask[i]`. -/
def maskBytes : List UInt8 → List UInt8 → List UInt8
  | b :: ip, m :: mask => (b &&& m) :: maskBytes ip mask
  | _, _ => []

/-- `func (ip IP) Mask(mask IPMask) IP`, none being the nil result: the network address of `ip`
under `mask`. -/
def IP.Mask (ip : IP) (mask : IPMask) : Option IP :=
  let mask := if mask.length = 16 ∧ ip.length = 4 ∧ (mask.take 12).all (fun b => b = 0xff) = true
    then mask.drop 12 else mask
  let ip := if mask.length = 4 ∧ ip.length = 16 ∧
      ip.take 12 = [0, 0, 0, 0, 0, 0, 0, 0, 0, 0, 0xff, 0xff] then ip.drop 12 else ip
  if ip.length ≠ mask.length then none else some (maskBytes ip mask)

end net

namespace url

/-- `url.URL`, without its field `User` -/
structure URL where
  Scheme : String := ""
  Opaque : String := ""
  Host : String := ""
  Path : String := ""
  RawPath : String := ""
  RawQuery : String := ""
  Fragment : String := ""
  deriving DecidableEq, Repr

/-- `url.Values`, a `map[string][]string`: the keys of the map, each with its values. -/
abbrev Values := List (String × List String)

/-- The values `v[key]` of a key, none for a key that the map does not hold. -/
def Values.values (v : Values) (key : String) : List String :=
  match v.find? (fun kv => kv.1 = key) with
  | some kv => kv.2
  | none => []

/-- `func (v Values) Get(key string) string` -/
def Values.Get (v : Values) (key : String) : String :=
  (Values.values v key).headD ""

/-- `func (v Values) Add(key, value string)`: the map after `v[key] = append(v[key], value)` -/
def Values.Add (v : Values) (key value : String) : Values :=
  if v.any (fun kv => kv.1 = key) = true then
    v.map (fun kv => if kv.1 = key then (kv.1, kv.2 ++ [value]) else kv)
  else v ++ [(key, [value])]

end url

/-! ## Library functions: `float64` arithmetic and durations

The quotient and the sum of two `float64` are written out for the numbers at hand, which are
zero or within the range of the normal numbers: each result is the exact result rounded to the
nearest `float64`, a tie going to the even mantissa. -/

/-- The quotient `x / y` of two `float64`, for `y` that is not zero. -/
def Float64.div (x y : Float64) : Float64 :=
  let c := min x.e y.e
  Float64.ofRat (x.m * 2 ^ (x.e - c).toNat * (if y.m < 0 then -1 else 1))
    (y.m.natAbs * 2 ^ (y.e - c).toNat)

/-- The sum `x + y` of two `float64`. -/
def Float64.add (x y : Float64) : Float64 :=
  let c := min x.e y.e
  Float64.ofRat ((x.m * 2 ^ (x.e - c).toNat + y.m * 2 ^ (y.e - c).toNat) * 2 ^ c.toNat)
    (2 ^ (-c).toNat)

/-- `func (t Time) Unix() int64` -/
def Time.Unix (t : Time) : Int := t.sec

namespace time

/-- `time.Duration`, an `int64` that counts nanoseconds -/
abbrev Duration := Int

/-- `time.Second` -/
def Second : Duration := 1000000000

/-- `time.Hour` -/
def Hour : Duration := 3600 * Second

/-- `func (d Duration) Seconds() float64`:
`sec := d / Second; nsec := d % Second; return float64(sec) + float64(nsec)/1e9` -/
def Duration.Seconds (d : Duration) : Float64 :=
  let sec := Int.tdiv d Second
  let nsec := Int.tmod d Second
  Float64.add (Float64.ofInt sec) (Float64.div (Float64.ofInt nsec) (Float64.ofInt 1000000000))

end time

/-! ## Package `dnsdb`: queries -/

namespace dnsdb

/-- `type queryMode int` -/
abbrev queryMode := Int

def modeRRSet : queryMode := 0
def modeRDataName : queryMode := 1
def modeRDataIP : queryMode := 2
def modeRDataIPRange : queryMode := 3
def modeRDataRaw : queryMode := 4

def pathName : String := "name"
def pathIP : String := "ip"
def pathRaw : String := "raw"
def rrTypeAny : String := "ANY"

/-- `dnsdb.ipRange` -/
structure ipRange where
  lower : net.IP := []
  upper : net.IP := []
  deriving DecidableEq, Repr

/-- The variables that the pointer fields of a query point to, by their type. A pointer to such
a variable is its index; `new` adds a variable that holds the zero value. -/
structure Memory where
  strings : List String := []
  ints : List Int := []
  bools : List Bool := []
  deriving DecidableEq, Repr

/-- `new(string)`: the memory with the new variable, and the pointer to it -/
def Memory.newString (m : Memory) : Memory × Nat :=
  ({ m with strings := m.strings ++ [""] }, m.strings.length)

/-- `new(int)` and `new(int64)`: the memory with the new variable, and the pointer to it -/
def Memory.newInt (m : Memory) : Memory × Nat :=
  ({ m with ints := m.ints ++ [0] }, m.ints.length)

/-- `new(bool)`: the memory with the new variable, and the pointer to it -/
def Memory.newBool (m : Memory) : Memory × Nat :=
  ({ m with bools := m.bools ++ [false] }, m.bools.length)

/-- The assignment `*p = s` to a variable of type `string` -/
def Memory.setString (m : Memory) (p : Nat) (s : String) : Memory :=
  { m with strings := m.strings.set p s }

/-- The assignment `*p = n` to a variable of type `int` or `int64` -/
def Memory.setInt (m : Memory) (p : Nat) (n : Int) : Memory :=
  { m with ints := m.ints.set p n }

/-- The assignment `*p = b` to a variable of type `bool` -/
def Memory.setBool (m : Memory) (p : Nat) (b : Bool) : Memory :=
  { m with bools := m.bools.set p b }

/-- The value `*p` of a variable of type `string` -/
def Memory.string (m : Memory) (p : Nat) : String := m.strings.getD p ""

/-- The value `*p` of a variable of type `int` or `int64` -/
def Memory.int (m : Memory) (p : Nat) : Int := m.ints.getD p 0

/-- The value `*p` of a variable of type `bool` -/
def Memory.bool (m : Memory) (p : Nat) : Bool := m.bools.getD p false

/-- `dnsdb.httpQuery`. `F` is the type of the function values `HttpResultFunc`. A field of
pointer type holds none for `nil` and otherwise the pointer into the memory. -/
structure httpQuery (F : Type) where
  mode : queryMode := 0
  url : Option url.URL := none
  headers : http.Header := {}
  result : Option F := none
  name : String := ""
  ip : net.IPNet := {}
  ipRange : Option ipRange := none
  raw : List UInt8 := []
  rrtype : Option Nat := none
  bailiwick : Option Nat := none
  limit : Option Nat := none
  aggregation : Option Nat := none
  offset : Option Nat := none
  maxCount : Option Nat := none
  timeFirstBefore : Option Nat := none
  timeFirstAfter : Option Nat := none
  timeLastBefore : Option Nat := none
  timeLastAfter : Option Nat := none

variable {F : Type}

/-- `func (q *httpQuery) WithRRType(rrtype string) Query`: the memory after the call and the
struct `q2` whose address is returned. -/
def httpQuery.WithRRType (m : Memory) (q : httpQuery F) (rrtype : String) :
    Memory × httpQuery F :=
  let q2 := q
  let a := m.newString
  let q2 := { q2 with rrtype := some a.2 }
  (a.1.setString a.2 rrtype, q2)

/-- `func (q *httpQuery) WithBailiwick(bailiwick string) Query` -/
def httpQuery.WithBailiwick (m : Memory) (q : httpQuery F) (bailiwick : String) :
    Memory × httpQuery F :=
  let q2 := q
  let a := m.newString
  let q2 := { q2 with bailiwick := some a.2 }
  (a.1.setString a.2 bailiwick, q2)

/-- `func (q *httpQuery) WithLimit(n int) Query` -/
def httpQuery.WithLimit (m : Memory) (q : httpQuery F) (n : Int) : Memory × httpQuery F :=
  let q2 := q
  let a := m.newInt
  let q2 := { q2 with limit := some a.2 }
  (a.1.setInt a.2 n, q2)

/-- `func (q *httpQuery) WithAggregation(aggr bool) Query` -/
def httpQuery.WithAggregation (m : Memory) (q : httpQuery F) (aggr : Bool) :
    Memory × httpQuery F :=
  let q2 := q
  let a := m.newBool
  let q2 := { q2 with aggregation := some a.2 }
  (a.1.setBool a.2 aggr, q2)

/-- `func (q *httpQuery) WithOffset(n int) Query` -/
def httpQuery.WithOffset (m : Memory) (q : httpQuery F) (n : Int) : Memory × httpQuery F :=
  let q2 := q
  let a := m.newInt
  let q2 := { q2 with offset := some a.2 }
  (a.1.setInt a.2 n, q2)

/-- `func (q *httpQuery) WithMaxCount(n int) Query` -/
def httpQuery.WithMaxCount (m : Memory) (q : httpQuery F) (n : Int) : Memory × httpQuery F :=
  let q2 := q
  let a := m.newInt
  let q2 := { q2 with maxCount := some a.2 }
  (a.1.setInt a.2 n, q2)

/-- `func (q *httpQuery) WithTimeFirstBefore(when time.Time) Query` -/
def httpQuery.WithTimeFirstBefore (m : Memory) (q : httpQuery F) (when : Time) :
    Memory × httpQuery F :=
  let q2 := q
  let a := m.newInt
  let q2 := { q2 with timeFirstBefore := some a.2 }
  (a.1.setInt a.2 when.Unix, q2)

/-- `func (q *httpQuery) WithTimeFirstAfter(when time.Time) Query` -/
def httpQuery.WithTimeFirstAfter (m : Memory) (q : httpQuery F) (when : Time) :
    Memory × httpQuery F :=
  let q2 := q
  let a := m.newInt
  let q2 := { q2 with timeFirstAfter := some a.2 }
  (a.1.setInt a.2 when.Unix, q2)

/-- `func (q *httpQuery) WithTimeLastBefore(when time.Time) Query` -/
def httpQuery.WithTimeLastBefore (m : Memory) (q : httpQuery F) (when : Time) :
    Memory × httpQuery F :=
  let q2 := q
  let a := m.newInt
  let q2 := { q2 with timeLastBefore := some a.2 }
  (a.1.setInt a.2 when.Unix, q2)

/-- `func (q *httpQuery) WithTimeLastAfter(when time.Time) Query` -/
def httpQuery.WithTimeLastAfter (m : Memory) (q : httpQuery F) (when : Time) :
    Memory × httpQuery F :=
  let q2 := q
  let a := m.newInt
  let q2 := { q2 with timeLastAfter := some a.2 }
  (a.1.setInt a.2 when.Unix, q2)

/-- The value `-int64(since.Seconds())` that the four `WithRelativeTime` methods store. -/
def relativeSeconds (since : time.Duration) : Int :=
  -(since.Seconds).toInt64

/-- `func (q *httpQuery) WithRelativeTimeFirstBefore(since time.Duration) Query`, none being
the panic `negative relative times are not supported`. -/
def httpQuery.WithRelativeTimeFirstBefore (m : Memory) (q : httpQuery F)
    (since : time.Duration) : Option (Memory × httpQuery F) :=
  if since < 0 then none
  else
    let q2 := q
    let a := m.newInt
    let q2 := { q2 with timeFirstBefore := some a.2 }
    some (a.1.setInt a.2 (relativeSeconds since), q2)

/-- `func (q *httpQuery) WithRelativeTimeFirstAfter(since time.Duration) Query`, none being
the panic. -/
def httpQuery.WithRelativeTimeFirstAfter (m : Memory) (q : httpQuery F)
    (since : time.Duration) : Option (Memory × httpQuery F) :=
  if since < 0 then none
  else
    let q2 := q
    let a := m.newInt
    let q2 := { q2 with timeFirstAfter := some a.2 }
    some (a.1.setInt a.2 (relativeSeconds since), q2)

/-- `func (q *httpQuery) WithRelativeTimeLastBefore(since time.Duration) Query`, none being
the panic. -/
def httpQuery.WithRelativeTimeLastBefore (m : Memory) (q : httpQuery F)
    (since : time.Duration) : Option (Memory × httpQuery F) :=
  if since < 0 then none
  else
    let q2 := q
    let a := m.newInt
    let q2 := { q2 with timeLastBefore := some a.2 }
    some (a.1.setInt a.2 (relativeSeconds since), q2)

/-- `func (q *httpQuery) WithRelativeTimeLastAfter(since time.Duration) Query`, none being
the panic. -/
def httpQuery.WithRelativeTimeLastAfter (m : Memory) (q : httpQuery F)
    (since : time.Duration) : Option (Memory × httpQuery F) :=
  if since < 0 then none
  else
    let q2 := q
    let a := m.newInt
    let q2 := { q2 with timeLastAfter := some a.2 }
    some (a.1.setInt a.2 (relativeSeconds since), q2)

/-- `func toASCII(name string) string` -/
def toASCII (lib : PathLibrary) (name : String) : String :=
  match lib.ToASCII name with
  | Except.error _ => name
  | Except.ok encoded => encoded

/-- `func (q *httpQuery) makePath() string`, none being a panic: `invalid query mode`, or the
nil `q.ipRange` of a range query. -/
def httpQuery.makePath (lib : PathLibrary) (m : Memory) (q : httpQuery F) : Option String :=
  let rrtype : String :=
    match q.rrtype with
    | none => rrTypeAny
    | some p => m.string p
  if q.mode = modeRRSet then
    let p := path.Join [pathName, toASCII lib q.name, rrtype]
    match q.bailiwick with
    | some b => some (path.Join [p, toASCII lib (m.string b)])
    | none => some p
  else if q.mode = modeRDataName then
    some (path.Join [pathName, toASCII lib q.name, rrtype])
  else if q.mode = modeRDataIP then
    let size := q.ip.Mask.Size
    if size.1 = size.2 then some (path.Join [pathIP, lib.IPString q.ip.IP, rrtype])
    else some (path.Join [pathIP, strings.Replace (q.ip.String lib) '/' "," 1, rrtype])
  else if q.mode = modeRDataIPRange then
    match q.ipRange with
    | none => none
    | some r => some (path.Join [pathIP, lib.IPString r.lower ++ "-" ++ lib.IPString r.upper,
        rrtype])
  else if q.mode = modeRDataRaw then
    some (path.Join [pathRaw, hex.EncodeToString q.raw, rrtype])
  else none

/-- `func (q *httpQuery) makeValues(v url.Values) url.Values`: the map `v` after the call,
which is also what the call returns. -/
def httpQuery.makeValues (m : Memory) (q : httpQuery F) (v : url.Values) : url.Values :=
  let v := match q.limit with
    | some p => v.Add "limit" (strconv.Itoa (m.int p))
    | none => v
  let v := match q.aggregation with
    | some p => if m.bool p = true then v.Add "aggr" "true" else v.Add "aggr" "false"
    | none => v
  let v := match q.offset with
    | some p => v.Add "offset" (strconv.Itoa (m.int p))
    | none => v
  let v := match q.maxCount with
    | some p => v.Add "max_count" (strconv.Itoa (m.int p))
    | none => v
  let v := match q.timeFirstBefore with
    | some p => v.Add "time_first_before" (strconv.Itoa (m.int p))
    | none => v
  let v := match q.timeFirstAfter with
    | some p => v.Add "time_first_after" (strconv.Itoa (m.int p))
    | none => v
  let v := match q.timeLastBefore with
    | some p => v.Add "time_last_before" (strconv.Itoa (m.int p))
    | none => v
  let v := match q.timeLastAfter with
    | some p => v.Add "time_last_after" (strconv.Itoa (m.int p))
    | none => v
  v

end dnsdb

/-! ## Package `dnsdb`: the rate limit of a JSON text

`json.Unmarshal` is library code. A JSON text is given by its syntax; how `json.Unmarshal`
stores the members of an object in the fields of the struct `raw` of `Rate.UnmarshalJSON` is
written out for the fields of type `int`, and taken as an argument for the fields of type
`interface{}`. -/

namespace json

/-- A JSON text by its syntax: a number is kept as the literal that stands in the text. -/
inductive Document where
  | null
  | bool (b : Bool)
  | number (literal : String)
  | string (s : String)
  | array (elems : List Document)
  | object (members : List (String × Document))

/-- The parts of `encoding/json` that are taken as arguments. -/
structure Library where
  /-- Whether the name of a struct field matches the key of a member when the letter case is
  ignored. -/
  equalFold : String → String → Bool
  /-- How a value is stored in a variable of type `interface{}` that holds nil. -/
  toInterface : Document → Except GoError Value
  /-- The `*json.UnmarshalTypeError` for a JSON value, given by the description of the value
  (`string`, `number 1.5`), that does not fit the struct field `field`. -/
  typeError : String → String → GoError

/-- How `json.Unmarshal` stores the value `v` of a member in the struct field `field`, of type
`int`, that holds `old`: null has no effect, a number literal is read by
`strconv.ParseInt(literal, 10, 64)`, and a literal it does not read, like a value of any other
kind, is a type error. -/
def storeInt (lib : Library) (field : String) (v : Document) (old : Int) : Except GoError Int :=
  match v with
  | Document.null => Except.ok old
  | Document.number literal =>
    match strconv.Atoi literal with
    | Except.ok n => Except.ok n
    | Except.error _ => Except.error (lib.typeError ("number " ++ literal) field)
  | Document.bool _ => Except.error (lib.typeError "bool" field)
  | Document.string _ => Except.error (lib.typeError "string" field)
  | Document.array _ => Except.error (lib.typeError "array" field)
  | Document.object _ => Except.error (lib.typeError "object" field)

/-- The description of a JSON value in a `*json.UnmarshalTypeError`. -/
def Document.describe : Document → String
  | Document.null => "null"
  | Document.number literal => "number " ++ literal
  | Document.bool _ => "bool"
  | Document.string _ => "string"
  | Document.array _ => "array"
  | Document.object _ => "object"

end json

namespace dnsdb

/-- The fields of the struct `raw` that `Rate.UnmarshalJSON` decodes into. -/
inductive rateField where
  | Reset
  | Limit
  | Remaining
  | Expires
  | ResultsMax
  | OffsetMax
  | BurstSize
  | BurstWindow
  deriving DecidableEq, Repr

/-- The name that the tag `json:"..."` gives a field. -/
def rateField.name : rateField → String
  | rateField.Reset => "reset"
  | rateField.Limit => "limit"
  | rateField.Remaining => "remaining"
  | rateField.Expires => "expires"
  | rateField.ResultsMax => "results_max"
  | rateField.OffsetMax => "offset_max"
  | rateField.BurstSize => "burst_size"
  | rateField.BurstWindow => "burst_window"

/-- The fields in the order of the struct. -/
def rateField.all : List rateField :=
  [rateField.Reset, rateField.Limit, rateField.Remaining, rateField.Expires,
    rateField.ResultsMax, rateField.OffsetMax, rateField.BurstSize, rateField.BurstWindow]

/-- The field that `json.Unmarshal` stores the member `key` in: the field of that name, or else
the first field whose name matches the key when the letter case is ignored. -/
def rateRaw.field (lib : json.Library) (key : String) : Option rateField :=
  match rateField.all.find? (fun f => f.name = key) with
  | some f => some f
  | none => rateField.all.find? (fun f => lib.equalFold f.name key)

/-- The struct after `json.Unmarshal` has stored the value `v` in the field `f`. -/
def rateRaw.store (lib : json.Library) (raw : rateRaw) (f : rateField) (v : json.Document) :
    Except GoError rateRaw :=
  match f with
  | rateField.Reset => (lib.toInterface v).map fun x => { raw with Reset := x }
  | rateField.Limit => (lib.toInterface v).map fun x => { raw with Limit := x }
  | rateField.Remaining => (lib.toInterface v).map fun x => { raw with Remaining := x }
  | rateField.Expires => (lib.toInterface v).map fun x => { raw with Expires := x }
  | rateField.ResultsMax =>
    (json.storeInt lib f.name v raw.ResultsMax).map fun n => { raw with ResultsMax := n }
  | rateField.OffsetMax =>
    (json.storeInt lib f.name v raw.OffsetMax).map fun n => { raw with OffsetMax := n }
  | rateField.BurstSize =>
    (json.storeInt lib f.name v raw.BurstSize).map fun n => { raw with BurstSize := n }
  | rateField.BurstWindow =>
    (json.storeInt lib f.name v raw.BurstWindow).map fun n => { raw with BurstWindow := n }

/-- The members of an object stored one after the other, in the order of the text; a member
that matches no field is skipped. -/
def rateRaw.members (lib : json.Library) :
    List (String × json.Document) → rateRaw → Except GoError rateRaw
  | [], raw => Except.ok raw
  | (key, v) :: rest, raw =>
    match rateRaw.field lib key with
    | none => rateRaw.members lib rest raw
    | some f =>
      match rateRaw.store lib raw f v with
      | Except.error err => Except.error err
      | Except.ok raw1 => rateRaw.members lib rest raw1

/-- The call `json.Unmarshal(data, &raw)` of `Rate.UnmarshalJSON` on a text that is valid JSON:
an object is stored member by member, null has no effect, and any other value is a type error.
`json.Unmarshal` goes on after a type error and returns the first one at the end; the struct
is not read then, so the first error is returned at once here. -/
def rateRaw.Unmarshal (lib : json.Library) (data : json.Document) : Except GoError rateRaw :=
  match data with
  | json.Document.object members => rateRaw.members lib members {}
  | json.Document.null => Except.ok {}
  | v => Except.error (lib.typeError v.describe "")

/-! ## Package `dnsdb`: records from JSON -/

/-- `dnsdb.ErrInvalidRData` -/
abbrev ErrInvalidRData : GoError := GoError.invalidRData

/-- `dnsdb.rrsetEncoded` -/
structure rrsetEncoded where
  RRName : String := ""
  RRType : String := ""
  RData : json.Value := json.Value.nil
  RawRData : String := ""
  Bailiwick : String := ""
  Count : Int := 0
  NumResults : Int := 0
  TimeFirst : Int := 0
  TimeLast : Int := 0
  ZoneTimeFirst : Int := 0
  ZoneTimeLast : Int := 0

/-- The loop of `RRSet.UnmarshalJSON` over the elements of `raw.RData.([]interface{})`,
`rdata` being `res.RData` before the loop. -/
def rdataStrings : List json.Value → List String → Except GoError (List String)
  | [], rdata => Except.ok rdata
  | i :: rest, rdata =>
    match i with
    | json.Value.string s => rdataStrings rest (rdata ++ [s])
    | _ => Except.error ErrInvalidRData

/-- The type switch of `RRSet.UnmarshalJSON` on `raw.RData`: the value of `res.RData` after
it. -/
def switchRData (v : json.Value) : Except GoError (List String) :=
  match v with
  | json.Value.nil => Except.ok []
  | json.Value.string s => Except.ok [s]
  | json.Value.array elems => rdataStrings elems []
  | _ => Except.error ErrInvalidRData

/-- `func (r *RRSet) UnmarshalJSON(data []byte) error`: the receiver after the call and the
error returned. `unmarshal` is `json.Unmarshal(data, &raw)` and `hexError` gives the error that
`hex.DecodeString` returns for a string it rejects. The receiver is assigned only at the
end. -/
def RRSet.UnmarshalJSON {Data : Type} (unmarshal : Data → Except GoError rrsetEncoded)
    (hexError : String → GoError) (data : Data) (r : RRSet) : RRSet × Option GoError :=
  match unmarshal data with
  | Except.error err => (r, some err)
  | Except.ok raw =>
    match switchRData raw.RData with
    | Except.error err => (r, some err)
    | Except.ok rdata =>
      let res : RRSet :=
        { RRName := raw.RRName
          RRType := raw.RRType
          RData := rdata
          RawRData := []
          Bailiwick := raw.Bailiwick
          Count := raw.Count
          NumResults := raw.NumResults
          TimeFirst := unix raw.TimeFirst
          TimeLast := unix raw.TimeLast
          ZoneTimeFirst := unix raw.ZoneTimeFirst
          ZoneTimeLast := unix raw.ZoneTimeLast }
      if raw.RawRData ≠ "" then
        match hex.DecodeString raw.RawRData with
        | none => (r, some (hexError raw.RawRData))
        | some bytes => ({ res with RawRData := bytes }, none)
      else (res, none)

end dnsdb

/-! ## Package `v2`: the client -/

namespace v2

def DefaultClientName : String := "go-dnsdb"
def DefaultClientVersion : String := "v0.0"
def SwClientKey : String := "swclient"
def VersionKey : String := "version"
def IdKey : String := "id"

/-- The URL that `init` parses from `https://api.dnsdb.info` and stores in
`DefaultDnsdbServer`. -/
def DefaultDnsdbServer : url.URL := { Scheme := "https", Host := "api.dnsdb.info" }

/-- `v2.Client`, without its field `HttpClient`; the pointer `Server` is none when it is
nil. -/
structure Client where
  Server : Option url.URL := none
  Apikey : String := ""
  ClientName : String := ""
  ClientVersion : String := ""
  ClientId : String := ""
  deriving DecidableEq, Repr

/-- `func (c *Client) baseURL() *url.URL`, none being the panic of the nil pointer dereference
`*c.Server`. `parseQuery` is what `u.Query()` makes of `u.RawQuery` and `encode` is
`v.Encode()`. -/
def Client.baseURL (parseQuery : String → url.Values) (encode : url.Values → String)
    (c : Client) : Option url.URL :=
  match c.Server with
  | none => none
  | some server =>
    let u := server
    let v := parseQuery u.RawQuery
    let v := if c.ClientName ≠ "" then v.Add SwClientKey c.ClientName
      else v.Add SwClientKey DefaultClientName
    let v := if c.ClientVersion ≠ "" then v.Add VersionKey c.ClientVersion
      else v.Add VersionKey DefaultClientVersion
    let v := if c.ClientId ≠ "" then v.Add IdKey c.ClientId else v
    some { u with RawQuery := encode v }

end v2

/-! ## Package `saf`: the goroutines of a stream, step by step

`Stream.Run` starts the goroutines `run` and `closer`; the caller and the parent context may
cancel the derived context at any moment. Here an execution is a sequence of events, each of
which is one step of one of them, taken in any order. -/

namespace saf

/-- Where the goroutine `run` stands: at `scanner.Scan()`, at the select that sends the payload
of the message just decoded, at `switch msg.Cond`, or past its return (and past the deferred
`close(s.ch)`). -/
inductive Pc where
  | scan
  | select (msg : Message)
  | switch (msg : Message)
  | returned
  deriving DecidableEq, Repr

/-- Where the goroutine `closer` stands: at `<-ctx.Done()`, between `c.Close()`, which has
returned `closeErr`, and the guarded assignment to `s.err`, or at its end. -/
inductive CloserPc where
  | waiting
  | closing (closeErr : Option GoError)
  | done
  deriving DecidableEq, Repr

/-- One step of an execution. -/
inductive Event where
  /-- The derived context is cancelled from outside: by `s.Close()`, with the cause
  `context.Canceled`, or through the parent context, with the error of the parent. -/
  | cancel (cause : GoError)
  /-- The goroutine `run` takes its next step. At the select, `choice` tells that the send
  is taken (a receiver takes the payload) rather than `<-ctx.Done()`; at `scanner.Scan()`,
  once the reader has been closed, it tells that the scanner still yields a token. -/
  | run (choice : Bool)
  /-- The goroutine `closer` passes `<-ctx.Done()` and calls `c.Close()`, which returns
  `closeErr`. -/
  | closerClose (closeErr : Option GoError)
  /-- The goroutine `closer` takes the lock and runs `if s.err == nil { s.err = err }`. -/
  | closerStore
  deriving DecidableEq, Repr

variable {Line : Type}

/-- An execution of `Stream.Run` in progress: the stream, the tokens that the scanner has yet to
yield, where the two goroutines stand, the value of `ctx.Err()` for the derived context (none
until it is cancelled), and whether the reader has been closed. -/
structure Execution (Line : Type) where
  stream : Stream := {}
  body : List Line
  pc : Pc := Pc.scan
  closer : CloserPc := CloserPc.waiting
  ctxErr : Option GoError := none
  bodyClosed : Bool := false

/-- The call `s.cancel()`: the derived context is cancelled with `context.Canceled` unless it
is cancelled already. -/
def Execution.cancel (e : Execution Line) (cause : GoError) : Execution Line :=
  if e.ctxErr = none then { e with ctxErr := some cause } else e

/-- The return of `run`, with the deferred `close(s.ch)`. -/
def Execution.close (e : Execution Line) : Execution Line :=
  { e with stream := { e.stream with closed := true }, pc := Pc.returned }

/-- The next step of the goroutine `run`. A step that cannot be taken (the select while no
receiver takes the payload and the context is not cancelled, any step past the return) leaves
the execution as it is. -/
def Execution.runStep (unmarshal : Line → Option Message) (choice : Bool)
    (e : Execution Line) : Execution Line :=
  match e.pc with
  | Pc.scan =>
    match e.body with
    | [] =>
      -- the scanner is exhausted: s.err = ErrStreamTruncated
      Execution.close { e with stream := { e.stream with err := some ErrStreamTruncated } }
    | line :: rest =>
      if e.bodyClosed = true ∧ choice = false then
        -- the reader has been closed and the scanner yields no more token
        Execution.close { e with stream := { e.stream with err := some ErrStreamTruncated } }
      else
        match unmarshal line with
        | none => { e with body := rest }
        | some msg =>
          if msg.Obj.length > 0 then { e with body := rest, pc := Pc.select msg }
          else { e with body := rest, pc := Pc.switch msg }
  | Pc.select msg =>
    if choice = true then
      -- case s.ch <- msg.Obj
      { e with stream := { e.stream with ch := e.stream.ch ++ [msg.Obj] }, pc := Pc.switch msg }
    else
      match e.ctxErr with
      | none => e
      | some cause =>
        -- case <-ctx.Done(): if s.err == nil { s.err = ctx.Err() }; return
        Execution.close
          { e with stream :=
            { e.stream with err := if e.stream.err = none then some cause else e.stream.err } }
  | Pc.switch msg =>
    if msg.Cond = "" ∨ msg.Cond = CondOngoing then { e with pc := Pc.scan }
    else if msg.Cond = CondBegin then { e with pc := Pc.scan }
    else if msg.Cond = CondSucceeded then
      Execution.close
        (Execution.cancel { e with stream := { e.stream with cancelled := true } }
          GoError.canceled)
    else if msg.Cond = CondLimited then
      Execution.close { e with stream := { e.stream with err := some (Error msg.Cond msg.Msg) } }
    else if msg.Cond = CondFailed then
      Execution.close
        (Execution.cancel
          { e with stream :=
            { e.stream with err := some (Error msg.Cond msg.Msg), cancelled := true } }
          GoError.canceled)
    else { e with pc := Pc.scan }
  | Pc.returned => e

/-- One step of an execution. An event that cannot take place (a step of the closer while the
context is not cancelled, or out of its order) leaves the execution as it is. -/
def Execution.step (unmarshal : Line → Option Message) (ev : Event) (e : Execution Line) :
    Execution Line :=
  match ev with
  | Event.cancel cause => e.cancel cause
  | Event.run choice => e.runStep unmarshal choice
  | Event.closerClose closeErr =>
    if e.closer = CloserPc.waiting ∧ e.ctxErr ≠ none then
      { e with closer := CloserPc.closing closeErr, bodyClosed := true }
    else e
  | Event.closerStore =>
    match e.closer with
    | CloserPc.closing closeErr =>
      { e with stream := Stream.closer closeErr e.stream, closer := CloserPc.done }
    | _ => e

/-- The execution after the events `evs`, the first of them first. -/
def Execution.steps (unmarshal : Line → Option Message) (evs : List Event)
    (e : Execution Line) : Execution Line :=
  evs.foldl (fun e ev => e.step unmarshal ev) e

/-- The execution that `Stream.Run(ctx, r)` starts, for a context that is not done: `r` yields
the tokens `body`. -/
def Execution.start (body : List Line) : Execution Line := { body := body }

end saf

/-! ## Package `dnsdb`: records to and from a JSON text

How `json.Unmarshal` stores the members of an object in the fields of the struct `rrsetEncoded`
is written out for the fields of type `string`, `int` and `int64`, as it is for the rate limit,
and taken as an argument for the field of type `interface{}`. `json.Marshal` writes the keys
of a map in sorted order, a string as a string, a slice of strings as an array, an `int` as a
number, and a `time.Time` as `Time.MarshalJSON` writes it: a JSON string in the format of
RFC 3339, whose text is taken as an argument. -/

namespace json

/-- How `json.Unmarshal` stores the value `v` of a member in the struct field `field`, of type
`string`, that holds `old`: null has no effect, a string is stored, and a value of any other
kind is a type error. -/
def storeString (lib : Library) (field : String) (v : Document) (old : String) :
    Except GoError String :=
  match v with
  | Document.null => Except.ok old
  | Document.string s => Except.ok s
  | Document.number _ => Except.error (lib.typeError "number" field)
  | Document.bool _ => Except.error (lib.typeError "bool" field)
  | Document.array _ => Except.error (lib.typeError "array" field)
  | Document.object _ => Except.error (lib.typeError "object" field)

/-- A value that `RRSet.MarshalJSON` stores in its `map[string]interface{}`. -/
inductive Any where
  | string (s : String)
  | strings (ss : List String)
  | int (n : Int)
  | time (t : Time)
  deriving DecidableEq, Repr

/-- What `json.Marshal` writes for a value of the map. `marshalTime` gives the text of the JSON
string that `Time.MarshalJSON` writes, or its error. -/
def marshalAny (marshalTime : Time → Except GoError String) : Any → Except GoError Document
  | Any.string s => Except.ok (Document.string s)
  | Any.strings ss => Except.ok (Document.array (ss.map Document.string))
  | Any.int n => Except.ok (Document.number (strconv.Itoa n))
  | Any.time t => (marshalTime t).map Document.string

/-- The members that `json.Marshal` writes for the entries of a map, in the order given. -/
def marshalEntries (marshalTime : Time → Except GoError String) :
    List (String × Any) → Except GoError (List (String × Document))
  | [] => Except.ok []
  | (key, v) :: rest =>
    match marshalAny marshalTime v with
    | Except.error err => Except.error err
    | Except.ok d =>
      match marshalEntries marshalTime rest with
      | Except.error err => Except.error err
      | Except.ok ds => Except.ok ((key, d) :: ds)

/-- `json.Marshal(out)` for a map `out`, given by its entries: an object with the keys in
sorted order, which for keys of ASCII characters is the order of their characters. -/
def marshalMap (marshalTime : Time → Except GoError String) (out : List (String × Any)) :
    Except GoError Document :=
  (marshalEntries marshalTime (out.insertionSort fun a b => a.1.data ≤ b.1.data)).map
    Document.object

end json

/-- `func (t Time) IsZero() bool` -/
def Time.IsZero (t : Time) : Bool := t.sec = -62135596800 ∧ t.nsec = 0

namespace dnsdb

/-- The fields of the struct `rrsetEncoded`. -/
inductive rrsetField where
  | RRName
  | RRType
  | RData
  | RawRData
  | Bailiwick
  | Count
  | NumResults
  | TimeFirst
  | TimeLast
  | ZoneTimeFirst
  | ZoneTimeLast
  deriving DecidableEq, Repr

/-- The name that the tag `json:"..."` gives a field. -/
def rrsetField.name : rrsetField → String
  | rrsetField.RRName => "rrname"
  | rrsetField.RRType => "rrtype"
  | rrsetField.RData => "rdata"
  | rrsetField.RawRData => "raw_rdata"
  | rrsetField.Bailiwick => "bailiwick"
  | rrsetField.Count => "count"
  | rrsetField.NumResults => "num_results"
  | rrsetField.TimeFirst => "time_first"
  | rrsetField.TimeLast => "time_last"
  | rrsetField.ZoneTimeFirst => "zone_time_first"
  | rrsetField.ZoneTimeLast => "zone_time_last"

/-- The fields in the order of the struct. -/
def rrsetField.all : List rrsetField :=
  [rrsetField.RRName, rrsetField.RRType, rrsetField.RData, rrsetField.RawRData,
    rrsetField.Bailiwick, rrsetField.Count, rrsetField.NumResults, rrsetField.TimeFirst,
    rrsetField.TimeLast, rrsetField.ZoneTimeFirst, rrsetField.ZoneTimeLast]

/-- The field that `json.Unmarshal` stores the member `key` in: the field of that name, or else
the first field whose name matches the key when the letter case is ignored. -/
def rrsetEncoded.field (lib : json.Library) (key : String) : Option rrsetField :=
  match rrsetField.all.find? (fun f => f.name = key) with
  | some f => some f
  | none => rrsetField.all.find? (fun f => lib.equalFold f.name key)

/-- The struct after `json.Unmarshal` has stored the value `v` in the field `f`. -/
def rrsetEncoded.store (lib : json.Library) (raw : rrsetEncoded) (f : rrsetField)
    (v : json.Document) : Except GoError rrsetEncoded :=
  match f with
  | rrsetField.RRName =>
    (json.storeString lib f.name v raw.RRName).map fun s => { raw with RRName := s }
  | rrsetField.RRType =>
    (json.storeString lib f.name v raw.RRType).map fun s => { raw with RRType := s }
  | rrsetField.RData => (lib.toInterface v).map fun x => { raw with RData := x }
  | rrsetField.RawRData =>
    (json.storeString lib f.name v raw.RawRData).map fun s => { raw with RawRData := s }
  | rrsetField.Bailiwick =>
    (json.storeString lib f.name v raw.Bailiwick).map fun s => { raw with Bailiwick := s }
  | rrsetField.Count =>
    (json.storeInt lib f.name v raw.Count).map fun n => { raw with Count := n }
  | rrsetField.NumResults =>
    (json.storeInt lib f.name v raw.NumResults).map fun n => { raw with NumResults := n }
  | rrsetField.TimeFirst =>
    (json.storeInt lib f.name v raw.TimeFirst).map fun n => { raw with TimeFirst := n }
  | rrsetField.TimeLast =>
    (json.storeInt lib f.name v raw.TimeLast).map fun n => { raw with TimeLast := n }
  | rrsetField.ZoneTimeFirst =>
    (json.storeInt lib f.name v raw.ZoneTimeFirst).map fun n => { raw with ZoneTimeFirst := n }
  | rrsetField.ZoneTimeLast =>
    (json.storeInt lib f.name v raw.ZoneTimeLast).map fun n => { raw with ZoneTimeLast := n }

/-- The members of an object stored one after the other, in the order of the text; a member
that matches no field is skipped. -/
def rrsetEncoded.members (lib : json.Library) :
    List (String × json.Document) → rrsetEncoded → Except GoError rrsetEncoded
  | [], raw => Except.ok raw
  | (key, v) :: rest, raw =>
    match rrsetEncoded.field lib key with
    | none => rrsetEncoded.members lib rest raw
    | some f =>
      match rrsetEncoded.store lib raw f v with
      | Except.error err => Except.error err
      | Except.ok raw1 => rrsetEncoded.members lib rest raw1

/-- The call `json.Unmarshal(data, &raw)` of `RRSet.UnmarshalJSON` on a text that is valid
JSON: an object is stored member by member, null has no effect, and any other value is a type
error. The struct is not read after an error, so the first error is returned at once. -/
def rrsetEncoded.Unmarshal (lib : json.Library) (data : json.Document) :
    Except GoError rrsetEncoded :=
  match data with
  | json.Document.object members => rrsetEncoded.members lib members {}
  | json.Document.null => Except.ok {}
  | v => Except.error (lib.typeError v.describe "")

/-- The map `out` that `RRSet.MarshalJSON` fills, by its entries in the order of the
assignments. -/
def RRSet.out (r : RRSet) : List (String × json.Any) :=
  (if r.RRName ≠ "" then [("rrname", json.Any.string r.RRName)] else []) ++
  (if r.RRType ≠ "" then [("rrtype", json.Any.string r.RRType)] else []) ++
  (if r.RData.length > 0 then [("rdata", json.Any.strings r.RData)] else []) ++
  (if r.RawRData.length > 0 then
    [("raw_rdata", json.Any.string (hex.EncodeToString r.RawRData))] else []) ++
  (if r.Bailiwick ≠ "" then [("bailiwick", json.Any.string r.Bailiwick)] else []) ++
  (if r.Count > 0 then [("count", json.Any.int r.Count)] else []) ++
  (if r.NumResults > 0 then [("num_results", json.Any.int r.NumResults)] else []) ++
  (if r.TimeFirst.IsZero = false then [("time_first", json.Any.time r.TimeFirst)] else []) ++
  (if r.TimeLast.IsZero = false then [("time_last", json.Any.time r.TimeLast)] else []) ++
  (if r.ZoneTimeFirst.IsZero = false then
    [("zone_time_first", json.Any.time r.ZoneTimeFirst)] else []) ++
  (if r.ZoneTimeLast.IsZero = false then
    [("zone_time_last", json.Any.time r.ZoneTimeLast)] else [])

/-- `func (r RRSet) MarshalJSON() ([]byte, error)`: the JSON text that `json.Marshal(out)`
returns, or its error. -/
def RRSet.MarshalJSON (marshalTime : Time → Except GoError String) (r : RRSet) :
    Except GoError json.Document :=
  json.marshalMap marshalTime r.out

end dnsdb

/-! ## Package `v2`: the base URL with its variables

`baseURL` allocates a URL, copies the URL of the server into it and assigns to the copy. To
state what it leaves untouched, the variables of type `url.URL` are made explicit here: a
pointer to such a variable is its index. -/

namespace v2

/-- `func (c *Client) baseURL() *url.URL`, statement by statement, on the variables `urls` of
type `url.URL`: `server` is the pointer `c.Server`, none for nil, and the other fields are
those of `c`. The result is none for the panic of the nil pointer dereference, and otherwise
the variables after the call with the pointer `u` that is returned. -/
def Client.baseURLAt (parseQuery : String → url.Values) (encode : url.Values → String)
    (urls : List url.URL) (server : Option Nat) (c : Client) : Option (List url.URL × Nat) :=
  match server with
  | none => none
  | some p =>
    -- u := new(url.URL)
    let u := urls.length
    let urls := urls ++ [{}]
    -- *u = *c.Server
    let urls := urls.set u (urls.getD p {})
    let v := parseQuery (urls.getD u {}).RawQuery
    let v := if c.ClientName ≠ "" then v.Add SwClientKey c.ClientName
      else v.Add SwClientKey DefaultClientName
    let v := if c.ClientVersion ≠ "" then v.Add VersionKey c.ClientVersion
      else v.Add VersionKey DefaultClientVersion
    let v := if c.ClientId ≠ "" then v.Add IdKey c.ClientId else v
    -- u.RawQuery = v.Encode()
    let urls := urls.set u { urls.getD u {} with RawQuery := encode v }
    some (urls, u)

end v2

/-! ## Package `flex`: the path of a search and the record as JSON

`url.PathEscape` is library code, taken as an argument. -/

namespace flex

/-- `type Method int` -/
abbrev Method := Int

/-- `type Key int` -/
abbrev Key := Int

/-- `MethodRegex Method = iota`, the first constant of the block -/
def MethodRegex : Method := 0

/-- `MethodGlob`, the second constant of the block -/
def MethodGlob : Method := 1

/-- `KeyRRNames Key = iota`, the third constant of the block -/
def KeyRRNames : Key := 2

/-- `KeyRData`, the fourth constant of the block -/
def KeyRData : Key := 3

def methodRegex : String := "regex"
def methodGlob : String := "glob"
def keyRRnames : String := "rrnames"
def keyRData : String := "rdata"

/-- `func (m Method) String() string`, none being the panic -/
def Method.String (m : Method) : Option String :=
  if m = MethodRegex then some methodRegex
  else if m = MethodGlob then some methodGlob
  else none

/-- `func (k Key) String() string`, none being the panic -/
def Key.String (k : Key) : Option String :=
  if k = KeyRRNames then some keyRRnames
  else if k = KeyRData then some keyRData
  else none

/-- `flex.flexQuery`. `F` is the type of the function values `HttpResultFunc`. A field of
pointer type holds none for `nil` and otherwise the pointer into the memory. -/
structure flexQuery (F : Type) where
  method : Method := 0
  key : Key := 0
  value : String := ""
  rrtype : String := ""
  url : Option url.URL := none
  headers : http.Header := {}
  result : Option F := none
  exclude : Option Nat := none
  limit : Option Nat := none
  offset : Option Nat := none
  timeFirstBefore : Option Nat := none
  timeFirstAfter : Option Nat := none
  timeLastBefore : Option Nat := none
  timeLastAfter : Option Nat := none

variable {F : Type}

/-- `func NewQuery(method Method, key Key, value string, url *url.URL, headers http.Header,
result HttpResultFunc) Query`, none being the panic -/
def NewQuery (method : Method) (key : Key) (value : String) (url : Option url.URL)
    (headers : http.Header) (result : Option F) : Option (flexQuery F) :=
  if ¬ (method = MethodRegex ∨ method = MethodGlob) then none
  else if ¬ (key = KeyRRNames ∨ key = KeyRData) then none
  else
    some
      { method := method
        key := key
        value := value
        url := url
        headers := headers
        result := result }

/-- `func (f *flexQuery) WithRRType(rrtype string) Query`: the struct `f2` whose address is
returned -/
def flexQuery.WithRRType (f : flexQuery F) (rrtype : String) : flexQuery F :=
  let f2 := f
  { f2 with rrtype := rrtype }

/-- `func (f *flexQuery) makePath() string`, none being the panic of `String()`.
`pathEscape` is `url.PathEscape`. -/
def flexQuery.makePath (pathEscape : String → String) (f : flexQuery F) : Option String :=
  match Method.String f.method with
  | none => none
  | some method =>
    match Key.String f.key with
    | none => none
    | some key =>
      let components := [method, key, pathEscape f.value]
      let components :=
        if f.rrtype ≠ "" then components ++ [pathEscape f.rrtype] else components
      some (path.Join components)

/-- `flex.recordEncoded` -/
structure recordEncoded where
  RRName : String := ""
  RData : String := ""
  RawRData : String := ""
  RRType : String := ""
  Count : Int := 0
  TimeFirst : Int := 0
  TimeLast : Int := 0
  deriving DecidableEq, Repr

/-- `json.Marshal(out)` for a struct `recordEncoded`: the members in the order of the fields,
each left out, as its tag `omitempty` has it, when the field is the empty string or the number
zero. -/
def recordEncoded.Marshal (out : recordEncoded) : json.Document :=
  json.Document.object
    ((if out.RRName ≠ "" then [("rrname", json.Document.string out.RRName)] else []) ++
     (if out.RData ≠ "" then [("rdata", json.Document.string out.RData)] else []) ++
     (if out.RawRData ≠ "" then [("raw_rdata", json.Document.string out.RawRData)] else []) ++
     (if out.RRType ≠ "" then [("rrtype", json.Document.string out.RRType)] else []) ++
     (if out.Count ≠ 0 then [("count", json.Document.number (strconv.Itoa out.Count))]
      else []) ++
     (if out.TimeFirst ≠ 0 then
        [("time_first", json.Document.number (strconv.Itoa out.TimeFirst))] else []) ++
     (if out.TimeLast ≠ 0 then
        [("time_last", json.Document.number (strconv.Itoa out.TimeLast))] else []))

/-- `func (r Record) MarshalJSON() ([]byte, error)`: the JSON text returned; `json.Marshal`
returns no error for this struct. -/
def Record.MarshalJSON (r : Record) : json.Document :=
  recordEncoded.Marshal
    { RRName := r.RRName
      RData := r.RData
      RawRData := hex.EncodeToString r.RawRData
      RRType := r.RRType
      Count := r.Count
      TimeFirst := r.TimeFirst.Unix
      TimeLast := r.TimeLast.Unix }

end flex

/-! ## Vocabulary of the statements -/

namespace saf

variable {Line : Type}

/-- The conditions that end a stream: `succeeded`, `limited` and `failed`. -/
def isTerminal (cond : String) : Bool :=
  cond == CondSucceeded || cond == CondLimited || cond == CondFailed

/-- The payload that a decoded envelope delivers: its `obj` when that is not empty. -/
def Message.payload (m : Message) : List RawMessage :=
  if m.Obj.length > 0 then [m.Obj] else []

/-- The non-empty `obj` values of the decodable lines, each once and in line order. -/
def payloads (unmarshal : Line → Option Message) (lines : List Line) : List RawMessage :=
  (lines.filterMap unmarshal).flatMap Message.payload

/-- No decodable line of `lines` carries a terminal condition. -/
def noTerminal (unmarshal : Line → Option Message) (lines : List Line) : Bool :=
  lines.all fun l =>
    match unmarshal l with
    | none => true
    | some m => !isTerminal m.Cond

/-- What the switch of `Stream.run` leaves of the stream `s` at an envelope with a terminal
condition: the three returning cases of the switch. -/
def Stream.finish (m : Message) (s : Stream) : Stream :=
  if m.Cond = CondSucceeded then { s with cancelled := true }
  else if m.Cond = CondLimited then { s with err := some (Error m.Cond m.Msg) }
  else { s with err := some (Error m.Cond m.Msg), cancelled := true }

end saf

namespace v2

/-- The terminal error `result.run` and `flexResult.run` record when the decoder's channel is
closed and the decoder's terminal error is `streamErr`. -/
def terminalError (streamErr : Option GoError) : Option GoError :=
  if errors.Is streamErr (some saf.ErrStreamLimited) = true then
    some dnsdb.ErrResultLimitExceeded
  else streamErr

end v2

namespace dnsdb

/-- `dnsdb.ErrBadRequest` -/
abbrev ErrBadRequest : GoError := GoError.badRequest

/-- `dnsdb.ErrUnauthorized` -/
abbrev ErrUnauthorized : GoError := GoError.unauthorized

/-- `dnsdb.ErrForbidden` -/
abbrev ErrForbidden : GoError := GoError.forbidden

/-- `dnsdb.ErrBadRange` -/
abbrev ErrBadRange : GoError := GoError.badRange

/-- `dnsdb.ErrQuotaExceeded` -/
abbrev ErrQuotaExceeded : GoError := GoError.quotaExceeded

/-- `dnsdb.ErrConcurrencyLimit` -/
abbrev ErrConcurrencyLimit : GoError := GoError.concurrencyLimit

/-- `func HttpStatusError(code int) error` -/
abbrev HttpStatusError (code : Int) : GoError := GoError.httpStatus code

end dnsdb

namespace strconv

/-- The number that a list of decimal digits denotes. -/
def decimalValue (ds : List Char) : Nat :=
  ds.foldl (fun n c => n * 10 + (c.toNat - 48)) 0

/-- The byte is one of the decimal digits `0` to `9`. -/
def isDigit (c : Char) : Bool := decide ('0' ≤ c ∧ c ≤ '9')

/-- The string is a decimal integer: an optional sign followed by one or more decimal digits. -/
def isDecimal (s : String) : Bool :=
  let ds : List Char :=
    if s.data.head? = some '+' ∨ s.data.head? = some '-' then s.data.tail else s.data
  !ds.isEmpty && ds.all isDigit

end strconv

namespace v2

/-- The message `http status NNN: <reason phrase>` of a status code, the code written as at
least three decimal digits. -/
def isStatusMessage (lib : Library) (code : Int) (msg : String) : Prop :=
  ∃ ds : List Char, 3 ≤ ds.length ∧ ds.all strconv.isDigit = true ∧
    (strconv.decimalValue ds : Int) = code ∧
    msg = "http status " ++ String.mk ds ++ ": " ++ lib.StatusText code

/-- The codes that `statusError` names in its switch. -/
def isNamedStatus (code : Int) : Bool :=
  code == 200 || code == 204 || code == 400 || code == 401 || code == 403 || code == 416 ||
    code == 429 || code == 503

end v2

namespace http

/-- The header `h` without the entry that `key` reads. -/
def Header.without (h : Header) (key : String) : Header :=
  { Get := fun k => if k = key then "" else h.Get k }

end http

namespace dnsdb

/-- What a rate-limit snapshot can be given for one of `limit`, `remaining`, `reset` and
`expires`: nothing, the sentinel of the field, or an integer. -/
inductive Given where
  | absent
  | sentinel
  | number (n : Int)
  deriving DecidableEq, Repr

/-- The header value that carries it: no value, the sentinel, or the integer in decimal. -/
def Given.header (sentinel : String) : Given → String
  | Given.absent => ""
  | Given.sentinel => sentinel
  | Given.number n => strconv.Itoa n

/-- The JSON value that carries it, as `json.Unmarshal` stores it in an `interface{}`: nil
for an absent member, the sentinel as a string, the integer as a number. -/
def Given.json (sentinel : String) : Given → json.Value
  | Given.absent => json.Value.nil
  | Given.sentinel => json.Value.string sentinel
  | Given.number n => json.Value.float64 (Float64.ofInt n)

/-- The integer it gives, if any. -/
def Given.int : Given → Option Int
  | Given.number n => some n
  | _ => none

/-- An integer that is given is at most `bound` in absolute value. -/
def Given.within (bound : Int) : Given → Bool
  | Given.number n => decide (-bound ≤ n ∧ n ≤ bound)
  | _ => true

/-- An integer that is given is within the range of `int64`. -/
def Given.isInt64 : Given → Bool
  | Given.number n => decide (-(2 ^ 63) ≤ n ∧ n < 2 ^ 63)
  | _ => true

/-- The value of a rate-limit header is present and is neither the sentinel of its field nor a
decimal integer. -/
def isInvalidValue (value sentinel : String) : Bool :=
  value != "" && value != sentinel && !strconv.isDecimal value

/-- The value of a rate-limit header passes its switch: it is empty, the sentinel of its field,
or a number that `strconv.Atoi` reads. -/
def isAcceptedValue (value sentinel : String) : Bool :=
  value == "" || value == sentinel || (strconv.Atoi value).toBool

/-- The header without the four rate-limit entries. -/
def withoutRateLimit (h : http.Header) : http.Header :=
  (((h.without "X-RateLimit-Limit").without "X-RateLimit-Remaining").without
    "X-RateLimit-Reset").without "X-RateLimit-Expires"

end dnsdb

namespace json

/-- The number that a decoded JSON value is, if it is a number. -/
def Value.number? : Value → Option Float64
  | Value.float64 f => some f
  | _ => none

end json

namespace dnsdb

/-- The decoded JSON value passes the type switch of a field with the sentinel `sentinel`: it
is nil (the member is absent or null), the sentinel as a string, or a number. -/
def isAcceptedJSON (v : json.Value) (sentinel : String) : Bool :=
  match v with
  | json.Value.nil => true
  | json.Value.string s => s == sentinel
  | json.Value.float64 _ => true
  | _ => false

end dnsdb

namespace path

/-- A path element that `path.Clean` keeps as it is: it is not empty and is neither `.` nor
`..`. -/
def isName (e : List Char) : Bool :=
  e ≠ [] && e ≠ ['.'] && e ≠ ['.', '.']

/-- Every element of the path is kept by `path.Clean`: the path is not empty, it neither
begins nor ends with a slash, it has no two slashes in a row, and none of its elements is `.`
or `..`. -/
def isClean (s : String) : Bool :=
  (elements s.data).all isName

end path

namespace dnsdb

/-- What the fields of a query hold, each pointer followed to its variable: none for a nil
pointer. -/
structure queryView (F : Type) where
  mode : queryMode
  url : Option url.URL
  headers : http.Header
  result : Option F
  name : String
  ip : net.IPNet
  ipRange : Option ipRange
  raw : List UInt8
  rrtype : Option String
  bailiwick : Option String
  limit : Option Int
  aggregation : Option Bool
  offset : Option Int
  maxCount : Option Int
  timeFirstBefore : Option Int
  timeFirstAfter : Option Int
  timeLastBefore : Option Int
  timeLastAfter : Option Int

variable {F : Type}

/-- What the fields of the query `q` hold in the memory `m`. -/
def httpQuery.view (m : Memory) (q : httpQuery F) : queryView F :=
  { mode := q.mode
    url := q.url
    headers := q.headers
    result := q.result
    name := q.name
    ip := q.ip
    ipRange := q.ipRange
    raw := q.raw
    rrtype := q.rrtype.map m.string
    bailiwick := q.bailiwick.map m.string
    limit := q.limit.map m.int
    aggregation := q.aggregation.map m.bool
    offset := q.offset.map m.int
    maxCount := q.maxCount.map m.int
    timeFirstBefore := q.timeFirstBefore.map m.int
    timeFirstAfter := q.timeFirstAfter.map m.int
    timeLastBefore := q.timeLastBefore.map m.int
    timeLastAfter := q.timeLastAfter.map m.int }

/-- The pointer, when it is not nil, points to one of the first `n` variables. -/
def validPointer (n : Nat) (p : Option Nat) : Bool :=
  match p with
  | none => true
  | some a => decide (a < n)

/-- Every pointer of the query that is not nil points to a variable of the memory. -/
def httpQuery.valid (m : Memory) (q : httpQuery F) : Bool :=
  validPointer m.strings.length q.rrtype && validPointer m.strings.length q.bailiwick &&
    validPointer m.ints.length q.limit && validPointer m.bools.length q.aggregation &&
    validPointer m.ints.length q.offset && validPointer m.ints.length q.maxCount &&
    validPointer m.ints.length q.timeFirstBefore &&
    validPointer m.ints.length q.timeFirstAfter &&
    validPointer m.ints.length q.timeLastBefore && validPointer m.ints.length q.timeLastAfter

/-- The memory `m2` holds the variables of `m` with the values they have in `m`, and possibly
more variables. -/
def Memory.extendedBy (m m2 : Memory) : Prop :=
  (m.strings.length ≤ m2.strings.length ∧ ∀ p, p < m.strings.length → m2.string p = m.string p) ∧
  (m.ints.length ≤ m2.ints.length ∧ ∀ p, p < m.ints.length → m2.int p = m.int p) ∧
  (m.bools.length ≤ m2.bools.length ∧ ∀ p, p < m.bools.length → m2.bool p = m.bool p)

/-- The value that an option of the query gives the URL parameter `key`, if the option is
set: a number in decimal, a boolean as `true` or `false`. -/
def queryView.parameter (o : queryView F) (key : String) : Option String :=
  if key = "limit" then o.limit.map strconv.Itoa
  else if key = "aggr" then o.aggregation.map (fun b => if b = true then "true" else "false")
  else if key = "offset" then o.offset.map strconv.Itoa
  else if key = "max_count" then o.maxCount.map strconv.Itoa
  else if key = "time_first_before" then o.timeFirstBefore.map strconv.Itoa
  else if key = "time_first_after" then o.timeFirstAfter.map strconv.Itoa
  else if key = "time_last_before" then o.timeLastBefore.map strconv.Itoa
  else if key = "time_last_after" then o.timeLastAfter.map strconv.Itoa
  else none

/-- The type of the records that the query asks for: `ANY` when none has been set. -/
def queryView.recordType (o : queryView F) : String :=
  o.rrtype.getD rrTypeAny

/-- The four fields of type `int`. -/
def rateField.isInt : rateField → Bool
  | rateField.ResultsMax => true
  | rateField.OffsetMax => true
  | rateField.BurstSize => true
  | rateField.BurstWindow => true
  | _ => false

/-- The value of a field of type `int` of the struct `raw` (0 for the other fields). -/
def rateRaw.int (raw : rateRaw) : rateField → Int
  | rateField.ResultsMax => raw.ResultsMax
  | rateField.OffsetMax => raw.OffsetMax
  | rateField.BurstSize => raw.BurstSize
  | rateField.BurstWindow => raw.BurstWindow
  | _ => 0

/-- The value of a field of type `int` of a `Rate` (0 for the other fields). -/
def Rate.int (rate : Rate) : rateField → Int
  | rateField.ResultsMax => rate.ResultsMax
  | rateField.OffsetMax => rate.OffsetMax
  | rateField.BurstSize => rate.BurstSize
  | rateField.BurstWindow => rate.BurstWindow
  | _ => 0

/-- The values that the members of an object give the field `f`, in the order of the text:
none when the field is absent from the object. -/
def given (lib : json.Library) (members : List (String × json.Document)) (f : rateField) :
    List json.Document :=
  members.filterMap fun kv => if rateRaw.field lib kv.1 = some f then some kv.2 else none

/-- The map after an option has added its parameter, if the option is set. -/
def addParameter (v : url.Values) (key : String) (value : Option String) : url.Values :=
  match value with
  | some x => v.Add key x
  | none => v

/-- The record that `RRSet.UnmarshalJSON` assigns to its receiver when the struct `raw` has
the list `rdata` and the bytes `bytes`. -/
def decodedRRSet (raw : rrsetEncoded) (rdata : List String) (bytes : List UInt8) : RRSet :=
  { RRName := raw.RRName
    RRType := raw.RRType
    RData := rdata
    RawRData := bytes
    Bailiwick := raw.Bailiwick
    Count := raw.Count
    NumResults := raw.NumResults
    TimeFirst := unix raw.TimeFirst
    TimeLast := unix raw.TimeLast
    ZoneTimeFirst := unix raw.ZoneTimeFirst
    ZoneTimeLast := unix raw.ZoneTimeLast }

/-- The bytes of `raw_rdata`: none for the empty string, and otherwise what `hex.DecodeString`
returns. -/
def rawBytes (raw : rrsetEncoded) : Option (List UInt8) :=
  if raw.RawRData = "" then some [] else hex.DecodeString raw.RawRData

end dnsdb

namespace json

/-- The JSON value is neither null nor a number: it is a boolean, a string, an array or an
object. -/
def Document.isOther : Document → Bool
  | Document.null => false
  | Document.number _ => false
  | _ => true

/-- The values `vs` stored one after the other in a struct field of type `int` that holds
`old`. -/
def storeInts (lib : Library) (field : String) : List Document → Int → Except GoError Int
  | [], old => Except.ok old
  | v :: rest, old =>
    match storeInt lib field v old with
    | Except.error err => Except.error err
    | Except.ok n => storeInts lib field rest n

end json

namespace saf

variable {Line : Type}

/-- The event is a step of the goroutine `run`. -/
def Event.isRun : Event → Bool
  | Event.run _ => true
  | _ => false

/-- The event is the call `c.Close()` of the closer, and the call returns an error. -/
def Event.isFailedClose : Event → Bool
  | Event.closerClose (some _) => true
  | _ => false

/-- A bound on the number of steps that the goroutine `run` has yet to take. -/
def Execution.measure (e : Execution Line) : Nat :=
  match e.pc with
  | Pc.scan => 3 * e.body.length + 1
  | Pc.select _ => 3 * e.body.length + 3
  | Pc.switch _ => 3 * e.body.length + 2
  | Pc.returned => 0

/-- No decodable line of `lines` carries the condition `succeeded`. -/
def noSucceeded (unmarshal : Line → Option Message) (lines : List Line) : Bool :=
  lines.all fun l =>
    match unmarshal l with
    | none => true
    | some m => m.Cond != CondSucceeded

/-- While the goroutine `run` has not returned no error is recorded, and the closer holds no
error of `c.Close()` that it has yet to store. -/
def Execution.unwritten (e : Execution Line) : Prop :=
  (e.stream.err ≠ none → e.pc = Pc.returned) ∧
    (∀ closeErr, e.closer = CloserPc.closing closeErr → closeErr = none)

/-- The goroutine `run` has read no line with the condition `succeeded`, and has none to
read; once it has returned, an error is recorded. -/
def Execution.unsucceeded (unmarshal : Line → Option Message) (e : Execution Line) : Prop :=
  noSucceeded unmarshal e.body = true ∧
    (∀ msg, e.pc = Pc.select msg ∨ e.pc = Pc.switch msg → msg.Cond ≠ CondSucceeded) ∧
    (e.pc = Pc.returned → e.stream.err ≠ none)

end saf

namespace json

/-- The value of the first member `key` of an object, none when the text is no object or the
object has no such member. -/
def Document.member (d : Document) (key : String) : Option Document :=
  match d with
  | Document.object members => (members.find? fun kv => kv.1 = key).map fun kv => kv.2
  | _ => none

end json

namespace dnsdb

/-- The four times of a record: `TimeFirst`, `TimeLast`, `ZoneTimeFirst`, `ZoneTimeLast`. -/
def RRSet.times (r : RRSet) : List Time :=
  [r.TimeFirst, r.TimeLast, r.ZoneTimeFirst, r.ZoneTimeLast]

/-- The four times of the struct `rrsetEncoded`, in seconds: `time_first`, `time_last`,
`zone_time_first`, `zone_time_last`. -/
def rrsetEncoded.times (raw : rrsetEncoded) : List Int :=
  [raw.TimeFirst, raw.TimeLast, raw.ZoneTimeFirst, raw.ZoneTimeLast]

/-- The four fields of type `int64`, which hold the times. -/
def rrsetField.isTime : rrsetField → Bool
  | rrsetField.TimeFirst => true
  | rrsetField.TimeLast => true
  | rrsetField.ZoneTimeFirst => true
  | rrsetField.ZoneTimeLast => true
  | _ => false

/-- The value of a time field of the struct `rrsetEncoded` (0 for the other fields). -/
def rrsetEncoded.time (raw : rrsetEncoded) : rrsetField → Int
  | rrsetField.TimeFirst => raw.TimeFirst
  | rrsetField.TimeLast => raw.TimeLast
  | rrsetField.ZoneTimeFirst => raw.ZoneTimeFirst
  | rrsetField.ZoneTimeLast => raw.ZoneTimeLast
  | _ => 0

/-- The object has no member for the field `f`. -/
def absent (lib : json.Library) (members : List (String × json.Document)) (f : rrsetField) :
    Bool :=
  members.all fun kv => rrsetEncoded.field lib kv.1 != some f

end dnsdb

namespace v2

/-- The values that `baseURL` adds to the parameter `key`: the name of the client for
`swclient` and its version for `version`, each replaced by its default when it is empty, and
the id of the client for `id` when it is not empty. -/
def Client.added (c : Client) (key : String) : List String :=
  (if key = SwClientKey then
    [if c.ClientName ≠ "" then c.ClientName else DefaultClientName] else []) ++
  (if key = VersionKey then
    [if c.ClientVersion ≠ "" then c.ClientVersion else DefaultClientVersion] else []) ++
  (if key = IdKey ∧ c.ClientId ≠ "" then [c.ClientId] else [])

end v2

/-! ## Inputs of the test suites -/

namespace saf

/-- The lines of `TestStream/simple successful example` followed by the trailing payload line of
`TestStream/trailing data`, each with the envelope it decodes to. -/
def exampleSucceeded : List (Option Message) :=
  [some { Cond := "begin" },
   some { Obj := "\x7b\"count\":10392,\"time_first\":138126549\x7d" },
   some { Cond := "succeeded" },
   some { Obj := "\x7b\"count\":33,\"time_first\":19126549\x7d" }]

/-- A `begin` line, a payload line and a last line that is cut off, which does not decode. -/
def exampleTruncated : List (Option Message) :=
  [some { Cond := "begin" },
   some { Obj := "\x7b\"count\":1\x7d" },
   none]

/-- The lines of `TestStream/failure example`, each with the envelope it decodes to. -/
def exampleFailed : List (Option Message) :=
  [some { Cond := "begin" },
   some { Obj := "\x7b\"count\":33,\"time_first\":19126549\x7d" },
   some { Cond := "failed", Msg := "Processing timeout; results may be incomplete" }]

/-- The lines of `TestStream/limited with object example`, each with the envelope it decodes
to. -/
def exampleLimitedWithObject : List (Option Message) :=
  [some { Cond := "begin" },
   some { Obj := "\x7b\"count\":10392,\"time_first\":138126549\x7d" },
   some { Cond := "limited", Msg := "Query limit reached",
          Obj := "\x7b\"count\":33,\"time_first\":19126549\x7d" }]

/-- The lines of `TestStream/limited example`, each with the envelope it decodes to. -/
def exampleLimited : List (Option Message) :=
  [some { Cond := "begin" },
   some { Obj := "\x7b\"count\":10392,\"time_first\":138126549\x7d" },
   some { Obj := "\x7b\"count\":33,\"time_first\":19126549\x7d" },
   some { Cond := "limited", Msg := "Query limit reached" }]

/-- The lines of `TestStream/bad json`, each with the envelope it decodes to: the second line
does not decode. -/
def exampleBadJson : List (Option Message) :=
  [some { Cond := "begin" }, none, some { Cond := "succeeded" }]

/-- The lines of `TestStream/equivalent simple successful example`, each with the envelope it
decodes to. -/
def exampleOngoing : List (Option Message) :=
  [some { Cond := "begin" },
   some { Cond := "ongoing", Obj := "\x7b\"count\":10392,\"time_first\":138126549\x7d" },
   some { Cond := "succeeded" }]

end saf

namespace v2

/-- The lines of `TestFlexResult/results with an error and truncation`, each with the envelope
it decodes to: the third line lacks its closing brace and the last line is cut off, so that
neither decodes. -/
def exampleResults : List (Option saf.Message) :=
  [some { Cond := "begin" },
   some { Obj := "\x7b\"count\":1\x7d" },
   none,
   some { Obj := "\x7b\"count\":3\x7d" },
   some { Obj := "\x7b\"count\":\"4\"\x7d" },
   none]

/-- The outcome of decoding the payloads of `exampleResults` as a `flex.Record`: a `count` that
is a string does not decode. -/
def exampleFlexRecord (raw : saf.RawMessage) : Option flex.Record :=
  if raw = "\x7b\"count\":1\x7d" then some { Count := 1 }
  else if raw = "\x7b\"count\":3\x7d" then some { Count := 3 }
  else none

/-- The outcome of decoding the payloads of `exampleResults` as a `dnsdb.RRSet`: a `count` that
is a string does not decode. -/
def exampleRRSet (raw : saf.RawMessage) : Option dnsdb.RRSet :=
  if raw = "\x7b\"count\":1\x7d" then some { Count := 1 }
  else if raw = "\x7b\"count\":3\x7d" then some { Count := 3 }
  else none

/-- A stream of one payload that the server ends by `limited` without a message. -/
def exampleLimitedNoMessage : List (Option saf.Message) :=
  [some { Cond := "begin" },
   some { Obj := "\x7b\"count\":1\x7d" },
   some { Cond := "limited" }]

end v2

namespace v1

/-- The lines of `TestResult/results with an error and truncation`, each with the record it
decodes to: the second line has a brace too many and the last line is cut off, so that neither
decodes. -/
def exampleResults : List (Option dnsdb.RRSet) :=
  [some { Count := 1 }, none, some { Count := 3 }, none]

end v1

namespace saf

/-- The lines of `TestStream/simple successful example` followed by the trailing payload line of
`TestStream/trailing data`, each with the envelope it decodes to and its number of bytes. -/
def exampleSucceededSized : List (Option Message × Nat) :=
  [(some { Cond := "begin" }, 17),
   (some { Obj := "\x7b\"count\":10392,\"time_first\":138126549\x7d" }, 46),
   (some { Cond := "succeeded" }, 21),
   (some { Obj := "\x7b\"count\":33,\"time_first\":19126549\x7d" }, 42)]

/-- The lines of `TestStream/simple successful example` with a second payload line before the
line `succeeded`: the payload line of `TestStream/trailing data` with blanks after its closing
brace, which `json.Unmarshal` accepts, up to 70000 bytes. -/
def exampleSucceededLong : List (Option Message × Nat) :=
  [(some { Cond := "begin" }, 17),
   (some { Obj := "\x7b\"count\":10392,\"time_first\":138126549\x7d" }, 46),
   (some { Obj := "\x7b\"count\":33,\"time_first\":19126549\x7d" }, 70000),
   (some { Cond := "succeeded" }, 21)]

/-- A `begin` line, a payload line and a last line that is cut off, which does not decode, each
with its number of bytes. -/
def exampleTruncatedSized : List (Option Message × Nat) :=
  [(some { Cond := "begin" }, 16),
   (some { Obj := "\x7b\"count\":1\x7d" }, 19),
   (none, 5)]

/-- A body without a terminal condition whose second payload line has blanks after its closing
brace up to 70000 bytes. -/
def exampleTruncatedLong : List (Option Message × Nat) :=
  [(some { Cond := "begin" }, 16),
   (some { Obj := "\x7b\"count\":1\x7d" }, 19),
   (some { Obj := "\x7b\"count\":2\x7d" }, 70000),
   (some { Obj := "\x7b\"count\":3\x7d" }, 19)]

/-- The lines of `TestStream/limited example`, each with the envelope it decodes to and its
number of bytes. -/
def exampleLimitedSized : List (Option Message × Nat) :=
  [(some { Cond := "begin" }, 17),
   (some { Obj := "\x7b\"count\":10392,\"time_first\":138126549\x7d" }, 46),
   (some { Obj := "\x7b\"count\":33,\"time_first\":19126549\x7d" }, 42),
   (some { Cond := "limited", Msg := "Query limit reached" }, 49)]

/-- The lines of `TestStream/limited example` with blanks after the closing brace of the first
payload line up to 70000 bytes. -/
def exampleLimitedLong : List (Option Message × Nat) :=
  [(some { Cond := "begin" }, 17),
   (some { Obj := "\x7b\"count\":10392,\"time_first\":138126549\x7d" }, 70000),
   (some { Obj := "\x7b\"count\":33,\"time_first\":19126549\x7d" }, 42),
   (some { Cond := "limited", Msg := "Query limit reached" }, 49)]

/-- The last line of `TestStream/limited with object example`, which carries a payload and the
condition `limited`, with the envelope it decodes to and its number of bytes. -/
def exampleTerminalLine : Option Message × Nat :=
  (some { Cond := "limited", Msg := "Query limit reached",
          Obj := "\x7b\"count\":33,\"time_first\":19126549\x7d" }, 90)

/-- The payload of `exampleTerminalLine` on a line of its own. -/
def examplePayloadLine : Option Message × Nat :=
  (some { Obj := "\x7b\"count\":33,\"time_first\":19126549\x7d" }, 42)

/-- The condition and the message of `exampleTerminalLine` on a line of their own. -/
def exampleConditionLine : Option Message × Nat :=
  (some { Cond := "limited", Msg := "Query limit reached" }, 49)

/-- The payload line with blanks between the colon and the payload up to 65500 bytes: the line
fits in the buffer of the scanner. -/
def examplePayloadLineWide : Option Message × Nat :=
  (some { Obj := "\x7b\"count\":33,\"time_first\":19126549\x7d" }, 65500)

/-- The line `examplePayloadLineWide` with the condition `limited` and its message added, 48
bytes more: the line does not fit in the buffer of the scanner. -/
def exampleTerminalLineWide : Option Message × Nat :=
  (some { Cond := "limited", Msg := "Query limit reached",
          Obj := "\x7b\"count\":33,\"time_first\":19126549\x7d" }, 65548)

/-- The lines of `TestStream/bad json`, each with the envelope it decodes to and its number of
bytes: the second line does not decode. -/
def exampleBadJsonSized : List (Option Message × Nat) :=
  [(some { Cond := "begin" }, 17), (none, 45), (some { Cond := "succeeded" }, 21)]

/-- The lines of `exampleBadJsonSized` without the line that does not decode. -/
def exampleGoodJsonSized : List (Option Message × Nat) :=
  [(some { Cond := "begin" }, 17), (some { Cond := "succeeded" }, 21)]

/-- The lines of `exampleGoodJsonSized` with a line of 70000 bytes that does not decode
between them. -/
def exampleBadJsonLong : List (Option Message × Nat) :=
  [(some { Cond := "begin" }, 17), (none, 70000), (some { Cond := "succeeded" }, 21)]

end saf

namespace v1

/-- The lines of `TestResult/results with an error and truncation`, each with the record it
decodes to and its number of bytes. -/
def exampleResultsSized : List (Option dnsdb.RRSet × Nat) :=
  [(some { Count := 1 }, 11), (none, 12), (some { Count := 3 }, 11), (none, 5)]

/-- Three lines that decode, the second one with blanks after its closing brace up to 70000
bytes. -/
def exampleResultsLong : List (Option dnsdb.RRSet × Nat) :=
  [(some { Count := 1 }, 11), (some { Count := 2 }, 70000), (some { Count := 3 }, 11)]

end v1

/-- An excerpt of the library tables: the reason phrases of three status codes (no phrase for
a code that `http.StatusText` does not know) and the quoting of a string without special
characters. -/
def exampleLibrary : Library where
  StatusText := fun code =>
    if code = 201 then "Created"
    else if code = 404 then "Not Found"
    else if code = 500 then "Internal Server Error"
    else ""
  Quote := fun s => "\"" ++ s ++ "\""

namespace dnsdb

/-- The header of `TestNewRateLimitFromHeaders/limit int`: `makeHeader("limit", "100")`. -/
def exampleHeaderLimit : http.Header :=
  { Get := fun k => if k = "X-RateLimit-Limit" then "100" else "" }

/-- A header with `X-RateLimit-Reset: 0`. -/
def exampleHeaderResetZero : http.Header :=
  { Get := fun k => if k = "X-RateLimit-Reset" then "0" else "" }

/-- A header with a limit one above the largest `int64`. -/
def exampleHeaderLimitHuge : http.Header :=
  { Get := fun k => if k = "X-RateLimit-Limit" then "9223372036854775808" else "" }

/-- The header of `TestNewRateLimitFromHeaders/reset unlimited`:
`makeHeader("reset", "unlimited")`. -/
def exampleHeaderResetUnlimited : http.Header :=
  { Get := fun k => if k = "X-RateLimit-Reset" then "unlimited" else "" }

end dnsdb

namespace dnsdb

/-- A header with the limit `n/a`, which is not the sentinel of the limit, and a content
type. -/
def exampleHeaderLimitNA : http.Header :=
  { Get := fun k =>
      if k = "X-RateLimit-Limit" then "n/a"
      else if k = "content-type" then "application/json"
      else "" }

/-- A header with the limit `n/a` and the reset `unlimited`, neither being the sentinel of its
field. -/
def exampleHeaderTwoInvalid : http.Header :=
  { Get := fun k =>
      if k = "X-RateLimit-Limit" then "n/a"
      else if k = "X-RateLimit-Reset" then "unlimited"
      else "" }

/-- The entries of a header in which `X-RateLimit-Limit` is present with the empty value. -/
def exampleEntriesLimitEmpty : List (String × List String) :=
  [("X-RateLimit-Limit", [""]), ("X-RateLimit-Remaining", ["8"])]

end dnsdb

namespace dnsdb

/-- The struct that `{"reset": 0}` decodes to. -/
def exampleRawResetZero : rateRaw :=
  { Reset := json.Value.float64 (Float64.ofInt 0) }

/-- The struct that `{"reset": "n/a"}` decodes to. -/
def exampleRawResetNA : rateRaw :=
  { Reset := json.Value.string "n/a" }

/-- The struct that `{"limit": 1.5}` decodes to: 1.5 is `3 * 2 ^ (-1)`. -/
def exampleRawLimitFraction : rateRaw :=
  { Limit := json.Value.float64 { m := 3, e := -1 } }

/-- The struct that the document of `TestRateLimit/block-based quota` decodes to. -/
def exampleRawBlockQuota : rateRaw :=
  { Reset := json.Value.string "n/a"
    BurstSize := 10
    Expires := json.Value.float64 (Float64.ofInt 1555370914)
    BurstWindow := 300
    OffsetMax := 3000000
    ResultsMax := 256
    Limit := json.Value.float64 (Float64.ofInt 600)
    Remaining := json.Value.float64 (Float64.ofInt 8) }

/-- The struct that `{"limit": "n/a"}` decodes to, of `TestRate_UnmarshalJSON/limit n/a`. -/
def exampleRawLimitNA : rateRaw :=
  { Limit := json.Value.string "n/a" }

/-- The struct that `{"limit": 9007199254740993}` decodes to: the number is `2 ^ 53 + 1`. -/
def exampleRawLimitLarge : rateRaw :=
  { Limit := json.Value.float64 (Float64.ofInt 9007199254740993) }

/-- The struct that `{"limit": 9223372036854775807}` decodes to: the number is the largest
`int64`, `2 ^ 63 - 1`. -/
def exampleRawLimitMax : rateRaw :=
  { Limit := json.Value.float64 (Float64.ofInt 9223372036854775807) }

/-- A header with the four rate-limit entries of a block-based quota. -/
def exampleHeaderBlockQuota : http.Header :=
  { Get := fun k =>
      if k = "X-RateLimit-Limit" then "600"
      else if k = "X-RateLimit-Remaining" then "8"
      else if k = "X-RateLimit-Reset" then "n/a"
      else if k = "X-RateLimit-Expires" then "1555370914"
      else "" }

/-- The struct that a JSON object with the same four values decodes to. -/
def exampleRawQuota : rateRaw :=
  { Reset := json.Value.string "n/a"
    Expires := json.Value.float64 (Float64.ofInt 1555370914)
    Limit := json.Value.float64 (Float64.ofInt 600)
    Remaining := json.Value.float64 (Float64.ofInt 8) }

end dnsdb

/-- The bytes in decimal, with a dot between two of them. -/
def exampleDotted : List UInt8 → List Char
  | [] => []
  | b :: bs =>
    match bs with
    | [] => (strconv.Itoa (b.toNat : Int)).data
    | _ :: _ => (strconv.Itoa (b.toNat : Int)).data ++ '.' :: exampleDotted bs

/-- An excerpt of the library functions of the request path: `idna.ToASCII` on a name of ASCII
letters, digits and dots, which it returns as it is, and `net.IP.String` on an address of four
bytes, which it writes in dotted decimal. -/
def examplePathLibrary : PathLibrary where
  ToASCII := fun name => Except.ok name
  IPString := fun ip => String.mk (exampleDotted ip)

namespace json

/-- An excerpt of `encoding/json`: names that differ in the case of their ASCII letters match;
null, a boolean, a string and an integer literal within the range of `int64` are stored in an
`interface{}` as nil, the boolean, the string and the `float64` of the integer (exact for the
integers of the examples), an array and an object without what they hold; the type error is
given by its text. -/
def exampleLibrary : Library where
  equalFold := fun name key => name.data.map Char.toLower == key.data.map Char.toLower
  toInterface := fun v =>
    match v with
    | Document.null => Except.ok Value.nil
    | Document.bool b => Except.ok (Value.bool b)
    | Document.string s => Except.ok (Value.string s)
    | Document.number literal =>
      match strconv.Atoi literal with
      | Except.ok n => Except.ok (Value.float64 (Float64.ofInt n))
      | Except.error err => Except.error err
    | Document.array _ => Except.ok (Value.array [])
    | Document.object _ => Except.ok (Value.object [])
  typeError := fun value field =>
    GoError.other ("json: cannot unmarshal " ++ value ++ " into Go struct field ." ++ field ++
      " of type int")

end json

namespace dnsdb

/-- The document of `TestRateLimit/block-based quota`, the value of its member `rate`. -/
def exampleDocumentBlockQuota : json.Document :=
  json.Document.object
    [("reset", json.Document.string "n/a"),
     ("burst_size", json.Document.number "10"),
     ("expires", json.Document.number "1555370914"),
     ("burst_window", json.Document.number "300"),
     ("offset_max", json.Document.number "3000000"),
     ("results_max", json.Document.number "256"),
     ("limit", json.Document.number "600"),
     ("remaining", json.Document.number "8")]

/-- The document `{"results_max":"1"}` of `TestRateLimit/invalid json`. -/
def exampleDocumentInvalid : json.Document :=
  json.Document.object [("results_max", json.Document.string "1")]

/-- The document `{"results_max":null}`. -/
def exampleDocumentNull : json.Document :=
  json.Document.object [("results_max", json.Document.null)]

/-- The document `{"results_max":9223372036854775808}`, whose number is `2 ^ 63`. -/
def exampleDocumentHuge : json.Document :=
  json.Document.object [("results_max", json.Document.number "9223372036854775808")]

/-- The first record of `TestRRSet_UnmarshalJSON`, example 3, as `json.Unmarshal` decodes it
into `rrsetEncoded`: its `rdata` is a string. -/
def exampleEncodedA : rrsetEncoded :=
  { Count := 24
    TimeFirst := 1433550785
    TimeLast := 1468312116
    RRName := "www.farsighsecurity.com."
    RRType := "A"
    RData := json.Value.string "104.244.13.104" }

/-- The second record of `TestRRSet_UnmarshalJSON`, example 2, as `json.Unmarshal` decodes it
into `rrsetEncoded`: its `rdata` is an array of strings. -/
def exampleEncodedNS : rrsetEncoded :=
  { Count := 495241
    TimeFirst := 1374096380
    TimeLast := 1468324876
    RRName := "farsightsecurity.com."
    RRType := "NS"
    Bailiwick := "farsightsecurity.com."
    RData := json.Value.array
      [json.Value.string "ns5.dnsmadeeasy.com.", json.Value.string "ns6.dnsmadeeasy.com.",
       json.Value.string "ns7.dnsmadeeasy.com."] }

/-- The record of `TestRRSet_UnmarshalJSON`, example 4a, which has no `rdata`. -/
def exampleEncodedSummary : rrsetEncoded :=
  { Count := 528, NumResults := 4, TimeFirst := 1557864746, TimeLast := 1560524861 }

/-- The document `{"rdata":[0]}` of `non-strings in rdata`, as `json.Unmarshal` decodes it. -/
def exampleEncodedBadElement : rrsetEncoded :=
  { RData := json.Value.array [json.Value.float64 (Float64.ofInt 0)] }

/-- The document `{"rdata":0}` of `invalid rdata type`, as `json.Unmarshal` decodes it. -/
def exampleEncodedBadType : rrsetEncoded :=
  { RData := json.Value.float64 (Float64.ofInt 0) }

/-- The error of `hex.DecodeString` by the string it rejects. -/
def exampleHexError (s : String) : GoError :=
  GoError.other ("encoding/hex: " ++ s)

/-- The query `&httpQuery{}` of `TestQueryMutators`. -/
def exampleQuery : httpQuery Unit := {}

/-- A query for the records of `test` with the type `AAAA` in the bailiwick `ing`, as the calls
`WithRRType("AAAA")` and `WithBailiwick("ing")` leave it: with the memory
`exampleQueryMemory`. -/
def exampleQueryRRSet : httpQuery Unit :=
  { mode := modeRRSet, name := "test", rrtype := some 0, bailiwick := some 1 }

/-- The memory of `exampleQueryRRSet` and of `exampleQueryOptions`. -/
def exampleQueryMemory : Memory :=
  { strings := ["AAAA", "ing"], ints := [100, 123, -3600], bools := [false] }

/-- A query with the options of `TestQuery_MakeValues`: limit 100, aggregation false, offset
123 and a relative `time_last_after` of one hour. -/
def exampleQueryOptions : httpQuery Unit :=
  { limit := some 0, aggregation := some 0, offset := some 1, timeLastAfter := some 2 }

/-- The network `192.168.0.0/24` of `TestQuery_MakePath/rdata/ip/v4_cidr`. -/
def exampleNetwork : net.IPNet :=
  { IP := [192, 168, 0, 0], Mask := [255, 255, 255, 0] }

/-- The network `192.168.0.1/32` of `TestQuery_MakePath/rdata/ip/v4`. -/
def exampleHost : net.IPNet :=
  { IP := [192, 168, 0, 1], Mask := [255, 255, 255, 255] }

/-- The address `2000::1` with the mask `255.255.255.0` of four bytes. -/
def exampleMismatch : net.IPNet :=
  { IP := [0x20, 0, 0, 0, 0, 0, 0, 0, 0, 0, 0, 0, 0, 0, 0, 1], Mask := [255, 255, 255, 0] }

/-- The address `192.168.0.5` with the mask `255.255.255.0`: an address within the network
`192.168.0.0/24`. -/
def exampleUnmasked : net.IPNet :=
  { IP := [192, 168, 0, 5], Mask := [255, 255, 255, 0] }

end dnsdb

namespace saf

/-- The lines of `TestStream/cancelled mid-stream` with the last line replaced by
`{"cond": "succeeded"}`, each with the envelope it decodes to. -/
def exampleTwoRecords : List (Option Message) :=
  [some { Cond := "begin" },
   some { Obj := "\x7b\"count\":10392,\"time_first\":138126549\x7d" },
   some { Obj := "\x7b\"count\":33,\"time_first\":19126549\x7d" },
   some { Cond := "succeeded" }]

/-- The error of a reader whose `Close` fails. -/
def exampleCloseError : GoError := GoError.other "close failed"

end saf

namespace dnsdb

/-- The document of `TestRRSet_UnmarshalJSON`, example 1a:
`{"count":1127,"num_results":2,"time_first":1557859313,"time_last":1560537333}`. -/
def exampleDocumentSummary : json.Document :=
  json.Document.object
    [("count", json.Document.number "1127"),
     ("num_results", json.Document.number "2"),
     ("time_first", json.Document.number "1557859313"),
     ("time_last", json.Document.number "1560537333")]

/-- The first record of `TestRRSet_UnmarshalJSON`, example 1, as `json.Unmarshal` decodes it
into `rrsetEncoded`: its `raw_rdata` is `abcd`. -/
def exampleEncodedRaw : rrsetEncoded :=
  { Count := 5059
    TimeFirst := 1380139330
    TimeLast := 1427881899
    RRName := "www.farsightsecurity.com."
    RRType := "A"
    Bailiwick := "farsightsecurity.com."
    RData := json.Value.array [json.Value.string "66.160.140.81"]
    RawRData := "abcd" }

/-- A record with a name, a count and the time `2013-09-25T20:02:10Z` it was first seen. -/
def exampleRecordSeen : RRSet :=
  { RRName := "www.farsightsecurity.com.", Count := 5059, TimeFirst := unix 1380139330 }

/-- A record with a name and a count, whose times are all zero. -/
def exampleRecordUnseen : RRSet :=
  { RRName := "www.farsightsecurity.com.", Count := 5059 }

end dnsdb

namespace flex

/-- An excerpt of `url.PathEscape`: the value and the type of `TestFlexSearch`, and a string of
ASCII letters, digits and the marks `-`, `_`, `.` and `~`, which it returns as it is. -/
def exampleEscape (s : String) : String :=
  if s = "foo*" then "foo%2A" else if s = "aa aa" then "aa%20aa" else s

end flex

namespace v2

/-- The client of `TestBaseURL/custom`. -/
def exampleClient : Client :=
  { Server := some { Scheme := "https", Host := "api.dnsdb.info", Path := "/test" }
    ClientName := "testClient"
    ClientVersion := "v1.2.3.4test1"
    ClientId := "test-abc-def" }

/-- An excerpt of `u.Query()`: the empty query, which has no parameter. -/
def exampleParseQuery (_ : String) : url.Values := []

/-- An excerpt of `v.Encode()`: the parameters `id`, `swclient` and `version` of
`TestBaseURL/custom`, whose values need no escape, in the sorted order of their keys. -/
def exampleEncode (v : url.Values) : String :=
  "id=" ++ url.Values.Get v "id" ++ "&swclient=" ++ url.Values.Get v "swclient" ++
    "&version=" ++ url.Values.Get v "version"

end v2

/-! ## Lemmas on the envelope decoder -/

namespace saf

variable {Line : Type}

theorem tick_eq_self (ctx : Context) (h : ctx.done = none) : ctx.tick = ctx := by
  cases ctx with
  | mk d e => simp only at h; subst h; rfl

theorem isDone_eq_false (ctx : Context) (h : ctx.done = none) : ctx.isDone = false := by
  cases ctx with
  | mk d e => simp only at h; subst h; rfl

theorem with_done_none (ctx : Context) (h : ctx.done = none) :
    { ctx with done := none } = ctx := by
  cases ctx with
  | mk d e => simp only at h; subst h; rfl

theorem noTerminal_nil (unmarshal : Line → Option Message) :
    noTerminal unmarshal [] = true := rfl

theorem noTerminal_cons_undecodable (unmarshal : Line → Option Message) (l : Line)
    (rest : List Line) (h : unmarshal l = none) :
    noTerminal unmarshal (l :: rest) = noTerminal unmarshal rest := by
  simp [noTerminal, h]

theorem noTerminal_cons_decodable (unmarshal : Line → Option Message) (l : Line)
    (rest : List Line) (m : Message) (h : unmarshal l = some m) :
    noTerminal unmarshal (l :: rest) = (!isTerminal m.Cond && noTerminal unmarshal rest) := by
  simp [noTerminal, h]

theorem noTerminal_append (unmarshal : Line → Option Message) (xs ys : List Line) :
    noTerminal unmarshal (xs ++ ys) = (noTerminal unmarshal xs && noTerminal unmarshal ys) := by
  simp [noTerminal, List.all_append]

theorem payloads_nil (unmarshal : Line → Option Message) : payloads unmarshal [] = [] := rfl

theorem payloads_cons_undecodable (unmarshal : Line → Option Message) (l : Line)
    (rest : List Line) (h : unmarshal l = none) :
    payloads unmarshal (l :: rest) = payloads unmarshal rest := by
  simp [payloads, List.filterMap_cons, h]

theorem payloads_cons_decodable (unmarshal : Line → Option Message) (l : Line)
    (rest : List Line) (m : Message) (h : unmarshal l = some m) :
    payloads unmarshal (l :: rest) = m.payload ++ payloads unmarshal rest := by
  simp [payloads, List.filterMap_cons, h]

theorem payloads_append (unmarshal : Line → Option Message) (xs ys : List Line) :
    payloads unmarshal (xs ++ ys) = payloads unmarshal xs ++ payloads unmarshal ys := by
  simp [payloads, List.filterMap_append]

theorem send_eq_payload (m : Message) (s : Stream) :
    (if m.Obj.length > 0 then { s with ch := s.ch ++ [m.Obj] } else s)
      = { s with ch := s.ch ++ m.payload } := by
  unfold Message.payload
  split <;> simp

/-- An undecodable line is passed over. -/
theorem scan_cons_undecodable (unmarshal : Line → Option Message) (ctx : Context)
    (l : Line) (rest : List Line) (s : Stream) (h : unmarshal l = none) :
    Stream.scan unmarshal ctx (l :: rest) s = Stream.scan unmarshal ctx rest s := by
  simp [Stream.scan, h]

/-- A line without terminal condition, under any context: either the pending send is
abandoned, or the payload is sent and the scan goes on. -/
theorem scan_cons_nonterminal_any (unmarshal : Line → Option Message) (ctx : Context)
    (l : Line) (rest : List Line) (s : Stream) (m : Message)
    (h : unmarshal l = some m) (hm : isTerminal m.Cond = false) :
    Stream.scan unmarshal ctx (l :: rest) s
      = if m.Obj.length > 0 ∧ ctx.isDone = true then
          { s with err := if s.err = none then some ctx.err else s.err }
        else Stream.scan unmarshal (if m.Obj.length > 0 then ctx.tick else ctx) rest
          { s with ch := s.ch ++ m.payload } := by
  have hs : m.Cond ≠ CondSucceeded := by
    intro hc; simp [isTerminal, hc] at hm
  have hl : m.Cond ≠ CondLimited := by
    intro hc; simp [isTerminal, hc] at hm
  have hf : m.Cond ≠ CondFailed := by
    intro hc; simp [isTerminal, hc] at hm
  simp only [Stream.scan, h, send_eq_payload]
  simp [hs, hl, hf]

/-- A line with a terminal condition, under any context: either the pending send is
abandoned, or the payload is sent and the scan ends. -/
theorem scan_cons_terminal_any (unmarshal : Line → Option Message) (ctx : Context)
    (l : Line) (rest : List Line) (s : Stream) (m : Message)
    (h : unmarshal l = some m) (hm : isTerminal m.Cond = true) :
    Stream.scan unmarshal ctx (l :: rest) s
      = if m.Obj.length > 0 ∧ ctx.isDone = true then
          { s with err := if s.err = none then some ctx.err else s.err }
        else Stream.finish m { s with ch := s.ch ++ m.payload } := by
  have hne : ¬ (m.Cond = "" ∨ m.Cond = CondOngoing) := by
    rintro (hc | hc) <;> rw [hc] at hm <;> revert hm <;> decide
  have hb : m.Cond ≠ CondBegin := by
    intro hc; rw [hc] at hm; revert hm; decide
  simp only [Stream.scan, h, send_eq_payload]
  simp only [Stream.finish]
  simp only [isTerminal, Bool.or_eq_true, beq_iff_eq] at hm
  simp only [if_neg hne, if_neg hb]
  by_cases h1 : m.Cond = CondSucceeded
  · simp [if_pos h1]
  · by_cases h2 : m.Cond = CondLimited
    · simp [if_neg h1, if_pos h2]
    · have h3 : m.Cond = CondFailed := by tauto
      simp [if_neg h1, if_neg h2, if_pos h3]

/-- Without cancellation a line without terminal condition only adds its payload. -/
theorem scan_cons_nonterminal (unmarshal : Line → Option Message) (ctx : Context)
    (l : Line) (rest : List Line) (s : Stream) (m : Message) (hctx : ctx.done = none)
    (h : unmarshal l = some m) (hm : isTerminal m.Cond = false) :
    Stream.scan unmarshal ctx (l :: rest) s
      = Stream.scan unmarshal ctx rest { s with ch := s.ch ++ m.payload } := by
  rw [scan_cons_nonterminal_any unmarshal ctx l rest s m h hm]
  simp [isDone_eq_false ctx hctx, tick_eq_self ctx hctx]

/-- Without cancellation a line with a terminal condition adds its payload and ends the scan. -/
theorem scan_cons_terminal (unmarshal : Line → Option Message) (ctx : Context)
    (l : Line) (rest : List Line) (s : Stream) (m : Message) (hctx : ctx.done = none)
    (h : unmarshal l = some m) (hm : isTerminal m.Cond = true) :
    Stream.scan unmarshal ctx (l :: rest) s
      = Stream.finish m { s with ch := s.ch ++ m.payload } := by
  rw [scan_cons_terminal_any unmarshal ctx l rest s m h hm]
  simp [isDone_eq_false ctx hctx]

/-- Without cancellation, lines without terminal condition only add their payloads. -/
theorem scan_append_nonterminal (unmarshal : Line → Option Message) (ctx : Context)
    (hctx : ctx.done = none) (pre rest : List Line) (hpre : noTerminal unmarshal pre = true)
    (s : Stream) :
    Stream.scan unmarshal ctx (pre ++ rest) s
      = Stream.scan unmarshal ctx rest { s with ch := s.ch ++ payloads unmarshal pre } := by
  induction pre generalizing s with
  | nil => simp [payloads_nil]
  | cons l pre ih =>
    cases hl : unmarshal l with
    | none =>
      rw [noTerminal_cons_undecodable unmarshal l pre hl] at hpre
      rw [List.cons_append, scan_cons_undecodable unmarshal ctx l _ s hl, ih hpre,
        payloads_cons_undecodable unmarshal l pre hl]
    | some m =>
      rw [noTerminal_cons_decodable unmarshal l pre m hl] at hpre
      simp only [Bool.and_eq_true, Bool.not_eq_true'] at hpre
      rw [List.cons_append, scan_cons_nonterminal unmarshal ctx l _ s m hctx hl hpre.1,
        ih hpre.2, payloads_cons_decodable unmarshal l pre m hl]
      simp [List.append_assoc]

/-- Without cancellation, the scan of lines whose first terminal line is `t`. -/
theorem scan_first_terminal (unmarshal : Line → Option Message) (ctx : Context)
    (hctx : ctx.done = none) (pre post : List Line) (t : Line) (m : Message)
    (hpre : noTerminal unmarshal pre = true) (ht : unmarshal t = some m)
    (hm : isTerminal m.Cond = true) (s : Stream) :
    Stream.scan unmarshal ctx (pre ++ t :: post) s
      = Stream.finish m { s with ch := s.ch ++ payloads unmarshal (pre ++ [t]) } := by
  rw [scan_append_nonterminal unmarshal ctx hctx pre _ hpre,
    scan_cons_terminal unmarshal ctx t post _ m hctx ht hm, payloads_append,
    payloads_cons_decodable unmarshal t [] m ht, payloads_nil]
  simp [List.append_assoc]

/-- Without cancellation, the scan of lines none of which is terminal. -/
theorem scan_no_terminal (unmarshal : Line → Option Message) (ctx : Context)
    (hctx : ctx.done = none) (lines : List Line) (h : noTerminal unmarshal lines = true)
    (s : Stream) :
    Stream.scan unmarshal ctx lines s
      = { s with ch := s.ch ++ payloads unmarshal lines, err := some ErrStreamTruncated } := by
  have key := scan_append_nonterminal unmarshal ctx hctx lines [] h s
  rw [List.append_nil] at key
  rw [key]
  simp [Stream.scan]

/-- Two continuations that are scanned alike are scanned alike after any common start. -/
theorem scan_append_congr (unmarshal : Line → Option Message) (xs ys : List Line)
    (h : ∀ ctx s, Stream.scan unmarshal ctx xs s = Stream.scan unmarshal ctx ys s)
    (pre : List Line) (ctx : Context) (s : Stream) :
    Stream.scan unmarshal ctx (pre ++ xs) s = Stream.scan unmarshal ctx (pre ++ ys) s := by
  induction pre generalizing ctx s with
  | nil => exact h ctx s
  | cons l pre ih =>
    simp only [List.cons_append]
    cases hl : unmarshal l with
    | none =>
      rw [scan_cons_undecodable unmarshal ctx l _ s hl,
        scan_cons_undecodable unmarshal ctx l _ s hl, ih]
    | some m =>
      cases hm : isTerminal m.Cond with
      | true =>
        rw [scan_cons_terminal_any unmarshal ctx l _ s m hl hm,
          scan_cons_terminal_any unmarshal ctx l _ s m hl hm]
      | false =>
        rw [scan_cons_nonterminal_any unmarshal ctx l _ s m hl hm,
          scan_cons_nonterminal_any unmarshal ctx l _ s m hl hm, ih]

/-- Undecodable lines are skipped, under any context. -/
theorem scan_filter_decodable (unmarshal : Line → Option Message) (lines : List Line)
    (ctx : Context) (s : Stream) :
    Stream.scan unmarshal ctx (lines.filter (fun l => (unmarshal l).isSome)) s
      = Stream.scan unmarshal ctx lines s := by
  induction lines generalizing ctx s with
  | nil => rfl
  | cons l lines ih =>
    cases hl : unmarshal l with
    | none =>
      rw [List.filter_cons_of_neg (by simp [hl]), scan_cons_undecodable unmarshal ctx l _ s hl,
        ih]
    | some m =>
      rw [List.filter_cons_of_pos (by simp [hl])]
      cases hm : isTerminal m.Cond with
      | true =>
        rw [scan_cons_terminal_any unmarshal ctx l _ s m hl hm,
          scan_cons_terminal_any unmarshal ctx l _ s m hl hm]
      | false =>
        rw [scan_cons_nonterminal_any unmarshal ctx l _ s m hl hm,
          scan_cons_nonterminal_any unmarshal ctx l _ s m hl hm, ih]

end saf

namespace bufio

variable {Line : Type}

/-- The lines at the start of a body that fit in the buffer are tokens, and the scanner goes
on with the lines after them. -/
theorem tokens_append_of_fit (size : Line → Nat) (pre rest : List Line)
    (h : ∀ l ∈ pre, size l < MaxScanTokenSize) :
    Scanner.tokens size (pre ++ rest) = pre ++ Scanner.tokens size rest := by
  induction pre with
  | nil => rfl
  | cons l pre ih =>
    have hl : size l < MaxScanTokenSize := h l (List.mem_cons_self l pre)
    rw [List.cons_append]
    simp only [Scanner.tokens, if_pos hl]
    rw [ih (fun x hx => h x (List.mem_cons_of_mem l hx))]
    rfl

/-- When every line of a body fits in the buffer, the tokens are the lines. -/
theorem tokens_of_fit (size : Line → Nat) (lines : List Line)
    (h : ∀ l ∈ lines, size l < MaxScanTokenSize) :
    Scanner.tokens size lines = lines := by
  have key := tokens_append_of_fit size lines [] h
  rw [List.append_nil] at key
  rw [key]
  simp [Scanner.tokens]

/-- The tokens of a body are the lines at its start. -/
theorem tokens_prefix (size : Line → Nat) (lines : List Line) :
    ∃ rest, lines = Scanner.tokens size lines ++ rest := by
  induction lines with
  | nil => exact ⟨[], rfl⟩
  | cons l lines ih =>
    by_cases hl : size l < MaxScanTokenSize
    · obtain ⟨rest, hrest⟩ := ih
      refine ⟨rest, ?_⟩
      simp only [Scanner.tokens, if_pos hl, List.cons_append]
      rw [← hrest]
    · exact ⟨l :: lines, by simp [Scanner.tokens, hl]⟩

/-- The tokens that pass a test are those of the body without the lines that fit in the buffer
and fail the test. -/
theorem filter_tokens (size : Line → Nat) (p : Line → Bool) (lines : List Line) :
    (Scanner.tokens size lines).filter p
      = (Scanner.tokens size
          (lines.filter (fun l => p l || decide (MaxScanTokenSize ≤ size l)))).filter p := by
  induction lines with
  | nil => rfl
  | cons l lines ih =>
    by_cases hl : size l < MaxScanTokenSize
    · have hle : ¬ MaxScanTokenSize ≤ size l := Nat.not_le.mpr hl
      cases hp : p l with
      | true =>
        rw [List.filter_cons_of_pos (by simp [hp])]
        simp only [Scanner.tokens, if_pos hl]
        rw [List.filter_cons_of_pos hp, List.filter_cons_of_pos hp, ih]
      | false =>
        rw [List.filter_cons_of_neg (by simp [hp, hle])]
        simp only [Scanner.tokens, if_pos hl]
        rw [List.filter_cons_of_neg (by simp [hp]), ih]
    · have hle : MaxScanTokenSize ≤ size l := Nat.not_lt.mp hl
      rw [List.filter_cons_of_pos (by simp [hle])]
      simp only [Scanner.tokens, if_neg hl]

end bufio

namespace saf

variable {Line : Type}

/-- No token has a terminal condition when no line has. -/
theorem noTerminal_tokens (unmarshal : Line → Option Message) (size : Line → Nat)
    (lines : List Line) (h : noTerminal unmarshal lines = true) :
    noTerminal unmarshal (bufio.Scanner.tokens size lines) = true := by
  obtain ⟨rest, hrest⟩ := bufio.tokens_prefix size lines
  rw [hrest, noTerminal_append] at h
  simp only [Bool.and_eq_true] at h
  exact h.1

end saf

/-! ## The envelope decoder: theorems -/

namespace saf

variable {Line : Type}

/-- Without cancellation and with a reader whose `Close` reports no error: when the first
terminal condition among the tokens is `succeeded`, on the token `t`, the terminal error is
none, the channel is closed, and the payloads delivered are those of the tokens up to and
including `t`, in order. -/
theorem Run_first_succeeded (unmarshal : Line → Option Message)
    (ctx : Context) (pre post : List Line) (t : Line) (m : Message) (closerRan : Bool)
    (hctx : ctx.done = none) (hpre : noTerminal unmarshal pre = true)
    (ht : unmarshal t = some m) (hm : m.Cond = CondSucceeded) :
    (Stream.Run unmarshal ctx (pre ++ t :: post) none closerRan).Err = none ∧
    (Stream.Run unmarshal ctx (pre ++ t :: post) none closerRan).Ch
      = payloads unmarshal (pre ++ [t]) ∧
    (Stream.Run unmarshal ctx (pre ++ t :: post) none closerRan).closed = true := by
  have hterm : isTerminal m.Cond = true := by rw [hm]; decide
  simp only [Stream.Run, Stream.run,
    scan_first_terminal unmarshal ctx hctx pre post t m hpre ht hterm, Stream.finish, hm]
  cases closerRan <;> simp [Stream.closer, Stream.Err, Stream.Ch]

/-- Without cancellation: when no token carries a terminal condition, the payloads of the
tokens are delivered in order, the channel is closed and the terminal error is
`ErrStreamTruncated`. -/
theorem Run_no_terminal (unmarshal : Line → Option Message)
    (ctx : Context) (lines : List Line) (closeErr : Option GoError) (closerRan : Bool)
    (hctx : ctx.done = none) (hlines : noTerminal unmarshal lines = true) :
    (Stream.Run unmarshal ctx lines closeErr closerRan).Err = some ErrStreamTruncated ∧
    (Stream.Run unmarshal ctx lines closeErr closerRan).Ch = payloads unmarshal lines ∧
    (Stream.Run unmarshal ctx lines closeErr closerRan).closed = true := by
  simp only [Stream.Run, Stream.run, scan_no_terminal unmarshal ctx hctx lines hlines]
  cases closerRan <;> simp [Stream.closer, Stream.Err, Stream.Ch]

/-- Without cancellation: when the first terminal token `t` has condition `limited` or `failed`
and message `m.Msg`, the payloads delivered are those of the tokens up to and including `t`, in
order, and the terminal error is `Error(cond, msg)`, a `safError` whose text is
`saf stream <cond>: <msg>` when the message is not empty and `<cond>` alone when it is. -/
theorem Run_first_limited_or_failed (unmarshal : Line → Option Message)
    (ctx : Context) (pre post : List Line) (t : Line) (m : Message)
    (closeErr : Option GoError) (closerRan : Bool)
    (hctx : ctx.done = none) (hpre : noTerminal unmarshal pre = true)
    (ht : unmarshal t = some m) (hm : m.Cond = CondLimited ∨ m.Cond = CondFailed) :
    (Stream.Run unmarshal ctx (pre ++ t :: post) closeErr closerRan).Err
      = some (Error m.Cond m.Msg) ∧
    (Stream.Run unmarshal ctx (pre ++ t :: post) closeErr closerRan).Ch
      = payloads unmarshal pre ++ m.payload ∧
    (∃ e, Error m.Cond m.Msg = GoError.saf e ∧
      safError.Error e
        = if m.Msg = "" then m.Cond else "saf stream " ++ m.Cond ++ ": " ++ m.Msg) := by
  have hterm : isTerminal m.Cond = true := by
    rcases hm with hm | hm <;> rw [hm] <;> decide
  have hs : m.Cond ≠ CondSucceeded := by
    rcases hm with hm | hm <;> rw [hm] <;> decide
  refine ⟨?_, ?_, ?_⟩
  · simp only [Stream.Run, Stream.run,
      scan_first_terminal unmarshal ctx hctx pre post t m hpre ht hterm, Stream.finish,
      if_neg hs]
    by_cases hl : m.Cond = CondLimited
    · cases closerRan <;> simp [hl, Stream.closer, Stream.Err]
    · cases closerRan <;> simp [hl, Stream.closer, Stream.Err]
  · simp only [Stream.Run, Stream.run,
      scan_first_terminal unmarshal ctx hctx pre post t m hpre ht hterm, Stream.finish,
      if_neg hs, payloads_append, payloads_cons_decodable unmarshal t [] m ht, payloads_nil]
    by_cases hl : m.Cond = CondLimited
    · cases closerRan <;> simp [hl, Stream.closer, Stream.Ch]
    · cases closerRan <;> simp [hl, Stream.closer, Stream.Ch]
  · by_cases hmsg : m.Msg = ""
    · exact ⟨m.Cond, by simp [Error, hmsg], by simp [safError.Error, hmsg]⟩
    · exact ⟨"saf stream " ++ m.Cond ++ ": " ++ m.Msg, by simp [Error, hmsg],
        by simp [safError.Error, hmsg]⟩

/-- Without cancellation: when the first terminal token `t` also carries a payload, that
payload is delivered as the last payload of the stream, and the stream ends in the same state
(same payloads, same terminal error) as when the payload stands on a token of its own, `p`,
followed by the terminal condition and message on the next token, `c`. -/
theorem Run_terminal_with_payload (unmarshal : Line → Option Message)
    (ctx : Context) (pre post : List Line) (t p c : Line) (m : Message)
    (closeErr : Option GoError) (closerRan : Bool)
    (hctx : ctx.done = none) (hpre : noTerminal unmarshal pre = true)
    (ht : unmarshal t = some m) (hm : isTerminal m.Cond = true) (hobj : m.Obj.length > 0)
    (hp : unmarshal p = some { Obj := m.Obj })
    (hc : unmarshal c = some { Cond := m.Cond, Msg := m.Msg }) :
    (Stream.Run unmarshal ctx (pre ++ t :: post) closeErr closerRan).Ch
      = payloads unmarshal pre ++ [m.Obj] ∧
    (Stream.Run unmarshal ctx (pre ++ t :: post) closeErr closerRan).Err
      = (Stream.Run unmarshal ctx (pre ++ p :: c :: post) closeErr closerRan).Err ∧
    (Stream.Run unmarshal ctx (pre ++ t :: post) closeErr closerRan).Ch
      = (Stream.Run unmarshal ctx (pre ++ p :: c :: post) closeErr closerRan).Ch := by
  have hpay : m.payload = [m.Obj] := by simp [Message.payload, hobj]
  have hpre' : noTerminal unmarshal (pre ++ [p]) = true := by
    rw [noTerminal_append, hpre, noTerminal_cons_decodable unmarshal p [] _ hp]
    rfl
  have hsplit : pre ++ p :: c :: post = (pre ++ [p]) ++ c :: post := by simp
  have hleft := scan_first_terminal unmarshal ctx hctx pre post t m hpre ht hm {}
  have hright := scan_first_terminal unmarshal ctx hctx (pre ++ [p]) post c
    { Cond := m.Cond, Msg := m.Msg } hpre' hc hm {}
  have hpl : payloads unmarshal (pre ++ [t]) = payloads unmarshal pre ++ [m.Obj] := by
    rw [payloads_append, payloads_cons_decodable unmarshal t [] m ht, payloads_nil, hpay]
    simp
  have hpr : payloads unmarshal (pre ++ [p] ++ [c]) = payloads unmarshal pre ++ [m.Obj] := by
    rw [payloads_append, payloads_append, payloads_cons_decodable unmarshal p [] _ hp,
      payloads_cons_decodable unmarshal c [] _ hc, payloads_nil]
    simp [Message.payload, hobj]
  have hfin : ∀ s : Stream,
      Stream.finish { Cond := m.Cond, Msg := m.Msg } s = Stream.finish m s := fun _ => rfl
  have hsame : Stream.Run unmarshal ctx (pre ++ t :: post) closeErr closerRan
      = Stream.Run unmarshal ctx (pre ++ p :: c :: post) closeErr closerRan := by
    simp only [Stream.Run, Stream.run, hsplit, hleft, hright, hpl, hpr, hfin]
  refine ⟨?_, by rw [hsame], by rw [hsame]⟩
  simp only [Stream.Run, Stream.run, hleft, hpl, Stream.finish]
  cases closerRan <;> simp only [Stream.closer, Stream.Ch] <;> (repeat' split) <;> simp

/-- C6. Under any context: the state in which the decoder ends (payloads delivered, terminal
error) is the same for two inputs that agree up to and including a decodable line with a
terminal condition; whatever follows that line, payload lines or a second terminal condition
included, is not read. -/
theorem lines_after_terminal_are_not_read (unmarshal : Line → Option Message)
    (ctx : Context) (pre post post' : List Line) (t : Line) (m : Message)
    (closeErr : Option GoError) (closerRan : Bool)
    (ht : unmarshal t = some m) (hm : isTerminal m.Cond = true) :
    Stream.Run unmarshal ctx (pre ++ t :: post) closeErr closerRan
      = Stream.Run unmarshal ctx (pre ++ t :: post') closeErr closerRan := by
  have key : ∀ ctx s, Stream.scan unmarshal ctx (t :: post) s
      = Stream.scan unmarshal ctx (t :: post') s := fun ctx s => by
    rw [scan_cons_terminal_any unmarshal ctx t post s m ht hm,
      scan_cons_terminal_any unmarshal ctx t post' s m ht hm]
  simp only [Stream.Run, Stream.run, scan_append_congr unmarshal _ _ key pre ctx]

/-- A payload line and a `failed` line after `succeeded` change nothing. -/
theorem lines_after_terminal_are_not_read_witness :
    isTerminal "succeeded" = true ∧
    Stream.Run id (Context.mk none GoError.canceled)
        ([some { Cond := "begin" }] ++ some { Cond := "succeeded" } ::
          [some { Obj := "\x7b\"count\":33,\"time_first\":19126549\x7d" },
           some { Cond := "failed", Msg := "late" }]) none true
      = Stream.Run id (Context.mk none GoError.canceled)
        ([some { Cond := "begin" }] ++ some { Cond := "succeeded" } :: []) none true :=
  ⟨by decide,
    lines_after_terminal_are_not_read id (Context.mk none GoError.canceled)
      [some { Cond := "begin" }]
      [some { Obj := "\x7b\"count\":33,\"time_first\":19126549\x7d" },
       some { Cond := "failed", Msg := "late" }] []
      (some { Cond := "succeeded" }) { Cond := "succeeded" } none true rfl (by decide)⟩

/-- Under any context: a token that does not decode as an envelope is skipped whole. Two
lists of tokens with the same decodable tokens in the same order end the decoder in the same
state (payloads delivered, terminal error). -/
theorem Run_filter_decodable (unmarshal : Line → Option Message)
    (ctx : Context) (lines lines' : List Line) (closeErr : Option GoError) (closerRan : Bool)
    (h : lines.filter (fun l => (unmarshal l).isSome)
      = lines'.filter (fun l => (unmarshal l).isSome)) :
    Stream.Run unmarshal ctx lines closeErr closerRan
      = Stream.Run unmarshal ctx lines' closeErr closerRan := by
  have key : ∀ s, Stream.scan unmarshal ctx lines s = Stream.scan unmarshal ctx lines' s :=
    fun s => by
      rw [← scan_filter_decodable unmarshal lines ctx s, h,
        scan_filter_decodable unmarshal lines' ctx s]
  simp only [Stream.Run, Stream.run, key]

/-- C8. Under any context: a condition other than `succeeded`, `limited` and `failed` (none,
`ongoing`, `begin` or an unknown token) does not end the stream. Replacing the condition of a
line by another such token, the payload kept, leaves the state in which the decoder ends
unchanged; and without cancellation the line only delivers its payload, the scan going on with
the lines after it. -/
theorem nonterminal_conditions_are_interchangeable (unmarshal : Line → Option Message)
    (ctx : Context) (pre post : List Line) (l l' : Line) (m m' : Message)
    (closeErr : Option GoError) (closerRan : Bool)
    (hl : unmarshal l = some m) (hl' : unmarshal l' = some m') (hobj : m'.Obj = m.Obj)
    (hm : isTerminal m.Cond = false) (hm' : isTerminal m'.Cond = false) :
    Stream.Run unmarshal ctx (pre ++ l :: post) closeErr closerRan
      = Stream.Run unmarshal ctx (pre ++ l' :: post) closeErr closerRan ∧
    (ctx.done = none → ∀ s : Stream,
      Stream.scan unmarshal ctx (l :: post) s
        = Stream.scan unmarshal ctx post { s with ch := s.ch ++ m.payload }) := by
  have key : ∀ ctx s, Stream.scan unmarshal ctx (l :: post) s
      = Stream.scan unmarshal ctx (l' :: post) s := fun ctx s => by
    rw [scan_cons_nonterminal_any unmarshal ctx l post s m hl hm,
      scan_cons_nonterminal_any unmarshal ctx l' post s m' hl' hm']
    simp only [Message.payload, hobj]
  refine ⟨?_, fun hctx s => scan_cons_nonterminal unmarshal ctx l post s m hctx hl hm⟩
  simp only [Stream.Run, Stream.run, scan_append_congr unmarshal _ _ key pre ctx]

/-- In `exampleOngoing` the condition `ongoing` of the payload line can be replaced by the unknown
token `invalid`; the payload is delivered. -/
theorem nonterminal_conditions_are_interchangeable_witness :
    isTerminal "ongoing" = false ∧ isTerminal "invalid" = false ∧
    Stream.Run id (Context.mk none GoError.canceled) exampleOngoing none true
      = Stream.Run id (Context.mk none GoError.canceled)
          [some { Cond := "begin" },
           some { Cond := "invalid",
                  Obj := "\x7b\"count\":10392,\"time_first\":138126549\x7d" },
           some { Cond := "succeeded" }] none true ∧
    (Stream.Run id (Context.mk none GoError.canceled) exampleOngoing none true).Ch
      = ["\x7b\"count\":10392,\"time_first\":138126549\x7d"] :=
  have h := nonterminal_conditions_are_interchangeable id (Context.mk none GoError.canceled)
    [some { Cond := "begin" }] [some { Cond := "succeeded" }]
    (some { Cond := "ongoing", Obj := "\x7b\"count\":10392,\"time_first\":138126549\x7d" })
    (some { Cond := "invalid", Obj := "\x7b\"count\":10392,\"time_first\":138126549\x7d" })
    { Cond := "ongoing", Obj := "\x7b\"count\":10392,\"time_first\":138126549\x7d" }
    { Cond := "invalid", Obj := "\x7b\"count\":10392,\"time_first\":138126549\x7d" }
    none true rfl rfl rfl (by decide) (by decide)
  ⟨by decide, by decide, h.1, by decide⟩

end saf

namespace saf

variable {Line : Type}

/-- C1, amended. Without cancellation and with a reader whose `Close` reports no error, for a
body given by its lines, `size` being the number of bytes of a line: when the first terminal
condition among the lines is `succeeded`, on line `t`, and `t` and every line before it has
fewer than 64 KiB (`bufio.MaxScanTokenSize`), the terminal error is none, the channel is closed,
and the payloads delivered are exactly the non-empty `obj` values of the decodable lines up to
and including `t`, each once and in line order; this holds whether or not the closer has run by
the time the error is read. -/
theorem succeeded_stream_delivers_all_without_error (unmarshal : Line → Option Message)
    (size : Line → Nat) (ctx : Context) (pre post : List Line) (t : Line) (m : Message)
    (closerRan : Bool)
    (hctx : ctx.done = none) (hpre : noTerminal unmarshal pre = true)
    (ht : unmarshal t = some m) (hm : m.Cond = CondSucceeded)
    (hsize : ∀ l ∈ pre ++ [t], size l < bufio.MaxScanTokenSize) :
    (Stream.Run unmarshal ctx (bufio.Scanner.tokens size (pre ++ t :: post)) none
      closerRan).Err = none ∧
    (Stream.Run unmarshal ctx (bufio.Scanner.tokens size (pre ++ t :: post)) none
      closerRan).Ch = payloads unmarshal (pre ++ [t]) ∧
    (Stream.Run unmarshal ctx (bufio.Scanner.tokens size (pre ++ t :: post)) none
      closerRan).closed = true := by
  have e : bufio.Scanner.tokens size (pre ++ t :: post)
      = pre ++ t :: bufio.Scanner.tokens size post := by
    have h := bufio.tokens_append_of_fit size (pre ++ [t]) post hsize
    simpa using h
  rw [e]
  exact Run_first_succeeded unmarshal ctx pre _ t m closerRan hctx hpre ht hm

/-- The body of `TestStream/simple successful example` followed by a payload line: the payload
before `succeeded` is delivered and the error is none, for either timing of the closer. -/
theorem succeeded_stream_delivers_all_without_error_witness :
    (∀ l ∈ exampleSucceededSized.take 2 ++ [(some { Cond := "succeeded" }, 21)],
      l.2 < bufio.MaxScanTokenSize) ∧
    (Stream.Run Prod.fst (Context.mk none GoError.canceled)
      (bufio.Scanner.tokens Prod.snd exampleSucceededSized) none true).Err = none ∧
    (Stream.Run Prod.fst (Context.mk none GoError.canceled)
      (bufio.Scanner.tokens Prod.snd exampleSucceededSized) none true).Ch
        = ["\x7b\"count\":10392,\"time_first\":138126549\x7d"] :=
  have h := succeeded_stream_delivers_all_without_error Prod.fst Prod.snd
    (Context.mk none GoError.canceled) (exampleSucceededSized.take 2)
    (exampleSucceededSized.drop 3) (some { Cond := "succeeded" }, 21) { Cond := "succeeded" }
    true rfl (by decide) rfl rfl (by decide)
  ⟨by decide, h.1, h.2.1.trans (by decide)⟩

/-- Counterexample to C1 as it is stated: in `exampleSucceededLong` the first terminal condition
is `succeeded`, on the fourth line, and the third line has 70000 bytes. The scanner stops at
the third line: the stream ends with `ErrStreamTruncated`, not without error, and the payload
of the third line is not delivered. -/
theorem long_line_before_succeeded_truncates :
    noTerminal Prod.fst (exampleSucceededLong.take 3) = true ∧
    (exampleSucceededLong.drop 3).map Prod.fst = [some { Cond := "succeeded" }] ∧
    (Stream.Run Prod.fst (Context.mk none GoError.canceled)
      (bufio.Scanner.tokens Prod.snd exampleSucceededLong) none true).Err
        = some ErrStreamTruncated ∧
    (Stream.Run Prod.fst (Context.mk none GoError.canceled)
      (bufio.Scanner.tokens Prod.snd exampleSucceededLong) none true).Ch
        = ["\x7b\"count\":10392,\"time_first\":138126549\x7d"] ∧
    payloads Prod.fst exampleSucceededLong
      = ["\x7b\"count\":10392,\"time_first\":138126549\x7d",
         "\x7b\"count\":33,\"time_first\":19126549\x7d"] := by
  decide

/-- C2, amended. Without cancellation, for a body given by its lines, `size` being the number of
bytes of a line: when no decodable line carries a terminal condition (the empty input and an
input whose last line is cut off included), the channel is closed, the terminal error is
`ErrStreamTruncated`, and the payloads delivered are the non-empty payloads, in line order, of
the lines before the first line of 64 KiB or more (`bufio.MaxScanTokenSize`), at which the
scanner stops: of every line when every line is shorter. -/
theorem stream_without_terminal_is_truncated (unmarshal : Line → Option Message)
    (size : Line → Nat) (ctx : Context) (lines : List Line) (closeErr : Option GoError)
    (closerRan : Bool)
    (hctx : ctx.done = none) (hlines : noTerminal unmarshal lines = true) :
    (Stream.Run unmarshal ctx (bufio.Scanner.tokens size lines) closeErr closerRan).Err
      = some ErrStreamTruncated ∧
    (Stream.Run unmarshal ctx (bufio.Scanner.tokens size lines) closeErr closerRan).Ch
      = payloads unmarshal (bufio.Scanner.tokens size lines) ∧
    (Stream.Run unmarshal ctx (bufio.Scanner.tokens size lines) closeErr closerRan).closed
      = true ∧
    ((∀ l ∈ lines, size l < bufio.MaxScanTokenSize) →
      (Stream.Run unmarshal ctx (bufio.Scanner.tokens size lines) closeErr closerRan).Ch
        = payloads unmarshal lines) := by
  have h := Run_no_terminal unmarshal ctx (bufio.Scanner.tokens size lines) closeErr closerRan
    hctx (noTerminal_tokens unmarshal size lines hlines)
  refine ⟨h.1, h.2.1, h.2.2, fun hsize => ?_⟩
  rw [h.2.1, bufio.tokens_of_fit size lines hsize]

/-- A body whose last line is cut off, and the empty body: the error is `ErrStreamTruncated`
and the payload is delivered. -/
theorem stream_without_terminal_is_truncated_witness :
    noTerminal Prod.fst exampleTruncatedSized = true ∧
    (Stream.Run Prod.fst (Context.mk none GoError.canceled)
      (bufio.Scanner.tokens Prod.snd exampleTruncatedSized) none false).Err
        = some ErrStreamTruncated ∧
    (Stream.Run Prod.fst (Context.mk none GoError.canceled)
      (bufio.Scanner.tokens Prod.snd exampleTruncatedSized) none false).Ch
        = ["\x7b\"count\":1\x7d"] :=
  have h := stream_without_terminal_is_truncated Prod.fst Prod.snd
    (Context.mk none GoError.canceled) exampleTruncatedSized none false rfl (by decide)
  ⟨by decide, h.1, (h.2.2.2 (by decide)).trans (by decide)⟩

/-- Counterexample to C2 as it is stated: `exampleTruncatedLong` has no terminal condition and
three payloads, the second on a line of 70000 bytes. The scanner stops at that line: only the
first payload is delivered, not every payload. -/
theorem payloads_after_a_long_line_are_lost :
    noTerminal Prod.fst exampleTruncatedLong = true ∧
    (Stream.Run Prod.fst (Context.mk none GoError.canceled)
      (bufio.Scanner.tokens Prod.snd exampleTruncatedLong) none false).Ch
        = ["\x7b\"count\":1\x7d"] ∧
    payloads Prod.fst exampleTruncatedLong
      = ["\x7b\"count\":1\x7d", "\x7b\"count\":2\x7d", "\x7b\"count\":3\x7d"] := by
  decide

/-- C4, amended. Without cancellation, for a body given by its lines, `size` being the number of
bytes of a line: when the first terminal line `t` has condition `limited` or `failed` and
message `m.Msg`, and `t` and every line before it has fewer than 64 KiB
(`bufio.MaxScanTokenSize`), the payloads delivered are those of the lines up to and including
`t`, in line order, and the terminal error is `Error(cond, msg)`, a `safError` whose text is
`saf stream <cond>: <msg>` when the message is not empty and `<cond>` alone when it is. -/
theorem limited_or_failed_stream_error (unmarshal : Line → Option Message)
    (size : Line → Nat) (ctx : Context) (pre post : List Line) (t : Line) (m : Message)
    (closeErr : Option GoError) (closerRan : Bool)
    (hctx : ctx.done = none) (hpre : noTerminal unmarshal pre = true)
    (ht : unmarshal t = some m) (hm : m.Cond = CondLimited ∨ m.Cond = CondFailed)
    (hsize : ∀ l ∈ pre ++ [t], size l < bufio.MaxScanTokenSize) :
    (Stream.Run unmarshal ctx (bufio.Scanner.tokens size (pre ++ t :: post)) closeErr
      closerRan).Err = some (Error m.Cond m.Msg) ∧
    (Stream.Run unmarshal ctx (bufio.Scanner.tokens size (pre ++ t :: post)) closeErr
      closerRan).Ch = payloads unmarshal pre ++ m.payload ∧
    (∃ e, Error m.Cond m.Msg = GoError.saf e ∧
      safError.Error e
        = if m.Msg = "" then m.Cond else "saf stream " ++ m.Cond ++ ": " ++ m.Msg) := by
  have e : bufio.Scanner.tokens size (pre ++ t :: post)
      = pre ++ t :: bufio.Scanner.tokens size post := by
    have h := bufio.tokens_append_of_fit size (pre ++ [t]) post hsize
    simpa using h
  rw [e]
  exact Run_first_limited_or_failed unmarshal ctx pre _ t m closeErr closerRan hctx hpre ht hm

/-- The body of `TestStream/limited example`: both payloads are delivered and the error reads
`saf stream limited: Query limit reached`. -/
theorem limited_or_failed_stream_error_witness :
    (∀ l ∈ exampleLimitedSized.take 3 ++
        [(some { Cond := "limited", Msg := "Query limit reached" }, 49)],
      l.2 < bufio.MaxScanTokenSize) ∧
    (Stream.Run Prod.fst (Context.mk none GoError.canceled)
      (bufio.Scanner.tokens Prod.snd exampleLimitedSized) none false).Err
        = some (GoError.saf "saf stream limited: Query limit reached") ∧
    (Stream.Run Prod.fst (Context.mk none GoError.canceled)
      (bufio.Scanner.tokens Prod.snd exampleLimitedSized) none false).Ch
        = ["\x7b\"count\":10392,\"time_first\":138126549\x7d",
           "\x7b\"count\":33,\"time_first\":19126549\x7d"] :=
  have h := limited_or_failed_stream_error Prod.fst Prod.snd
    (Context.mk none GoError.canceled) (exampleLimitedSized.take 3) []
    (some { Cond := "limited", Msg := "Query limit reached" }, 49)
    { Cond := "limited", Msg := "Query limit reached" } none false rfl (by decide) rfl
    (Or.inl rfl) (by decide)
  ⟨by decide, h.1.trans (by decide), h.2.1.trans (by decide)⟩

/-- Counterexample to C4 as it is stated: in `exampleLimitedLong` the first terminal line has the
condition `limited` and the message `Query limit reached`, and the second line has 70000 bytes.
The scanner stops at the second line: the terminal error is `ErrStreamTruncated`, not
`Error(limited, Query limit reached)`, and no payload is delivered. -/
theorem long_line_before_limited_truncates :
    noTerminal Prod.fst (exampleLimitedLong.take 3) = true ∧
    (exampleLimitedLong.drop 3).map Prod.fst
      = [some { Cond := "limited", Msg := "Query limit reached" }] ∧
    (Stream.Run Prod.fst (Context.mk none GoError.canceled)
      (bufio.Scanner.tokens Prod.snd exampleLimitedLong) none false).Err
        = some ErrStreamTruncated ∧
    Error "limited" "Query limit reached"
      = GoError.saf "saf stream limited: Query limit reached" ∧
    (Stream.Run Prod.fst (Context.mk none GoError.canceled)
      (bufio.Scanner.tokens Prod.snd exampleLimitedLong) none false).Ch = [] ∧
    payloads Prod.fst (exampleLimitedLong.take 3)
      = ["\x7b\"count\":10392,\"time_first\":138126549\x7d",
         "\x7b\"count\":33,\"time_first\":19126549\x7d"] := by
  decide

/-- C5, amended. Without cancellation, for a body given by its lines, `size` being the number of
bytes of a line: when the first terminal line `t` also carries a payload, and `t` and every
line before it has fewer than 64 KiB (`bufio.MaxScanTokenSize`), that payload is delivered as
the last payload of the stream, and the stream ends in the same state (same payloads, same
terminal error) as when the payload stands on a line of its own, `p`, followed by the terminal
condition and message on the next line, `c`, both shorter than 64 KiB too. -/
theorem payload_of_terminal_line_is_delivered_last (unmarshal : Line → Option Message)
    (size : Line → Nat) (ctx : Context) (pre post : List Line) (t p c : Line) (m : Message)
    (closeErr : Option GoError) (closerRan : Bool)
    (hctx : ctx.done = none) (hpre : noTerminal unmarshal pre = true)
    (ht : unmarshal t = some m) (hm : isTerminal m.Cond = true) (hobj : m.Obj.length > 0)
    (hp : unmarshal p = some { Obj := m.Obj })
    (hc : unmarshal c = some { Cond := m.Cond, Msg := m.Msg })
    (hsize : ∀ l ∈ pre ++ [t, p, c], size l < bufio.MaxScanTokenSize) :
    (Stream.Run unmarshal ctx (bufio.Scanner.tokens size (pre ++ t :: post)) closeErr
      closerRan).Ch = payloads unmarshal pre ++ [m.Obj] ∧
    (Stream.Run unmarshal ctx (bufio.Scanner.tokens size (pre ++ t :: post)) closeErr
      closerRan).Err
      = (Stream.Run unmarshal ctx (bufio.Scanner.tokens size (pre ++ p :: c :: post)) closeErr
          closerRan).Err ∧
    (Stream.Run unmarshal ctx (bufio.Scanner.tokens size (pre ++ t :: post)) closeErr
      closerRan).Ch
      = (Stream.Run unmarshal ctx (bufio.Scanner.tokens size (pre ++ p :: c :: post)) closeErr
          closerRan).Ch := by
  have e1 : bufio.Scanner.tokens size (pre ++ t :: post)
      = pre ++ t :: bufio.Scanner.tokens size post := by
    have h := bufio.tokens_append_of_fit size (pre ++ [t]) post
      (fun l hl => hsize l (by
        simp only [List.mem_append, List.mem_cons, List.mem_singleton, List.not_mem_nil,
          or_false] at hl ⊢
        tauto))
    simpa using h
  have e2 : bufio.Scanner.tokens size (pre ++ p :: c :: post)
      = pre ++ p :: c :: bufio.Scanner.tokens size post := by
    have h := bufio.tokens_append_of_fit size (pre ++ [p, c]) post
      (fun l hl => hsize l (by
        simp only [List.mem_append, List.mem_cons, List.mem_singleton, List.not_mem_nil,
          or_false] at hl ⊢
        tauto))
    simpa using h
  rw [e1, e2]
  exact Run_terminal_with_payload unmarshal ctx pre _ t p c m closeErr closerRan hctx hpre ht
    hm hobj hp hc

/-- The body of `TestStream/limited with object example`: the payload of the `limited` line is
delivered last, and the stream ends as it does when the payload and the condition stand on two
lines. -/
theorem payload_of_terminal_line_is_delivered_last_witness :
    (∀ l ∈ exampleSucceededSized.take 2 ++
        [exampleTerminalLine, examplePayloadLine, exampleConditionLine],
      l.2 < bufio.MaxScanTokenSize) ∧
    (Stream.Run Prod.fst (Context.mk none GoError.canceled)
      (bufio.Scanner.tokens Prod.snd (exampleSucceededSized.take 2 ++ exampleTerminalLine :: []))
      none false).Ch
        = ["\x7b\"count\":10392,\"time_first\":138126549\x7d",
           "\x7b\"count\":33,\"time_first\":19126549\x7d"] ∧
    (Stream.Run Prod.fst (Context.mk none GoError.canceled)
      (bufio.Scanner.tokens Prod.snd (exampleSucceededSized.take 2 ++ exampleTerminalLine :: []))
      none false).Err
      = (Stream.Run Prod.fst (Context.mk none GoError.canceled)
          (bufio.Scanner.tokens Prod.snd
            (exampleSucceededSized.take 2 ++ examplePayloadLine :: exampleConditionLine :: []))
          none false).Err :=
  have h := payload_of_terminal_line_is_delivered_last Prod.fst Prod.snd
    (Context.mk none GoError.canceled) (exampleSucceededSized.take 2) []
    exampleTerminalLine examplePayloadLine exampleConditionLine
    { Cond := "limited", Msg := "Query limit reached",
      Obj := "\x7b\"count\":33,\"time_first\":19126549\x7d" }
    none false rfl (by decide) rfl (by decide) (by decide) rfl rfl (by decide)
  ⟨by decide, h.1.trans (by decide), h.2.1⟩

/-- Counterexample to C5 as it is stated: the line `exampleTerminalLineWide` carries a payload
and the condition `limited` and has 65548 bytes; the payload alone stands on a line of 65500
bytes. The scanner stops at the line that carries both: its payload is not delivered and the
terminal error is `ErrStreamTruncated`, where the payload on a line of its own is delivered
and the terminal error is `Error(limited, Query limit reached)`. -/
theorem long_terminal_line_is_not_read :
    exampleTerminalLineWide.1.map (fun m => (isTerminal m.Cond, m.Obj))
      = some (true, "\x7b\"count\":33,\"time_first\":19126549\x7d") ∧
    (Stream.Run Prod.fst (Context.mk none GoError.canceled)
      (bufio.Scanner.tokens Prod.snd [exampleTerminalLineWide]) none false).Ch = [] ∧
    (Stream.Run Prod.fst (Context.mk none GoError.canceled)
      (bufio.Scanner.tokens Prod.snd [exampleTerminalLineWide]) none false).Err
        = some ErrStreamTruncated ∧
    (Stream.Run Prod.fst (Context.mk none GoError.canceled)
      (bufio.Scanner.tokens Prod.snd [examplePayloadLineWide, exampleConditionLine])
      none false).Ch = ["\x7b\"count\":33,\"time_first\":19126549\x7d"] ∧
    (Stream.Run Prod.fst (Context.mk none GoError.canceled)
      (bufio.Scanner.tokens Prod.snd [examplePayloadLineWide, exampleConditionLine])
      none false).Err = some (GoError.saf "saf stream limited: Query limit reached") := by
  decide

/-- C7, amended. Under any context, for a body given by its lines, `size` being the number of
bytes of a line: a line that does not decode as an envelope and has fewer than 64 KiB
(`bufio.MaxScanTokenSize`) is skipped whole. Two bodies that are the same once these lines are
left out, that is, bodies that differ only by such lines inserted or removed anywhere, end the
decoder in the same state (payloads delivered, terminal error). -/
theorem undecodable_lines_are_skipped (unmarshal : Line → Option Message)
    (size : Line → Nat) (ctx : Context) (lines lines' : List Line)
    (closeErr : Option GoError) (closerRan : Bool)
    (h : lines.filter
        (fun l => (unmarshal l).isSome || decide (bufio.MaxScanTokenSize ≤ size l))
      = lines'.filter
        (fun l => (unmarshal l).isSome || decide (bufio.MaxScanTokenSize ≤ size l))) :
    Stream.Run unmarshal ctx (bufio.Scanner.tokens size lines) closeErr closerRan
      = Stream.Run unmarshal ctx (bufio.Scanner.tokens size lines') closeErr closerRan := by
  apply Run_filter_decodable
  rw [bufio.filter_tokens size (fun l => (unmarshal l).isSome) lines,
    bufio.filter_tokens size (fun l => (unmarshal l).isSome) lines', h]

/-- The body of `TestStream/bad json` ends as the body without the line that does not decode:
without error. -/
theorem undecodable_lines_are_skipped_witness :
    exampleBadJsonSized.filter
        (fun l => (Prod.fst l).isSome || decide (bufio.MaxScanTokenSize ≤ Prod.snd l))
      = exampleGoodJsonSized.filter
        (fun l => (Prod.fst l).isSome || decide (bufio.MaxScanTokenSize ≤ Prod.snd l)) ∧
    Stream.Run Prod.fst (Context.mk none GoError.canceled)
        (bufio.Scanner.tokens Prod.snd exampleBadJsonSized) none true
      = Stream.Run Prod.fst (Context.mk none GoError.canceled)
        (bufio.Scanner.tokens Prod.snd exampleGoodJsonSized) none true ∧
    (Stream.Run Prod.fst (Context.mk none GoError.canceled)
        (bufio.Scanner.tokens Prod.snd exampleBadJsonSized) none true).Err = none :=
  ⟨by decide,
    undecodable_lines_are_skipped Prod.fst Prod.snd (Context.mk none GoError.canceled)
      exampleBadJsonSized exampleGoodJsonSized none true (by decide),
    by decide⟩

/-- Counterexample to C7 as it is stated: `exampleBadJsonLong` is `exampleGoodJsonSized` with a
line that does not decode inserted, of 70000 bytes. The scanner stops at that line: the stream
ends with `ErrStreamTruncated`, where the body without the line ends without error. -/
theorem long_undecodable_line_ends_the_stream :
    exampleBadJsonLong.filter (fun l => (Prod.fst l).isSome) = exampleGoodJsonSized ∧
    (Stream.Run Prod.fst (Context.mk none GoError.canceled)
      (bufio.Scanner.tokens Prod.snd exampleBadJsonLong) none true).Err
        = some ErrStreamTruncated ∧
    (Stream.Run Prod.fst (Context.mk none GoError.canceled)
      (bufio.Scanner.tokens Prod.snd exampleGoodJsonSized) none true).Err = none := by
  decide

end saf

/-! ## The record streams: lemmas and theorems -/

namespace v2

variable {Line Record : Type}

/-- Without cancellation the loop delivers the payloads that decode, in order, and ends with
the translated terminal error of the decoder. -/
theorem loop_without_cancellation (unmarshal : saf.RawMessage → Option Record)
    (streamErr : Option GoError) (ctx : Context) (hctx : ctx.done = none)
    (raws : List saf.RawMessage) (r : result Record) :
    result.loop unmarshal streamErr ctx raws r
      = { r with ch := r.ch ++ raws.filterMap unmarshal, err := terminalError streamErr } := by
  induction raws generalizing r with
  | nil =>
    simp only [result.loop, saf.isDone_eq_false ctx hctx, terminalError, Bool.false_eq_true,
      if_false, List.filterMap_nil, List.append_nil]
    split <;> rfl
  | cons raw rest ih =>
    cases hraw : unmarshal raw with
    | none =>
      simp only [result.loop, saf.isDone_eq_false ctx hctx, saf.tick_eq_self ctx hctx, hraw, ih,
        List.filterMap_cons_none hraw]
      simp
    | some res =>
      simp only [result.loop, saf.isDone_eq_false ctx hctx, saf.tick_eq_self ctx hctx, hraw, ih,
        List.filterMap_cons_some hraw]
      simp

/-- The decoder's terminal error is adopted unchanged when it is none. -/
theorem terminalError_none : terminalError none = none := by decide

/-- The truncation error is adopted unchanged. -/
theorem terminalError_truncated :
    terminalError (some saf.ErrStreamTruncated) = some saf.ErrStreamTruncated := by decide

/-- The error of a `failed` stream is adopted unchanged, whatever the message. -/
theorem terminalError_failed (msg : String) :
    terminalError (some (saf.Error saf.CondFailed msg))
      = some (saf.Error saf.CondFailed msg) := by
  by_cases hmsg : msg = ""
  · subst hmsg; decide
  · simp [terminalError, errors.Is, saf.Error, hmsg, saf.safError.Is, strings.HasPrefix,
      saf.ErrStreamLimited.Error, saf.CondLimited, saf.CondFailed, String.data_append]

/-- The error of a `limited` stream with a non-empty message becomes
`dnsdb.ErrResultLimitExceeded`. -/
theorem terminalError_limited (msg : String) (hmsg : msg ≠ "") :
    terminalError (some (saf.Error saf.CondLimited msg))
      = some dnsdb.ErrResultLimitExceeded := by
  simp [terminalError, errors.Is, saf.Error, hmsg, saf.safError.Is, strings.HasPrefix,
    saf.ErrStreamLimited.Error, saf.CondLimited, String.data_append]

/-- What the loop makes of a response with status 200, without cancellation. -/
theorem stream_without_cancellation (unmarshalMsg : Line → Option saf.Message)
    (unmarshal : saf.RawMessage → Option Record) (ctx : Context) (hctx : ctx.done = none)
    (res : Response Line) (closerRan : Bool) (r : result Record) :
    result.stream unmarshalMsg unmarshal ctx res closerRan r
      = { r with
          ch := r.ch ++
            (saf.Stream.Run unmarshalMsg ctx res.Body res.Close closerRan).Ch.filterMap unmarshal,
          err := terminalError
            (saf.Stream.Run unmarshalMsg ctx res.Body res.Close closerRan).Err } := by
  simp only [result.stream, saf.with_done_none ctx hctx,
    loop_without_cancellation unmarshal _ ctx hctx]

/-- C3 (the code departs from it). A v2 record stream whose body ends with a `limited` line
that has no message: the decoder's terminal error is `safError("limited")`, which
`errors.Is(_, saf.ErrStreamLimited)` does not accept because the text lacks the prefix
`saf stream limited`, and the stream adopts it as it is; its terminal error is not
`dnsdb.ErrResultLimitExceeded`. The payload before the line is delivered. -/
theorem limited_without_message_is_not_translated :
    (result.run id exampleRRSet (Context.mk none GoError.canceled)
      (Except.ok { StatusCode := 200, Body := exampleLimitedNoMessage }) false).err
        = some (GoError.saf "limited") ∧
    (result.run id exampleRRSet (Context.mk none GoError.canceled)
      (Except.ok { StatusCode := 200, Body := exampleLimitedNoMessage }) false).err
        ≠ some dnsdb.ErrResultLimitExceeded ∧
    (result.run id exampleRRSet (Context.mk none GoError.canceled)
      (Except.ok { StatusCode := 200, Body := exampleLimitedNoMessage }) false).ch
        = [{ Count := 1 }] ∧
    (flexResult.run id exampleFlexRecord (Context.mk none GoError.canceled)
      (Except.ok { StatusCode := 200, Body := exampleLimitedNoMessage }) false).err
        = some (GoError.saf "limited") ∧
    errors.Is (some (saf.Error saf.CondLimited "")) (some saf.ErrStreamLimited) = false := by
  decide

/-- C9. The v2 record streams (RRSet and flex) on a response with status 200, without
cancellation: the records delivered are exactly the decoder's payloads that decode into the
record shape, each once and in the decoder's order, the terminal error is the one the decoder's
terminal error translates to, and the channel is closed. A payload that fails record decoding
is dropped: the loop ends in the same state as when the payload is not there. -/
theorem v2_records_are_the_decodable_payloads (unmarshalMsg : Line → Option saf.Message)
    (unmarshalRRSet : saf.RawMessage → Option dnsdb.RRSet)
    (unmarshalFlex : saf.RawMessage → Option flex.Record)
    (ctx : Context) (res : Response Line) (closerRan : Bool)
    (hctx : ctx.done = none) (hstatus : res.StatusCode = 200) :
    ((result.run unmarshalMsg unmarshalRRSet ctx (Except.ok res) closerRan).ch
        = (saf.Stream.Run unmarshalMsg ctx res.Body res.Close closerRan).Ch.filterMap
            unmarshalRRSet ∧
      (result.run unmarshalMsg unmarshalRRSet ctx (Except.ok res) closerRan).err
        = terminalError (saf.Stream.Run unmarshalMsg ctx res.Body res.Close closerRan).Err ∧
      (result.run unmarshalMsg unmarshalRRSet ctx (Except.ok res) closerRan).closed = true) ∧
    ((flexResult.run unmarshalMsg unmarshalFlex ctx (Except.ok res) closerRan).ch
        = (saf.Stream.Run unmarshalMsg ctx res.Body res.Close closerRan).Ch.filterMap
            unmarshalFlex ∧
      (flexResult.run unmarshalMsg unmarshalFlex ctx (Except.ok res) closerRan).err
        = terminalError (saf.Stream.Run unmarshalMsg ctx res.Body res.Close closerRan).Err ∧
      (flexResult.run unmarshalMsg unmarshalFlex ctx (Except.ok res) closerRan).closed = true) ∧
    (∀ (streamErr : Option GoError) (before after : List saf.RawMessage)
        (bad : saf.RawMessage),
      (unmarshalRRSet bad = none →
        result.loop unmarshalRRSet streamErr ctx (before ++ bad :: after) {}
          = result.loop unmarshalRRSet streamErr ctx (before ++ after) {}) ∧
      (unmarshalFlex bad = none →
        result.loop unmarshalFlex streamErr ctx (before ++ bad :: after) {}
          = result.loop unmarshalFlex streamErr ctx (before ++ after) {})) := by
  refine ⟨?_, ?_, ?_⟩
  · simp [result.run, hstatus, stream_without_cancellation unmarshalMsg unmarshalRRSet ctx hctx]
  · simp [flexResult.run, hstatus,
      stream_without_cancellation unmarshalMsg unmarshalFlex ctx hctx]
  · intro streamErr before after bad
    constructor
    · intro hbad
      simp [loop_without_cancellation _ streamErr ctx hctx, List.filterMap_append,
        List.filterMap_cons_none hbad]
    · intro hbad
      simp [loop_without_cancellation _ streamErr ctx hctx, List.filterMap_append,
        List.filterMap_cons_none hbad]

/-- On `exampleResults` both record streams deliver the records of count 1 and count 3 and end with
the truncation error. -/
theorem v2_records_are_the_decodable_payloads_witness :
    (Context.mk none GoError.canceled).done = none ∧
    (flexResult.run id exampleFlexRecord (Context.mk none GoError.canceled)
      (Except.ok { StatusCode := 200, Body := exampleResults }) false).ch
        = [{ Count := 1 }, { Count := 3 }] ∧
    (flexResult.run id exampleFlexRecord (Context.mk none GoError.canceled)
      (Except.ok { StatusCode := 200, Body := exampleResults }) false).err
        = some saf.ErrStreamTruncated ∧
    (result.run id exampleRRSet (Context.mk none GoError.canceled)
      (Except.ok { StatusCode := 200, Body := exampleResults }) false).ch
        = [{ Count := 1 }, { Count := 3 }] ∧
    (result.run id exampleRRSet (Context.mk none GoError.canceled)
      (Except.ok { StatusCode := 200, Body := exampleResults }) false).err
        = some saf.ErrStreamTruncated :=
  have h := v2_records_are_the_decodable_payloads id exampleRRSet exampleFlexRecord
    (Context.mk none GoError.canceled) { StatusCode := 200, Body := exampleResults } false
    rfl rfl
  ⟨rfl, h.2.1.1.trans (by decide), h.2.1.2.1.trans (by decide), h.1.1.trans (by decide),
    h.1.2.1.trans (by decide)⟩

end v2

namespace v1

variable {Line : Type}

/-- Without cancellation the scan delivers the lines that decode, in order, and leaves the
terminal error as it is. -/
theorem scan_without_cancellation (unmarshal : Line → Option dnsdb.RRSet) (ctx : Context)
    (hctx : ctx.done = none) (lines : List Line) (r : result) :
    result.scan unmarshal ctx lines r
      = { r with ch := r.ch ++ lines.filterMap unmarshal } := by
  induction lines generalizing r with
  | nil => simp [result.scan]
  | cons line rest ih =>
    cases hline : unmarshal line with
    | none =>
      simp only [result.scan, hline, ih, List.filterMap_cons_none hline]
    | some res =>
      simp only [result.scan, hline, saf.isDone_eq_false ctx hctx, saf.tick_eq_self ctx hctx,
        ih, List.filterMap_cons_some hline]
      simp

/-- The v1 record stream on a response with status 200, without cancellation: the records
delivered are the tokens of the scanner that decode as an RRSet, each once and in order, every
other token being skipped; the channel is closed and the terminal error is none. -/
theorem run_without_cancellation (statusError : Int → Option GoError)
    (unmarshal : Line → Option dnsdb.RRSet) (ctx : Context) (res : Response Line)
    (closerRan : Bool) (hctx : ctx.done = none) (hstatus : res.StatusCode = 200) :
    (result.run statusError unmarshal ctx (Except.ok res) closerRan).ch
      = res.Body.filterMap unmarshal ∧
    (result.run statusError unmarshal ctx (Except.ok res) closerRan).err = none ∧
    (result.run statusError unmarshal ctx (Except.ok res) closerRan).closed = true := by
  have hdone : ∀ n, (ctx.after n).isDone = false := fun n => by
    cases ctx with
    | mk d e => simp only at hctx; subst hctx; rfl
  simp [result.run, hstatus, scan_without_cancellation unmarshal ctx hctx, hdone]

end v1

namespace v1

variable {Line : Type}

/-- C10, amended. The v1 record stream on a response with status 200, without cancellation,
for a body given by its lines, `size` being the number of bytes of a line: the records
delivered are exactly the lines that decode as an RRSet among the lines before the first line
of 64 KiB or more (`bufio.MaxScanTokenSize`), at which the scanner stops, each once and in line
order, every other line being skipped: among all the lines when every line is shorter. The
channel is closed and the terminal error is none, also when the last line is cut off. -/
theorem v1_records_are_the_decodable_lines (statusError : Int → Option GoError)
    (unmarshal : Line → Option dnsdb.RRSet) (size : Line → Nat) (ctx : Context)
    (res : Response Line) (lines : List Line) (closerRan : Bool)
    (hctx : ctx.done = none) (hstatus : res.StatusCode = 200)
    (hbody : res.Body = bufio.Scanner.tokens size lines) :
    (result.run statusError unmarshal ctx (Except.ok res) closerRan).ch
      = (bufio.Scanner.tokens size lines).filterMap unmarshal ∧
    (result.run statusError unmarshal ctx (Except.ok res) closerRan).err = none ∧
    (result.run statusError unmarshal ctx (Except.ok res) closerRan).closed = true ∧
    ((∀ l ∈ lines, size l < bufio.MaxScanTokenSize) →
      (result.run statusError unmarshal ctx (Except.ok res) closerRan).ch
        = lines.filterMap unmarshal) := by
  have h := run_without_cancellation statusError unmarshal ctx res closerRan hctx hstatus
  rw [hbody] at h
  refine ⟨h.1, h.2.1, h.2.2, fun hsize => ?_⟩
  rw [h.1, bufio.tokens_of_fit size lines hsize]

/-- The body of `TestResult/results with an error and truncation`: the records of the first and
the third line are delivered and the error is none. -/
theorem v1_records_are_the_decodable_lines_witness :
    (∀ l ∈ exampleResultsSized, l.2 < bufio.MaxScanTokenSize) ∧
    (result.run (fun _ => none) Prod.fst (Context.mk none GoError.canceled)
      (Except.ok { StatusCode := 200,
                   Body := bufio.Scanner.tokens Prod.snd exampleResultsSized }) false).ch
        = [{ Count := 1 }, { Count := 3 }] ∧
    (result.run (fun _ => none) Prod.fst (Context.mk none GoError.canceled)
      (Except.ok { StatusCode := 200,
                   Body := bufio.Scanner.tokens Prod.snd exampleResultsSized }) false).err
        = none :=
  have h := v1_records_are_the_decodable_lines (fun _ => none) Prod.fst Prod.snd
    (Context.mk none GoError.canceled)
    { StatusCode := 200, Body := bufio.Scanner.tokens Prod.snd exampleResultsSized }
    exampleResultsSized false rfl rfl rfl
  ⟨by decide, (h.2.2.2 (by decide)).trans (by decide), h.2.1⟩

/-- Counterexample to C10 as it is stated: the three lines of `exampleResultsLong` decode, the
second one having 70000 bytes. The scanner stops at the second line: only the record of the
first line is delivered, not the three records, and the terminal error is none. -/
theorem long_line_ends_the_v1_stream :
    exampleResultsLong.filterMap Prod.fst
      = [{ Count := 1 }, { Count := 2 }, { Count := 3 }] ∧
    (result.run (fun _ => none) Prod.fst (Context.mk none GoError.canceled)
      (Except.ok { StatusCode := 200,
                   Body := bufio.Scanner.tokens Prod.snd exampleResultsLong }) false).ch
        = [{ Count := 1 }] ∧
    (result.run (fun _ => none) Prod.fst (Context.mk none GoError.canceled)
      (Except.ok { StatusCode := 200,
                   Body := bufio.Scanner.tokens Prod.snd exampleResultsLong }) false).err
        = none := by
  decide

end v1

/-! ## Lemmas on decimal numbers -/

namespace strconv

theorem digitVal_digitChar (d : Nat) (h : d < 10) : digitVal (digitChar d) = some d := by
  interval_cases d <;> rfl

theorem isDigit_digitChar (d : Nat) : isDigit (digitChar d) = true := by
  unfold digitChar
  split <;> rfl

theorem digitVal_of_isDigit (c : Char) (h : isDigit c = true) :
    digitVal c = some (c.toNat - 48) := by
  simp only [isDigit, decide_eq_true_eq] at h
  simp [digitVal, h]

theorem digitVal_of_not_isDigit (c : Char) (h : isDigit c = false) : digitVal c = none := by
  simp only [isDigit, decide_eq_false_iff_not] at h
  simp [digitVal, h]

/-- Reading one more digit after a list of bytes. -/
theorem parseUint_append (xs : List Char) (c : Char) (n : Nat) :
    parseUint (xs ++ [c]) n
      = match parseUint xs n with
        | Except.error e => Except.error e
        | Except.ok v => parseUint [c] v := by
  induction xs generalizing n with
  | nil => simp [parseUint]
  | cons x xs ih =>
    simp only [List.cons_append, parseUint]
    cases digitVal x with
    | none => rfl
    | some d =>
      simp only
      split
      · rfl
      · exact ih _

/-- With enough fuel the digits of a number are read back as the number. -/
theorem parseUint_digits (fuel n : Nat) (hfuel : n < fuel) (hn : n ≤ 2 ^ 64 - 1) :
    parseUint (digits fuel n) 0 = Except.ok n := by
  induction fuel generalizing n with
  | zero => omega
  | succ fuel ih =>
    unfold digits
    by_cases h10 : n < 10
    · simp only [h10, if_true, parseUint, digitVal_digitChar n h10]
      have hle : ¬ (0 * 10 + n > 2 ^ 64 - 1) := by omega
      rw [if_neg hle]
      simp
    · simp only [h10, if_false]
      have hq : n / 10 < fuel := by omega
      have hq' : n / 10 ≤ 2 ^ 64 - 1 := by omega
      rw [parseUint_append, ih (n / 10) hq hq']
      simp only [parseUint, digitVal_digitChar (n % 10) (Nat.mod_lt _ (by decide))]
      have hsum : n / 10 * 10 + n % 10 = n := by omega
      rw [hsum]
      have hle : ¬ (n > 2 ^ 64 - 1) := by omega
      rw [if_neg hle]

/-- The digits of a number start with a digit. -/
theorem digits_eq_cons (fuel n : Nat) (hfuel : n < fuel) :
    ∃ c rest, digits fuel n = c :: rest ∧ isDigit c = true := by
  induction fuel generalizing n with
  | zero => omega
  | succ fuel ih =>
    unfold digits
    by_cases h10 : n < 10
    · exact ⟨digitChar n, [], by simp [h10], isDigit_digitChar n⟩
    · obtain ⟨c, rest, hc, hd⟩ := ih (n / 10) (by omega)
      exact ⟨c, rest ++ [digitChar (n % 10)], by simp [h10, hc], hd⟩

/-- The digits of a number are digits. -/
theorem digits_all_isDigit (fuel n : Nat) : (digits fuel n).all isDigit = true := by
  induction fuel generalizing n with
  | zero => rfl
  | succ fuel ih =>
    unfold digits
    by_cases h10 : n < 10
    · simp [h10, isDigit_digitChar]
    · simp [h10, List.all_append, ih, isDigit_digitChar]

theorem decimalValue_append (xs : List Char) (c : Char) :
    decimalValue (xs ++ [c]) = decimalValue xs * 10 + (c.toNat - 48) := by
  simp [decimalValue, List.foldl_append]

theorem toNat_digitChar (d : Nat) (h : d < 10) : (digitChar d).toNat - 48 = d := by
  interval_cases d <;> rfl

/-- With enough fuel the digits of a number denote the number. -/
theorem decimalValue_digits (fuel n : Nat) (hfuel : n < fuel) :
    decimalValue (digits fuel n) = n := by
  induction fuel generalizing n with
  | zero => omega
  | succ fuel ih =>
    unfold digits
    by_cases h10 : n < 10
    · simp [h10, decimalValue, toNat_digitChar n h10]
    · simp only [h10, if_false]
      rw [decimalValue_append, ih (n / 10) (by omega),
        toNat_digitChar (n % 10) (Nat.mod_lt _ (by decide))]
      omega

/-- Leading zeros do not change the number a list of digits denotes. -/
theorem decimalValue_zeros (k : Nat) (ds : List Char) :
    decimalValue (List.replicate k '0' ++ ds) = decimalValue ds := by
  induction k with
  | zero => rfl
  | succ k ih =>
    simp only [List.replicate_succ, List.cons_append]
    simp only [decimalValue, List.foldl_cons] at ih ⊢
    exact ih

/-- A byte that is no digit makes the loop fail. -/
theorem parseUint_error_of_not_all (ds : List Char) (n : Nat)
    (h : ds.all isDigit = false) : ∃ e, parseUint ds n = Except.error e := by
  induction ds generalizing n with
  | nil => simp at h
  | cons c cs ih =>
    simp only [parseUint]
    cases hc : isDigit c with
    | false => simp [digitVal_of_not_isDigit c hc]
    | true =>
      have hcs : cs.all isDigit = false := by
        simpa [List.all_cons, hc] using h
      simp only [digitVal_of_isDigit c hc]
      split
      · exact ⟨_, rfl⟩
      · exact ih _ hcs

/-- `strconv.Atoi` rejects a string that is no decimal integer. -/
theorem Atoi_of_not_isDecimal (s : String) (h : isDecimal s = false) :
    ∃ e, Atoi s = Except.error (GoError.numError "Atoi" s e) := by
  simp only [isDecimal, Bool.and_eq_false_iff, Bool.not_eq_false', List.isEmpty_iff] at h
  simp only [Atoi]
  rcases h with h | h
  · exact ⟨_, by rw [if_pos h]⟩
  · by_cases hds : (if s.data.head? = some '+' ∨ s.data.head? = some '-' then s.data.tail
        else s.data) = []
    · exact ⟨_, by rw [if_pos hds]⟩
    · obtain ⟨e, he⟩ := parseUint_error_of_not_all _ 0 h
      exact ⟨e, by rw [if_neg hds, he]⟩

/-- The decimal rendering of a number within the range of `int64` is read back as the
number. -/
theorem Atoi_Itoa (n : Int) (hlo : -(2 ^ 63) ≤ n) (hhi : n < 2 ^ 63) :
    Atoi (Itoa n) = Except.ok n := by
  obtain ⟨c, rest, hc, hd⟩ := digits_eq_cons (n.natAbs + 1) n.natAbs (by omega)
  have hplus : c ≠ '+' := by rintro rfl; revert hd; decide
  have hminus : c ≠ '-' := by rintro rfl; revert hd; decide
  have hparse := parseUint_digits (n.natAbs + 1) n.natAbs (by omega) (by omega)
  by_cases hneg : n < 0
  · have hdata : (Itoa n).data = '-' :: digits (n.natAbs + 1) n.natAbs := by
      simp [Itoa, hneg]
    have hne : digits (n.natAbs + 1) n.natAbs ≠ [] := by rw [hc]; simp
    simp only [Atoi, hdata, List.head?_cons, List.tail_cons, or_true, if_true, if_neg hne,
      hparse]
    have hb : ¬ (n.natAbs > 2 ^ 63) := by omega
    rw [if_neg (by simp), if_neg (by simp only [decide_True, true_and]; exact hb)]
    simp only [decide_True, if_true]
    congr 1
    omega
  · have hdata : (Itoa n).data = digits (n.natAbs + 1) n.natAbs := by
      simp [Itoa, hneg]
    have hsign : ¬ ((c :: rest).head? = some '+' ∨ (c :: rest).head? = some '-') := by
      simp [hplus, hminus]
    have hne : c :: rest ≠ [] := by simp
    have hparse' : parseUint (c :: rest) 0 = Except.ok n.natAbs := by rw [← hc]; exact hparse
    have hnegf : decide ((c :: rest).head? = some '-') = false := by simp [hminus]
    simp only [Atoi, hdata, hc, if_neg hsign, if_neg hne, hparse', hnegf]
    have hb : ¬ (n.natAbs ≥ 2 ^ 63) := by omega
    rw [if_neg (by simp only [true_and]; exact hb), if_neg (by simp)]
    simp only [Bool.false_eq_true, if_false]
    congr 1
    omega

/-- The decimal rendering of a number is neither empty nor a word. -/
theorem Itoa_ne (n : Int) :
    Itoa n ≠ "" ∧ Itoa n ≠ "unlimited" ∧ Itoa n ≠ "n/a" := by
  obtain ⟨c, rest, hc, hd⟩ := digits_eq_cons (n.natAbs + 1) n.natAbs (by omega)
  have hu : c ≠ 'u' := by rintro rfl; revert hd; decide
  have hn : c ≠ 'n' := by rintro rfl; revert hd; decide
  have key : ∀ t : String, (Itoa n).data.head? ≠ t.data.head? → Itoa n ≠ t :=
    fun t h e => h (by rw [e])
  by_cases hneg : n < 0
  · have hdata : (Itoa n).data.head? = some '-' := by simp [Itoa, hneg]
    exact ⟨key "" (by rw [hdata]; decide), key "unlimited" (by rw [hdata]; decide),
      key "n/a" (by rw [hdata]; decide)⟩
  · have hdata : (Itoa n).data.head? = some c := by simp [Itoa, hneg, hc]
    have h0 : some c ≠ ("" : String).data.head? := by
      show some c ≠ none
      simp
    have h1 : some c ≠ ("unlimited" : String).data.head? := by
      show some c ≠ some 'u'
      simpa using hu
    have h2 : some c ≠ ("n/a" : String).data.head? := by
      show some c ≠ some 'n'
      simpa using hn
    exact ⟨key "" (by rw [hdata]; exact h0), key "unlimited" (by rw [hdata]; exact h1),
      key "n/a" (by rw [hdata]; exact h2)⟩

end strconv

/-! ## The status mapper: theorems -/

namespace v2

variable {Line : Type}

/-- C11. `statusError` maps 200 and 204 to no error, maps 400, 401, 403, 416, 429 and 503 to
`ErrBadRequest`, `ErrUnauthorized`, `ErrForbidden`, `ErrBadRange`, `ErrQuotaExceeded` and
`ErrConcurrencyLimit`, and is none for no other code. -/
theorem statusError_named_codes :
    statusError 200 = none ∧ statusError 204 = none ∧
    statusError 400 = some dnsdb.ErrBadRequest ∧
    statusError 401 = some dnsdb.ErrUnauthorized ∧
    statusError 403 = some dnsdb.ErrForbidden ∧
    statusError 416 = some dnsdb.ErrBadRange ∧
    statusError 429 = some dnsdb.ErrQuotaExceeded ∧
    statusError 503 = some dnsdb.ErrConcurrencyLimit ∧
    ∀ code : Int, statusError code = none ↔ (code = 200 ∨ code = 204) := by
  refine ⟨rfl, rfl, rfl, rfl, rfl, rfl, rfl, rfl, fun code => ?_⟩
  unfold statusError
  constructor
  · intro h
    split_ifs at h with h1 h2
    · exact Or.inl h1
    · exact Or.inr h2
  · rintro (h | h)
    · simp [h]
    · simp [h]

/-- A code outside the switch gets the generic error. -/
theorem statusError_generic (code : Int) (h : isNamedStatus code = false) :
    statusError code = some (dnsdb.HttpStatusError code) := by
  simp only [isNamedStatus, Bool.or_eq_false_iff, beq_eq_false_iff_ne, ne_eq] at h
  obtain ⟨⟨⟨⟨⟨⟨⟨h1, h2⟩, h3⟩, h4⟩, h5⟩, h6⟩, h7⟩, h8⟩ := h
  simp [statusError, h1, h2, h3, h4, h5, h6, h7, h8]

/-- Counterexample to C12 as it is stated: for the code -5, which is none of the named codes,
the message of the generic error is `http status -05: `, in which the code stands as a sign and
two digits, not as three digits or more. -/
theorem statusError_negative_code_has_two_digits :
    statusError (-5) = some (dnsdb.HttpStatusError (-5)) ∧
    (dnsdb.HttpStatusError (-5)).Error exampleLibrary = "http status -05: " ∧
    ¬ isStatusMessage exampleLibrary (-5)
      ((dnsdb.HttpStatusError (-5)).Error exampleLibrary) := by
  refine ⟨rfl, by decide, ?_⟩
  rintro ⟨ds, -, hdig, -, hmsg⟩
  have h1 : (dnsdb.HttpStatusError (-5)).Error exampleLibrary = "http status -05: " := by
    decide
  have h3 : exampleLibrary.StatusText (-5) = "" := rfl
  rw [h1, h3] at hmsg
  have h2 := congrArg String.data hmsg
  simp only [String.data_append] at h2
  simp only [List.append_nil, List.append_assoc, List.cons_append, List.nil_append,
    List.cons.injEq, true_and] at h2
  have h5 := (List.append_inj' (show ['-', '0', '5'] ++ [':', ' '] = ds ++ [':', ' '] from h2)
    rfl).1
  subst h5
  revert hdig
  decide

/-- C12, amended. `statusError` is a total function; for every code other than 200, 204, 400,
401, 403, 416, 429 and 503 (so for 201 and every other 2xx code too) it returns the generic
error `HttpStatusError(code)`, whose message is `http status <code>: <reason phrase>`. A code
that is not negative is written as at least three decimal digits; a negative code is written
as a minus sign followed by at least two decimal digits. -/
theorem statusError_generic_message (lib : Library) (code : Int)
    (h : isNamedStatus code = false) :
    statusError code = some (dnsdb.HttpStatusError code) ∧
    (0 ≤ code → isStatusMessage lib code ((dnsdb.HttpStatusError code).Error lib)) ∧
    (code < 0 → ∃ ds : List Char, 2 ≤ ds.length ∧ ds.all strconv.isDigit = true ∧
      (strconv.decimalValue ds : Int) = -code ∧
      (dnsdb.HttpStatusError code).Error lib
        = "http status -" ++ String.mk ds ++ ": " ++ lib.StatusText code) := by
  refine ⟨statusError_generic code h, fun hpos => ?_, fun hneg => ?_⟩
  · refine ⟨List.replicate (3 - (strconv.digits (code.natAbs + 1) code.natAbs).length) '0'
      ++ strconv.digits (code.natAbs + 1) code.natAbs, ?_, ?_, ?_, ?_⟩
    · simp only [List.length_append, List.length_replicate]
      omega
    · rw [List.all_append, strconv.digits_all_isDigit]
      simp [strconv.isDigit]
    · rw [strconv.decimalValue_zeros, strconv.decimalValue_digits _ _ (by omega)]
      omega
    · have hn : ¬ code < 0 := by omega
      simp [GoError.Error, fmt.d03, hn]
  · refine ⟨List.replicate (2 - (strconv.digits (code.natAbs + 1) code.natAbs).length) '0'
      ++ strconv.digits (code.natAbs + 1) code.natAbs, ?_, ?_, ?_, ?_⟩
    · simp only [List.length_append, List.length_replicate]
      omega
    · rw [List.all_append, strconv.digits_all_isDigit]
      simp [strconv.isDigit]
    · rw [strconv.decimalValue_zeros, strconv.decimalValue_digits _ _ (by omega)]
      omega
    · simp only [GoError.Error, fmt.d03, hneg, if_true]
      rfl

/-- The code 201 is none of the named codes; its message is `http status 201: Created`. And
the code 7 is written `007`. -/
theorem statusError_generic_message_witness :
    isNamedStatus 201 = false ∧
    statusError 201 = some (dnsdb.HttpStatusError 201) ∧
    (dnsdb.HttpStatusError 201).Error exampleLibrary = "http status 201: Created" ∧
    isStatusMessage exampleLibrary 201 ((dnsdb.HttpStatusError 201).Error exampleLibrary) ∧
    (dnsdb.HttpStatusError 7).Error exampleLibrary = "http status 007: " :=
  have h := statusError_generic_message exampleLibrary 201 (by decide)
  ⟨by decide, h.1, by decide, h.2.1 (by decide), by decide⟩

/-- C13. The v2 RRSet stream on a response whose status code is not 200: no record is
delivered, the channel is closed and the terminal error is `statusError(code)`. The body is not
read: the stream ends in the same state for every body, every decoder and every context. -/
theorem rrset_stream_of_non_ok_status (unmarshalMsg : Line → Option saf.Message)
    (unmarshal : saf.RawMessage → Option dnsdb.RRSet) (ctx : Context) (res : Response Line)
    (closerRan : Bool) (hstatus : res.StatusCode ≠ 200) :
    (result.run unmarshalMsg unmarshal ctx (Except.ok res) closerRan).ch = [] ∧
    (result.run unmarshalMsg unmarshal ctx (Except.ok res) closerRan).err
      = statusError res.StatusCode ∧
    (result.run unmarshalMsg unmarshal ctx (Except.ok res) closerRan).closed = true ∧
    ∀ (unmarshalMsg' : Line → Option saf.Message)
      (unmarshal' : saf.RawMessage → Option dnsdb.RRSet) (ctx' : Context)
      (body' : List Line) (readAll' : Except GoError String) (close' : Option GoError)
      (closerRan' : Bool),
      result.run unmarshalMsg' unmarshal' ctx'
          (Except.ok { res with Body := body', ReadAll := readAll', Close := close' })
          closerRan'
        = result.run unmarshalMsg unmarshal ctx (Except.ok res) closerRan := by
  refine ⟨?_, ?_, ?_, ?_⟩ <;> simp [result.run, hstatus]

/-- On the status codes 204 and 400 the body `exampleResults` is not read: no record, no error
for 204 and `ErrBadRequest` for 400. -/
theorem rrset_stream_of_non_ok_status_witness :
    (204 : Int) ≠ 200 ∧
    (result.run id exampleRRSet (Context.mk none GoError.canceled)
      (Except.ok { StatusCode := 204, Body := exampleResults }) false).ch = [] ∧
    (result.run id exampleRRSet (Context.mk none GoError.canceled)
      (Except.ok { StatusCode := 204, Body := exampleResults }) false).err = none ∧
    (result.run id exampleRRSet (Context.mk none GoError.canceled)
      (Except.ok { StatusCode := 400, Body := exampleResults }) false).err
        = some dnsdb.ErrBadRequest :=
  have h := rrset_stream_of_non_ok_status id exampleRRSet (Context.mk none GoError.canceled)
    { StatusCode := 204, Body := exampleResults } false (by decide)
  have h' := rrset_stream_of_non_ok_status id exampleRRSet (Context.mk none GoError.canceled)
    { StatusCode := 400, Body := exampleResults } false (by decide)
  ⟨by decide, h.1, h.2.1, h'.2.1⟩

/-- An error built by `fmt.Errorf` around an error is not that error. -/
theorem errorfStr_ne (e : GoError) (b : String) : GoError.errorfStr e b ≠ e := by
  intro h
  have hs := congrArg sizeOf h
  simp only [GoError.errorfStr.sizeOf_spec] at hs
  omega

/-- Counterexample to C14 as it is stated: on the status 400 with no content type and the body
`denied`, the flex stream ends with a new error of text `bad request: denied`, which is not
`ErrBadRequest` and which `errors.Is` does not recognise as `ErrBadRequest`. -/
theorem flex_stream_error_is_not_the_named_error :
    (flexResult.run id exampleFlexRecord (Context.mk none GoError.canceled)
      (Except.ok { StatusCode := 400, Body := ([] : List (Option saf.Message)),
                   ReadAll := Except.ok "denied\n" }) false).err
        = some (GoError.errorfStr dnsdb.ErrBadRequest "denied") ∧
    (flexResult.run id exampleFlexRecord (Context.mk none GoError.canceled)
      (Except.ok { StatusCode := 400, Body := ([] : List (Option saf.Message)),
                   ReadAll := Except.ok "denied\n" }) false).err
        ≠ statusError 400 ∧
    errors.Is (some (GoError.errorfStr dnsdb.ErrBadRequest "denied"))
      (some dnsdb.ErrBadRequest) = false ∧
    (GoError.errorfStr dnsdb.ErrBadRequest "denied").Error exampleLibrary
      = "bad request: denied" := by
  decide

/-- On the status 204 with a content type other than `text/html` the flex stream ends with a
non-nil error, built by `fmt.Errorf` from the nil error. -/
theorem flex_stream_no_content_is_an_error :
    (flexResult.run id exampleFlexRecord (Context.mk none GoError.canceled)
      (Except.ok { StatusCode := 204, Body := ([] : List (Option saf.Message)) }) false).err
        = some (GoError.errorfNilStr "") := by
  decide

/-- C14, amended. The v2 flex-search stream on a response whose status code is not 200: no
record is delivered and the channel is closed. When the content type is `text/html`, or the
body cannot be read, the terminal error is `statusError(code)`, as for the RRSet stream.
Otherwise, for a code that `statusError` maps to an error `e`, the terminal error is a new
error whose message is the message of `e`, a colon and the body without the white space around
it; `errors.Is` does not recognise it as `e`. -/
theorem flex_stream_of_non_ok_status (lib : Library) (unmarshalMsg : Line → Option saf.Message)
    (unmarshal : saf.RawMessage → Option flex.Record) (ctx : Context) (res : Response Line)
    (closerRan : Bool) (hstatus : res.StatusCode ≠ 200) :
    (flexResult.run unmarshalMsg unmarshal ctx (Except.ok res) closerRan).ch = [] ∧
    (flexResult.run unmarshalMsg unmarshal ctx (Except.ok res) closerRan).closed = true ∧
    ((res.Header.Get "content-type" = "text/html" ∨ ∃ e, res.ReadAll = Except.error e) →
      (flexResult.run unmarshalMsg unmarshal ctx (Except.ok res) closerRan).err
        = statusError res.StatusCode) ∧
    (∀ (b : String) (e : GoError), res.Header.Get "content-type" ≠ "text/html" →
      res.ReadAll = Except.ok b → statusError res.StatusCode = some e →
      (flexResult.run unmarshalMsg unmarshal ctx (Except.ok res) closerRan).err
          = some (GoError.errorfStr e (strings.TrimSpace b)) ∧
        (GoError.errorfStr e (strings.TrimSpace b)).Error lib
          = e.Error lib ++ ": " ++ strings.TrimSpace b ∧
        errors.Is (some (GoError.errorfStr e (strings.TrimSpace b))) (some e) = false) := by
  refine ⟨?_, ?_, ?_, ?_⟩
  · simp only [flexResult.run, hstatus, if_false]
    split
    · split
      · split <;> rfl
      · rfl
    · rfl
  · simp only [flexResult.run, hstatus, if_false]
    split
    · split
      · split <;> rfl
      · rfl
    · rfl
  · rintro (hct | ⟨e, he⟩)
    · simp [flexResult.run, hstatus, hct]
    · simp only [flexResult.run, hstatus, if_false, he]
      split <;> rfl
  · intro b e hct hread hse
    refine ⟨?_, rfl, ?_⟩
    · simp [flexResult.run, hstatus, hct, hread, hse]
    · have hne := errorfStr_ne e (strings.TrimSpace b)
      simp [errors.Is, hne]

/-- On the status 500 with an HTML page as body but no content type, as in
`TestFlexResult/http error`, the error carries the page; with the content type `text/html` it
is the generic error of the code. -/
theorem flex_stream_of_non_ok_status_witness :
    (500 : Int) ≠ 200 ∧
    (flexResult.run id exampleFlexRecord (Context.mk none GoError.canceled)
      (Except.ok { StatusCode := 500, Body := ([] : List (Option saf.Message)),
                   ReadAll := Except.ok "<html>error</html>" }) false).err
        = some (GoError.errorfStr (dnsdb.HttpStatusError 500) "<html>error</html>") ∧
    (GoError.errorfStr (dnsdb.HttpStatusError 500) "<html>error</html>").Error exampleLibrary
      = "http status 500: Internal Server Error: <html>error</html>" ∧
    (flexResult.run id exampleFlexRecord (Context.mk none GoError.canceled)
      (Except.ok { StatusCode := 500, Body := ([] : List (Option saf.Message)),
                   Header := { Get := fun k => if k = "content-type" then "text/html" else "" },
                   ReadAll := Except.ok "<html>error</html>" }) false).err
        = some (dnsdb.HttpStatusError 500) :=
  have h := flex_stream_of_non_ok_status exampleLibrary id exampleFlexRecord
    (Context.mk none GoError.canceled)
    { StatusCode := 500, Body := ([] : List (Option saf.Message)),
      ReadAll := Except.ok "<html>error</html>" } false (by decide)
  have h' := flex_stream_of_non_ok_status exampleLibrary id exampleFlexRecord
    (Context.mk none GoError.canceled)
    { StatusCode := 500, Body := ([] : List (Option saf.Message)),
      Header := { Get := fun k => if k = "content-type" then "text/html" else "" },
      ReadAll := Except.ok "<html>error</html>" } false (by decide)
  ⟨by decide, (h.2.2.2 "<html>error</html>" (dnsdb.HttpStatusError 500) (by decide) rfl
      rfl).1.trans (by decide), by decide, (h'.2.2.1 (Or.inl rfl)).trans rfl⟩

end v2

/-! ## Rate limits from headers: lemmas and theorems -/

namespace dnsdb

variable {Line : Type}

theorem hasPrefix_append (a b : String) : strings.HasPrefix (a ++ b) a = true := by
  simp [strings.HasPrefix, String.data_append, List.isPrefixOf_iff_prefix]

/-- The switch on a header that carries nothing, the sentinel or an integer of 64 bits. -/
theorem headerValue_given (g : Given) (sentinel : String) (invalid : GoError)
    (hs : sentinel = Unlimited ∨ sentinel = NA) (hg : g.isInt64 = true) :
    headerValue (g.header sentinel) sentinel invalid = Except.ok g.int := by
  cases g with
  | absent => simp [headerValue, Given.header, Given.int]
  | sentinel =>
    simp only [headerValue, Given.header, Given.int]
    split <;> simp
  | number n =>
    simp only [Given.isInt64, decide_eq_true_eq] at hg
    have hne := strconv.Itoa_ne n
    have hsent : strconv.Itoa n ≠ sentinel := by
      rcases hs with hs | hs
      · rw [hs]; exact hne.2.1
      · rw [hs]; exact hne.2.2
    simp only [headerValue, Given.header, Given.int, if_neg hne.1, if_neg hsent,
      strconv.Atoi_Itoa n (by omega) (by omega)]

/-- The switch on a header whose value is present and neither the sentinel nor a decimal
integer. -/
theorem headerValue_invalid (value sentinel : String) (invalid : GoError)
    (h : isInvalidValue value sentinel = true) :
    ∃ e, headerValue value sentinel invalid
      = Except.error (GoError.errorfErr invalid (GoError.numError "Atoi" value e)) := by
  simp only [isInvalidValue, Bool.and_eq_true, bne_iff_ne, ne_eq, Bool.not_eq_true'] at h
  obtain ⟨⟨h1, h2⟩, h3⟩ := h
  obtain ⟨e, he⟩ := strconv.Atoi_of_not_isDecimal value h3
  exact ⟨e, by simp only [headerValue, if_neg h1, if_neg h2, he]⟩

/-- The switch on a header whose value it accepts. -/
theorem headerValue_accepted (value sentinel : String) (invalid : GoError)
    (h : isAcceptedValue value sentinel = true) :
    ∃ v, headerValue value sentinel invalid = Except.ok v := by
  simp only [isAcceptedValue, Bool.or_eq_true, beq_iff_eq] at h
  unfold headerValue
  by_cases h1 : value = ""
  · exact ⟨none, by rw [if_pos h1]⟩
  · by_cases h2 : value = sentinel
    · exact ⟨none, by rw [if_neg h1, if_pos h2]⟩
    · rw [if_neg h1, if_neg h2]
      rcases h with (h | h) | h
      · exact absurd h h1
      · exact absurd h h2
      · cases hat : strconv.Atoi value with
        | error e => rw [hat] at h; simp [Except.toBool] at h
        | ok v => exact ⟨some v, rfl⟩

/-- When the parse of the headers returns an error it returns no snapshot. -/
theorem NewRateLimitFromHeaders_error (h : http.Header)
    (herr : (NewRateLimitFromHeaders h).2 ≠ none) : (NewRateLimitFromHeaders h).1 = none := by
  unfold NewRateLimitFromHeaders at herr ⊢
  cases h1 : headerValue (h.Get "X-RateLimit-Limit") Unlimited ErrInvalidLimit with
  | error e => rfl
  | ok l =>
    cases h2 : headerValue (h.Get "X-RateLimit-Remaining") NA ErrInvalidRemaining with
    | error e => rfl
    | ok r =>
      cases h3 : headerValue (h.Get "X-RateLimit-Reset") NA ErrInvalidReset with
      | error e => rfl
      | ok s =>
        cases h4 : headerValue (h.Get "X-RateLimit-Expires") NA ErrInvalidExpires with
        | error e => rfl
        | ok x => simp [h1, h2, h3, h4] at herr

/-- The parse of headers that carry, per field, nothing, the sentinel or an integer of 64
bits. -/
theorem NewRateLimitFromHeaders_given (h : http.Header) (limit remaining reset expires : Given)
    (hl : h.Get "X-RateLimit-Limit" = limit.header Unlimited)
    (hr : h.Get "X-RateLimit-Remaining" = remaining.header NA)
    (hs : h.Get "X-RateLimit-Reset" = reset.header NA)
    (he : h.Get "X-RateLimit-Expires" = expires.header NA)
    (hfl : limit.isInt64 = true) (hfr : remaining.isInt64 = true)
    (hfs : reset.isInt64 = true) (hfe : expires.isInt64 = true) :
    NewRateLimitFromHeaders h
      = (some { Rate :=
          { Limit := limit.int
            Remaining := remaining.int
            Reset := reset.int.map unix
            Expires := expires.int.map unix
            ResultsMax := 0
            OffsetMax := 0
            BurstSize := 0
            BurstWindow := 0 } }, none) := by
  simp only [NewRateLimitFromHeaders, hl, hr, hs, he,
    headerValue_given limit Unlimited _ (Or.inl rfl) hfl,
    headerValue_given remaining NA _ (Or.inr rfl) hfr,
    headerValue_given reset NA _ (Or.inr rfl) hfs,
    headerValue_given expires NA _ (Or.inr rfl) hfe]
  cases limit.int <;> cases remaining.int <;> cases reset.int <;> cases expires.int <;> rfl

/-- Counterexample to C15 as it is stated: the header `X-RateLimit-Reset: 0` sets `Reset` to
the zero time `time.Time{}`, which is not the timestamp 0 seconds after the epoch; and the
decimal integer 9223372036854775808 as limit sets no field: the parse fails. -/
theorem header_reset_zero_is_not_the_epoch :
    NewRateLimitFromHeaders exampleHeaderResetZero
      = (some { Rate := { Reset := some Time.zero } }, none) ∧
    Time.zero ≠ { sec := 0 } ∧
    strconv.isDecimal "9223372036854775808" = true ∧
    (NewRateLimitFromHeaders exampleHeaderLimitHuge).1 = none ∧
    (NewRateLimitFromHeaders exampleHeaderLimitHuge).2
      = some (GoError.errorfErr ErrInvalidLimit
          (GoError.numError "Atoi" "9223372036854775808" GoError.errRange)) := by
  decide

/-- C15, amended. `NewRateLimitFromHeaders`, for each of the headers `X-RateLimit-Limit`,
`-Remaining`, `-Reset` and `-Expires` independently: an absent header or the sentinel of the
field (`unlimited` for limit, `n/a` for the others) leaves the field unset, and a decimal
integer `n` within the range of `int64` sets it to `n`, without error; for reset and expires
the field is set to the timestamp `n` seconds after the epoch when `n` is not 0, and to the
zero time `time.Time{}` when `n` is 0. The four numeric fields are zero. -/
theorem headers_give_each_field (h : http.Header) (limit remaining reset expires : Given)
    (hl : h.Get "X-RateLimit-Limit" = limit.header Unlimited)
    (hr : h.Get "X-RateLimit-Remaining" = remaining.header NA)
    (hs : h.Get "X-RateLimit-Reset" = reset.header NA)
    (he : h.Get "X-RateLimit-Expires" = expires.header NA)
    (hfit : limit.isInt64 = true ∧ remaining.isInt64 = true ∧ reset.isInt64 = true ∧
      expires.isInt64 = true) :
    NewRateLimitFromHeaders h
      = (some { Rate :=
          { Limit := limit.int
            Remaining := remaining.int
            Reset := reset.int.map unix
            Expires := expires.int.map unix
            ResultsMax := 0
            OffsetMax := 0
            BurstSize := 0
            BurstWindow := 0 } }, none) ∧
    (∀ n : Int, n ≠ 0 → unix n = { sec := n, nsec := 0 }) ∧
    unix 0 = Time.zero := by
  exact ⟨NewRateLimitFromHeaders_given h limit remaining reset expires hl hr hs he
    hfit.1 hfit.2.1 hfit.2.2.1 hfit.2.2.2, fun n hn => by simp [unix, hn], rfl⟩

/-- With only `X-RateLimit-Limit: 100` present the snapshot has the limit 100 and the other
three fields unset. -/
theorem headers_give_each_field_witness :
    exampleHeaderLimit.Get "X-RateLimit-Limit" = (Given.number 100).header Unlimited ∧
    exampleHeaderLimit.Get "X-RateLimit-Reset" = Given.absent.header NA ∧
    (Given.number 100).isInt64 = true ∧
    NewRateLimitFromHeaders exampleHeaderLimit
      = (some { Rate := { Limit := some 100, Remaining := none, Reset := none,
                          Expires := none } }, none) :=
  have h := headers_give_each_field exampleHeaderLimit (Given.number 100) Given.absent
    Given.absent Given.absent (by decide) (by decide) (by decide) (by decide)
    ⟨by decide, by decide, by decide, by decide⟩
  ⟨by decide, by decide, by decide, h.1⟩

/-- Counterexample to C16 as it is stated. With the limit `n/a` and the reset `unlimited`, the
reset is present with a value that is neither `n/a` nor a decimal integer, and the message of
the error begins with `invalid limit value`, not with `invalid reset value`. And with the
header `X-RateLimit-Limit` present with the empty value, which is neither `unlimited` nor a
decimal integer, the parse is not aborted: the snapshot is returned, with the limit unset, and
no error. -/
theorem header_message_is_of_the_first_rejected_field :
    isInvalidValue (exampleHeaderTwoInvalid.Get "X-RateLimit-Reset") NA = true ∧
    (NewRateLimitFromHeaders exampleHeaderTwoInvalid).1 = none ∧
    (NewRateLimitFromHeaders exampleHeaderTwoInvalid).2.map (GoError.Error exampleLibrary)
      = some "invalid limit value: strconv.Atoi: parsing \"n/a\": invalid syntax" ∧
    strings.HasPrefix "invalid limit value: strconv.Atoi: parsing \"n/a\": invalid syntax"
      "invalid reset value" = false ∧
    exampleEntriesLimitEmpty.lookup "X-RateLimit-Limit" = some [""] ∧
    "" ≠ Unlimited ∧ strconv.isDecimal "" = false ∧
    NewRateLimitFromHeaders (http.Header.ofEntries exampleEntriesLimitEmpty)
      = (some { Rate := { Limit := none, Remaining := some 8 } }, none) := by
  refine ⟨by decide, by decide, by decide, by decide, by decide, by decide, by decide,
    by decide⟩

/-- C16, amended. `NewRateLimitFromHeaders`: when one of the four headers has a value that is
not empty and is neither the sentinel of its field nor a decimal integer (the sentinel of
another field included), the parse is aborted: no snapshot is returned, and an error is
returned whose message begins with the message of a field. It is the message of the first
field, in the order limit, remaining, reset, expires, whose value the parse does not accept:
the message of the field with the invalid value when the headers before it are accepted, each
being empty, the sentinel of its field or a number that `strconv.Atoi` reads. -/
theorem invalid_header_aborts_the_parse (lib : Library) (h : http.Header)
    (hbad : isInvalidValue (h.Get "X-RateLimit-Limit") Unlimited = true ∨
      isInvalidValue (h.Get "X-RateLimit-Remaining") NA = true ∨
      isInvalidValue (h.Get "X-RateLimit-Reset") NA = true ∨
      isInvalidValue (h.Get "X-RateLimit-Expires") NA = true) :
    (NewRateLimitFromHeaders h).1 = none ∧
    ∃ err, (NewRateLimitFromHeaders h).2 = some err ∧
      (strings.HasPrefix (err.Error lib) "invalid limit value" = true ∨
        strings.HasPrefix (err.Error lib) "invalid remaining value" = true ∨
        strings.HasPrefix (err.Error lib) "invalid reset value" = true ∨
        strings.HasPrefix (err.Error lib) "invalid expires value" = true) ∧
      (isInvalidValue (h.Get "X-RateLimit-Limit") Unlimited = true →
        strings.HasPrefix (err.Error lib) "invalid limit value" = true) ∧
      (isAcceptedValue (h.Get "X-RateLimit-Limit") Unlimited = true →
        isInvalidValue (h.Get "X-RateLimit-Remaining") NA = true →
        strings.HasPrefix (err.Error lib) "invalid remaining value" = true) ∧
      (isAcceptedValue (h.Get "X-RateLimit-Limit") Unlimited = true →
        isAcceptedValue (h.Get "X-RateLimit-Remaining") NA = true →
        isInvalidValue (h.Get "X-RateLimit-Reset") NA = true →
        strings.HasPrefix (err.Error lib) "invalid reset value" = true) ∧
      (isAcceptedValue (h.Get "X-RateLimit-Limit") Unlimited = true →
        isAcceptedValue (h.Get "X-RateLimit-Remaining") NA = true →
        isAcceptedValue (h.Get "X-RateLimit-Reset") NA = true →
        isInvalidValue (h.Get "X-RateLimit-Expires") NA = true →
        strings.HasPrefix (err.Error lib) "invalid expires value" = true) := by
  have hpre : ∀ (inv e : GoError),
      strings.HasPrefix ((GoError.errorfErr inv e).Error lib) (inv.Error lib) = true :=
    fun inv e => by
      simp only [GoError.Error, String.append_assoc]
      exact hasPrefix_append _ _
  have invalid_not_accepted : ∀ (v s : String), isInvalidValue v s = true →
      isAcceptedValue v s = true → False := fun v s hi ha => by
    obtain ⟨e, he⟩ := headerValue_invalid v s GoError.errSyntax hi
    obtain ⟨w, hw⟩ := headerValue_accepted v s GoError.errSyntax ha
    rw [he] at hw
    cases hw
  unfold NewRateLimitFromHeaders
  cases h1 : headerValue (h.Get "X-RateLimit-Limit") Unlimited ErrInvalidLimit with
  | error e1 =>
    have hl : ¬ isAcceptedValue (h.Get "X-RateLimit-Limit") Unlimited = true := fun ha => by
      obtain ⟨w, hw⟩ := headerValue_accepted _ _ ErrInvalidLimit ha
      rw [h1] at hw
      cases hw
    have hform : ∃ e, e1 = GoError.errorfErr ErrInvalidLimit e := by
      unfold headerValue at h1
      split_ifs at h1
      split at h1
      · exact ⟨_, (Except.error.inj h1).symm⟩
      · cases h1
    obtain ⟨e, rfl⟩ := hform
    refine ⟨rfl, _, rfl, Or.inl (hpre _ _), fun _ => hpre _ _, fun ha => absurd ha hl,
      fun ha => absurd ha hl, fun ha => absurd ha hl⟩
  | ok l =>
    have hl : ¬ isInvalidValue (h.Get "X-RateLimit-Limit") Unlimited = true := fun hi => by
      obtain ⟨e, he⟩ := headerValue_invalid _ _ ErrInvalidLimit hi
      rw [h1] at he
      cases he
    cases h2 : headerValue (h.Get "X-RateLimit-Remaining") NA ErrInvalidRemaining with
    | error e2 =>
      have hr : ¬ isAcceptedValue (h.Get "X-RateLimit-Remaining") NA = true := fun ha => by
        obtain ⟨w, hw⟩ := headerValue_accepted _ _ ErrInvalidRemaining ha
        rw [h2] at hw
        cases hw
      have hform : ∃ e, e2 = GoError.errorfErr ErrInvalidRemaining e := by
        unfold headerValue at h2
        split_ifs at h2
        split at h2
        · exact ⟨_, (Except.error.inj h2).symm⟩
        · cases h2
      obtain ⟨e, rfl⟩ := hform
      refine ⟨rfl, _, rfl, Or.inr (Or.inl (hpre _ _)), fun hi => absurd hi hl,
        fun _ _ => hpre _ _, fun _ ha => absurd ha hr, fun _ ha => absurd ha hr⟩
    | ok r =>
      have hr : ¬ isInvalidValue (h.Get "X-RateLimit-Remaining") NA = true := fun hi => by
        obtain ⟨e, he⟩ := headerValue_invalid _ _ ErrInvalidRemaining hi
        rw [h2] at he
        cases he
      cases h3 : headerValue (h.Get "X-RateLimit-Reset") NA ErrInvalidReset with
      | error e3 =>
        have hs : ¬ isAcceptedValue (h.Get "X-RateLimit-Reset") NA = true := fun ha => by
          obtain ⟨w, hw⟩ := headerValue_accepted _ _ ErrInvalidReset ha
          rw [h3] at hw
          cases hw
        have hform : ∃ e, e3 = GoError.errorfErr ErrInvalidReset e := by
          unfold headerValue at h3
          split_ifs at h3
          split at h3
          · exact ⟨_, (Except.error.inj h3).symm⟩
          · cases h3
        obtain ⟨e, rfl⟩ := hform
        refine ⟨rfl, _, rfl, Or.inr (Or.inr (Or.inl (hpre _ _))), fun hi => absurd hi hl,
          fun _ hi => absurd hi hr, fun _ _ _ => hpre _ _, fun _ _ ha => absurd ha hs⟩
      | ok s =>
        have hs : ¬ isInvalidValue (h.Get "X-RateLimit-Reset") NA = true := fun hi => by
          obtain ⟨e, he⟩ := headerValue_invalid _ _ ErrInvalidReset hi
          rw [h3] at he
          cases he
        cases h4 : headerValue (h.Get "X-RateLimit-Expires") NA ErrInvalidExpires with
        | error e4 =>
          have hform : ∃ e, e4 = GoError.errorfErr ErrInvalidExpires e := by
            unfold headerValue at h4
            split_ifs at h4
            split at h4
            · exact ⟨_, (Except.error.inj h4).symm⟩
            · cases h4
          obtain ⟨e, rfl⟩ := hform
          refine ⟨rfl, _, rfl, Or.inr (Or.inr (Or.inr (hpre _ _))), fun hi => absurd hi hl,
            fun _ hi => absurd hi hr, fun _ _ hi => absurd hi hs, fun _ _ _ _ => hpre _ _⟩
        | ok x =>
          have hx : ¬ isInvalidValue (h.Get "X-RateLimit-Expires") NA = true := fun hi => by
            obtain ⟨e, he⟩ := headerValue_invalid _ _ ErrInvalidExpires hi
            rw [h4] at he
            cases he
          rcases hbad with hb | hb | hb | hb
          · exact absurd hb hl
          · exact absurd hb hr
          · exact absurd hb hs
          · exact absurd hb hx

/-- The header `X-RateLimit-Reset: unlimited`, the only header present, aborts the parse with a
message that begins with `invalid reset value`. -/
theorem invalid_header_aborts_the_parse_witness :
    isInvalidValue (exampleHeaderResetUnlimited.Get "X-RateLimit-Reset") NA = true ∧
    (NewRateLimitFromHeaders exampleHeaderResetUnlimited).1 = none ∧
    ∃ err, (NewRateLimitFromHeaders exampleHeaderResetUnlimited).2 = some err ∧
      strings.HasPrefix (err.Error exampleLibrary) "invalid reset value" = true ∧
      err.Error exampleLibrary
        = "invalid reset value: strconv.Atoi: parsing \"unlimited\": invalid syntax" :=
  have h := invalid_header_aborts_the_parse exampleLibrary exampleHeaderResetUnlimited
    (Or.inr (Or.inr (Or.inl (by decide))))
  ⟨by decide, h.1, by
    obtain ⟨err, herr, -, -, -, hreset, -⟩ := h.2
    refine ⟨err, herr, hreset (by decide) (by decide) (by decide), ?_⟩
    have hval : (NewRateLimitFromHeaders exampleHeaderResetUnlimited).2
        = some (GoError.errorfErr ErrInvalidReset
            (GoError.numError "Atoi" "unlimited" GoError.errSyntax)) := by decide
    rw [hval] at herr
    cases herr
    decide⟩

end dnsdb

/-! ## The rate limit of a record stream: lemmas and theorems -/

namespace v2

variable {Line Record : Type}

/-- The loop neither reads nor writes the field `rl`. -/
theorem loop_rl (unmarshal : saf.RawMessage → Option Record) (streamErr : Option GoError)
    (x : Option dnsdb.RateLimit) (raws : List saf.RawMessage) (ctx : Context)
    (r : result Record) :
    result.loop unmarshal streamErr ctx raws { r with rl := x }
      = { result.loop unmarshal streamErr ctx raws r with rl := x } := by
  induction raws generalizing ctx r with
  | nil =>
    simp only [result.loop, result.ctxDone]
    split
    · rfl
    · split <;> rfl
  | cons raw rest ih =>
    simp only [result.loop, result.ctxDone]
    split
    · rfl
    · cases unmarshal raw with
      | none => exact ih ctx.tick r
      | some res =>
        simp only
        split
        · rfl
        · exact ih ctx.tick.tick { r with ch := r.ch ++ [res] }

/-- What the stream delivers and how it ends does not depend on the field `rl`. -/
theorem stream_rl (unmarshalMsg : Line → Option saf.Message)
    (unmarshal : saf.RawMessage → Option Record) (ctx : Context) (res : Response Line)
    (closerRan : Bool) (x : Option dnsdb.RateLimit) (r : result Record) :
    result.stream unmarshalMsg unmarshal ctx res closerRan { r with rl := x }
      = { result.stream unmarshalMsg unmarshal ctx res closerRan r with rl := x } := by
  simp only [result.stream, loop_rl]

end v2

namespace v1

variable {Line : Type}

/-- The scan neither reads nor writes the field `rl`. -/
theorem scan_rl (unmarshal : Line → Option dnsdb.RRSet) (x : Option dnsdb.RateLimit)
    (lines : List Line) (ctx : Context) (r : result) :
    result.scan unmarshal ctx lines { r with rl := x }
      = { result.scan unmarshal ctx lines r with rl := x } := by
  induction lines generalizing ctx r with
  | nil => rfl
  | cons line rest ih =>
    simp only [result.scan]
    cases unmarshal line with
    | none => exact ih ctx r
    | some res =>
      simp only
      split
      · rfl
      · exact ih ctx.tick { r with ch := r.ch ++ [res] }

/-- The scan leaves the field `rl` as it finds it. -/
theorem scan_keeps_rl (unmarshal : Line → Option dnsdb.RRSet) (lines : List Line)
    (ctx : Context) (r : result) : (result.scan unmarshal ctx lines r).rl = r.rl := by
  induction lines generalizing ctx r with
  | nil => rfl
  | cons line rest ih =>
    simp only [result.scan]
    cases unmarshal line with
    | none => exact ih ctx r
    | some res =>
      simp only
      split
      · rfl
      · exact ih ctx.tick { r with ch := r.ch ++ [res] }

end v1

namespace dnsdb

variable {Line : Type}

theorem withoutRateLimit_content_type (h : http.Header) :
    (withoutRateLimit h).Get "content-type" = h.Get "content-type" := by
  simp [withoutRateLimit, http.Header.without]

/-- C17. The record streams of v1 and v2 (RRSet and flex): when the rate-limit headers of the
response fail to parse, `Rate()` is nil, and the records delivered and the terminal error are
those of the same response without the rate-limit headers, under every context. -/
theorem rate_limit_parse_failure_is_swallowed (unmarshalMsg : Line → Option saf.Message)
    (unmarshalRRSet : saf.RawMessage → Option RRSet)
    (unmarshalFlex : saf.RawMessage → Option flex.Record)
    (statusError1 : Int → Option GoError) (unmarshalLine : Line → Option RRSet)
    (ctx : Context) (res : Response Line) (closerRan : Bool)
    (hfail : (NewRateLimitFromHeaders res.Header).2 ≠ none) :
    ((v2.result.run unmarshalMsg unmarshalRRSet ctx (Except.ok res) closerRan).Rate = none ∧
      (v2.result.run unmarshalMsg unmarshalRRSet ctx (Except.ok res) closerRan).ch
        = (v2.result.run unmarshalMsg unmarshalRRSet ctx
            (Except.ok { res with Header := withoutRateLimit res.Header }) closerRan).ch ∧
      (v2.result.run unmarshalMsg unmarshalRRSet ctx (Except.ok res) closerRan).err
        = (v2.result.run unmarshalMsg unmarshalRRSet ctx
            (Except.ok { res with Header := withoutRateLimit res.Header }) closerRan).err) ∧
    ((v2.flexResult.run unmarshalMsg unmarshalFlex ctx (Except.ok res) closerRan).Rate = none ∧
      (v2.flexResult.run unmarshalMsg unmarshalFlex ctx (Except.ok res) closerRan).ch
        = (v2.flexResult.run unmarshalMsg unmarshalFlex ctx
            (Except.ok { res with Header := withoutRateLimit res.Header }) closerRan).ch ∧
      (v2.flexResult.run unmarshalMsg unmarshalFlex ctx (Except.ok res) closerRan).err
        = (v2.flexResult.run unmarshalMsg unmarshalFlex ctx
            (Except.ok { res with Header := withoutRateLimit res.Header }) closerRan).err) ∧
    ((v1.result.run statusError1 unmarshalLine ctx (Except.ok res) closerRan).Rate = none ∧
      (v1.result.run statusError1 unmarshalLine ctx (Except.ok res) closerRan).ch
        = (v1.result.run statusError1 unmarshalLine ctx
            (Except.ok { res with Header := withoutRateLimit res.Header }) closerRan).ch ∧
      (v1.result.run statusError1 unmarshalLine ctx (Except.ok res) closerRan).err
        = (v1.result.run statusError1 unmarshalLine ctx
            (Except.ok { res with Header := withoutRateLimit res.Header }) closerRan).err) := by
  have hnil := NewRateLimitFromHeaders_error res.Header hfail
  have hs2 : ∀ {Record : Type} (u : saf.RawMessage → Option Record)
      (x : Option RateLimit),
      v2.result.stream unmarshalMsg u ctx
          { res with Header := withoutRateLimit res.Header } closerRan { rl := x }
        = { v2.result.stream unmarshalMsg u ctx res closerRan {} with rl := x } :=
    fun u x => (v2.stream_rl unmarshalMsg u ctx _ closerRan x {}).trans rfl
  have hs2' : ∀ {Record : Type} (u : saf.RawMessage → Option Record)
      (x : Option RateLimit),
      v2.result.stream unmarshalMsg u ctx res closerRan { rl := x }
        = { v2.result.stream unmarshalMsg u ctx res closerRan {} with rl := x } :=
    fun u x => v2.stream_rl unmarshalMsg u ctx res closerRan x {}
  have hs1 : ∀ x : Option RateLimit,
      v1.result.scan unmarshalLine ctx res.Body { rl := x }
        = { v1.result.scan unmarshalLine ctx res.Body {} with rl := x } :=
    fun x => v1.scan_rl unmarshalLine x res.Body ctx {}
  refine ⟨⟨?_, ?_, ?_⟩, ⟨?_, ?_, ?_⟩, ⟨?_, ?_, ?_⟩⟩
  · simp only [v2.result.run, v2.result.Rate, hnil]
    split
    · rw [hs2']
    · rfl
  · simp only [v2.result.run]
    split
    · rw [hs2', hs2]
    · rfl
  · simp only [v2.result.run]
    split
    · rw [hs2', hs2]
    · rfl
  · simp only [v2.flexResult.run, v2.result.Rate, hnil]
    split
    · rw [hs2']
    · split
      · split
        · split <;> rfl
        · rfl
      · rfl
  · simp only [v2.flexResult.run, withoutRateLimit_content_type]
    split
    · rw [hs2', hs2]
    · split
      · split
        · split <;> rfl
        · rfl
      · rfl
  · simp only [v2.flexResult.run, withoutRateLimit_content_type]
    split
    · rw [hs2', hs2]
    · split
      · split
        · split <;> rfl
        · rfl
      · rfl
  · simp only [v1.result.run, v1.result.Rate, hnil]
    split
    · simp only [v1.result.closer]
      split
      · split <;> exact v1.scan_keeps_rl unmarshalLine res.Body ctx {}
      · exact v1.scan_keeps_rl unmarshalLine res.Body ctx {}
    · rfl
  · simp only [v1.result.run]
    split
    · rw [hs1 (NewRateLimitFromHeaders res.Header).1,
        hs1 (NewRateLimitFromHeaders (withoutRateLimit res.Header)).1]
      simp only [v1.result.closer]
      split
      · split <;> rfl
      · rfl
    · rfl
  · simp only [v1.result.run]
    split
    · rw [hs1 (NewRateLimitFromHeaders res.Header).1,
        hs1 (NewRateLimitFromHeaders (withoutRateLimit res.Header)).1]
      simp only [v1.result.closer]
      split
      · split <;> rfl
      · rfl
    · rfl

/-- With the limit `n/a` in the header of a response of status 200 whose body is
`exampleResults`, the RRSet stream has no rate limit and delivers the records of count 1 and
count 3 as it does without the header. -/
theorem rate_limit_parse_failure_is_swallowed_witness :
    (NewRateLimitFromHeaders exampleHeaderLimitNA).2 ≠ none ∧
    (v2.result.run id v2.exampleRRSet (Context.mk none GoError.canceled)
      (Except.ok { StatusCode := 200, Header := exampleHeaderLimitNA,
                   Body := v2.exampleResults }) false).Rate = none ∧
    (v2.result.run id v2.exampleRRSet (Context.mk none GoError.canceled)
      (Except.ok { StatusCode := 200, Header := exampleHeaderLimitNA,
                   Body := v2.exampleResults }) false).ch
        = [{ Count := 1 }, { Count := 3 }] ∧
    (v2.result.run id v2.exampleRRSet (Context.mk none GoError.canceled)
      (Except.ok { StatusCode := 200, Header := exampleHeaderLimitNA,
                   Body := v2.exampleResults }) false).err
        = (v2.result.run id v2.exampleRRSet (Context.mk none GoError.canceled)
            (Except.ok { StatusCode := 200, Header := withoutRateLimit exampleHeaderLimitNA,
                         Body := v2.exampleResults }) false).err :=
  have h := rate_limit_parse_failure_is_swallowed id v2.exampleRRSet v2.exampleFlexRecord
    (fun _ => none) (fun _ => none) (Context.mk none GoError.canceled)
    { StatusCode := 200, Header := exampleHeaderLimitNA, Body := v2.exampleResults } false
    (by decide)
  ⟨by decide, h.1.1, h.1.2.1.trans (by decide), h.1.2.2⟩

end dnsdb

/-! ## Rate limits from JSON: lemmas and theorems -/

namespace dnsdb

/-- The `float64` of an integer of at most `2 ^ 53` in absolute value is the integer. -/
theorem ofInt_of_le (n : Int) (hlo : -(2 ^ 53) ≤ n) (hhi : n ≤ 2 ^ 53) :
    Float64.ofInt n = { m := n, e := 0 } := by
  have h : n.natAbs ≤ 2 ^ 53 := by omega
  simp only [Float64.ofInt, h, if_true]

/-- An integer of at most `2 ^ 53` in absolute value is converted back from its `float64` as
it is. -/
theorem toInt64_ofInt (n : Int) (hlo : -(2 ^ 53) ≤ n) (hhi : n ≤ 2 ^ 53) :
    (Float64.ofInt n).toInt64 = n := by
  have ht : (Float64.ofInt n).trunc = n := by
    simp [Float64.trunc, ofInt_of_le n hlo hhi]
  simp only [Float64.toInt64, ht]
  rw [if_pos ⟨by omega, by omega⟩]

/-- The type switch of a time field on a value it accepts. -/
theorem switchTime_accepted (v : json.Value) (invalid : GoError)
    (h : isAcceptedJSON v NA = true) :
    switchTime v invalid = Except.ok (v.number?.map (fun f => unix f.toInt64)) := by
  cases v with
  | nil => rfl
  | bool b => simp [isAcceptedJSON] at h
  | float64 f => rfl
  | string s =>
    simp only [isAcceptedJSON, beq_iff_eq] at h
    simp [switchTime, h, json.Value.number?]
  | array xs => simp [isAcceptedJSON] at h
  | object ms => simp [isAcceptedJSON] at h

/-- The type switch of a time field on a value it does not accept. -/
theorem switchTime_invalid (v : json.Value) (invalid : GoError)
    (h : isAcceptedJSON v NA = false) : switchTime v invalid = Except.error invalid := by
  cases v with
  | nil => simp [isAcceptedJSON] at h
  | bool b => rfl
  | float64 f => simp [isAcceptedJSON] at h
  | string s =>
    simp only [isAcceptedJSON, beq_eq_false_iff_ne, ne_eq] at h
    simp [switchTime, h]
  | array xs => rfl
  | object ms => rfl

/-- The type switch of an integer field on a value it accepts. -/
theorem switchInt_accepted (v : json.Value) (sentinel : String) (invalid : GoError)
    (h : isAcceptedJSON v sentinel = true) :
    switchInt v sentinel invalid = Except.ok (v.number?.map Float64.toInt64) := by
  cases v with
  | nil => rfl
  | bool b => simp [isAcceptedJSON] at h
  | float64 f => rfl
  | string s =>
    simp only [isAcceptedJSON, beq_iff_eq] at h
    simp [switchInt, h, json.Value.number?]
  | array xs => simp [isAcceptedJSON] at h
  | object ms => simp [isAcceptedJSON] at h

/-- The type switch of an integer field on a value it does not accept. -/
theorem switchInt_invalid (v : json.Value) (sentinel : String) (invalid : GoError)
    (h : isAcceptedJSON v sentinel = false) :
    switchInt v sentinel invalid = Except.error invalid := by
  cases v with
  | nil => simp [isAcceptedJSON] at h
  | bool b => rfl
  | float64 f => simp [isAcceptedJSON] at h
  | string s =>
    simp only [isAcceptedJSON, beq_eq_false_iff_ne, ne_eq] at h
    simp [switchInt, h]
  | array xs => rfl
  | object ms => rfl

/-- The decoding of a struct all of whose four fields pass their switch. -/
theorem UnmarshalJSON_accepted {Data : Type} (unmarshal : Data → Except GoError rateRaw)
    (data : Data) (raw : rateRaw) (r : Rate) (hraw : unmarshal data = Except.ok raw)
    (hs : isAcceptedJSON raw.Reset NA = true) (hl : isAcceptedJSON raw.Limit Unlimited = true)
    (hr : isAcceptedJSON raw.Remaining NA = true) (he : isAcceptedJSON raw.Expires NA = true) :
    Rate.UnmarshalJSON unmarshal data r
      = ({ Reset := raw.Reset.number?.map (fun f => unix f.toInt64)
           Limit := raw.Limit.number?.map Float64.toInt64
           Remaining := raw.Remaining.number?.map Float64.toInt64
           Expires := raw.Expires.number?.map (fun f => unix f.toInt64)
           ResultsMax := raw.ResultsMax
           OffsetMax := raw.OffsetMax
           BurstSize := raw.BurstSize
           BurstWindow := raw.BurstWindow }, none) := by
  simp only [Rate.UnmarshalJSON, hraw, switchTime_accepted _ _ hs, switchInt_accepted _ _ _ hl,
    switchInt_accepted _ _ _ hr, switchTime_accepted _ _ he]

/-- The zero time is not the Unix epoch. -/
theorem zero_time_ne_epoch : Time.zero ≠ { sec := 0, nsec := 0 } := by decide

/-- What is given within `2 ^ 53` is within the range of `int64`. -/
theorem Given.isInt64_of_within (g : Given) (h : g.within (2 ^ 53) = true) :
    g.isInt64 = true := by
  cases g with
  | absent => rfl
  | sentinel => rfl
  | number n =>
    simp only [Given.within, decide_eq_true_eq] at h
    simp only [Given.isInt64, decide_eq_true_eq]
    omega

/-- The JSON value of what is given passes the switch of its field. -/
theorem Given.json_accepted (g : Given) (sentinel : String) :
    isAcceptedJSON (g.json sentinel) sentinel = true := by
  cases g <;> simp [Given.json, isAcceptedJSON]

/-- The integer that the JSON value of what is given is converted to. -/
theorem Given.json_toInt64 (g : Given) (sentinel : String) (h : g.within (2 ^ 53) = true) :
    (g.json sentinel).number?.map Float64.toInt64 = g.int := by
  cases g with
  | absent => rfl
  | sentinel => rfl
  | number n =>
    simp only [Given.within, decide_eq_true_eq] at h
    simp [Given.json, json.Value.number?, Given.int, toInt64_ofInt n h.1 h.2]

/-- The time that the JSON value of what is given is converted to. -/
theorem Given.json_unix (g : Given) (sentinel : String) (h : g.within (2 ^ 53) = true) :
    (g.json sentinel).number?.map (fun f => unix f.toInt64) = g.int.map unix := by
  cases g with
  | absent => rfl
  | sentinel => rfl
  | number n =>
    simp only [Given.within, decide_eq_true_eq] at h
    simp [Given.json, json.Value.number?, Given.int, toInt64_ofInt n h.1 h.2]

set_option maxRecDepth 4000 in
/-- Counterexample to C18 as it is stated: the JSON number 0 for `reset` sets the field to the
zero time `time.Time{}`, which is not the timestamp 0 seconds after the epoch; the JSON
number 1.5 for `limit` sets the field to 1; the JSON number 9007199254740993, which is
`2 ^ 53 + 1`, sets it to 9007199254740992; and the JSON number 9223372036854775807, the
largest `int64`, sets it to -9223372036854775808. -/
theorem json_number_is_not_kept_as_it_is :
    Rate.UnmarshalJSON (fun _ : Unit => Except.ok exampleRawResetZero) () {}
      = ({ Reset := some Time.zero }, none) ∧
    Time.zero ≠ { sec := 0, nsec := 0 } ∧
    Rate.UnmarshalJSON (fun _ : Unit => Except.ok exampleRawLimitFraction) () {}
      = ({ Limit := some 1 }, none) ∧
    Rate.UnmarshalJSON (fun _ : Unit => Except.ok exampleRawLimitLarge) () {}
      = ({ Limit := some 9007199254740992 }, none) ∧
    Rate.UnmarshalJSON (fun _ : Unit => Except.ok exampleRawLimitMax) () {}
      = ({ Limit := some (-9223372036854775808) }, none) := by
  decide

/-- C18, amended. `Rate.UnmarshalJSON` on a document that `json.Unmarshal` decodes into the
struct `raw`. When each of reset, limit, remaining and expires is a number, nil (absent or
null) or the sentinel of its field, the decode succeeds and sets each field independently: a
number sets the field to the integer part of the `float64` that `json.Unmarshal` stores for
it, which for an integer `n` with `|n| ≤ 2 ^ 53` is the integer itself, and for reset and
expires to the timestamp that many seconds after the epoch, except that 0 gives the zero time
`time.Time{}`; nil and the sentinel leave the field unset. Any other string (the other
sentinel included), an array, an object or a boolean makes the decode fail with the error of
the first such field in the order reset, limit, remaining, expires, the receiver left as it
was. -/
theorem rate_json_sets_each_field {Data : Type} (unmarshal : Data → Except GoError rateRaw)
    (data : Data) (raw : rateRaw) (r : Rate) (hraw : unmarshal data = Except.ok raw) :
    (isAcceptedJSON raw.Reset NA = true → isAcceptedJSON raw.Limit Unlimited = true →
      isAcceptedJSON raw.Remaining NA = true → isAcceptedJSON raw.Expires NA = true →
      Rate.UnmarshalJSON unmarshal data r
        = ({ Reset := raw.Reset.number?.map (fun f => unix f.toInt64)
             Limit := raw.Limit.number?.map Float64.toInt64
             Remaining := raw.Remaining.number?.map Float64.toInt64
             Expires := raw.Expires.number?.map (fun f => unix f.toInt64)
             ResultsMax := raw.ResultsMax
             OffsetMax := raw.OffsetMax
             BurstSize := raw.BurstSize
             BurstWindow := raw.BurstWindow }, none)) ∧
    (∀ n : Int, -(2 ^ 53) ≤ n → n ≤ 2 ^ 53 → (Float64.ofInt n).toInt64 = n) ∧
    (∀ n : Int, n ≠ 0 → unix n = { sec := n, nsec := 0 }) ∧
    unix 0 = Time.zero ∧
    (isAcceptedJSON raw.Reset NA = false →
      Rate.UnmarshalJSON unmarshal data r = (r, some ErrInvalidReset)) ∧
    (isAcceptedJSON raw.Reset NA = true → isAcceptedJSON raw.Limit Unlimited = false →
      Rate.UnmarshalJSON unmarshal data r = (r, some ErrInvalidLimit)) ∧
    (isAcceptedJSON raw.Reset NA = true → isAcceptedJSON raw.Limit Unlimited = true →
      isAcceptedJSON raw.Remaining NA = false →
      Rate.UnmarshalJSON unmarshal data r = (r, some ErrInvalidRemaining)) ∧
    (isAcceptedJSON raw.Reset NA = true → isAcceptedJSON raw.Limit Unlimited = true →
      isAcceptedJSON raw.Remaining NA = true → isAcceptedJSON raw.Expires NA = false →
      Rate.UnmarshalJSON unmarshal data r = (r, some ErrInvalidExpires)) := by
  refine ⟨fun hs hl hr he => UnmarshalJSON_accepted unmarshal data raw r hraw hs hl hr he,
    toInt64_ofInt, fun n hn => by simp [unix, hn], rfl, ?_, ?_, ?_, ?_⟩
  · intro hs
    simp only [Rate.UnmarshalJSON, hraw, switchTime_invalid _ _ hs]
  · intro hs hl
    simp only [Rate.UnmarshalJSON, hraw, switchTime_accepted _ _ hs,
      switchInt_invalid _ _ _ hl]
  · intro hs hl hr
    simp only [Rate.UnmarshalJSON, hraw, switchTime_accepted _ _ hs,
      switchInt_accepted _ _ _ hl, switchInt_invalid _ _ _ hr]
  · intro hs hl hr he
    simp only [Rate.UnmarshalJSON, hraw, switchTime_accepted _ _ hs,
      switchInt_accepted _ _ _ hl, switchInt_accepted _ _ _ hr, switchTime_invalid _ _ he]

/-- The document of `TestRateLimit/block-based quota` decodes to the rate that the test
expects, and `{"limit": "n/a"}` fails with `ErrInvalidLimit`. -/
theorem rate_json_sets_each_field_witness :
    Rate.UnmarshalJSON (fun _ : Unit => Except.ok exampleRawBlockQuota) () {}
      = ({ Reset := none
           BurstSize := 10
           Expires := unixPtr 1555370914
           BurstWindow := 300
           OffsetMax := 3000000
           ResultsMax := 256
           Limit := intPtr 600
           Remaining := intPtr 8 }, none) ∧
    unixPtr 1555370914 = some { sec := 1555370914, nsec := 0 } ∧
    Rate.UnmarshalJSON (fun _ : Unit => Except.ok exampleRawLimitNA) () {}
      = ({}, some ErrInvalidLimit) :=
  have h := rate_json_sets_each_field (fun _ : Unit => Except.ok exampleRawBlockQuota) ()
    exampleRawBlockQuota {} rfl
  have h' := rate_json_sets_each_field (fun _ : Unit => Except.ok exampleRawLimitNA) ()
    exampleRawLimitNA {} rfl
  ⟨(h.1 (by decide) (by decide) (by decide) (by decide)).trans (by decide), by decide,
    h'.2.2.2.2.2.1 (by decide) (by decide)⟩

/-- Counterexample to C19 as it is stated: the JSON number 0 for `reset` decodes to a field
that is set (to the zero time), whereas `"n/a"` and a missing member leave the field unset. -/
theorem json_reset_zero_is_not_unset :
    (Rate.UnmarshalJSON (fun _ : Unit => Except.ok exampleRawResetZero) () {}).1.Reset
      = some Time.zero ∧
    (Rate.UnmarshalJSON (fun _ : Unit => Except.ok exampleRawResetNA) () {}).1.Reset = none ∧
    (Rate.UnmarshalJSON (fun _ : Unit => Except.ok ({} : rateRaw)) () {}).1.Reset = none ∧
    (Rate.UnmarshalJSON (fun _ : Unit => Except.ok exampleRawResetZero) () {}).1.Reset
      ≠ (Rate.UnmarshalJSON (fun _ : Unit => Except.ok exampleRawResetNA) () {}).1.Reset := by
  decide

/-- C19, amended. Rate-limit JSON decoding: when the decode succeeds, a numeric 0 for `reset`
(and likewise for `expires`) decodes to a field that is set and holds the zero time
`time.Time{}`. That is not the Unix epoch instant, and it is not the unset field, which the
value `"n/a"` and a missing or null member give. -/
theorem json_zero_is_the_zero_time {Data : Type} (unmarshal : Data → Except GoError rateRaw)
    (data : Data) (raw : rateRaw) (r rate : Rate) (hraw : unmarshal data = Except.ok raw)
    (hok : Rate.UnmarshalJSON unmarshal data r = (rate, none)) :
    (raw.Reset = json.Value.float64 (Float64.ofInt 0) → rate.Reset = some Time.zero) ∧
    (raw.Expires = json.Value.float64 (Float64.ofInt 0) → rate.Expires = some Time.zero) ∧
    (raw.Reset = json.Value.string NA ∨ raw.Reset = json.Value.nil → rate.Reset = none) ∧
    (raw.Expires = json.Value.string NA ∨ raw.Expires = json.Value.nil →
      rate.Expires = none) ∧
    Time.zero ≠ { sec := 0, nsec := 0 } ∧ (some Time.zero : Option Time) ≠ none := by
  have hform : switchTime raw.Reset ErrInvalidReset = Except.ok rate.Reset ∧
      switchTime raw.Expires ErrInvalidExpires = Except.ok rate.Expires := by
    simp only [Rate.UnmarshalJSON, hraw] at hok
    cases h1 : switchTime raw.Reset ErrInvalidReset with
    | error e => simp [h1] at hok
    | ok s =>
      cases h2 : switchInt raw.Limit Unlimited ErrInvalidLimit with
      | error e => simp [h1, h2] at hok
      | ok l =>
        cases h3 : switchInt raw.Remaining NA ErrInvalidRemaining with
        | error e => simp [h1, h2, h3] at hok
        | ok m =>
          cases h4 : switchTime raw.Expires ErrInvalidExpires with
          | error e => simp [h1, h2, h3, h4] at hok
          | ok x =>
            simp only [h1, h2, h3, h4, Prod.mk.injEq, and_true] at hok
            subst hok
            exact ⟨rfl, rfl⟩
  refine ⟨fun h => ?_, fun h => ?_, fun h => ?_, fun h => ?_, zero_time_ne_epoch, by simp⟩
  · have h1 := hform.1
    rw [h] at h1
    exact (Except.ok.inj h1).symm
  · have h1 := hform.2
    rw [h] at h1
    exact (Except.ok.inj h1).symm
  · have h1 := hform.1
    rcases h with h | h <;> rw [h] at h1 <;> exact (Except.ok.inj h1).symm
  · have h1 := hform.2
    rcases h with h | h <;> rw [h] at h1 <;> exact (Except.ok.inj h1).symm

/-- The document `{"reset": 0}` decodes without error, and its `Reset` is the zero time. -/
theorem json_zero_is_the_zero_time_witness :
    Rate.UnmarshalJSON (fun _ : Unit => Except.ok exampleRawResetZero) () {}
      = ({ Reset := some Time.zero }, none) ∧
    ({ Reset := some Time.zero } : Rate).Reset = some Time.zero :=
  have h := json_zero_is_the_zero_time (fun _ : Unit => Except.ok exampleRawResetZero) ()
    exampleRawResetZero {} { Reset := some Time.zero } rfl (by decide)
  ⟨by decide, h.1 rfl⟩

/-- C20. The two entry points agree: when each of limit, remaining, reset and expires is given
as nothing, as the sentinel of the field or as an integer `n` with `|n| ≤ 2 ^ 53`,
`NewRateLimitFromHeaders` on headers that carry these values as strings and
`Rate.UnmarshalJSON` on a JSON object that carries the same values and no other member both
succeed, and they yield the same `Rate`. -/
theorem header_and_json_rates_agree {Data : Type} (unmarshal : Data → Except GoError rateRaw)
    (data : Data) (r : Rate) (h : http.Header) (limit remaining reset expires : Given)
    (hl : h.Get "X-RateLimit-Limit" = limit.header Unlimited)
    (hr : h.Get "X-RateLimit-Remaining" = remaining.header NA)
    (hs : h.Get "X-RateLimit-Reset" = reset.header NA)
    (he : h.Get "X-RateLimit-Expires" = expires.header NA)
    (hraw : unmarshal data = Except.ok
      { Reset := reset.json NA
        Limit := limit.json Unlimited
        Remaining := remaining.json NA
        Expires := expires.json NA })
    (hwl : limit.within (2 ^ 53) = true) (hwr : remaining.within (2 ^ 53) = true)
    (hws : reset.within (2 ^ 53) = true) (hwe : expires.within (2 ^ 53) = true) :
    ∃ rate : Rate,
      NewRateLimitFromHeaders h = (some { Rate := rate }, none) ∧
      Rate.UnmarshalJSON unmarshal data r = (rate, none) := by
  have hfl := Given.isInt64_of_within limit hwl
  have hfr := Given.isInt64_of_within remaining hwr
  have hfs := Given.isInt64_of_within reset hws
  have hfe := Given.isInt64_of_within expires hwe
  refine ⟨_, NewRateLimitFromHeaders_given h limit remaining reset expires hl hr hs he
    hfl hfr hfs hfe, ?_⟩
  rw [UnmarshalJSON_accepted unmarshal data _ r hraw (Given.json_accepted _ _)
    (Given.json_accepted _ _) (Given.json_accepted _ _) (Given.json_accepted _ _)]
  simp only [Given.json_toInt64 _ _ hwl, Given.json_toInt64 _ _ hwr,
    Given.json_unix _ _ hws, Given.json_unix _ _ hwe]

/-- The headers and the JSON object of a block-based quota (limit 600, remaining 8, reset
`n/a`, expires 1555370914) give the same rate. -/
theorem header_and_json_rates_agree_witness :
    (Given.number 1555370914).within (2 ^ 53) = true ∧
    NewRateLimitFromHeaders exampleHeaderBlockQuota
      = (some { Rate := { Limit := some 600, Remaining := some 8, Reset := none,
                          Expires := some { sec := 1555370914 } } }, none) ∧
    Rate.UnmarshalJSON (fun _ : Unit => Except.ok exampleRawQuota) () {}
      = ({ Limit := some 600, Remaining := some 8, Reset := none,
           Expires := some { sec := 1555370914 } }, none) :=
  have h := header_and_json_rates_agree (fun _ : Unit => Except.ok exampleRawQuota) () {}
    exampleHeaderBlockQuota (Given.number 600) (Given.number 8) Given.sentinel
    (Given.number 1555370914) (by decide) (by decide) (by decide) (by decide) rfl
    (by decide) (by decide) (by decide) (by decide)
  ⟨by decide, by
    obtain ⟨rate, h1, h2⟩ := h
    have hv : Rate.UnmarshalJSON (fun _ : Unit => Except.ok exampleRawQuota) () {}
        = ({ Limit := some 600, Remaining := some 8, Reset := none,
             Expires := some { sec := 1555370914 } }, none) := by decide
    rw [hv] at h2
    cases h2
    exact ⟨h1, rfl⟩⟩

end dnsdb

/-! ## The parameters of a request: lemmas and theorems -/

namespace url

/-- The values of a key in a map with one more entry in front. -/
theorem Values.values_cons (kv : String × List String) (v : Values) (key : String) :
    Values.values (kv :: v) key = if kv.1 = key then kv.2 else Values.values v key := by
  unfold Values.values
  by_cases h : kv.1 = key
  · simp [List.find?_cons, h]
  · simp [List.find?_cons, h]

/-- The values of a key after a value has been appended to the values of `k`, when the map
holds `k`. -/
theorem Values.values_map (v : Values) (k x key : String) :
    Values.values (v.map (fun kv => if kv.1 = k then (kv.1, kv.2 ++ [x]) else kv)) key
      = if key = k ∧ v.any (fun kv => kv.1 = k) = true then Values.values v key ++ [x]
        else Values.values v key := by
  induction v with
  | nil => simp [Values.values]
  | cons kv rest ih =>
    rw [List.map_cons, Values.values_cons, Values.values_cons, ih]
    simp only [List.any_cons, Bool.or_eq_true, decide_eq_true_eq]
    by_cases h1 : kv.1 = k
    · rw [if_pos h1]
      by_cases h2 : key = k
      · subst h2
        simp [h1]
      · have h3 : kv.1 ≠ key := fun h => h2 (h ▸ h1)
        simp only [h3, if_false, h2, false_and]
    · rw [if_neg h1]
      by_cases h2 : kv.1 = key
      · have h3 : key ≠ k := fun h => h1 (h2.trans h)
        simp only [h2, if_true, h3, false_and, if_false]
      · simp only [h2, if_false, h1, false_or]

/-- The values of a key in a map that does not hold it. -/
theorem Values.values_of_not_any (v : Values) (key : String)
    (h : ¬ v.any (fun kv => kv.1 = key) = true) : Values.values v key = [] := by
  induction v with
  | nil => rfl
  | cons kv rest ih =>
    rw [Values.values_cons]
    simp only [List.any_cons, Bool.or_eq_true, decide_eq_true_eq, not_or] at h
    rw [if_neg h.1, ih h.2]

/-- The values of a key in a map with one more entry at the end. -/
theorem Values.values_append (v : Values) (k x key : String) :
    Values.values (v ++ [(k, [x])]) key
      = if v.any (fun kv => kv.1 = key) = true then Values.values v key
        else if k = key then [x] else [] := by
  induction v with
  | nil => by_cases h : k = key <;> simp [Values.values, h]
  | cons kv rest ih =>
    rw [List.cons_append, Values.values_cons, Values.values_cons, ih]
    by_cases h : kv.1 = key
    · simp [h]
    · simp only [List.any_cons, Bool.or_eq_true, decide_eq_true_eq, h, if_false, false_or]

/-- The values of a key after `Add`: the new value comes last among the values of its key, and
the values of the other keys are as before. -/
theorem Values.values_Add (v : Values) (k x key : String) :
    Values.values (Values.Add v k x) key
      = if key = k then Values.values v key ++ [x] else Values.values v key := by
  unfold Values.Add
  by_cases hany : v.any (fun kv => kv.1 = k) = true
  · rw [if_pos hany, Values.values_map]
    by_cases hk : key = k
    · rw [if_pos ⟨hk, hany⟩, if_pos hk]
    · rw [if_neg (fun h => hk h.1), if_neg hk]
  · rw [if_neg hany, Values.values_append]
    by_cases hk : key = k
    · subst hk
      rw [if_neg hany, if_pos rfl, if_pos rfl, Values.values_of_not_any v key hany]
      rfl
    · rw [if_neg hk]
      by_cases h2 : v.any (fun kv => kv.1 = key) = true
      · rw [if_pos h2]
      · rw [if_neg h2, if_neg (fun h => hk h.symm), Values.values_of_not_any v key h2]

end url

namespace dnsdb

variable {F : Type}

/-- The values of a key after an option has added its parameter. -/
theorem values_addParameter (v : url.Values) (k key : String) (value : Option String) :
    url.Values.values (addParameter v k value) key
      = url.Values.values v key ++ (if key = k then value.toList else []) := by
  cases value with
  | none => simp [addParameter]
  | some x =>
    simp only [addParameter, url.Values.values_Add, Option.toList]
    by_cases h : key = k <;> simp [h]

/-- `makeValues` adds the parameters of the eight options one after the other. -/
theorem makeValues_eq (m : Memory) (q : httpQuery F) (v : url.Values) :
    q.makeValues m v
      = addParameter (addParameter (addParameter (addParameter (addParameter (addParameter
          (addParameter (addParameter v "limit" ((q.view m).parameter "limit"))
            "aggr" ((q.view m).parameter "aggr"))
            "offset" ((q.view m).parameter "offset"))
            "max_count" ((q.view m).parameter "max_count"))
            "time_first_before" ((q.view m).parameter "time_first_before"))
            "time_first_after" ((q.view m).parameter "time_first_after"))
            "time_last_before" ((q.view m).parameter "time_last_before"))
            "time_last_after" ((q.view m).parameter "time_last_after") := by
  obtain ⟨mode, u, headers, result, name, ip, range, raw, rrtype, bailiwick, limit,
    aggregation, offset, maxCount, tfb, tfa, tlb, tla⟩ := q
  cases limit <;> cases aggregation <;> cases offset <;> cases maxCount <;> cases tfb <;>
    cases tfa <;> cases tlb <;> cases tla <;>
    simp [httpQuery.makeValues, httpQuery.view, queryView.parameter, addParameter] <;>
    split <;> rfl

/-- C27. `makeValues`: for every query, every memory and every initial map `v`, the values of
every key in the result are the values the key has in `v`, followed by the value of the option
that gives this key its parameter, if the option is set: `limit`, `offset`, `max_count` and
the four time bounds in decimal, `aggr` as `true` or `false`. An option that is not set adds
nothing, a key that is the parameter of no option keeps its values, and nothing of `v` is
removed. -/
theorem makeValues_adds_the_set_options (m : Memory) (q : httpQuery F) (v : url.Values)
    (key : String) :
    url.Values.values (q.makeValues m v) key
      = url.Values.values v key ++ ((q.view m).parameter key).toList := by
  rw [makeValues_eq]
  simp only [values_addParameter, List.append_assoc]
  congr 1
  by_cases h1 : key = "limit"
  · subst h1; simp [queryView.parameter]
  by_cases h2 : key = "aggr"
  · subst h2; simp [queryView.parameter]
  by_cases h3 : key = "offset"
  · subst h3; simp [queryView.parameter]
  by_cases h4 : key = "max_count"
  · subst h4; simp [queryView.parameter]
  by_cases h5 : key = "time_first_before"
  · subst h5; simp [queryView.parameter]
  by_cases h6 : key = "time_first_after"
  · subst h6; simp [queryView.parameter]
  by_cases h7 : key = "time_last_before"
  · subst h7; simp [queryView.parameter]
  by_cases h8 : key = "time_last_after"
  · subst h8; simp [queryView.parameter]
  simp [queryView.parameter, h1, h2, h3, h4, h5, h6, h7, h8]

end dnsdb

/-! ## The client: theorems -/

namespace v2

/-- C28, as the code has it: for a client whose `Server` is nil, `baseURL` does not return. It
copies `*c.Server` without a test for nil, so the call panics with a nil pointer dereference,
whatever the other fields of the client and whatever the URL library does; the URL
`DefaultDnsdbServer` is not read. -/
theorem baseURL_of_nil_server_panics (parseQuery : String → url.Values)
    (encode : url.Values → String) (apikey clientName clientVersion clientId : String) :
    Client.baseURL parseQuery encode
      { Server := none, Apikey := apikey, ClientName := clientName,
        ClientVersion := clientVersion, ClientId := clientId } = none ∧
    (Client.baseURL parseQuery encode
      { Server := some DefaultDnsdbServer, Apikey := apikey, ClientName := clientName,
        ClientVersion := clientVersion, ClientId := clientId }).isSome = true :=
  ⟨rfl, rfl⟩

end v2

/-! ## Records from JSON: lemmas and theorems -/

namespace dnsdb

/-- The loop over an array of strings appends them in their order. -/
theorem rdataStrings_strings (ss rdata : List String) :
    rdataStrings (ss.map json.Value.string) rdata = Except.ok (rdata ++ ss) := by
  induction ss generalizing rdata with
  | nil => simp [rdataStrings]
  | cons s rest ih => simp [rdataStrings, ih]

/-- The loop over an array with an element that is no string ends with `ErrInvalidRData`. -/
theorem rdataStrings_invalid (elems : List json.Value) (rdata : List String)
    (h : ∃ v ∈ elems, ∀ s, v ≠ json.Value.string s) :
    rdataStrings elems rdata = Except.error ErrInvalidRData := by
  induction elems generalizing rdata with
  | nil => simp at h
  | cons v rest ih =>
    cases v with
    | string s =>
      obtain ⟨w, hw, hne⟩ := h
      simp only [List.mem_cons] at hw
      rcases hw with rfl | hw
      · exact absurd rfl (hne s)
      · simp only [rdataStrings]
        exact ih _ ⟨w, hw, hne⟩
    | nil => rfl
    | bool b => rfl
    | float64 f => rfl
    | array xs => rfl
    | object ms => rfl

/-- The decoding of a struct whose `rdata` passes the type switch. -/
theorem UnmarshalJSON_of_rdata {Data : Type} (unmarshal : Data → Except GoError rrsetEncoded)
    (hexError : String → GoError) (data : Data) (raw : rrsetEncoded) (r : RRSet)
    (rdata : List String) (bytes : List UInt8) (hraw : unmarshal data = Except.ok raw)
    (hs : switchRData raw.RData = Except.ok rdata) (hb : rawBytes raw = some bytes) :
    RRSet.UnmarshalJSON unmarshal hexError data r = (decodedRRSet raw rdata bytes, none) := by
  simp only [RRSet.UnmarshalJSON, hraw, hs]
  by_cases he : raw.RawRData = ""
  · simp only [rawBytes, he, if_true, Option.some.injEq] at hb
    subst hb
    simp [he, decodedRRSet]
  · simp only [rawBytes, he, if_false] at hb
    simp [he, hb, decodedRRSet]

/-- The decoding of a struct whose `rdata` does not pass the type switch. -/
theorem UnmarshalJSON_of_invalid_rdata {Data : Type}
    (unmarshal : Data → Except GoError rrsetEncoded) (hexError : String → GoError)
    (data : Data) (raw : rrsetEncoded) (r : RRSet) (hraw : unmarshal data = Except.ok raw)
    (hs : switchRData raw.RData = Except.error ErrInvalidRData) :
    RRSet.UnmarshalJSON unmarshal hexError data r = (r, some ErrInvalidRData) := by
  simp only [RRSet.UnmarshalJSON, hraw, hs]

/-- C22. `RRSet.UnmarshalJSON` on a document that `json.Unmarshal` decodes into the struct
`raw`, where an absent or null `rdata` is the nil interface, a JSON string a `string`, an
array a `[]interface{}` and a number, a boolean and an object a value of another type. When
`raw_rdata` is empty or is the hex form of the bytes `bytes`, the call succeeds and the record
has: for an `rdata` that is the string `s`, the one-element list `[s]`; for an array of
strings, the same strings in the same order; for the nil interface, no rdata. When `rdata` is
an array with an element that is not a string, or a number, a boolean or an object, the call
returns `ErrInvalidRData` and leaves the receiver as it was, whatever `raw_rdata` is. -/
theorem rrset_rdata_decoding {Data : Type} (unmarshal : Data → Except GoError rrsetEncoded)
    (hexError : String → GoError) (data : Data) (raw : rrsetEncoded) (r : RRSet)
    (hraw : unmarshal data = Except.ok raw) :
    (∀ bytes, rawBytes raw = some bytes →
      (∀ s, raw.RData = json.Value.string s →
        RRSet.UnmarshalJSON unmarshal hexError data r = (decodedRRSet raw [s] bytes, none)) ∧
      (∀ ss, raw.RData = json.Value.array (ss.map json.Value.string) →
        RRSet.UnmarshalJSON unmarshal hexError data r = (decodedRRSet raw ss bytes, none)) ∧
      (raw.RData = json.Value.nil →
        RRSet.UnmarshalJSON unmarshal hexError data r = (decodedRRSet raw [] bytes, none))) ∧
    (∀ elems, raw.RData = json.Value.array elems →
      (∃ v ∈ elems, ∀ s, v ≠ json.Value.string s) →
      RRSet.UnmarshalJSON unmarshal hexError data r = (r, some ErrInvalidRData)) ∧
    (∀ f, raw.RData = json.Value.float64 f →
      RRSet.UnmarshalJSON unmarshal hexError data r = (r, some ErrInvalidRData)) ∧
    (∀ b, raw.RData = json.Value.bool b →
      RRSet.UnmarshalJSON unmarshal hexError data r = (r, some ErrInvalidRData)) ∧
    (∀ ms, raw.RData = json.Value.object ms →
      RRSet.UnmarshalJSON unmarshal hexError data r = (r, some ErrInvalidRData)) := by
  refine ⟨fun bytes hb => ⟨fun s hs => ?_, fun ss hs => ?_, fun hs => ?_⟩,
    fun elems hs hne => ?_, fun f hs => ?_, fun b hs => ?_, fun ms hs => ?_⟩
  · exact UnmarshalJSON_of_rdata unmarshal hexError data raw r _ bytes hraw
      (by rw [hs]; rfl) hb
  · exact UnmarshalJSON_of_rdata unmarshal hexError data raw r _ bytes hraw
      (by rw [hs]; simp [switchRData, rdataStrings_strings]) hb
  · exact UnmarshalJSON_of_rdata unmarshal hexError data raw r _ bytes hraw
      (by rw [hs]; rfl) hb
  · exact UnmarshalJSON_of_invalid_rdata unmarshal hexError data raw r hraw
      (by rw [hs]; exact rdataStrings_invalid elems [] hne)
  · exact UnmarshalJSON_of_invalid_rdata unmarshal hexError data raw r hraw (by rw [hs]; rfl)
  · exact UnmarshalJSON_of_invalid_rdata unmarshal hexError data raw r hraw (by rw [hs]; rfl)
  · exact UnmarshalJSON_of_invalid_rdata unmarshal hexError data raw r hraw (by rw [hs]; rfl)

/-- The records of `TestRRSet_UnmarshalJSON`: the `rdata` string `104.244.13.104` decodes to
the list of that one string, the array of three name servers to the three strings in their
order, a record without `rdata` to no rdata, and `{"rdata":[0]}` fails with
`ErrInvalidRData`. -/
theorem rrset_rdata_decoding_witness :
    (RRSet.UnmarshalJSON (fun _ : Unit => Except.ok exampleEncodedA) exampleHexError () {}
      = ({ RRName := "www.farsighsecurity.com.", RRType := "A", RData := ["104.244.13.104"],
           Count := 24, TimeFirst := unix 1433550785, TimeLast := unix 1468312116 }, none)) ∧
    (RRSet.UnmarshalJSON (fun _ : Unit => Except.ok exampleEncodedNS) exampleHexError () {}).1.RData
      = ["ns5.dnsmadeeasy.com.", "ns6.dnsmadeeasy.com.", "ns7.dnsmadeeasy.com."] ∧
    (RRSet.UnmarshalJSON (fun _ : Unit => Except.ok exampleEncodedSummary) exampleHexError () {}).1.RData
      = [] ∧
    RRSet.UnmarshalJSON (fun _ : Unit => Except.ok exampleEncodedBadElement) exampleHexError () {}
      = ({}, some ErrInvalidRData) :=
  have ha := rrset_rdata_decoding (fun _ : Unit => Except.ok exampleEncodedA) exampleHexError ()
    exampleEncodedA {} rfl
  have hn := rrset_rdata_decoding (fun _ : Unit => Except.ok exampleEncodedNS) exampleHexError ()
    exampleEncodedNS {} rfl
  have hs := rrset_rdata_decoding (fun _ : Unit => Except.ok exampleEncodedSummary)
    exampleHexError () exampleEncodedSummary {} rfl
  have hb := rrset_rdata_decoding (fun _ : Unit => Except.ok exampleEncodedBadElement)
    exampleHexError () exampleEncodedBadElement {} rfl
  ⟨((ha.1 [] rfl).1 "104.244.13.104" rfl).trans rfl,
    (congrArg (fun p => p.1.RData)
      ((hn.1 [] rfl).2.1 ["ns5.dnsmadeeasy.com.", "ns6.dnsmadeeasy.com.", "ns7.dnsmadeeasy.com."]
        rfl)).trans rfl,
    (congrArg (fun p => p.1.RData) ((hs.1 [] rfl).2.2 rfl)).trans rfl,
    hb.2.1 _ rfl ⟨json.Value.float64 (Float64.ofInt 0), by simp, by intro s h; cases h⟩⟩

end dnsdb

/-! ## The options of a query: lemmas and theorems -/

namespace dnsdb

variable {F : Type}

/-- A new variable that is assigned at once leaves the variables before it as they are. -/
theorem getD_set_append_of_lt {α : Type} (l : List α) (d x y : α) (p : Nat)
    (hp : p < l.length) : ((l ++ [d]).set l.length x).getD p y = l.getD p y := by
  rw [List.getD_eq_getElem?_getD, List.getD_eq_getElem?_getD, List.getElem?_set_ne (by omega),
    List.getElem?_append_left hp]

/-- A new variable that is assigned at once holds the value assigned. -/
theorem getD_set_append_self {α : Type} (l : List α) (d x y : α) :
    ((l ++ [d]).set l.length x).getD l.length y = x := by
  rw [List.getD_eq_getElem?_getD, List.getElem?_set_self (by simp)]
  rfl

/-- The memory after `p = new(string); *p = s`. -/
theorem extendedBy_newString (m : Memory) (s : String) :
    m.extendedBy (m.newString.1.setString m.newString.2 s) ∧
      (m.newString.1.setString m.newString.2 s).string m.newString.2 = s :=
  ⟨⟨⟨by simp [Memory.newString, Memory.setString],
      fun p hp => getD_set_append_of_lt m.strings "" s "" p hp⟩,
    ⟨Nat.le_refl _, fun _ _ => rfl⟩, ⟨Nat.le_refl _, fun _ _ => rfl⟩⟩,
    getD_set_append_self m.strings "" s ""⟩

/-- The memory after `p = new(int); *p = n`. -/
theorem extendedBy_newInt (m : Memory) (n : Int) :
    m.extendedBy (m.newInt.1.setInt m.newInt.2 n) ∧
      (m.newInt.1.setInt m.newInt.2 n).int m.newInt.2 = n :=
  ⟨⟨⟨Nat.le_refl _, fun _ _ => rfl⟩,
    ⟨by simp [Memory.newInt, Memory.setInt],
      fun p hp => getD_set_append_of_lt m.ints 0 n 0 p hp⟩, ⟨Nat.le_refl _, fun _ _ => rfl⟩⟩,
    getD_set_append_self m.ints 0 n 0⟩

/-- The memory after `p = new(bool); *p = b`. -/
theorem extendedBy_newBool (m : Memory) (b : Bool) :
    m.extendedBy (m.newBool.1.setBool m.newBool.2 b) ∧
      (m.newBool.1.setBool m.newBool.2 b).bool m.newBool.2 = b :=
  ⟨⟨⟨Nat.le_refl _, fun _ _ => rfl⟩, ⟨Nat.le_refl _, fun _ _ => rfl⟩,
    ⟨by simp [Memory.newBool, Memory.setBool],
      fun p hp => getD_set_append_of_lt m.bools false b false p hp⟩⟩,
    getD_set_append_self m.bools false b false⟩

/-- What a valid pointer points to is the same in a memory with more variables. -/
theorem map_of_validPointer {α : Type} (n : Nat) (p : Option Nat) (f g : Nat → α)
    (h : validPointer n p = true) (hfg : ∀ a, a < n → f a = g a) : p.map f = p.map g := by
  cases p with
  | none => rfl
  | some a =>
    simp only [validPointer, decide_eq_true_eq] at h
    simp [hfg a h]

/-- A valid pointer is valid in a memory with more variables. -/
theorem validPointer_mono (n k : Nat) (p : Option Nat) (h : validPointer n p = true)
    (hnk : n ≤ k) : validPointer k p = true := by
  cases p with
  | none => rfl
  | some a =>
    simp only [validPointer, decide_eq_true_eq] at h ⊢
    omega

/-- A query holds the same in a memory with more variables. -/
theorem view_of_extendedBy (m m2 : Memory) (q : httpQuery F) (hm : m.extendedBy m2)
    (hq : q.valid m = true) : q.view m2 = q.view m := by
  simp only [httpQuery.valid, Bool.and_eq_true] at hq
  obtain ⟨⟨⟨⟨⟨⟨⟨⟨⟨h1, h2⟩, h3⟩, h4⟩, h5⟩, h6⟩, h7⟩, h8⟩, h9⟩, h10⟩ := hq
  obtain ⟨⟨_, hs⟩, ⟨_, hi⟩, ⟨_, hb⟩⟩ := hm
  simp only [httpQuery.view, map_of_validPointer _ _ _ _ h1 hs,
    map_of_validPointer _ _ _ _ h2 hs, map_of_validPointer _ _ _ _ h3 hi,
    map_of_validPointer _ _ _ _ h4 hb, map_of_validPointer _ _ _ _ h5 hi,
    map_of_validPointer _ _ _ _ h6 hi, map_of_validPointer _ _ _ _ h7 hi,
    map_of_validPointer _ _ _ _ h8 hi, map_of_validPointer _ _ _ _ h9 hi,
    map_of_validPointer _ _ _ _ h10 hi]

/-- C23. Query builders are immutable. For every query `q` whose pointers point into the memory
and for each of the ten option methods, the query that the call returns holds the given value
in the targeted field (`when.Unix()` for the time options) and holds in every other field what
`q` holds; and `q` holds after the call what it held before: the method assigns only to the
variable that it has just allocated. -/
theorem query_builders_are_immutable (m : Memory) (q : httpQuery F) (hq : q.valid m = true) :
    (∀ rrtype : String,
      (q.WithRRType m rrtype).2.view (q.WithRRType m rrtype).1
          = { q.view m with rrtype := some rrtype } ∧
        q.view (q.WithRRType m rrtype).1 = q.view m) ∧
    (∀ bailiwick : String,
      (q.WithBailiwick m bailiwick).2.view (q.WithBailiwick m bailiwick).1
          = { q.view m with bailiwick := some bailiwick } ∧
        q.view (q.WithBailiwick m bailiwick).1 = q.view m) ∧
    (∀ n : Int,
      (q.WithLimit m n).2.view (q.WithLimit m n).1
          = { q.view m with limit := some n } ∧
        q.view (q.WithLimit m n).1 = q.view m) ∧
    (∀ aggr : Bool,
      (q.WithAggregation m aggr).2.view (q.WithAggregation m aggr).1
          = { q.view m with aggregation := some aggr } ∧
        q.view (q.WithAggregation m aggr).1 = q.view m) ∧
    (∀ n : Int,
      (q.WithOffset m n).2.view (q.WithOffset m n).1
          = { q.view m with offset := some n } ∧
        q.view (q.WithOffset m n).1 = q.view m) ∧
    (∀ n : Int,
      (q.WithMaxCount m n).2.view (q.WithMaxCount m n).1
          = { q.view m with maxCount := some n } ∧
        q.view (q.WithMaxCount m n).1 = q.view m) ∧
    (∀ when : Time,
      (q.WithTimeFirstBefore m when).2.view (q.WithTimeFirstBefore m when).1
          = { q.view m with timeFirstBefore := some (when.Unix) } ∧
        q.view (q.WithTimeFirstBefore m when).1 = q.view m) ∧
    (∀ when : Time,
      (q.WithTimeFirstAfter m when).2.view (q.WithTimeFirstAfter m when).1
          = { q.view m with timeFirstAfter := some (when.Unix) } ∧
        q.view (q.WithTimeFirstAfter m when).1 = q.view m) ∧
    (∀ when : Time,
      (q.WithTimeLastBefore m when).2.view (q.WithTimeLastBefore m when).1
          = { q.view m with timeLastBefore := some (when.Unix) } ∧
        q.view (q.WithTimeLastBefore m when).1 = q.view m) ∧
    (∀ when : Time,
      (q.WithTimeLastAfter m when).2.view (q.WithTimeLastAfter m when).1
          = { q.view m with timeLastAfter := some (when.Unix) } ∧
        q.view (q.WithTimeLastAfter m when).1 = q.view m) := by
  refine ⟨?_, ?_, ?_, ?_, ?_, ?_, ?_, ?_, ?_, ?_⟩
  · intro rrtype
    have h := extendedBy_newString m rrtype
    have hv := view_of_extendedBy m _ q h.1 hq
    have hm : (q.WithRRType m rrtype).1 = m.newString.1.setString m.newString.2 rrtype := rfl
    rw [hm]
    refine ⟨?_, hv⟩
    have e : (q.WithRRType m rrtype).2.view (m.newString.1.setString m.newString.2 rrtype)
        = { q.view (m.newString.1.setString m.newString.2 rrtype) with
            rrtype := some ((m.newString.1.setString m.newString.2 rrtype).string m.newString.2) } := rfl
    rw [e, hv, h.2]
  · intro bailiwick
    have h := extendedBy_newString m bailiwick
    have hv := view_of_extendedBy m _ q h.1 hq
    have hm : (q.WithBailiwick m bailiwick).1 = m.newString.1.setString m.newString.2 bailiwick := rfl
    rw [hm]
    refine ⟨?_, hv⟩
    have e : (q.WithBailiwick m bailiwick).2.view (m.newString.1.setString m.newString.2 bailiwick)
        = { q.view (m.newString.1.setString m.newString.2 bailiwick) with
            bailiwick := some ((m.newString.1.setString m.newString.2 bailiwick).string m.newString.2) } := rfl
    rw [e, hv, h.2]
  · intro n
    have h := extendedBy_newInt m n
    have hv := view_of_extendedBy m _ q h.1 hq
    have hm : (q.WithLimit m n).1 = m.newInt.1.setInt m.newInt.2 n := rfl
    rw [hm]
    refine ⟨?_, hv⟩
    have e : (q.WithLimit m n).2.view (m.newInt.1.setInt m.newInt.2 n)
        = { q.view (m.newInt.1.setInt m.newInt.2 n) with
            limit := some ((m.newInt.1.setInt m.newInt.2 n).int m.newInt.2) } := rfl
    rw [e, hv, h.2]
  · intro aggr
    have h := extendedBy_newBool m aggr
    have hv := view_of_extendedBy m _ q h.1 hq
    have hm : (q.WithAggregation m aggr).1 = m.newBool.1.setBool m.newBool.2 aggr := rfl
    rw [hm]
    refine ⟨?_, hv⟩
    have e : (q.WithAggregation m aggr).2.view (m.newBool.1.setBool m.newBool.2 aggr)
        = { q.view (m.newBool.1.setBool m.newBool.2 aggr) with
            aggregation := some ((m.newBool.1.setBool m.newBool.2 aggr).bool m.newBool.2) } := rfl
    rw [e, hv, h.2]
  · intro n
    have h := extendedBy_newInt m n
    have hv := view_of_extendedBy m _ q h.1 hq
    have hm : (q.WithOffset m n).1 = m.newInt.1.setInt m.newInt.2 n := rfl
    rw [hm]
    refine ⟨?_, hv⟩
    have e : (q.WithOffset m n).2.view (m.newInt.1.setInt m.newInt.2 n)
        = { q.view (m.newInt.1.setInt m.newInt.2 n) with
            offset := some ((m.newInt.1.setInt m.newInt.2 n).int m.newInt.2) } := rfl
    rw [e, hv, h.2]
  · intro n
    have h := extendedBy_newInt m n
    have hv := view_of_extendedBy m _ q h.1 hq
    have hm : (q.WithMaxCount m n).1 = m.newInt.1.setInt m.newInt.2 n := rfl
    rw [hm]
    refine ⟨?_, hv⟩
    have e : (q.WithMaxCount m n).2.view (m.newInt.1.setInt m.newInt.2 n)
        = { q.view (m.newInt.1.setInt m.newInt.2 n) with
            maxCount := some ((m.newInt.1.setInt m.newInt.2 n).int m.newInt.2) } := rfl
    rw [e, hv, h.2]
  · intro when
    have h := extendedBy_newInt m (when.Unix)
    have hv := view_of_extendedBy m _ q h.1 hq
    have hm : (q.WithTimeFirstBefore m when).1 = m.newInt.1.setInt m.newInt.2 (when.Unix) := rfl
    rw [hm]
    refine ⟨?_, hv⟩
    have e : (q.WithTimeFirstBefore m when).2.view (m.newInt.1.setInt m.newInt.2 (when.Unix))
        = { q.view (m.newInt.1.setInt m.newInt.2 (when.Unix)) with
            timeFirstBefore := some ((m.newInt.1.setInt m.newInt.2 (when.Unix)).int m.newInt.2) } := rfl
    rw [e, hv, h.2]
  · intro when
    have h := extendedBy_newInt m (when.Unix)
    have hv := view_of_extendedBy m _ q h.1 hq
    have hm : (q.WithTimeFirstAfter m when).1 = m.newInt.1.setInt m.newInt.2 (when.Unix) := rfl
    rw [hm]
    refine ⟨?_, hv⟩
    have e : (q.WithTimeFirstAfter m when).2.view (m.newInt.1.setInt m.newInt.2 (when.Unix))
        = { q.view (m.newInt.1.setInt m.newInt.2 (when.Unix)) with
            timeFirstAfter := some ((m.newInt.1.setInt m.newInt.2 (when.Unix)).int m.newInt.2) } := rfl
    rw [e, hv, h.2]
  · intro when
    have h := extendedBy_newInt m (when.Unix)
    have hv := view_of_extendedBy m _ q h.1 hq
    have hm : (q.WithTimeLastBefore m when).1 = m.newInt.1.setInt m.newInt.2 (when.Unix) := rfl
    rw [hm]
    refine ⟨?_, hv⟩
    have e : (q.WithTimeLastBefore m when).2.view (m.newInt.1.setInt m.newInt.2 (when.Unix))
        = { q.view (m.newInt.1.setInt m.newInt.2 (when.Unix)) with
            timeLastBefore := some ((m.newInt.1.setInt m.newInt.2 (when.Unix)).int m.newInt.2) } := rfl
    rw [e, hv, h.2]
  · intro when
    have h := extendedBy_newInt m (when.Unix)
    have hv := view_of_extendedBy m _ q h.1 hq
    have hm : (q.WithTimeLastAfter m when).1 = m.newInt.1.setInt m.newInt.2 (when.Unix) := rfl
    rw [hm]
    refine ⟨?_, hv⟩
    have e : (q.WithTimeLastAfter m when).2.view (m.newInt.1.setInt m.newInt.2 (when.Unix))
        = { q.view (m.newInt.1.setInt m.newInt.2 (when.Unix)) with
            timeLastAfter := some ((m.newInt.1.setInt m.newInt.2 (when.Unix)).int m.newInt.2) } := rfl
    rw [e, hv, h.2]

/-- The query `exampleQueryRRSet`, which has a type and a bailiwick, after `WithLimit(123)`:
the new query has the limit 123 with the type and the bailiwick of the first, and the first
has no limit. -/
theorem query_builders_are_immutable_witness :
    exampleQueryRRSet.valid exampleQueryMemory = true ∧
    ((exampleQueryRRSet.WithLimit exampleQueryMemory 123).2.view
        (exampleQueryRRSet.WithLimit exampleQueryMemory 123).1).limit = some 123 ∧
    ((exampleQueryRRSet.WithLimit exampleQueryMemory 123).2.view
        (exampleQueryRRSet.WithLimit exampleQueryMemory 123).1).rrtype = some "AAAA" ∧
    (exampleQueryRRSet.view (exampleQueryRRSet.WithLimit exampleQueryMemory 123).1).limit
      = none ∧
    (exampleQueryRRSet.view (exampleQueryRRSet.WithLimit exampleQueryMemory 123).1).bailiwick
      = some "ing" :=
  have h := (query_builders_are_immutable exampleQueryMemory exampleQueryRRSet rfl).2.2.1 123
  ⟨rfl, (congrArg queryView.limit h.1).trans rfl, (congrArg queryView.rrtype h.1).trans rfl,
    (congrArg queryView.limit h.2).trans rfl, (congrArg queryView.bailiwick h.2).trans rfl⟩

end dnsdb

/-! ## The goroutines of a stream: lemmas and theorems -/

namespace saf

variable {Line : Type}

/-- The execution after a first event followed by others. -/
theorem steps_cons (unmarshal : Line → Option Message) (ev : Event) (evs : List Event)
    (e : Execution Line) :
    Execution.steps unmarshal (ev :: evs) e
      = Execution.steps unmarshal evs (e.step unmarshal ev) := rfl

/-- The execution after two sequences of events. -/
theorem steps_append (unmarshal : Line → Option Message) (evs1 evs2 : List Event)
    (e : Execution Line) :
    Execution.steps unmarshal (evs1 ++ evs2) e
      = Execution.steps unmarshal evs2 (Execution.steps unmarshal evs1 e) := by
  simp [Execution.steps, List.foldl_append]

/-- A property that every step keeps holds after any sequence of events. -/
theorem steps_induction (unmarshal : Line → Option Message) (P : Execution Line → Prop)
    (Q : Event → Prop) (hstep : ∀ e ev, P e → Q ev → P (e.step unmarshal ev))
    (evs : List Event) (e : Execution Line) (he : P e) (hevs : ∀ ev ∈ evs, Q ev) :
    P (Execution.steps unmarshal evs e) := by
  induction evs generalizing e with
  | nil => exact he
  | cons ev rest ih =>
    rw [steps_cons]
    exact ih _ (hstep e ev he (hevs ev (List.mem_cons_self _ _)))
      (fun ev2 h2 => hevs ev2 (List.mem_cons_of_mem _ h2))

/-- A step of the goroutine `run` keeps the invariant of first-writer-wins. -/
theorem runStep_unwritten (unmarshal : Line → Option Message) (choice : Bool)
    (e : Execution Line) (h : e.unwritten) : (e.runStep unmarshal choice).unwritten := by
  obtain ⟨stream, body, pc, closer, ctxErr, bodyClosed⟩ := e
  obtain ⟨h1, h2⟩ := h
  simp only at h1 h2
  cases pc with
  | returned => exact ⟨h1, h2⟩
  | scan =>
    have hn : stream.err = none := by
      by_contra hc
      exact absurd (h1 hc) (by simp)
    cases body with
    | nil => exact ⟨fun _ => rfl, h2⟩
    | cons line rest =>
      simp only [Execution.runStep]
      split
      · exact ⟨fun _ => rfl, h2⟩
      · split
        · exact ⟨fun hc => absurd hn hc, h2⟩
        · split
          · exact ⟨fun hc => absurd hn hc, h2⟩
          · exact ⟨fun hc => absurd hn hc, h2⟩
  | select msg =>
    have hn : stream.err = none := by
      by_contra hc
      exact absurd (h1 hc) (by simp)
    simp only [Execution.runStep]
    split
    · exact ⟨fun hc => absurd hn hc, h2⟩
    · split
      · exact ⟨fun hc => absurd hn hc, h2⟩
      · exact ⟨fun _ => rfl, h2⟩
  | switch msg =>
    have hn : stream.err = none := by
      by_contra hc
      exact absurd (h1 hc) (by simp)
    simp only [Execution.runStep]
    split
    · exact ⟨fun hc => absurd hn hc, h2⟩
    · split
      · exact ⟨fun hc => absurd hn hc, h2⟩
      · split
        · refine ⟨fun _ => rfl, ?_⟩
          simp only [Execution.close, Execution.cancel]
          split <;> exact h2
        · split
          · exact ⟨fun _ => rfl, h2⟩
          · split
            · refine ⟨fun _ => rfl, ?_⟩
              simp only [Execution.close, Execution.cancel]
              split <;> exact h2
            · exact ⟨fun hc => absurd hn hc, h2⟩

/-- A step of an execution keeps the invariant of first-writer-wins, unless it is a call of
`c.Close()` that fails. -/
theorem step_unwritten (unmarshal : Line → Option Message) (ev : Event) (e : Execution Line)
    (h : e.unwritten) (hev : ev.isFailedClose = false) : (e.step unmarshal ev).unwritten := by
  cases ev with
  | run choice => exact runStep_unwritten unmarshal choice e h
  | cancel cause =>
    simp only [Execution.step, Execution.cancel]
    split
    · exact h
    · exact h
  | closerClose closeErr =>
    cases closeErr with
    | some x => simp [Event.isFailedClose] at hev
    | none =>
      simp only [Execution.step]
      split
      · exact ⟨h.1, fun ce hce => by simp only [CloserPc.closing.injEq] at hce; exact hce.symm⟩
      · exact h
  | closerStore =>
    simp only [Execution.step]
    split
    · rename_i closeErr hc
      have hnone := h.2 closeErr hc
      subst hnone
      refine ⟨?_, fun ce hce => by simp at hce⟩
      intro herr
      apply h.1
      simp only [Stream.closer] at herr
      split at herr
      · simp at herr
      · exact herr
    · exact h

/-- A step of an execution keeps an error that is recorded when the goroutine `run` has
returned. -/
theorem step_err_of_returned (unmarshal : Line → Option Message) (ev : Event)
    (e : Execution Line) (x : GoError) (hpc : e.pc = Pc.returned)
    (herr : e.stream.err = some x) : (e.step unmarshal ev).stream.err = some x := by
  obtain ⟨stream, body, pc, closer, ctxErr, bodyClosed⟩ := e
  simp only at hpc herr
  subst hpc
  cases ev with
  | run choice => exact herr
  | cancel cause =>
    simp only [Execution.step, Execution.cancel]
    split <;> exact herr
  | closerClose closeErr =>
    simp only [Execution.step]
    split <;> exact herr
  | closerStore =>
    simp only [Execution.step]
    split
    · simp [Stream.closer, herr]
    · exact herr

/-- Counterexample to C30 as it is stated: the context is cancelled, the closer closes the
reader, the close fails and its error is recorded; the read loop then finds the scanner
exhausted and records `ErrStreamTruncated` in its place. Two errors have been recorded. -/
theorem closer_error_is_replaced_by_the_read_loop :
    (Execution.steps id
      [Event.cancel GoError.canceled, Event.closerClose (some exampleCloseError),
        Event.closerStore]
      (Execution.start exampleLimited)).stream.err = some exampleCloseError ∧
    (Execution.steps id
      [Event.cancel GoError.canceled, Event.closerClose (some exampleCloseError),
        Event.closerStore, Event.run false]
      (Execution.start exampleLimited)).stream.err = some ErrStreamTruncated ∧
    exampleCloseError ≠ ErrStreamTruncated := by
  decide

/-- C30, amended. In every execution of a stream, once the terminal error is non-nil no step
of the closer and no step of the cancellation path changes it: not the cancellation itself,
not the call of `c.Close()`, not the guarded assignment of the closer, and not the select of
the read loop, whichever branch it takes. The limited, failed and truncated steps of the read
loop assign the error without a test, each as the last step of the read loop; so, in an
execution in which no call of `c.Close()` fails, an error that is recorded at some point is
the error at every later point: at most one terminal error is ever recorded. -/
theorem terminal_error_is_kept (unmarshal : Line → Option Message) (body : List Line) :
    (∀ e : Execution Line, e.stream.err ≠ none →
      (∀ cause, (e.step unmarshal (Event.cancel cause)).stream.err = e.stream.err) ∧
      (∀ closeErr,
        (e.step unmarshal (Event.closerClose closeErr)).stream.err = e.stream.err) ∧
      (e.step unmarshal Event.closerStore).stream.err = e.stream.err ∧
      (∀ msg choice, e.pc = Pc.select msg →
        (e.step unmarshal (Event.run choice)).stream.err = e.stream.err)) ∧
    (∀ (evs1 evs2 : List Event) (x : GoError),
      (evs1 ++ evs2).all (fun ev => !ev.isFailedClose) = true →
      (Execution.steps unmarshal evs1 (Execution.start body)).stream.err = some x →
      (Execution.steps unmarshal (evs1 ++ evs2) (Execution.start body)).stream.err
        = some x) := by
  constructor
  · intro e herr
    obtain ⟨stream, body, pc, closer, ctxErr, bodyClosed⟩ := e
    simp only at herr
    refine ⟨fun cause => ?_, fun closeErr => ?_, ?_, fun msg choice hpc => ?_⟩
    · simp only [Execution.step, Execution.cancel]
      split <;> rfl
    · simp only [Execution.step]
      split <;> rfl
    · simp only [Execution.step]
      split
      · simp [Stream.closer, herr]
      · rfl
    · simp only at hpc
      subst hpc
      simp only [Execution.step, Execution.runStep]
      split
      · rfl
      · split
        · rfl
        · simp [Execution.close, herr]
  · intro evs1 evs2 x hall herr
    have hq : ∀ ev ∈ evs1 ++ evs2, ev.isFailedClose = false := by
      intro ev hev
      have := List.all_eq_true.mp hall ev hev
      simpa using this
    have h1 : (Execution.steps unmarshal evs1 (Execution.start body)).unwritten :=
      steps_induction unmarshal Execution.unwritten (fun ev => ev.isFailedClose = false)
        (fun e ev he hev => step_unwritten unmarshal ev e he hev) evs1 _
        ⟨fun h => absurd rfl h, fun ce hce => by simp [Execution.start] at hce⟩
        (fun ev hev => hq ev (List.mem_append_left _ hev))
    rw [steps_append]
    have h2 := steps_induction unmarshal
      (fun e : Execution Line => e.pc = Pc.returned ∧ e.stream.err = some x)
      (fun _ => True)
      (fun e ev he _ => ⟨by
          obtain ⟨stream, body, pc, closer, ctxErr, bodyClosed⟩ := e
          obtain ⟨hpc, _⟩ := he
          simp only at hpc
          subst hpc
          cases ev with
          | run choice => rfl
          | cancel cause =>
            simp only [Execution.step, Execution.cancel]
            split <;> rfl
          | closerClose closeErr =>
            simp only [Execution.step]
            split <;> rfl
          | closerStore =>
            simp only [Execution.step]
            split <;> rfl,
        step_err_of_returned unmarshal ev e x he.1 he.2⟩)
      evs2 _ ⟨h1.1 (by rw [herr]; simp), herr⟩ (fun _ _ => trivial)
    exact h2.2

/-- The stream of `TestStream/cancelled mid-stream`: the first record is received, the
stream is closed by its caller while the second record is pending, and the select takes the
cancellation; the error is `context.Canceled`, and it is still the error after the closer has
closed the reader and the read loop has been given more steps. -/
theorem terminal_error_is_kept_witness :
    (Execution.steps id
      [Event.run true, Event.run true, Event.run true, Event.run true, Event.run true,
        Event.run true, Event.cancel GoError.canceled, Event.run false]
      (Execution.start exampleLimited)).stream.err = some GoError.canceled ∧
    (Execution.steps id
      ([Event.run true, Event.run true, Event.run true, Event.run true, Event.run true,
          Event.run true, Event.cancel GoError.canceled, Event.run false] ++
        [Event.closerClose none, Event.closerStore, Event.run true])
      (Execution.start exampleLimited)).stream.err = some GoError.canceled :=
  ⟨by decide,
    (terminal_error_is_kept id exampleLimited).2 _ _ GoError.canceled (by decide) (by decide)⟩

end saf

namespace saf

variable {Line : Type}

/-- A step of the goroutine `run` does not raise the bound on the steps it has yet to take,
and lowers it when the context is cancelled and the goroutine has not returned. -/
theorem runStep_measure (unmarshal : Line → Option Message) (choice : Bool)
    (e : Execution Line) :
    (e.runStep unmarshal choice).measure ≤ e.measure ∧
      (e.ctxErr ≠ none → (e.runStep unmarshal choice).measure ≤ e.measure - 1) := by
  obtain ⟨stream, body, pc, closer, ctxErr, bodyClosed⟩ := e
  cases pc with
  | returned => exact ⟨Nat.le_refl _, fun _ => Nat.zero_le _⟩
  | scan =>
    cases body with
    | nil => exact ⟨Nat.zero_le _, fun _ => Nat.zero_le _⟩
    | cons line rest =>
      simp only [Execution.runStep]
      split
      · exact ⟨Nat.zero_le _, fun _ => Nat.zero_le _⟩
      · split
        · simp only [Execution.measure, List.length_cons]
          omega
        · split
          · simp only [Execution.measure, List.length_cons]
            omega
          · simp only [Execution.measure, List.length_cons]
            omega
  | select msg =>
    simp only [Execution.runStep]
    split
    · simp only [Execution.measure]
      omega
    · split
      · exact ⟨Nat.le_refl _, fun h => absurd rfl h⟩
      · exact ⟨Nat.zero_le _, fun _ => Nat.zero_le _⟩
  | switch msg =>
    simp only [Execution.runStep]
    split
    · simp only [Execution.measure]
      omega
    · split
      · simp only [Execution.measure]
        omega
      · split
        · exact ⟨Nat.zero_le _, fun _ => Nat.zero_le _⟩
        · split
          · exact ⟨Nat.zero_le _, fun _ => Nat.zero_le _⟩
          · split
            · exact ⟨Nat.zero_le _, fun _ => Nat.zero_le _⟩
            · simp only [Execution.measure]
              omega

/-- A cancelled context stays cancelled. -/
theorem step_ctxErr (unmarshal : Line → Option Message) (ev : Event) (e : Execution Line)
    (h : e.ctxErr ≠ none) : (e.step unmarshal ev).ctxErr ≠ none := by
  obtain ⟨stream, body, pc, closer, ctxErr, bodyClosed⟩ := e
  simp only at h
  cases ev with
  | cancel cause =>
    simp only [Execution.step, Execution.cancel]
    split <;> simp [h]
  | closerClose closeErr =>
    simp only [Execution.step]
    split <;> exact h
  | closerStore =>
    simp only [Execution.step]
    split <;> exact h
  | run choice =>
    simp only [Execution.step]
    cases pc with
    | returned => exact h
    | scan =>
      cases body with
      | nil => exact h
      | cons line rest =>
        simp only [Execution.runStep]
        split
        · exact h
        · split
          · exact h
          · split <;> exact h
    | select msg =>
      simp only [Execution.runStep]
      split
      · exact h
      · split
        · exact h
        · exact h
    | switch msg =>
      simp only [Execution.runStep, Execution.close, Execution.cancel]
      split
      · exact h
      · split
        · exact h
        · split
          · exact h
          · split
            · exact h
            · split
              · exact h
              · exact h

/-- A step of an execution does not raise the bound on the steps of the goroutine `run`. -/
theorem step_measure (unmarshal : Line → Option Message) (ev : Event) (e : Execution Line) :
    (e.step unmarshal ev).measure ≤ e.measure := by
  cases ev with
  | run choice => exact (runStep_measure unmarshal choice e).1
  | cancel cause =>
    simp only [Execution.step, Execution.cancel]
    split <;> exact Nat.le_refl _
  | closerClose closeErr =>
    simp only [Execution.step]
    split <;> exact Nat.le_refl _
  | closerStore =>
    simp only [Execution.step]
    split <;> exact Nat.le_refl _

/-- No sequence of events raises the bound on the steps of the goroutine `run`. -/
theorem steps_measure (unmarshal : Line → Option Message) (evs : List Event)
    (e : Execution Line) : (Execution.steps unmarshal evs e).measure ≤ e.measure := by
  induction evs generalizing e with
  | nil => exact Nat.le_refl _
  | cons ev rest ih =>
    rw [steps_cons]
    exact Nat.le_trans (ih _) (step_measure unmarshal ev e)

/-- Once the context is cancelled, every step of the goroutine `run` lowers the bound. -/
theorem steps_measure_of_cancelled (unmarshal : Line → Option Message) (evs : List Event)
    (e : Execution Line) (h : e.ctxErr ≠ none) :
    (Execution.steps unmarshal evs e).measure
      ≤ e.measure - (evs.filter Event.isRun).length := by
  induction evs generalizing e with
  | nil => simp [Execution.steps]
  | cons ev rest ih =>
    rw [steps_cons]
    have h1 := ih _ (step_ctxErr unmarshal ev e h)
    cases ev with
    | run choice =>
      have h2 := (runStep_measure unmarshal choice e).2 h
      simp only [Execution.step] at h1 ⊢
      simp only [List.filter_cons, Event.isRun, if_true, List.length_cons]
      omega
    | cancel cause =>
      have h2 := step_measure unmarshal (Event.cancel cause) e
      simp only [List.filter_cons, Event.isRun]
      simp only [Bool.false_eq_true, if_false]
      omega
    | closerClose closeErr =>
      have h2 := step_measure unmarshal (Event.closerClose closeErr) e
      simp only [List.filter_cons, Event.isRun]
      simp only [Bool.false_eq_true, if_false]
      omega
    | closerStore =>
      have h2 := step_measure unmarshal Event.closerStore e
      simp only [List.filter_cons, Event.isRun]
      simp only [Bool.false_eq_true, if_false]
      omega

/-- The channel is closed once the goroutine `run` has returned. -/
theorem step_closed (unmarshal : Line → Option Message) (ev : Event) (e : Execution Line)
    (h : e.pc = Pc.returned → e.stream.closed = true) :
    (e.step unmarshal ev).pc = Pc.returned → (e.step unmarshal ev).stream.closed = true := by
  obtain ⟨stream, body, pc, closer, ctxErr, bodyClosed⟩ := e
  simp only at h
  cases ev with
  | cancel cause =>
    simp only [Execution.step, Execution.cancel]
    split <;> exact h
  | closerClose closeErr =>
    simp only [Execution.step]
    split <;> exact h
  | closerStore =>
    simp only [Execution.step]
    split
    · intro hpc
      have := h hpc
      simp only [Stream.closer]
      split <;> exact this
    · exact h
  | run choice =>
    simp only [Execution.step]
    cases pc with
    | returned => exact h
    | scan =>
      cases body with
      | nil => exact fun _ => rfl
      | cons line rest =>
        simp only [Execution.runStep]
        split
        · exact fun _ => rfl
        · split
          · intro hc; simp at hc
          · split <;> (intro hc; simp at hc)
    | select msg =>
      simp only [Execution.runStep]
      split
      · intro hc; simp at hc
      · split
        · intro hc; simp at hc
        · exact fun _ => rfl
    | switch msg =>
      simp only [Execution.runStep]
      split
      · intro hc; simp at hc
      · split
        · intro hc; simp at hc
        · split
          · exact fun _ => rfl
          · split
            · exact fun _ => rfl
            · split
              · exact fun _ => rfl
              · intro hc; simp at hc

/-- The bound is zero only when the goroutine `run` has returned. -/
theorem pc_of_measure_zero (e : Execution Line) (h : e.measure = 0) : e.pc = Pc.returned := by
  obtain ⟨stream, body, pc, closer, ctxErr, bodyClosed⟩ := e
  cases pc <;> simp [Execution.measure] at h ⊢

/-- A step of an execution keeps the invariant of a stream without a `succeeded` line. -/
theorem step_unsucceeded (unmarshal : Line → Option Message) (ev : Event) (e : Execution Line)
    (h : e.unsucceeded unmarshal) : (e.step unmarshal ev).unsucceeded unmarshal := by
  obtain ⟨stream, body, pc, closer, ctxErr, bodyClosed⟩ := e
  obtain ⟨h1, h2, h3⟩ := h
  simp only at h1 h2 h3
  cases ev with
  | cancel cause =>
    simp only [Execution.step, Execution.cancel]
    split <;> exact ⟨h1, h2, h3⟩
  | closerClose closeErr =>
    simp only [Execution.step]
    split <;> exact ⟨h1, h2, h3⟩
  | closerStore =>
    simp only [Execution.step]
    split
    · refine ⟨h1, h2, fun hpc => ?_⟩
      have := h3 hpc
      simp only [Stream.closer]
      split
      · rename_i hn
        exact absurd hn this
      · exact this
    · exact ⟨h1, h2, h3⟩
  | run choice =>
    simp only [Execution.step]
    cases pc with
    | returned => exact ⟨h1, h2, h3⟩
    | scan =>
      cases body with
      | nil => exact ⟨h1, fun msg hm => by simp [Execution.runStep, Execution.close] at hm,
          fun _ => by simp [Execution.runStep, Execution.close]⟩
      | cons line rest =>
        simp only [noSucceeded, List.all_cons, Bool.and_eq_true] at h1
        have hrest : noSucceeded unmarshal rest = true := h1.2
        simp only [Execution.runStep]
        split
        · exact ⟨by simp only [Execution.close, noSucceeded, List.all_cons, Bool.and_eq_true]
                    exact h1,
            fun msg hm => by simp [Execution.close] at hm, fun _ => by simp [Execution.close]⟩
        · split
          · exact ⟨hrest, fun msg hm => by simp at hm, fun hc => by simp at hc⟩
          · rename_i msg hmsg
            have hcond : msg.Cond ≠ CondSucceeded := by
              have := h1.1
              rw [hmsg] at this
              simpa using this
            split
            · refine ⟨hrest, fun m hm => ?_, fun hc => by simp at hc⟩
              simp only [Pc.select.injEq, false_or, or_false] at hm
              rcases hm with hm | hm
              · exact hm ▸ hcond
              · exact absurd hm (by simp)
            · refine ⟨hrest, fun m hm => ?_, fun hc => by simp at hc⟩
              rcases hm with hm | hm
              · exact absurd hm (by simp)
              · simp only [Pc.switch.injEq] at hm
                exact hm ▸ hcond
    | select msg =>
      have hcond : msg.Cond ≠ CondSucceeded := h2 msg (Or.inl rfl)
      simp only [Execution.runStep]
      split
      · refine ⟨h1, fun m hm => ?_, fun hc => by simp at hc⟩
        rcases hm with hm | hm
        · exact absurd hm (by simp)
        · simp only [Pc.switch.injEq] at hm
          exact hm ▸ hcond
      · split
        · exact ⟨h1, h2, h3⟩
        · refine ⟨h1, fun m hm => by simp [Execution.close] at hm, fun _ => ?_⟩
          simp only [Execution.close]
          split <;> simp_all
    | switch msg =>
      have hcond : msg.Cond ≠ CondSucceeded := h2 msg (Or.inr rfl)
      simp only [Execution.runStep, Execution.close, Execution.cancel]
      split_ifs <;>
        first
          | exact absurd (by assumption) hcond
          | (refine ⟨h1, fun m hm => ?_, fun hc => ?_⟩
             · simp at hm
             · first
                 | (simp at hc; done)
                 | simp)

/-- Counterexample to C29 as it is stated: the first record of the stream is received, the
second is pending at the select when the caller closes the stream, a receiver takes it all the
same, and the read loop goes on to the line `succeeded`. The channel is closed, the context
is cancelled, the closer has closed the reader, and the terminal error is nil. -/
theorem cancelled_stream_ends_without_error :
    (Execution.steps id
      [Event.run true, Event.run true, Event.run true, Event.run true, Event.run true,
        Event.run true]
      (Execution.start exampleTwoRecords)).pc
        = Pc.select { Obj := "\x7b\"count\":33,\"time_first\":19126549\x7d" } ∧
    (Execution.steps id
      [Event.run true, Event.run true, Event.run true, Event.run true, Event.run true,
        Event.run true, Event.cancel GoError.canceled, Event.run true, Event.run true,
        Event.run true, Event.run true, Event.closerClose none, Event.closerStore]
      (Execution.start exampleTwoRecords)).stream
        = { ch := ["\x7b\"count\":10392,\"time_first\":138126549\x7d",
                   "\x7b\"count\":33,\"time_first\":19126549\x7d"],
            closed := true, cancelled := true, err := none } := by
  decide

/-- C29, amended. Cancelling a stream mid-delivery always eventually closes its output
channel: whatever has happened before the cancellation, the goroutine `run` is never blocked
after it, and once it has taken `3 * n + 1` further steps, `n` being the number of lines of
the body, it has returned and the channel is closed. When the select of a pending record
takes the cancellation, the read loop returns at once with the channel closed and a non-nil
terminal error. The terminal error is non-nil whenever the read loop has returned, unless the
body holds a line with the condition `succeeded`: a read loop that reaches such a line after
the cancellation returns without an error. -/
theorem cancelled_stream_is_closed (unmarshal : Line → Option Message) (body : List Line) :
    (∀ (before after : List Event) (cause : GoError),
      3 * body.length + 1 ≤ (after.filter Event.isRun).length →
      (Execution.steps unmarshal (before ++ Event.cancel cause :: after)
          (Execution.start body)).pc = Pc.returned ∧
        (Execution.steps unmarshal (before ++ Event.cancel cause :: after)
          (Execution.start body)).stream.closed = true) ∧
    (∀ (e : Execution Line) (msg : Message), e.pc = Pc.select msg → e.ctxErr ≠ none →
      (e.step unmarshal (Event.run false)).pc = Pc.returned ∧
        (e.step unmarshal (Event.run false)).stream.closed = true ∧
        (e.step unmarshal (Event.run false)).stream.err ≠ none) ∧
    (∀ evs : List Event, noSucceeded unmarshal body = true →
      (Execution.steps unmarshal evs (Execution.start body)).pc = Pc.returned →
      (Execution.steps unmarshal evs (Execution.start body)).stream.err ≠ none) := by
  refine ⟨fun before after cause hlen => ?_, fun e msg hpc hctx => ?_, fun evs hno hpc => ?_⟩
  · have hclosed := steps_induction unmarshal
      (fun e : Execution Line => e.pc = Pc.returned → e.stream.closed = true) (fun _ => True)
      (fun e ev he _ => step_closed unmarshal ev e he)
      (before ++ Event.cancel cause :: after) (Execution.start body)
      (fun hc => by simp [Execution.start] at hc) (fun _ _ => trivial)
    have hpc : (Execution.steps unmarshal (before ++ Event.cancel cause :: after)
        (Execution.start body)).pc = Pc.returned := by
      apply pc_of_measure_zero
      rw [steps_append, steps_cons]
      have h0 := steps_measure unmarshal before (Execution.start body)
      have h1 := step_measure unmarshal (Event.cancel cause)
        (Execution.steps unmarshal before (Execution.start body))
      have hc : ((Execution.steps unmarshal before (Execution.start body)).step unmarshal
          (Event.cancel cause)).ctxErr ≠ none := by
        simp only [Execution.step, Execution.cancel]
        split
        · simp
        · assumption
      have h2 := steps_measure_of_cancelled unmarshal after _ hc
      have hs : (Execution.start body).measure = 3 * body.length + 1 := rfl
      omega
    exact ⟨hpc, hclosed hpc⟩
  · obtain ⟨stream, body, pc, closer, ctxErr, bodyClosed⟩ := e
    simp only at hpc hctx
    subst hpc
    cases ctxErr with
    | none => exact absurd rfl hctx
    | some cause =>
      refine ⟨rfl, rfl, ?_⟩
      simp only [Execution.step, Execution.runStep, Execution.close]
      simp only [Bool.false_eq_true, if_false]
      split <;> simp_all
  · have h := steps_induction unmarshal (Execution.unsucceeded unmarshal) (fun _ => True)
      (fun e ev he _ => step_unsucceeded unmarshal ev e he) evs (Execution.start body)
      ⟨hno, fun msg hm => by simp [Execution.start] at hm,
        fun hc => by simp [Execution.start] at hc⟩ (fun _ _ => trivial)
    exact h.2.2 hpc

/-- The stream of `TestStream/cancelled mid-stream`: the first record is received, the
stream is closed by its caller while the second record is pending, and the select takes the
cancellation. The channel is closed and the error is `context.Canceled`. -/
theorem cancelled_stream_is_closed_witness :
    noSucceeded id exampleLimited = true ∧
    (Execution.steps id
      [Event.run true, Event.run true, Event.run true, Event.run true, Event.run true,
        Event.run true, Event.cancel GoError.canceled, Event.run false]
      (Execution.start exampleLimited)).stream
        = { ch := ["\x7b\"count\":10392,\"time_first\":138126549\x7d"],
            closed := true, cancelled := false, err := some GoError.canceled } ∧
    (Execution.steps id
      [Event.run true, Event.run true, Event.run true, Event.run true, Event.run true,
        Event.run true, Event.cancel GoError.canceled, Event.run false]
      (Execution.start exampleLimited)).stream.err ≠ none :=
  ⟨by decide, by decide,
    (cancelled_stream_is_closed id exampleLimited).2.2 _ (by decide) (by decide)⟩

end saf

/-! ## The integer fields of a rate limit: lemmas and theorems -/

namespace dnsdb

/-- The result of `Except.map` is a value only when its argument is. -/
theorem except_map_ok {ε α β : Type} (f : α → β) (x : Except ε α) (y : β)
    (h : Except.map f x = Except.ok y) : ∃ a, x = Except.ok a ∧ y = f a := by
  cases x with
  | error e => simp [Except.map] at h
  | ok a =>
    simp only [Except.map, Except.ok.injEq] at h
    exact ⟨a, rfl, h.symm⟩

/-- A value that is stored in a field leaves the integer fields other than this one as they
are, and an integer field takes what `storeInt` gives. -/
theorem store_int (lib : json.Library) (raw raw1 : rateRaw) (g f : rateField)
    (v : json.Document) (hf : f.isInt = true) (h : rateRaw.store lib raw g v = Except.ok raw1) :
    (g ≠ f → raw1.int f = raw.int f) ∧
      (g = f → json.storeInt lib f.name v (raw.int f) = Except.ok (raw1.int f)) := by
  cases g <;> simp only [rateRaw.store] at h <;>
    obtain ⟨a, ha, rfl⟩ := except_map_ok _ _ _ h <;>
    cases f <;>
    first
      | exact absurd hf (by decide)
      | exact ⟨fun _ => rfl, fun hc => absurd hc (by decide)⟩
      | exact ⟨fun hc => absurd rfl hc, fun _ => ha⟩

/-- The integer field `f` of the struct after the members of an object have been stored is
what the values that the members give `f`, stored one after the other, leave in it. -/
theorem members_int (lib : json.Library) (ms : List (String × json.Document))
    (raw raw2 : rateRaw) (f : rateField) (hf : f.isInt = true)
    (h : rateRaw.members lib ms raw = Except.ok raw2) :
    json.storeInts lib f.name (given lib ms f) (raw.int f) = Except.ok (raw2.int f) := by
  induction ms generalizing raw with
  | nil =>
    simp only [rateRaw.members, Except.ok.injEq] at h
    subst h
    rfl
  | cons kv rest ih =>
    obtain ⟨key, v⟩ := kv
    simp only [rateRaw.members] at h
    cases hfield : rateRaw.field lib key with
    | none =>
      rw [hfield] at h
      simp only [given, List.filterMap_cons, hfield] at ih ⊢
      exact ih raw h
    | some g =>
      rw [hfield] at h
      cases hstore : rateRaw.store lib raw g v with
      | error err => simp [hstore] at h
      | ok raw1 =>
        simp only [hstore] at h
        have hs := store_int lib raw raw1 g f v hf hstore
        by_cases hg : g = f
        · subst hg
          simp only [given, List.filterMap_cons, hfield, if_true, json.storeInts,
            hs.2 rfl] at ih ⊢
          exact ih raw1 h
        · have hne : ¬ some g = some f := fun hc => hg (Option.some.inj hc)
          simp only [given, List.filterMap_cons, hfield, hne, if_false] at ih ⊢
          rw [← hs.1 hg]
          exact ih raw1 h

/-- A member whose value is neither null nor a number and that `json.Unmarshal` stores in an
integer field makes the decoding of the object fail. -/
theorem members_error (lib : json.Library) (ms : List (String × json.Document))
    (raw : rateRaw) (f : rateField) (hf : f.isInt = true) (v : json.Document)
    (hv : v ∈ given lib ms f) (hother : v.isOther = true) :
    ∃ err, rateRaw.members lib ms raw = Except.error err := by
  induction ms generalizing raw with
  | nil => simp [given] at hv
  | cons kv rest ih =>
    obtain ⟨key, w⟩ := kv
    cases hfield : rateRaw.field lib key with
    | none =>
      simp only [given, List.filterMap_cons, hfield] at hv
      simp only [rateRaw.members, hfield]
      exact ih raw hv
    | some g =>
      cases hstore : rateRaw.store lib raw g w with
      | error err => exact ⟨err, by simp only [rateRaw.members, hfield, hstore]⟩
      | ok raw1 =>
        simp only [rateRaw.members, hfield, hstore]
        by_cases hg : g = f
        · subst hg
          simp only [given, List.filterMap_cons, hfield, if_true, List.mem_cons] at hv
          rcases hv with rfl | hv
          · have hs := (store_int lib raw raw1 g g v hf hstore).2 rfl
            cases v <;> simp [json.Document.isOther] at hother <;>
              simp [json.storeInt] at hs
          · exact ih raw1 hv
        · have hne : ¬ some g = some f := fun hc => hg (Option.some.inj hc)
          simp only [given, List.filterMap_cons, hfield, hne, if_false] at hv
          exact ih raw1 hv

/-- What a call of `Rate.UnmarshalJSON` that succeeds has decoded. -/
theorem UnmarshalJSON_ok {Data : Type} (unmarshal : Data → Except GoError rateRaw)
    (data : Data) (r rate : Rate) (h : Rate.UnmarshalJSON unmarshal data r = (rate, none)) :
    ∃ raw, unmarshal data = Except.ok raw ∧ ∀ f, f.isInt = true → rate.int f = raw.int f := by
  simp only [Rate.UnmarshalJSON] at h
  cases hraw : unmarshal data with
  | error err => simp [hraw] at h
  | ok raw =>
    refine ⟨raw, rfl, ?_⟩
    simp only [hraw] at h
    cases h1 : switchTime raw.Reset ErrInvalidReset with
    | error e => simp [h1] at h
    | ok s =>
      cases h2 : switchInt raw.Limit Unlimited ErrInvalidLimit with
      | error e => simp [h1, h2] at h
      | ok l =>
        cases h3 : switchInt raw.Remaining NA ErrInvalidRemaining with
        | error e => simp [h1, h2, h3] at h
        | ok m =>
          cases h4 : switchTime raw.Expires ErrInvalidExpires with
          | error e => simp [h1, h2, h3, h4] at h
          | ok x =>
            simp only [h1, h2, h3, h4, Prod.mk.injEq, and_true] at h
            subst h
            intro f hf
            cases f <;> rfl

/-- Counterexample to C21 as it is stated: the value null for `results_max` is not a number,
and the decode succeeds all the same, with the field 0; the integer `2 ^ 63` for
`results_max` is a number, and the decode fails. -/
theorem null_is_accepted_for_an_integer_field :
    Rate.UnmarshalJSON (rateRaw.Unmarshal json.exampleLibrary) exampleDocumentNull {}
      = ({}, none) ∧
    (Rate.UnmarshalJSON (rateRaw.Unmarshal json.exampleLibrary) exampleDocumentHuge {}).2
      ≠ none := by
  decide

/-- C21, amended. `Rate.UnmarshalJSON` on a JSON object, for each `f` of the four fields
`results_max`, `offset_max`, `burst_size` and `burst_window`. When the decode succeeds, the
field is 0 when the object has no member for it, 0 when its member is null, and `n` when its
member is the integer `n` within the range of `int64`. When a member for it is a string (the
string `"1"`, or a sentinel like `"n/a"`), a boolean, an array or an object, the whole decode
fails and the receiver is left as it was. The member for a field is the one whose key is the
name of the field, or matches it when the letter case is ignored. -/
theorem rate_json_integer_fields (lib : json.Library) (ms : List (String × json.Document))
    (r : Rate) (f : rateField) (hf : f.isInt = true) :
    (∀ rate, Rate.UnmarshalJSON (rateRaw.Unmarshal lib) (json.Document.object ms) r
        = (rate, none) →
      (given lib ms f = [] → rate.int f = 0) ∧
      (given lib ms f = [json.Document.null] → rate.int f = 0) ∧
      (∀ n : Int, -(2 ^ 63) ≤ n → n < 2 ^ 63 →
        given lib ms f = [json.Document.number (strconv.Itoa n)] → rate.int f = n)) ∧
    (∀ v ∈ given lib ms f, v.isOther = true →
      ∃ err, Rate.UnmarshalJSON (rateRaw.Unmarshal lib) (json.Document.object ms) r
        = (r, some err)) := by
  constructor
  · intro rate hok
    obtain ⟨raw, hraw, hint⟩ := UnmarshalJSON_ok _ _ r rate hok
    have hm := members_int lib ms {} raw f hf hraw
    have h0 : ({} : rateRaw).int f = 0 := by cases f <;> rfl
    rw [h0] at hm
    rw [hint f hf]
    refine ⟨fun hg => ?_, fun hg => ?_, fun n hlo hhi hg => ?_⟩
    · rw [hg] at hm
      exact (Except.ok.inj hm).symm
    · rw [hg] at hm
      exact (Except.ok.inj hm).symm
    · rw [hg] at hm
      simp only [json.storeInts, json.storeInt, strconv.Atoi_Itoa n hlo hhi] at hm
      exact (Except.ok.inj hm).symm
  · intro v hv hother
    obtain ⟨err, herr⟩ := members_error lib ms {} f hf v hv hother
    refine ⟨err, ?_⟩
    have : rateRaw.Unmarshal lib (json.Document.object ms) = Except.error err := herr
    simp only [Rate.UnmarshalJSON, this]

/-- The document of `TestRateLimit/block-based quota` decodes, and its `results_max` is 256;
the document `{"results_max":"1"}` of `TestRateLimit/invalid json` does not. -/
theorem rate_json_integer_fields_witness :
    Rate.UnmarshalJSON (rateRaw.Unmarshal json.exampleLibrary) exampleDocumentBlockQuota {}
      = ({ Reset := none, BurstSize := 10, Expires := unixPtr 1555370914, BurstWindow := 300,
           OffsetMax := 3000000, ResultsMax := 256, Limit := intPtr 600,
           Remaining := intPtr 8 }, none) ∧
    ({ Reset := none, BurstSize := 10, Expires := unixPtr 1555370914, BurstWindow := 300,
       OffsetMax := 3000000, ResultsMax := 256, Limit := intPtr 600,
       Remaining := intPtr 8 } : Rate).int rateField.ResultsMax = 256 ∧
    (∃ err, Rate.UnmarshalJSON (rateRaw.Unmarshal json.exampleLibrary) exampleDocumentInvalid {}
      = ({}, some err)) :=
  ⟨by decide,
    ((rate_json_integer_fields json.exampleLibrary
      [("reset", json.Document.string "n/a"),
       ("burst_size", json.Document.number "10"),
       ("expires", json.Document.number "1555370914"),
       ("burst_window", json.Document.number "300"),
       ("offset_max", json.Document.number "3000000"),
       ("results_max", json.Document.number "256"),
       ("limit", json.Document.number "600"),
       ("remaining", json.Document.number "8")] {} rateField.ResultsMax rfl).1 _
        (by decide)).2.2 256 (by decide) (by decide) rfl,
    (rate_json_integer_fields json.exampleLibrary
      [("results_max", json.Document.string "1")] {} rateField.ResultsMax rfl).2
        (json.Document.string "1") (List.mem_cons_self _ _) rfl⟩

end dnsdb

/-! ## The path of a request: lemmas and theorems -/

namespace path

/-- The elements joined by slashes, for one element and for more. -/
theorem joinElements_singleton (e : List Char) : joinElements [e] = e := rfl

/-- The elements joined by slashes, for more than one element. -/
theorem joinElements_cons_cons (e e2 : List Char) (es : List (List Char)) :
    joinElements (e :: e2 :: es) = e ++ '/' :: joinElements (e2 :: es) := rfl

/-- A path has at least one element. -/
theorem elements_ne_nil (s : List Char) : elements s ≠ [] := by
  cases s with
  | nil => simp [elements]
  | cons c cs =>
    simp only [elements]
    split
    · simp
    · split <;> simp

/-- The elements of a path, joined by slashes, are the path. -/
theorem joinElements_elements (s : List Char) : joinElements (elements s) = s := by
  induction s with
  | nil => rfl
  | cons c cs ih =>
    simp only [elements]
    cases he : elements cs with
    | nil => exact absurd he (elements_ne_nil cs)
    | cons e es =>
      rw [he] at ih
      split
      · rename_i hc
        rw [joinElements_cons_cons, ih, hc]
        rfl
      · simp only
        cases es with
        | nil =>
          rw [joinElements_singleton] at ih ⊢
          rw [ih]
        | cons e2 es2 =>
          rw [joinElements_cons_cons] at ih ⊢
          rw [List.cons_append, ih]

/-- The elements of two paths joined by a slash are the elements of the first followed by the
elements of the second. -/
theorem elements_append (x y : List Char) :
    elements (x ++ '/' :: y) = elements x ++ elements y := by
  induction x with
  | nil => simp [elements]
  | cons c cs ih =>
    simp only [List.cons_append, elements, List.append_eq]
    rw [ih]
    split
    · rfl
    · cases he : elements cs with
      | nil => exact absurd he (elements_ne_nil cs)
      | cons e es => rfl

/-- Two lists of elements joined by slashes, one list after the other. -/
theorem joinElements_append (xs ys : List (List Char)) (hx : xs ≠ []) (hy : ys ≠ []) :
    joinElements (xs ++ ys) = joinElements xs ++ '/' :: joinElements ys := by
  induction xs with
  | nil => exact absurd rfl hx
  | cons e es ih =>
    cases es with
    | nil =>
      cases ys with
      | nil => exact absurd rfl hy
      | cons y ys2 => rfl
    | cons e2 es2 =>
      have := ih (by simp)
      rw [List.cons_append, List.cons_append, joinElements_cons_cons, ← List.cons_append, this,
        joinElements_cons_cons, List.append_assoc]
      rfl

/-- The loop of `path.Clean` writes elements that are names one after the other. -/
theorem foldl_cleanElement (rooted : Bool) (es out : List (List Char))
    (h : es.all isName = true) : es.foldl (cleanElement rooted) out = out ++ es := by
  induction es generalizing out with
  | nil => simp
  | cons e rest ih =>
    simp only [List.all_cons, Bool.and_eq_true] at h
    have he : cleanElement rooted out e = out ++ [e] := by
      have := h.1
      simp only [isName, Bool.and_eq_true, decide_eq_true_eq] at this
      simp only [cleanElement, this.1.1, this.1.2, this.2, if_false]
    rw [List.foldl_cons, he, ih _ h.2, List.append_assoc]
    rfl

/-- `path.Clean` returns a clean path as it is. -/
theorem Clean_of_isClean (s : String) (h : isClean s = true) : Clean s = s := by
  have hdata : s.data ≠ [] := by
    intro hc
    simp [isClean, hc, elements, isName] at h
  have hs : s ≠ "" := fun hc => hdata (by rw [hc])
  have hroot : ¬ s.data.head? = some '/' := by
    intro hc
    cases hd : s.data with
    | nil => exact hdata hd
    | cons c cs =>
      rw [hd] at hc
      simp only [List.head?_cons, Option.some.injEq] at hc
      subst hc
      simp [isClean, hd, elements, isName] at h
  simp only [Clean, if_neg hs]
  rw [foldl_cleanElement _ _ _ h]
  simp only [decide_eq_true_eq, hroot, if_false, List.nil_append, elements_ne_nil, if_false,
    joinElements_elements]

/-- A clean path is not empty. -/
theorem ne_empty_of_isClean (s : String) (h : isClean s = true) : s ≠ "" := by
  intro hc
  subst hc
  simp [isClean, elements, isName] at h

/-- The elements of clean paths that are joined by slashes are the elements of the first
followed by those of the second, and so on. -/
theorem elements_joinElements (parts : List String) (hne : parts ≠ []) :
    elements (joinElements (parts.map String.data))
      = parts.flatMap (fun p => elements p.data) := by
  induction parts with
  | nil => exact absurd rfl hne
  | cons p rest ih =>
    cases rest with
    | nil => simp [joinElements]
    | cons p2 rest2 =>
      have := ih (by simp)
      rw [List.map_cons, List.map_cons, joinElements_cons_cons, elements_append,
        ← List.map_cons, this]
      simp

/-- `path.Join` of clean paths writes them one after the other with slashes between them. -/
theorem Join_of_isClean (parts : List String) (hne : parts ≠ [])
    (h : ∀ p ∈ parts, isClean p = true) :
    Join parts = String.mk (joinElements (parts.map String.data)) ∧
      isClean (String.mk (joinElements (parts.map String.data))) = true := by
  have hfilter : parts.filter (fun e => decide (e ≠ "")) = parts := by
    rw [List.filter_eq_self]
    intro p hp
    simpa using ne_empty_of_isClean p (h p hp)
  have hclean : isClean (String.mk (joinElements (parts.map String.data))) = true := by
    simp only [isClean, elements_joinElements parts hne, List.all_flatMap]
    rw [List.all_eq_true]
    intro p hp
    exact h p hp
  refine ⟨?_, hclean⟩
  simp only [Join, hfilter, hne, if_false]
  exact Clean_of_isClean _ hclean

/-- `path.Join` of three clean paths. -/
theorem Join_three (a b c : String) (ha : isClean a = true) (hb : isClean b = true)
    (hc : isClean c = true) :
    Join [a, b, c] = a ++ "/" ++ b ++ "/" ++ c ∧ isClean (a ++ "/" ++ b ++ "/" ++ c) = true := by
  have h := Join_of_isClean [a, b, c] (by simp) (by
    intro p hp
    simp only [List.mem_cons, List.mem_singleton, List.not_mem_nil, or_false] at hp
    rcases hp with rfl | rfl | rfl <;> assumption)
  have e : String.mk (joinElements ([a, b, c].map String.data)) = a ++ "/" ++ b ++ "/" ++ c := by
    apply String.ext
    simp [joinElements, String.data_append]
  rw [e] at h
  exact h

/-- `path.Join` of two clean paths. -/
theorem Join_two (a b : String) (ha : isClean a = true) (hb : isClean b = true) :
    Join [a, b] = a ++ "/" ++ b := by
  have h := Join_of_isClean [a, b] (by simp) (by
    intro p hp
    simp only [List.mem_cons, List.mem_singleton, List.not_mem_nil, or_false] at hp
    rcases hp with rfl | rfl <;> assumption)
  have e : String.mk (joinElements ([a, b].map String.data)) = a ++ "/" ++ b := by
    apply String.ext
    simp [joinElements, String.data_append]
  rw [e] at h
  exact h.1

/-- A path without a slash has one element, itself. -/
theorem elements_of_no_slash (s : List Char) (h : '/' ∉ s) : elements s = [s] := by
  induction s with
  | nil => rfl
  | cons c cs ih =>
    simp only [List.mem_cons, not_or] at h
    simp only [elements, ih h.2]
    rw [if_neg (fun hc => h.1 hc.symm)]

end path

namespace dnsdb

variable {F : Type}

/-- The path of an RRSet query without a bailiwick, of an RRSet query with a bailiwick `b`,
and of an RData-name query. -/
theorem makePath_name (lib : PathLibrary) (m : Memory) (q : httpQuery F) :
    (q.mode = modeRRSet → (q.view m).bailiwick = none →
      q.makePath lib m
        = some (path.Join [pathName, toASCII lib q.name, (q.view m).recordType])) ∧
    (q.mode = modeRRSet → ∀ b, (q.view m).bailiwick = some b →
      q.makePath lib m
        = some (path.Join [path.Join [pathName, toASCII lib q.name, (q.view m).recordType],
            toASCII lib b])) ∧
    (q.mode = modeRDataName →
      q.makePath lib m
        = some (path.Join [pathName, toASCII lib q.name, (q.view m).recordType])) := by
  have hne : ¬ modeRDataName = modeRRSet := by decide
  refine ⟨fun hmode hb => ?_, fun hmode b hb => ?_, fun hmode => ?_⟩
  · cases hq : q.rrtype <;> cases hbw : q.bailiwick <;>
      simp_all [httpQuery.makePath, queryView.recordType, httpQuery.view]
  · cases hq : q.rrtype <;> cases hbw : q.bailiwick <;>
      simp_all [httpQuery.makePath, queryView.recordType, httpQuery.view]
  · cases hq : q.rrtype <;>
      simp_all [httpQuery.makePath, queryView.recordType, httpQuery.view]

/-- C25, which the code does not meet. `WithBailiwick` is documented to set the bailiwick for
the query, and `path.Join` cleans the path: for the name `test` and the empty type the path is
`name/test`, without the slash and the type after the name; and for the name `com.` the
bailiwick `.`, the root zone, is left out of the path, which is `name/com./ANY` and not
`name/com./ANY/.`. -/
theorem makePath_drops_empty_and_dot_elements :
    httpQuery.makePath examplePathLibrary { strings := [""] }
      ({ mode := modeRRSet, name := "test", rrtype := some 0 } : httpQuery Unit)
        = some "name/test" ∧
    "name/" ++ toASCII examplePathLibrary "test" ++ "/" ++ "" = "name/test/" ∧
    httpQuery.makePath examplePathLibrary { strings := ["."] }
      ({ mode := modeRRSet, name := "com.", bailiwick := some 0 } : httpQuery Unit)
        = some "name/com./ANY" ∧
    "name/" ++ toASCII examplePathLibrary "com." ++ "/" ++ "ANY" ++ "/" ++
      toASCII examplePathLibrary "." = "name/com./ANY/." := by
  decide

/-- What `makePath` does for name queries when `toASCII(name)` and the type are clean
paths, that is paths that `path.Clean` keeps as they are: not empty, without a slash at
either end or two slashes in a row, and without an element `.` or `..` (a name or a type
without a slash is clean unless it is empty, `.` or `..`). The path of an RRSet query is
`name/`, `toASCII(name)`, a slash and the type, followed by a slash and `toASCII(bailiwick)`
when a bailiwick is set and `toASCII(bailiwick)` is clean too; the path of an RData-name query
is `name/`, `toASCII(name)`, a slash and the type, whatever the bailiwick; the type is `ANY`
when none was set. -/
theorem makePath_of_name_queries (lib : PathLibrary) (m : Memory) (q : httpQuery F)
    (hname : path.isClean (toASCII lib q.name) = true)
    (hrrtype : path.isClean (q.view m).recordType = true) :
    (q.mode = modeRRSet → (q.view m).bailiwick = none →
      q.makePath lib m
        = some ("name/" ++ toASCII lib q.name ++ "/" ++ (q.view m).recordType)) ∧
    (q.mode = modeRRSet → ∀ b, (q.view m).bailiwick = some b →
      path.isClean (toASCII lib b) = true →
      q.makePath lib m
        = some ("name/" ++ toASCII lib q.name ++ "/" ++ (q.view m).recordType ++ "/" ++
            toASCII lib b)) ∧
    (q.mode = modeRDataName →
      q.makePath lib m
        = some ("name/" ++ toASCII lib q.name ++ "/" ++ (q.view m).recordType)) ∧
    ((q.view m).rrtype = none → (q.view m).recordType = "ANY") := by
  have hj := path.Join_three "name" (toASCII lib q.name) (q.view m).recordType (by decide)
    hname hrrtype
  have hp := makePath_name lib m q
  refine ⟨fun hmode hb => ?_, fun hmode b hb hclean => ?_, fun hmode => ?_, fun h => ?_⟩
  · rw [hp.1 hmode hb]
    exact congrArg some hj.1
  · rw [hp.2.1 hmode b hb]
    have e : pathName = "name" := rfl
    rw [e, hj.1, path.Join_two _ _ hj.2 hclean]
    rfl
  · rw [hp.2.2 hmode]
    exact congrArg some hj.1
  · simp [queryView.recordType, h, rrTypeAny]

/-- The query for the records of `test` with the type `AAAA` in the bailiwick `ing` has the
path `name/test/AAAA/ing`. -/
theorem makePath_of_name_queries_witness :
    path.isClean (toASCII examplePathLibrary exampleQueryRRSet.name) = true ∧
    path.isClean (exampleQueryRRSet.view exampleQueryMemory).recordType = true ∧
    exampleQueryRRSet.makePath examplePathLibrary exampleQueryMemory
      = some "name/test/AAAA/ing" :=
  ⟨by decide, by decide,
    ((makePath_of_name_queries examplePathLibrary exampleQueryMemory exampleQueryRRSet
      (by decide) (by decide)).2.1 rfl "ing" rfl (by decide)).trans (by decide)⟩

end dnsdb

namespace strings

/-- The first slash of a string replaced. -/
theorem replace_first (a b new : List Char) (h : '/' ∉ a) :
    replace '/' new 1 (a ++ '/' :: b) = a ++ new ++ b := by
  induction a with
  | nil =>
    cases b <;> simp [replace]
  | cons c cs ih =>
    simp only [List.mem_cons, not_or] at h
    have hc : ¬ c = '/' := fun hc => h.1 hc.symm
    simp only [List.cons_append, replace, hc, if_false, List.append_eq, Nat.zero_add]
    rw [ih h.2]

end strings

namespace dnsdb

variable {F : Type}

/-- The decimal form of a natural number has no slash. -/
theorem Itoa_no_slash (n : Nat) : '/' ∉ (strconv.Itoa (n : Int)).data := by
  have hn : ¬ ((n : Int) < 0) := by omega
  simp only [strconv.Itoa, hn, if_false]
  intro hmem
  have hall := strconv.digits_all_isDigit ((n : Int).natAbs + 1) (n : Int).natAbs
  have := List.all_eq_true.mp hall '/' hmem
  revert this
  decide

/-- An address and a prefix length with a comma between them make a clean path. -/
theorem isClean_of_comma (a n : String) (ha : '/' ∉ a.data) (hn : '/' ∉ n.data) :
    path.isClean (a ++ "," ++ n) = true := by
  have hdata : (a ++ "," ++ n).data = a.data ++ ',' :: n.data := by
    simp [String.data_append]
  have hno : '/' ∉ a.data ++ ',' :: n.data := by
    simp only [List.mem_append, List.mem_cons, not_or]
    exact ⟨ha, by decide, hn⟩
  have hmem : ',' ∈ a.data ++ ',' :: n.data := by simp
  simp only [path.isClean, hdata, path.elements_of_no_slash _ hno, List.all_cons, List.all_nil,
    Bool.and_true, path.isName, Bool.and_eq_true, decide_eq_true_eq]
  refine ⟨⟨?_, ?_⟩, ?_⟩
  · intro hc
    rw [hc] at hmem
    simp at hmem
  · intro hc
    rw [hc] at hmem
    revert hmem
    decide
  · intro hc
    rw [hc] at hmem
    revert hmem
    decide

/-- The path of an RData-IP query, by the size of the mask. -/
theorem makePath_ip (lib : PathLibrary) (m : Memory) (q : httpQuery F)
    (hmode : q.mode = modeRDataIP) :
    q.makePath lib m
      = if q.ip.Mask.Size.1 = q.ip.Mask.Size.2 then
          some (path.Join [pathIP, lib.IPString q.ip.IP, (q.view m).recordType])
        else
          some (path.Join [pathIP, strings.Replace (q.ip.String lib) '/' "," 1,
            (q.view m).recordType]) := by
  have h1 : ¬ modeRDataIP = modeRRSet := by decide
  have h2 : ¬ modeRDataIP = modeRDataName := by decide
  cases hq : q.rrtype <;>
    simp [httpQuery.makePath, queryView.recordType, httpQuery.view, hmode, h1, h2, hq]

/-- The address that `networkNumberAndMask` returns is the address of the network as it is
given, in four bytes when `To4` has them: it is not masked. -/
theorem networkNumberAndMask_address (n : net.IPNet) (nn : net.IP) (m : net.IPMask)
    (h : net.networkNumberAndMask n = some (nn, m)) : nn = n.IP.To4.getD n.IP := by
  unfold net.networkNumberAndMask at h
  cases h4 : n.IP.To4 with
  | some ip =>
    simp only [h4] at h
    split_ifs at h <;> simp_all
  | none =>
    simp only [h4] at h
    split_ifs at h <;> simp_all

/-- Counterexample to C26 as it is stated: for the network `192.168.0.1/32` and the empty type
the path is `ip/192.168.0.1`, without the slash and the type after the address; for the
address `2000::1` with a mask of four bytes and the prefix length 24 the path is
`ip/<nil>/ANY`; and for the address `192.168.0.5` with the prefix length 24 the path is
`ip/192.168.0.5,24/ANY`, with the address as it is given, where the network address is
`192.168.0.0`. -/
theorem makePath_of_ip_drops_the_empty_type :
    httpQuery.makePath examplePathLibrary { strings := [""] }
      ({ mode := modeRDataIP, ip := exampleHost, rrtype := some 0 } : httpQuery Unit)
        = some "ip/192.168.0.1" ∧
    "ip/" ++ examplePathLibrary.IPString exampleHost.IP ++ "/" ++ "" = "ip/192.168.0.1/" ∧
    exampleMismatch.Mask.Size = (24, 32) ∧
    httpQuery.makePath examplePathLibrary {}
      ({ mode := modeRDataIP, ip := exampleMismatch } : httpQuery Unit)
        = some "ip/<nil>/ANY" ∧
    exampleUnmasked.Mask.Size = (24, 32) ∧
    exampleUnmasked.IP.Mask exampleUnmasked.Mask = some [192, 168, 0, 0] ∧
    httpQuery.makePath examplePathLibrary {}
      ({ mode := modeRDataIP, ip := exampleUnmasked } : httpQuery Unit)
        = some "ip/192.168.0.5,24/ANY" := by
  decide

/-- C26, amended. `makePath` for RData-IP queries, when the type is a clean path (it is not
empty, `.` or `..` and has no slash at either end or two in a row). When the mask is empty or
covers every bit, the path is `ip/`, the address as `net.IP.String` writes it (for an address
that it writes as a clean path), a slash and the type. When the mask is `n` one bits followed
by zero bits, `n` being less than the number of bits of the mask, and has the length of the
address (`networkNumberAndMask` returns an address `nn` with the mask itself), the path is
`ip/`, the address `nn` (which `net.IP.String` writes without a slash), a comma, `n` in
decimal, a slash and the type: what `IPNet.String` writes with the slash replaced by a comma.
The address `nn` is the address of the `IPNet` as it is given, in four bytes when `To4` has
them: it is not masked, so that it is the network address only when the `IPNet` holds the
network address. -/
theorem makePath_of_ip_queries (lib : PathLibrary) (m : Memory) (q : httpQuery F)
    (hmode : q.mode = modeRDataIP)
    (hrrtype : path.isClean (q.view m).recordType = true) :
    (net.simpleMaskLength q.ip.Mask = some (8 * q.ip.Mask.length) →
      path.isClean (lib.IPString q.ip.IP) = true →
      q.makePath lib m
        = some ("ip/" ++ lib.IPString q.ip.IP ++ "/" ++ (q.view m).recordType)) ∧
    net.simpleMaskLength [] = some (8 * ([] : net.IPMask).length) ∧
    (∀ (n : Nat) (nn : net.IP), net.simpleMaskLength q.ip.Mask = some n →
      n < 8 * q.ip.Mask.length → net.networkNumberAndMask q.ip = some (nn, q.ip.Mask) →
      '/' ∉ (lib.IPString nn).data →
      q.makePath lib m
        = some ("ip/" ++ lib.IPString nn ++ "," ++ strconv.Itoa (n : Int) ++ "/" ++
            (q.view m).recordType)) ∧
    (∀ (nn : net.IP) (mask : net.IPMask), net.networkNumberAndMask q.ip = some (nn, mask) →
      nn = q.ip.IP.To4.getD q.ip.IP) := by
  refine ⟨fun hmask hip => ?_, rfl, fun n nn hmask hlt hnet hno => ?_,
    fun nn mask hnet => networkNumberAndMask_address q.ip nn mask hnet⟩
  · have hsize : q.ip.Mask.Size.1 = q.ip.Mask.Size.2 := by
      simp only [net.IPMask.Size, hmask]
      push_cast
      ring
    rw [makePath_ip lib m q hmode, if_pos hsize]
    exact congrArg some (path.Join_three "ip" _ _ (by decide) hip hrrtype).1
  · have hsize : ¬ q.ip.Mask.Size.1 = q.ip.Mask.Size.2 := by
      simp only [net.IPMask.Size, hmask]
      omega
    have hstring : q.ip.String lib = lib.IPString nn ++ "/" ++ strconv.Itoa (n : Int) := by
      simp only [net.IPNet.String, hnet, hmask]
    have hreplace : strings.Replace (q.ip.String lib) '/' "," 1
        = lib.IPString nn ++ "," ++ strconv.Itoa (n : Int) := by
      rw [hstring]
      apply String.ext
      simp only [strings.Replace, String.data_append]
      rw [List.append_assoc, List.singleton_append, strings.replace_first _ _ _ hno]
    rw [makePath_ip lib m q hmode, if_neg hsize, hreplace]
    have hj := path.Join_three "ip" (lib.IPString nn ++ "," ++ strconv.Itoa (n : Int))
      (q.view m).recordType (by decide) (isClean_of_comma _ _ hno (Itoa_no_slash n)) hrrtype
    rw [show pathIP = "ip" from rfl, hj.1]
    rfl

/-- The networks of `TestQuery_MakePath`: `192.168.0.1/32` has the path `ip/192.168.0.1/ANY`
and `192.168.0.0/24` has the path `ip/192.168.0.0,24/ANY`. -/
theorem makePath_of_ip_queries_witness :
    httpQuery.makePath examplePathLibrary {}
      ({ mode := modeRDataIP, ip := exampleHost } : httpQuery Unit)
        = some "ip/192.168.0.1/ANY" ∧
    httpQuery.makePath examplePathLibrary {}
      ({ mode := modeRDataIP, ip := exampleNetwork } : httpQuery Unit)
        = some "ip/192.168.0.0,24/ANY" :=
  ⟨((makePath_of_ip_queries examplePathLibrary {}
      ({ mode := modeRDataIP, ip := exampleHost } : httpQuery Unit) rfl (by decide)).1
        (by decide) (by decide)).trans (by decide),
    ((makePath_of_ip_queries examplePathLibrary {}
      ({ mode := modeRDataIP, ip := exampleNetwork } : httpQuery Unit) rfl (by decide)).2.2.1
        24 [192, 168, 0, 0] (by decide) (by decide) (by decide) (by decide)).trans
          (by decide)⟩

end dnsdb

/-! ## Relative times: lemmas and theorems -/

/-- The binary logarithm of a positive number puts it between two powers of two. -/
theorem Float64.log2_spec (fuel n : Nat) (hn : 0 < n) (hfuel : n ≤ fuel) :
    2 ^ Float64.log2 fuel n ≤ n ∧ n < 2 ^ (Float64.log2 fuel n + 1) := by
  induction fuel generalizing n with
  | zero => omega
  | succ fuel ih =>
    unfold Float64.log2
    by_cases h2 : n < 2
    · rw [if_pos h2]
      have : n = 1 := by omega
      subst this
      exact ⟨by norm_num, by norm_num⟩
    · rw [if_neg h2]
      have h := ih (n / 2) (by omega) (by omega)
      rw [pow_succ, pow_succ]
      constructor <;> omega

/-- The exponent of the `float64` nearest to `a / b`, for `a / b` below `2 ^ 52`: it is `-k` for
a positive `k`, and `a / b * 2 ^ k` is at least `2 ^ 52`. -/
theorem Float64.exponent_spec (a b : Nat) (ha : 0 < a) (hb : 0 < b) (hab : a < 2 ^ 52 * b) :
    ∃ k : Nat, 1 ≤ k ∧ Float64.exponent a b = -(k : Int) ∧ 2 ^ 52 * b ≤ a * 2 ^ k := by
  unfold Float64.exponent
  have hla : 2 ^ Float64.log2 a a ≤ a := (Float64.log2_spec a a ha (Nat.le_refl _)).1
  have hlb : b < 2 ^ (Float64.log2 b b + 1) := (Float64.log2_spec b b hb (Nat.le_refl _)).2
  generalize Float64.log2 a a = la at *
  generalize hlbdef : Float64.log2 b b = lb at *
  have hlt : 2 ^ la < 2 ^ (lb + 53) := by
    calc 2 ^ la ≤ a := hla
      _ < 2 ^ 52 * b := hab
      _ < 2 ^ 52 * 2 ^ (lb + 1) := Nat.mul_lt_mul_of_pos_left hlb (by positivity)
      _ = 2 ^ (lb + 53) := by rw [← pow_add]; congr 1; omega
  have hle : la < lb + 53 := (Nat.pow_lt_pow_iff_right (by norm_num)).mp hlt
  obtain ⟨k1, hk1⟩ : ∃ k1 : Nat, k1 + la = lb + 52 := ⟨lb + 52 - la, by omega⟩
  have he1 : ((la : Int) - (lb : Int) - 52) = -(k1 : Int) := by omega
  simp only [he1, neg_neg, Int.toNat_ofNat, Int.toNat_neg_nat, pow_zero, mul_one]
  by_cases hc : a * 2 ^ k1 < 2 ^ 52 * b
  · rw [if_pos hc]
    refine ⟨k1 + 1, by omega, by push_cast; ring, ?_⟩
    have h2 : 2 ^ 52 * 2 ^ (lb + 1) = 2 ^ la * 2 ^ (k1 + 1) := by
      rw [← pow_add, ← pow_add]; congr 1; omega
    calc 2 ^ 52 * b ≤ 2 ^ 52 * 2 ^ (lb + 1) := Nat.mul_le_mul_left _ (le_of_lt hlb)
      _ = 2 ^ la * 2 ^ (k1 + 1) := h2
      _ ≤ a * 2 ^ (k1 + 1) := Nat.mul_le_mul_right _ hla
  · rw [if_neg hc]
    have hk : 1 ≤ k1 := by
      by_contra h0
      have h00 : k1 = 0 := by omega
      subst h00
      simp only [pow_zero, mul_one] at hc
      exact hc hab
    exact ⟨k1, hk, rfl, Nat.le_of_not_lt hc⟩

/-- The rounding at a negative exponent. -/
theorem Float64.roundAt_neg (a b k : Nat) :
    Float64.roundAt a b (-(k : Int))
      = { m := ((if b < 2 * (a * 2 ^ k % b) ∨
                  (2 * (a * 2 ^ k % b) = b ∧ a * 2 ^ k / b % 2 = 1)
                then a * 2 ^ k / b + 1 else a * 2 ^ k / b : Nat) : Int),
          e := -(k : Int) } := by
  simp only [Float64.roundAt, neg_neg, Int.toNat_ofNat, Int.toNat_neg_nat, pow_zero, mul_one]

/-- The integer part of a `float64` with a negative exponent. -/
theorem Float64.trunc_neg (m k : Nat) (hk : 1 ≤ k) :
    ({ m := (m : Int), e := -(k : Int) } : Float64).trunc = ((m / 2 ^ k : Nat) : Int) := by
  have hneg : ¬ (0 : Int) ≤ -(k : Int) := by omega
  simp only [Float64.trunc, hneg, if_false, neg_neg, Int.toNat_ofNat]
  rw [Int.ofNat_tdiv]
  push_cast
  rfl

/-- The integer part of the `float64` nearest to `a / b` is `S`, when `a / b` is at least `S`,
below `2 ^ 24`, and below `S + 1` by more than `2 ^ -30`. -/
theorem Float64.toInt64_nearest (a b S : Nat) (ha : 0 < a) (hb : 0 < b) (hS : S * b ≤ a)
    (hlt : a < 2 ^ 24 * b) (hgap : a * 2 ^ 30 + b < (S + 1) * 2 ^ 30 * b) :
    (Float64.nearest a b).toInt64 = (S : Int) := by
  have hab : a < 2 ^ 52 * b := by
    have : 2 ^ 24 * b ≤ 2 ^ 52 * b := Nat.mul_le_mul_right _ (by norm_num)
    omega
  obtain ⟨k, hk1, hexp, hnorm⟩ := Float64.exponent_spec a b ha hb hab
  -- the exponent is at most -29
  have hk29 : 29 ≤ k := by
    have h1 : a * 2 ^ k < 2 ^ 24 * b * 2 ^ k := Nat.mul_lt_mul_of_pos_right hlt (by positivity)
    have h2 : 2 ^ 52 * b < 2 ^ (24 + k) * b := by
      calc 2 ^ 52 * b ≤ a * 2 ^ k := hnorm
        _ < 2 ^ 24 * b * 2 ^ k := h1
        _ = 2 ^ (24 + k) * b := by rw [pow_add]; ring
    have h3 : 2 ^ 52 < 2 ^ (24 + k) := Nat.lt_of_mul_lt_mul_right h2
    have h4 := (Nat.pow_lt_pow_iff_right (by norm_num : 1 < 2)).mp h3
    omega
  obtain ⟨j, hj⟩ : ∃ j : Nat, k = 29 + j := ⟨k - 29, by omega⟩
  have hX : 2 ^ k = 2 ^ 29 * 2 ^ j := by rw [hj, pow_add]
  have hPpos : 1 ≤ 2 ^ j := Nat.one_le_two_pow
  -- quotient and remainder
  have hdiv : b * (a * 2 ^ k / b) + a * 2 ^ k % b = a * 2 ^ k := Nat.div_add_mod _ _
  have hrem : a * 2 ^ k % b < b := Nat.mod_lt _ hb
  have hSlt : a < (S + 1) * b := by
    by_contra hc
    have hc2 : (S + 1) * b ≤ a := Nat.le_of_not_lt hc
    have : (S + 1) * b * 2 ^ 30 ≤ a * 2 ^ 30 := Nat.mul_le_mul_right _ hc2
    have e : (S + 1) * b * 2 ^ 30 = (S + 1) * 2 ^ 30 * b := by ring
    omega
  have hqlo : S * 2 ^ k ≤ a * 2 ^ k / b := by
    rw [Nat.le_div_iff_mul_le hb]
    calc S * 2 ^ k * b = S * b * 2 ^ k := by ring
      _ ≤ a * 2 ^ k := Nat.mul_le_mul_right _ hS
  have hqhi : a * 2 ^ k / b < (S + 1) * 2 ^ k := by
    rw [Nat.div_lt_iff_lt_mul hb]
    calc a * 2 ^ k < (S + 1) * b * 2 ^ k := Nat.mul_lt_mul_of_pos_right hSlt (by positivity)
      _ = (S + 1) * 2 ^ k * b := by ring
  -- the mantissa
  rw [Float64.nearest, if_neg (by omega), hexp, Float64.roundAt_neg]
  generalize hq : a * 2 ^ k / b = q at *
  generalize hr : a * 2 ^ k % b = r at *
  have hm : ∀ m : Nat, (m = q ∨ (m = q + 1 ∧ b ≤ 2 * r)) → S * 2 ^ k ≤ m ∧ m < (S + 1) * 2 ^ k := by
    intro m hm
    rcases hm with rfl | ⟨rfl, hround⟩
    · exact ⟨hqlo, hqhi⟩
    · refine ⟨by omega, ?_⟩
      by_contra hc
      have hq1 : q + 1 = (S + 1) * 2 ^ k := by omega
      have e1 : b * q + b = b * ((S + 1) * 2 ^ k) := by rw [← hq1]; ring
      have e2 : (a * 2 ^ 30 + b) * 2 ^ j < (S + 1) * 2 ^ 30 * b * 2 ^ j :=
        Nat.mul_lt_mul_of_pos_right hgap (by positivity)
      have e3 : (a * 2 ^ 30 + b) * 2 ^ j = 2 * (a * 2 ^ k) + b * 2 ^ j := by rw [hX]; ring
      have e4 : (S + 1) * 2 ^ 30 * b * 2 ^ j = 2 * (b * ((S + 1) * 2 ^ k)) := by rw [hX]; ring
      have e5 : b ≤ b * 2 ^ j := Nat.le_mul_of_pos_right _ (by positivity)
      omega
  have hcases : ∀ c : Prop, ∀ _ : Decidable c, (c → b ≤ 2 * r) →
      ((if c then q + 1 else q) = q ∨ ((if c then q + 1 else q) = q + 1 ∧ b ≤ 2 * r)) := by
    intro c _ hc
    by_cases h : c
    · rw [if_pos h]; exact Or.inr ⟨rfl, hc h⟩
    · rw [if_neg h]; exact Or.inl rfl
  have hbounds := hm _ (hcases (b < 2 * r ∨ (2 * r = b ∧ q % 2 = 1)) inferInstance
    (fun h => by rcases h with h | h <;> omega))
  generalize (if b < 2 * r ∨ (2 * r = b ∧ q % 2 = 1) then q + 1 else q) = m at hbounds
  have htrunc : m / 2 ^ k = S :=
    Nat.div_eq_of_lt_le (by omega) (by omega)
  have hS24 : S < 2 ^ 24 := by
    by_contra hc
    have : 2 ^ 24 * b ≤ S * b := Nat.mul_le_mul_right _ (Nat.le_of_not_lt hc)
    omega
  simp only [Float64.toInt64, Float64.trunc_neg m k hk1, htrunc]
  rw [if_pos]
  constructor
  · have : (0 : Int) ≤ (S : Int) := Int.ofNat_nonneg _
    omega
  · have : (S : Int) < 2 ^ 24 := by exact_mod_cast hS24
    omega

/-- The `float64` of a natural number of at most `2 ^ 53` is the number. -/
theorem Float64.ofInt_natCast (n : Nat) (hn : n ≤ 2 ^ 53) :
    Float64.ofInt (n : Int) = { m := (n : Int), e := 0 } := by
  have h : (n : Int).natAbs ≤ 2 ^ 53 := by
    rw [Int.natAbs_ofNat]
    exact hn
  simp only [Float64.ofInt, h, if_true]

/-- The quotient of two non-negative integers of at most `2 ^ 53`, as `float64`. -/
theorem Float64.div_ofInt (n d : Nat) (hn : n ≤ 2 ^ 53) (hd : d ≤ 2 ^ 53) :
    Float64.div (Float64.ofInt (n : Int)) (Float64.ofInt (d : Int)) = Float64.nearest n d := by
  have h1 : ¬ ((d : Int) < 0) := by omega
  have h2 : ¬ ((n : Int) < 0) := by omega
  simp only [Float64.div, Float64.ofInt_natCast n hn, Float64.ofInt_natCast d hd, min_self, sub_self, Int.toNat_zero, pow_zero, mul_one,
    h1, if_false, Float64.ofRat, h2, Int.natAbs_ofNat]

/-- The sum of a non-negative integer and a `float64` with a negative exponent, for a mantissa
that is not negative. -/
theorem Float64.add_ofInt (s m k : Nat) (hk : 1 ≤ k) (hs : s ≤ 2 ^ 53) :
    Float64.add (Float64.ofInt (s : Int)) { m := (m : Int), e := -(k : Int) }
      = Float64.nearest (s * 2 ^ k + m) (2 ^ k) := by
  have hmin : min (0 : Int) (-(k : Int)) = -(k : Int) := by omega
  have h1 : ((0 : Int) - -(k : Int)).toNat = k := by omega
  have h2 : (-(k : Int) - -(k : Int)).toNat = 0 := by omega
  have h3 : (-(k : Int)).toNat = 0 := by omega
  have h4 : (- -(k : Int)).toNat = k := by omega
  have h5 : ¬ (((s : Int) * 2 ^ k + (m : Int)) < 0) := by
    have : (0 : Int) ≤ (s : Int) * 2 ^ k + (m : Int) := by positivity
    omega
  have h6 : ((s : Int) * 2 ^ k + (m : Int)).natAbs = s * 2 ^ k + m := by
    have : ((s : Int) * 2 ^ k + (m : Int)) = ((s * 2 ^ k + m : Nat) : Int) := by push_cast; rfl
    rw [this, Int.natAbs_ofNat]
  simp only [Float64.add, Float64.ofInt_natCast s hs, hmin, h1, h2, h3, h4, pow_zero, mul_one,
    Float64.ofRat, h5, if_false, h6]

/-- The `float64` nearest to `a / b`, for `a / b` below `2 ^ 52`: its exponent is `-k` for a
positive `k` that puts `a / b * 2 ^ k` at `2 ^ 52` or above, and its mantissa is
`a / b * 2 ^ k` rounded down, or rounded up when the remainder is at least one half. -/
theorem Float64.nearest_spec (a b : Nat) (ha : 0 < a) (hb : 0 < b) (hab : a < 2 ^ 52 * b) :
    ∃ k m : Nat, 1 ≤ k ∧ Float64.nearest a b = { m := (m : Int), e := -(k : Int) } ∧
      2 ^ 52 * b ≤ a * 2 ^ k ∧
      (m = a * 2 ^ k / b ∨ (m = a * 2 ^ k / b + 1 ∧ b ≤ 2 * (a * 2 ^ k % b))) := by
  obtain ⟨k, hk1, hexp, hnorm⟩ := Float64.exponent_spec a b ha hb hab
  refine ⟨k, (if b < 2 * (a * 2 ^ k % b) ∨ (2 * (a * 2 ^ k % b) = b ∧ a * 2 ^ k / b % 2 = 1)
    then a * 2 ^ k / b + 1 else a * 2 ^ k / b), hk1, ?_, hnorm, ?_⟩
  · rw [Float64.nearest, if_neg (by omega), hexp, Float64.roundAt_neg]
  · by_cases h : b < 2 * (a * 2 ^ k % b) ∨ (2 * (a * 2 ^ k % b) = b ∧ a * 2 ^ k / b % 2 = 1)
    · rw [if_pos h]
      exact Or.inr ⟨rfl, by rcases h with h | h <;> omega⟩
    · rw [if_neg h]
      exact Or.inl rfl

/-- The sum of a non-negative integer and zero, as `float64`. -/
theorem Float64.add_ofInt_zero (s : Nat) (hs : s ≤ 2 ^ 53) :
    Float64.add (Float64.ofInt (s : Int)) { m := 0, e := 0 } = Float64.nearest s 1 := by
  have h2 : ¬ ((s : Int) < 0) := by omega
  simp only [Float64.add, Float64.ofInt_natCast s hs, min_self, sub_self, Int.toNat_zero, pow_zero, mul_one,
    zero_mul, add_zero, neg_zero, Float64.ofRat, h2, if_false, Int.natAbs_ofNat]

namespace dnsdb

/-- The value that a relative time of less than `2 ^ 24` seconds stores: minus the whole
seconds of the duration. -/
theorem relativeSeconds_eq (since : time.Duration) (h0 : 0 ≤ since)
    (hlt : since < 2 ^ 24 * 1000000000) : relativeSeconds since = -(since / 1000000000) := by
  obtain ⟨D, rfl⟩ := Int.eq_ofNat_of_zero_le h0
  have hD : D < 2 ^ 24 * 1000000000 := by exact_mod_cast hlt
  have hsec : Int.tdiv (D : Int) time.Second = ((D / 1000000000 : Nat) : Int) := by
    rw [time.Second, Int.ofNat_tdiv]
    rfl
  have hnsec : Int.tmod (D : Int) time.Second = ((D % 1000000000 : Nat) : Int) := by
    rw [time.Second, Int.tmod_eq_emod (by omega) (by omega)]
    push_cast
    rfl
  have hdivmod := Nat.div_add_mod D 1000000000
  have hmodlt : D % 1000000000 < 1000000000 := Nat.mod_lt _ (by norm_num)
  have hS24 : D / 1000000000 < 2 ^ 24 := by
    rw [Nat.div_lt_iff_lt_mul (by norm_num)]
    exact hD
  simp only [relativeSeconds, time.Duration.Seconds, hsec, hnsec]
  have hcast : ((1000000000 : Int)) = ((1000000000 : Nat) : Int) := rfl
  have hN53 : D % 1000000000 ≤ 2 ^ 53 := le_of_lt (lt_of_lt_of_le hmodlt (by norm_num))
  have hS53 : D / 1000000000 ≤ 2 ^ 53 := le_of_lt (lt_of_lt_of_le hS24 (by norm_num))
  rw [hcast, Float64.div_ofInt _ _ hN53 (by norm_num)]
  have hquot : ((D : Int) / ((1000000000 : Nat) : Int)) = ((D / 1000000000 : Nat) : Int) :=
    (Int.natCast_div D 1000000000).symm
  rw [hquot]
  generalize D / 1000000000 = S at *
  generalize D % 1000000000 = N at *
  have hgoal : (Float64.add (Float64.ofInt (S : Int)) (Float64.nearest N 1000000000)).toInt64
      = (S : Int) := by
    by_cases hN : N = 0
    · subst hN
      rw [show Float64.nearest 0 1000000000 = { m := 0, e := 0 } from rfl,
        Float64.add_ofInt_zero S hS53]
      by_cases hS : S = 0
      · subst hS
        rfl
      · exact Float64.toInt64_nearest S 1 S (by omega) (by norm_num) (by omega) (by omega)
          (by omega)
    · obtain ⟨k, m, hk1, hnear, hnorm, hround⟩ := Float64.nearest_spec N 1000000000
        (by omega) (by norm_num) (by omega)
      rw [hnear, Float64.add_ofInt S m k hk1 hS53]
      -- the exponent of the quotient is at most -53
      have hk53 : 53 ≤ k := by
        have h1 : N * 2 ^ k < 1000000000 * 2 ^ k :=
          Nat.mul_lt_mul_of_pos_right hmodlt (by positivity)
        have h2 : 2 ^ 52 * 1000000000 < 2 ^ k * 1000000000 := by
          calc 2 ^ 52 * 1000000000 ≤ N * 2 ^ k := hnorm
            _ < 1000000000 * 2 ^ k := h1
            _ = 2 ^ k * 1000000000 := by ring
        have h3 : 2 ^ 52 < 2 ^ k := Nat.lt_of_mul_lt_mul_right h2
        have h4 := (Nat.pow_lt_pow_iff_right (by norm_num : 1 < 2)).mp h3
        omega
      obtain ⟨j, hj⟩ : ∃ j : Nat, k = 53 + j := ⟨k - 53, by omega⟩
      have hY : 2 ^ k = 2 ^ 53 * 2 ^ j := by rw [hj, pow_add]
      have hjpos : 1 ≤ 2 ^ j := Nat.one_le_two_pow
      have hdm : 1000000000 * (N * 2 ^ k / 1000000000) + N * 2 ^ k % 1000000000 = N * 2 ^ k :=
        Nat.div_add_mod _ _
      have hNY : N * 2 ^ k + 2 ^ k ≤ 1000000000 * 2 ^ k := by
        have : (N + 1) * 2 ^ k ≤ 1000000000 * 2 ^ k := Nat.mul_le_mul_right _ (by omega)
        calc N * 2 ^ k + 2 ^ k = (N + 1) * 2 ^ k := by ring
          _ ≤ 1000000000 * 2 ^ k := this
      have hm : 2000000000 * m ≤ 2 * (N * 2 ^ k) + 1000000000 := by
        rcases hround with rfl | ⟨rfl, hr⟩ <;> omega
      have hmpos : 0 < m := by
        have : 2 ^ 52 ≤ N * 2 ^ k / 1000000000 := by
          rw [Nat.le_div_iff_mul_le (by norm_num)]
          exact hnorm
        rcases hround with rfl | ⟨rfl, hr⟩ <;> omega
      generalize 2 ^ k = Y at *
      generalize N * Y = NY at *
      have hY53 : 2 ^ 53 ≤ Y := by
        rw [hY]
        exact Nat.le_mul_of_pos_right _ (by positivity)
      have hmlt : m < Y := by omega
      refine Float64.toInt64_nearest (S * Y + m) Y S (by omega) (by omega) (by omega) ?_ ?_
      · have : (S + 1) * Y ≤ 2 ^ 24 * Y := Nat.mul_le_mul_right _ (by omega)
        have e : (S + 1) * Y = S * Y + Y := by ring
        omega
      · have e1 : (S * Y + m) * 2 ^ 30 + Y = S * Y * 2 ^ 30 + m * 2 ^ 30 + Y := by ring
        have e2 : (S + 1) * 2 ^ 30 * Y = S * Y * 2 ^ 30 + 2 ^ 30 * Y := by ring
        rw [e1, e2]
        have hnum : m * 2 ^ 30 + Y < 2 ^ 30 * Y := by
          norm_num at hY53 ⊢
          omega
        omega
  rw [hgoal]

end dnsdb

namespace dnsdb

variable {F : Type}

/-- `WithRelativeTimeFirstBefore` on a duration that is not negative. -/
theorem WithRelativeTimeFirstBefore_view (m : Memory) (q : httpQuery F) (hq : q.valid m = true)
    (since : time.Duration) (h0 : 0 ≤ since) :
    (q.WithRelativeTimeFirstBefore m since).map (fun r => (r.2.view r.1, q.view r.1))
      = some ({ q.view m with timeFirstBefore := some (relativeSeconds since) }, q.view m) := by
  have hn : ¬ since < 0 := not_lt.mpr h0
  have h := extendedBy_newInt m (relativeSeconds since)
  have hv := view_of_extendedBy m _ q h.1 hq
  have hc : q.WithRelativeTimeFirstBefore m since
      = some (m.newInt.1.setInt m.newInt.2 (relativeSeconds since),
          { q with timeFirstBefore := some m.newInt.2 }) := by
    simp only [httpQuery.WithRelativeTimeFirstBefore, hn, if_false]
  have e : ({ q with timeFirstBefore := some m.newInt.2 } : httpQuery F).view
        (m.newInt.1.setInt m.newInt.2 (relativeSeconds since))
      = { q.view (m.newInt.1.setInt m.newInt.2 (relativeSeconds since)) with
          timeFirstBefore := some ((m.newInt.1.setInt m.newInt.2 (relativeSeconds since)).int
            m.newInt.2) } := rfl
  rw [hc, Option.map_some', e, hv, h.2]

/-- `WithRelativeTimeFirstAfter` on a duration that is not negative. -/
theorem WithRelativeTimeFirstAfter_view (m : Memory) (q : httpQuery F) (hq : q.valid m = true)
    (since : time.Duration) (h0 : 0 ≤ since) :
    (q.WithRelativeTimeFirstAfter m since).map (fun r => (r.2.view r.1, q.view r.1))
      = some ({ q.view m with timeFirstAfter := some (relativeSeconds since) }, q.view m) := by
  have hn : ¬ since < 0 := not_lt.mpr h0
  have h := extendedBy_newInt m (relativeSeconds since)
  have hv := view_of_extendedBy m _ q h.1 hq
  have hc : q.WithRelativeTimeFirstAfter m since
      = some (m.newInt.1.setInt m.newInt.2 (relativeSeconds since),
          { q with timeFirstAfter := some m.newInt.2 }) := by
    simp only [httpQuery.WithRelativeTimeFirstAfter, hn, if_false]
  have e : ({ q with timeFirstAfter := some m.newInt.2 } : httpQuery F).view
        (m.newInt.1.setInt m.newInt.2 (relativeSeconds since))
      = { q.view (m.newInt.1.setInt m.newInt.2 (relativeSeconds since)) with
          timeFirstAfter := some ((m.newInt.1.setInt m.newInt.2 (relativeSeconds since)).int
            m.newInt.2) } := rfl
  rw [hc, Option.map_some', e, hv, h.2]

/-- `WithRelativeTimeLastBefore` on a duration that is not negative. -/
theorem WithRelativeTimeLastBefore_view (m : Memory) (q : httpQuery F) (hq : q.valid m = true)
    (since : time.Duration) (h0 : 0 ≤ since) :
    (q.WithRelativeTimeLastBefore m since).map (fun r => (r.2.view r.1, q.view r.1))
      = some ({ q.view m with timeLastBefore := some (relativeSeconds since) }, q.view m) := by
  have hn : ¬ since < 0 := not_lt.mpr h0
  have h := extendedBy_newInt m (relativeSeconds since)
  have hv := view_of_extendedBy m _ q h.1 hq
  have hc : q.WithRelativeTimeLastBefore m since
      = some (m.newInt.1.setInt m.newInt.2 (relativeSeconds since),
          { q with timeLastBefore := some m.newInt.2 }) := by
    simp only [httpQuery.WithRelativeTimeLastBefore, hn, if_false]
  have e : ({ q with timeLastBefore := some m.newInt.2 } : httpQuery F).view
        (m.newInt.1.setInt m.newInt.2 (relativeSeconds since))
      = { q.view (m.newInt.1.setInt m.newInt.2 (relativeSeconds since)) with
          timeLastBefore := some ((m.newInt.1.setInt m.newInt.2 (relativeSeconds since)).int
            m.newInt.2) } := rfl
  rw [hc, Option.map_some', e, hv, h.2]

/-- `WithRelativeTimeLastAfter` on a duration that is not negative. -/
theorem WithRelativeTimeLastAfter_view (m : Memory) (q : httpQuery F) (hq : q.valid m = true)
    (since : time.Duration) (h0 : 0 ≤ since) :
    (q.WithRelativeTimeLastAfter m since).map (fun r => (r.2.view r.1, q.view r.1))
      = some ({ q.view m with timeLastAfter := some (relativeSeconds since) }, q.view m) := by
  have hn : ¬ since < 0 := not_lt.mpr h0
  have h := extendedBy_newInt m (relativeSeconds since)
  have hv := view_of_extendedBy m _ q h.1 hq
  have hc : q.WithRelativeTimeLastAfter m since
      = some (m.newInt.1.setInt m.newInt.2 (relativeSeconds since),
          { q with timeLastAfter := some m.newInt.2 }) := by
    simp only [httpQuery.WithRelativeTimeLastAfter, hn, if_false]
  have e : ({ q with timeLastAfter := some m.newInt.2 } : httpQuery F).view
        (m.newInt.1.setInt m.newInt.2 (relativeSeconds since))
      = { q.view (m.newInt.1.setInt m.newInt.2 (relativeSeconds since)) with
          timeLastAfter := some ((m.newInt.1.setInt m.newInt.2 (relativeSeconds since)).int
            m.newInt.2) } := rfl
  rw [hc, Option.map_some', e, hv, h.2]

set_option maxRecDepth 4000

/-- Counterexample to C24 as it is stated: for the duration of 16777216.999999999 s the
time bound is -16777217, one second beyond the whole seconds of the duration, because
`Duration.Seconds` adds the seconds and the fraction as `float64` and the sum rounds to
16777217. -/
theorem relative_time_is_rounded_up :
    (exampleQuery.WithRelativeTimeLastAfter {} 16777216999999999).map
        (fun r => (r.2.view r.1).timeLastAfter) = some (some (-16777217)) ∧
    -((16777216999999999 : Int) / 1000000000) = -16777216 ∧
    (0 : Int) ≤ 16777216999999999 ∧ (16777216999999999 : Int) < 2 ^ 63 := by
  decide

/-- C24, amended. Each of the four `WithRelativeTime` methods panics if and only if the
duration is negative. For every duration that is not negative and is less than `2 ^ 24`
seconds (a little more than 194 days), it returns a new query whose corresponding time bound
is minus the duration truncated to whole seconds (-3600 for one hour, 0 for anything under one
second), with every other field as in the receiver, and it leaves the receiver unchanged. For
every duration that is not negative it returns a new query whose time bound is
`-int64(since.Seconds())`, in which `Seconds` rounds to a `float64`, and leaves the receiver
unchanged. -/
theorem relative_times_are_whole_seconds (m : Memory) (q : httpQuery F)
    (hq : q.valid m = true) (since : time.Duration) :
    (since < 0 ↔ q.WithRelativeTimeFirstBefore m since = none) ∧
    (since < 0 ↔ q.WithRelativeTimeFirstAfter m since = none) ∧
    (since < 0 ↔ q.WithRelativeTimeLastBefore m since = none) ∧
    (since < 0 ↔ q.WithRelativeTimeLastAfter m since = none) ∧
    (0 ≤ since → since < 2 ^ 24 * 1000000000 →
      (q.WithRelativeTimeFirstBefore m since).map (fun r => (r.2.view r.1, q.view r.1))
        = some ({ q.view m with timeFirstBefore := some (-(since / 1000000000)) }, q.view m)) ∧
    (0 ≤ since → since < 2 ^ 24 * 1000000000 →
      (q.WithRelativeTimeFirstAfter m since).map (fun r => (r.2.view r.1, q.view r.1))
        = some ({ q.view m with timeFirstAfter := some (-(since / 1000000000)) }, q.view m)) ∧
    (0 ≤ since → since < 2 ^ 24 * 1000000000 →
      (q.WithRelativeTimeLastBefore m since).map (fun r => (r.2.view r.1, q.view r.1))
        = some ({ q.view m with timeLastBefore := some (-(since / 1000000000)) }, q.view m)) ∧
    (0 ≤ since → since < 2 ^ 24 * 1000000000 →
      (q.WithRelativeTimeLastAfter m since).map (fun r => (r.2.view r.1, q.view r.1))
        = some ({ q.view m with timeLastAfter := some (-(since / 1000000000)) }, q.view m)) ∧
    (0 ≤ since →
      (q.WithRelativeTimeFirstBefore m since).map (fun r => (r.2.view r.1, q.view r.1))
        = some ({ q.view m with timeFirstBefore := some (relativeSeconds since) }, q.view m)) ∧
    (0 ≤ since →
      (q.WithRelativeTimeFirstAfter m since).map (fun r => (r.2.view r.1, q.view r.1))
        = some ({ q.view m with timeFirstAfter := some (relativeSeconds since) }, q.view m)) ∧
    (0 ≤ since →
      (q.WithRelativeTimeLastBefore m since).map (fun r => (r.2.view r.1, q.view r.1))
        = some ({ q.view m with timeLastBefore := some (relativeSeconds since) }, q.view m)) ∧
    (0 ≤ since →
      (q.WithRelativeTimeLastAfter m since).map (fun r => (r.2.view r.1, q.view r.1))
        = some ({ q.view m with timeLastAfter := some (relativeSeconds since) }, q.view m)) := by
  have hpanic : ∀ (f : Memory → httpQuery F → time.Duration → Option (Memory × httpQuery F)),
      (∀ h0 : 0 ≤ since, (f m q since).isSome = true) → (since < 0 → f m q since = none) →
      (since < 0 ↔ f m q since = none) := by
    intro f hsome hnone
    refine ⟨hnone, fun h => ?_⟩
    by_contra hc
    have := hsome (le_of_not_lt hc)
    rw [h] at this
    exact absurd this (by simp)
  refine ⟨?_, ?_, ?_, ?_, ?_, ?_, ?_, ?_, WithRelativeTimeFirstBefore_view m q hq since,
    WithRelativeTimeFirstAfter_view m q hq since, WithRelativeTimeLastBefore_view m q hq since,
    WithRelativeTimeLastAfter_view m q hq since⟩
  · refine hpanic (fun m q since => q.WithRelativeTimeFirstBefore m since) (fun h0 => ?_) (fun hneg => ?_)
    · have hn : ¬ since < 0 := not_lt.mpr h0
      simp only [httpQuery.WithRelativeTimeFirstBefore, hn, if_false, Option.isSome_some]
    · simp only [httpQuery.WithRelativeTimeFirstBefore, hneg, if_true]
  · refine hpanic (fun m q since => q.WithRelativeTimeFirstAfter m since) (fun h0 => ?_) (fun hneg => ?_)
    · have hn : ¬ since < 0 := not_lt.mpr h0
      simp only [httpQuery.WithRelativeTimeFirstAfter, hn, if_false, Option.isSome_some]
    · simp only [httpQuery.WithRelativeTimeFirstAfter, hneg, if_true]
  · refine hpanic (fun m q since => q.WithRelativeTimeLastBefore m since) (fun h0 => ?_) (fun hneg => ?_)
    · have hn : ¬ since < 0 := not_lt.mpr h0
      simp only [httpQuery.WithRelativeTimeLastBefore, hn, if_false, Option.isSome_some]
    · simp only [httpQuery.WithRelativeTimeLastBefore, hneg, if_true]
  · refine hpanic (fun m q since => q.WithRelativeTimeLastAfter m since) (fun h0 => ?_) (fun hneg => ?_)
    · have hn : ¬ since < 0 := not_lt.mpr h0
      simp only [httpQuery.WithRelativeTimeLastAfter, hn, if_false, Option.isSome_some]
    · simp only [httpQuery.WithRelativeTimeLastAfter, hneg, if_true]
  · intro h0 hlt
    rw [WithRelativeTimeFirstBefore_view m q hq since h0, relativeSeconds_eq since h0 hlt]
  · intro h0 hlt
    rw [WithRelativeTimeFirstAfter_view m q hq since h0, relativeSeconds_eq since h0 hlt]
  · intro h0 hlt
    rw [WithRelativeTimeLastBefore_view m q hq since h0, relativeSeconds_eq since h0 hlt]
  · intro h0 hlt
    rw [WithRelativeTimeLastAfter_view m q hq since h0, relativeSeconds_eq since h0 hlt]

/-- The queries of `TestQueryMutators` and `TestQuery_MakeValues`: one hour gives the time
bound -3600 and leaves the first query without a time bound, and the duration -1 panics. -/
theorem relative_times_are_whole_seconds_witness :
    (exampleQuery.WithRelativeTimeFirstBefore {} time.Hour).map
        (fun r => ((r.2.view r.1).timeFirstBefore, (exampleQuery.view r.1).timeFirstBefore))
      = some (some (-3600), none) ∧
    exampleQuery.WithRelativeTimeFirstBefore {} (-1) = none :=
  have h := relative_times_are_whole_seconds {} exampleQuery rfl time.Hour
  have h1 := relative_times_are_whole_seconds {} exampleQuery rfl (-1)
  ⟨by
      have h2 := h.2.2.2.2.1 (by decide) (by decide)
      have h3 := congrArg (Option.map (fun p : queryView Unit × queryView Unit =>
        (p.1.timeFirstBefore, p.2.timeFirstBefore))) h2
      rw [Option.map_map] at h3
      exact h3,
    h1.1.mp (by decide)⟩

end dnsdb

/-! ## The closer of a stream: theorems -/

namespace saf

variable {Line : Type}

/-- Counterexample to C31 as it is stated: the caller closes the stream before a line is read,
and no terminal error is recorded. The closer closes the reader; when `Close` returns nil,
the closer stores nil and the terminal error stays nil, although the cause of the cancellation
is `context.Canceled`; when `Close` returns an error, the closer records that error, which is
not the cause of the cancellation. -/
theorem closer_records_what_close_returns :
    (Execution.steps id [Event.cancel GoError.canceled]
      (Execution.start exampleLimited)).stream.err = none ∧
    (Execution.steps id
      [Event.cancel GoError.canceled, Event.closerClose none, Event.closerStore]
      (Execution.start exampleLimited)).ctxErr = some GoError.canceled ∧
    (Execution.steps id
      [Event.cancel GoError.canceled, Event.closerClose none, Event.closerStore]
      (Execution.start exampleLimited)).bodyClosed = true ∧
    (Execution.steps id
      [Event.cancel GoError.canceled, Event.closerClose none, Event.closerStore]
      (Execution.start exampleLimited)).closer = CloserPc.done ∧
    (Execution.steps id
      [Event.cancel GoError.canceled, Event.closerClose none, Event.closerStore]
      (Execution.start exampleLimited)).stream.err = none ∧
    (Execution.steps id
      [Event.cancel GoError.canceled, Event.closerClose (some exampleCloseError),
        Event.closerStore]
      (Execution.start exampleLimited)).stream.err = some exampleCloseError ∧
    exampleCloseError ≠ GoError.canceled := by
  decide

/-- C31, amended. The closer of the envelope decoder. Before the context is cancelled the
closer does nothing. Once it is cancelled, the closer closes the reader, whatever `Close`
returns, and changes nothing else of the stream. When it then takes the lock, it records what
`Close` has returned (nil when the reader closed without an error) as the terminal error if
none is recorded at that moment, and leaves the terminal error unchanged if one is recorded.
So when the closer runs at once on a stream without a terminal error, the terminal error
after it is what `Close` returned. -/
theorem closer_closes_and_records_the_close_error (unmarshal : Line → Option Message)
    (e : Execution Line) (closeErr : Option GoError)
    (hwait : e.closer = CloserPc.waiting) (hctx : e.ctxErr ≠ none) :
    (e.step unmarshal (Event.closerClose closeErr)).bodyClosed = true ∧
    (e.step unmarshal (Event.closerClose closeErr)).closer = CloserPc.closing closeErr ∧
    (e.step unmarshal (Event.closerClose closeErr)).stream = e.stream ∧
    (∀ e2 : Execution Line, e2.closer = CloserPc.closing closeErr →
      (e2.stream.err = none →
        (e2.step unmarshal Event.closerStore).stream.err = closeErr) ∧
      (e2.stream.err ≠ none →
        (e2.step unmarshal Event.closerStore).stream.err = e2.stream.err) ∧
      (e2.step unmarshal Event.closerStore).closer = CloserPc.done) ∧
    (e.stream.err = none →
      (Execution.steps unmarshal [Event.closerClose closeErr, Event.closerStore]
        e).stream.err = closeErr) ∧
    (e.stream.err ≠ none →
      (Execution.steps unmarshal [Event.closerClose closeErr, Event.closerStore]
        e).stream.err = e.stream.err) ∧
    (∀ e0 : Execution Line, e0.ctxErr = none →
      e0.step unmarshal (Event.closerClose closeErr) = e0 ∧
      (e0.closer = CloserPc.waiting → e0.step unmarshal Event.closerStore = e0)) := by
  have h1 : e.step unmarshal (Event.closerClose closeErr)
      = { e with closer := CloserPc.closing closeErr, bodyClosed := true } := by
    simp only [Execution.step]
    rw [if_pos ⟨hwait, hctx⟩]
  refine ⟨by rw [h1], by rw [h1], by rw [h1], ?_, ?_, ?_, ?_⟩
  · intro e2 h2
    refine ⟨fun hn => ?_, fun hs => ?_, ?_⟩
    · simp only [Execution.step, h2, Stream.closer, hn, if_true]
    · simp only [Execution.step, h2, Stream.closer, hs, if_false]
    · simp only [Execution.step, h2]
  · intro hn
    simp only [Execution.steps, List.foldl_cons, List.foldl_nil, h1]
    simp only [Execution.step, Stream.closer, hn, if_true]
  · intro hs
    simp only [Execution.steps, List.foldl_cons, List.foldl_nil, h1]
    simp only [Execution.step, Stream.closer, hs, if_false]
  · intro e0 h0
    refine ⟨?_, fun hw => ?_⟩
    · simp only [Execution.step]
      rw [if_neg (fun h => h.2 h0)]
    · simp only [Execution.step, hw]

/-- The stream of `TestStream/limited example` is cancelled before a line is read, and `Close`
fails: the closer closes the reader and records the error of `Close`. -/
theorem closer_closes_and_records_the_close_error_witness :
    (Execution.steps id [Event.cancel GoError.canceled]
      (Execution.start exampleLimited)).closer = CloserPc.waiting ∧
    (Execution.steps id [Event.cancel GoError.canceled]
      (Execution.start exampleLimited)).ctxErr ≠ none ∧
    (Execution.steps id [Event.cancel GoError.canceled]
      (Execution.start exampleLimited)).stream.err = none ∧
    (Execution.steps id [Event.closerClose (some exampleCloseError), Event.closerStore]
      (Execution.steps id [Event.cancel GoError.canceled]
        (Execution.start exampleLimited))).stream.err = some exampleCloseError :=
  ⟨by decide, by decide, by decide,
    (closer_closes_and_records_the_close_error id
      (Execution.steps id [Event.cancel GoError.canceled] (Execution.start exampleLimited))
      (some exampleCloseError) (by decide) (by decide)).2.2.2.2.1 (by decide)⟩

end saf

/-! ## The errors of the envelope decoder under `errors.Is`: theorems -/

namespace saf

/-- C36, as the code has it: the default branch of `safError.Is` compares the text of the
error with itself, so a SAF error matches every target that is not `ErrStreamLimited`:
`context.Canceled`, `ErrStreamTruncated`, `io.EOF`, `dnsdb.ErrBadRequest` and every other
error value, whatever the condition and the message. -/
theorem saf_error_matches_every_target (cond msg : String) :
    errors.Is (some (Error cond msg)) (some GoError.canceled) = true ∧
    errors.Is (some (Error cond msg)) (some ErrStreamTruncated) = true ∧
    errors.Is (some (Error cond msg)) (some (GoError.other "EOF")) = true ∧
    errors.Is (some (Error cond msg)) (some GoError.badRequest) = true ∧
    (∀ target : GoError,
      target = ErrStreamLimited ∨ errors.Is (some (Error cond msg)) (some target) = true) ∧
    Error cond msg ≠ GoError.canceled ∧ Error cond msg ≠ ErrStreamTruncated := by
  have hsaf : ∃ e, Error cond msg = GoError.saf e := by
    by_cases hmsg : msg = ""
    · exact ⟨cond, by simp [Error, hmsg]⟩
    · exact ⟨"saf stream " ++ cond ++ ": " ++ msg, by simp [Error, hmsg]⟩
  obtain ⟨e, he⟩ := hsaf
  have hall : ∀ target : GoError,
      target = ErrStreamLimited ∨ errors.Is (some (GoError.saf e)) (some target) = true := by
    intro target
    by_cases ht : target = ErrStreamLimited
    · exact Or.inl ht
    · refine Or.inr ?_
      cases target <;>
        first
          | exact absurd rfl ht
          | simp [errors.Is, safError.Is, safError.Error]
  rw [he]
  refine ⟨?_, ?_, ?_, ?_, hall, by simp, by simp [ErrStreamTruncated]⟩
  · exact (hall _).resolve_left (by decide)
  · exact (hall _).resolve_left (by decide)
  · exact (hall _).resolve_left (by decide)
  · exact (hall _).resolve_left (by decide)

end saf

/-! ## The error of a failed stream: lemmas and theorems -/

namespace saf

variable {Line : Type}

/-- Without cancellation, the terminal error of a stream whose first terminal line has the
condition `failed`. -/
theorem Run_err_of_failed (unmarshal : Line → Option Message) (ctx : Context)
    (hctx : ctx.done = none) (pre post : List Line) (t : Line) (m : Message)
    (closeErr : Option GoError) (closerRan : Bool) (hpre : noTerminal unmarshal pre = true)
    (ht : unmarshal t = some m) (hm : m.Cond = CondFailed) :
    (Stream.Run unmarshal ctx (pre ++ t :: post) closeErr closerRan).Err
      = some (Error CondFailed m.Msg) := by
  have hterm : isTerminal m.Cond = true := by rw [hm]; decide
  have hs : m.Cond ≠ CondSucceeded := by rw [hm]; decide
  have hl : m.Cond ≠ CondLimited := by rw [hm]; decide
  simp only [Stream.Run, Stream.run,
    scan_first_terminal unmarshal ctx hctx pre post t m hpre ht hterm, Stream.finish,
    if_neg hs, if_neg hl]
  cases closerRan <;> simp [Stream.closer, Stream.Err, hm]

/-- The error of a `failed` stream is not `ErrStreamLimited` under `errors.Is`. -/
theorem Is_failed_limited (msg : String) :
    errors.Is (some (Error CondFailed msg)) (some ErrStreamLimited) = false := by
  by_cases hmsg : msg = ""
  · subst hmsg; decide
  · simp [errors.Is, Error, hmsg, safError.Is, strings.HasPrefix, ErrStreamLimited.Error,
      CondLimited, CondFailed, String.data_append, List.isPrefixOf]

end saf

namespace v2

variable {Line Record : Type}

/-- Whatever the cancellation, a loop that starts without an error ends with the error of the
context or with the translated terminal error of the decoder. -/
theorem loop_err (unmarshal : saf.RawMessage → Option Record) (streamErr : Option GoError)
    (ctx : Context) (raws : List saf.RawMessage) (r : result Record) (hr : r.err = none) :
    (result.loop unmarshal streamErr ctx raws r).err = some ctx.err ∨
      (result.loop unmarshal streamErr ctx raws r).err = terminalError streamErr := by
  induction raws generalizing ctx r with
  | nil =>
    simp only [result.loop, terminalError]
    split_ifs <;> simp [result.ctxDone, hr]
  | cons raw rest ih =>
    simp only [result.loop]
    by_cases hd : ctx.isDone = true
    · rw [if_pos hd]
      left
      simp [result.ctxDone, hr]
    · rw [if_neg hd]
      cases hraw : unmarshal raw with
      | none => exact ih ctx.tick r hr
      | some res =>
        simp only []
        by_cases hd2 : ctx.tick.isDone = true
        · rw [if_pos hd2]
          left
          simp [result.ctxDone, hr, Context.tick]
        · rw [if_neg hd2]
          exact ih ctx.tick.tick { r with ch := r.ch ++ [res] } hr

/-- C32. For every message, the empty one included, the error `Error(CondFailed, msg)` does not
match `ErrStreamLimited` under `errors.Is`. Hence a v2 record stream (RRSet or flex) on a
response with status 200 whose first terminal line has the condition `failed` does not end
with `dnsdb.ErrResultLimitExceeded`, whether or not it is cancelled on the way (the error of a
context is not `ErrResultLimitExceeded`); without cancellation it ends with the error
`Error(CondFailed, msg)` of the line. -/
theorem failed_stream_is_not_limit_exceeded (unmarshalMsg : Line → Option saf.Message)
    (unmarshalRRSet : saf.RawMessage → Option dnsdb.RRSet)
    (unmarshalFlex : saf.RawMessage → Option flex.Record)
    (ctx : Context) (res : Response Line) (pre post : List Line) (t : Line) (m : saf.Message)
    (closerRan : Bool) (hstatus : res.StatusCode = 200) (hbody : res.Body = pre ++ t :: post)
    (hpre : saf.noTerminal unmarshalMsg pre = true) (ht : unmarshalMsg t = some m)
    (hm : m.Cond = saf.CondFailed) (hctx : ctx.err ≠ dnsdb.ErrResultLimitExceeded) :
    (∀ msg : String,
      errors.Is (some (saf.Error saf.CondFailed msg)) (some saf.ErrStreamLimited) = false) ∧
    (result.run unmarshalMsg unmarshalRRSet ctx (Except.ok res) closerRan).err
      ≠ some dnsdb.ErrResultLimitExceeded ∧
    (flexResult.run unmarshalMsg unmarshalFlex ctx (Except.ok res) closerRan).err
      ≠ some dnsdb.ErrResultLimitExceeded ∧
    (ctx.done = none →
      (result.run unmarshalMsg unmarshalRRSet ctx (Except.ok res) closerRan).err
        = some (saf.Error saf.CondFailed m.Msg) ∧
      (flexResult.run unmarshalMsg unmarshalFlex ctx (Except.ok res) closerRan).err
        = some (saf.Error saf.CondFailed m.Msg)) := by
  have hrun : ∀ closeErr,
      (saf.Stream.Run unmarshalMsg { ctx with done := none } res.Body closeErr closerRan).Err
        = some (saf.Error saf.CondFailed m.Msg) := by
    intro closeErr
    rw [hbody]
    exact saf.Run_err_of_failed unmarshalMsg _ rfl pre post t m closeErr closerRan hpre ht hm
  have hne : ∀ msg : String, saf.Error saf.CondFailed msg ≠ dnsdb.ErrResultLimitExceeded := by
    intro msg
    by_cases hmsg : msg = "" <;> simp [saf.Error, hmsg]
  have hstream : ∀ {Record : Type} (unmarshal : saf.RawMessage → Option Record)
      (rl : Option dnsdb.RateLimit),
      (result.stream unmarshalMsg unmarshal ctx res closerRan { rl := rl }).err
          ≠ some dnsdb.ErrResultLimitExceeded ∧
        (ctx.done = none →
          (result.stream unmarshalMsg unmarshal ctx res closerRan { rl := rl }).err
            = some (saf.Error saf.CondFailed m.Msg)) := by
    intro Record unmarshal rl
    refine ⟨?_, fun hnone => ?_⟩
    · simp only [result.stream, hrun]
      rcases loop_err unmarshal (some (saf.Error saf.CondFailed m.Msg)) ctx
        (saf.Stream.Run unmarshalMsg { ctx with done := none } res.Body res.Close
          closerRan).Ch { rl := rl } rfl with h | h
      · rw [h]
        intro hc
        exact hctx (Option.some.inj hc)
      · rw [h, terminalError_failed]
        intro hc
        exact hne _ (Option.some.inj hc)
    · rw [stream_without_cancellation unmarshalMsg unmarshal ctx hnone]
      simp only []
      have h2 := saf.Run_err_of_failed unmarshalMsg ctx hnone pre post t m res.Close closerRan
        hpre ht hm
      rw [hbody, h2, terminalError_failed]
  refine ⟨saf.Is_failed_limited, ?_, ?_, fun hnone => ⟨?_, ?_⟩⟩
  · simp only [result.run, hstatus, if_true]
    exact (hstream unmarshalRRSet _).1
  · simp only [flexResult.run, hstatus, if_true]
    exact (hstream unmarshalFlex _).1
  · simp only [result.run, hstatus, if_true]
    exact (hstream unmarshalRRSet _).2 hnone
  · simp only [flexResult.run, hstatus, if_true]
    exact (hstream unmarshalFlex _).2 hnone

/-- The body of `TestStream/failure example` as a response with status 200: the stream ends
with the error of the line `failed`, which is not `ErrResultLimitExceeded`; and
`TestErrorStreamLimited_Is/failed`. -/
theorem failed_stream_is_not_limit_exceeded_witness :
    errors.Is (some (saf.Error saf.CondFailed "foomsg")) (some saf.ErrStreamLimited) = false ∧
    (result.run id exampleRRSet (Context.mk none GoError.canceled)
      (Except.ok { StatusCode := 200, Body := saf.exampleFailed }) true).err
        = some (GoError.saf "saf stream failed: Processing timeout; results may be incomplete") ∧
    (result.run id exampleRRSet (Context.mk (some 0) GoError.canceled)
      (Except.ok { StatusCode := 200, Body := saf.exampleFailed }) true).err
        ≠ some dnsdb.ErrResultLimitExceeded :=
  have h := failed_stream_is_not_limit_exceeded id exampleRRSet exampleFlexRecord
    (Context.mk none GoError.canceled) { StatusCode := 200, Body := saf.exampleFailed }
    (saf.exampleFailed.take 2) []
    (some { Cond := "failed", Msg := "Processing timeout; results may be incomplete" })
    { Cond := "failed", Msg := "Processing timeout; results may be incomplete" } true rfl rfl
    (by decide) rfl rfl (by decide)
  have h0 := failed_stream_is_not_limit_exceeded id exampleRRSet exampleFlexRecord
    (Context.mk (some 0) GoError.canceled) { StatusCode := 200, Body := saf.exampleFailed }
    (saf.exampleFailed.take 2) []
    (some { Cond := "failed", Msg := "Processing timeout; results may be incomplete" })
    { Cond := "failed", Msg := "Processing timeout; results may be incomplete" } true rfl rfl
    (by decide) rfl rfl (by decide)
  ⟨h.1 "foomsg", (h.2.2.2 rfl).1, h0.2.1⟩

end v2

/-! ## The times and the raw data of a record: lemmas and theorems -/

namespace hex

/-- A digit of `hextable` reads as its index. -/
theorem fromHexChar_hextable (n : Nat) (hn : n < 16) :
    fromHexChar (hextable.getD n '0') = some n := by
  interval_cases n <;> decide

/-- A byte is the byte of its two hexadecimal digits. -/
theorem ofNat_digits (b : UInt8) : UInt8.ofNat (b.toNat / 16 * 16 + b.toNat % 16) = b := by
  rw [Nat.div_add_mod']
  cases b with
  | mk v =>
    apply UInt8.ext
    simp [UInt8.ofNat, UInt8.toNat, Fin.ofNat, Nat.mod_eq_of_lt v.isLt]

/-- The loop of `hex.Decode` reads back the bytes that `hex.EncodeToString` has written. -/
theorem decode_encode (src : List UInt8) :
    decode (src.flatMap fun b =>
      [hextable.getD (b.toNat / 16) '0', hextable.getD (b.toNat % 16) '0']) = some src := by
  induction src with
  | nil => rfl
  | cons b rest ih =>
    have h1 : b.toNat / 16 < 16 := by
      have := b.toNat_lt
      omega
    have h2 : b.toNat % 16 < 16 := Nat.mod_lt _ (by decide)
    have e : ((b :: rest).flatMap fun b =>
          [hextable.getD (b.toNat / 16) '0', hextable.getD (b.toNat % 16) '0'])
        = hextable.getD (b.toNat / 16) '0' :: hextable.getD (b.toNat % 16) '0' ::
            (rest.flatMap fun b =>
              [hextable.getD (b.toNat / 16) '0', hextable.getD (b.toNat % 16) '0']) := by
      simp [List.flatMap_cons]
    rw [e]
    simp only [decode, fromHexChar_hextable _ h1, fromHexChar_hextable _ h2, ih, ofNat_digits]

/-- `hex.DecodeString` reads back the bytes that `hex.EncodeToString` has written. -/
theorem DecodeString_EncodeToString (src : List UInt8) :
    DecodeString (EncodeToString src) = some src := by
  simp only [DecodeString, EncodeToString, decode_encode]

/-- The text that `hex.EncodeToString` writes is empty for no byte only. -/
theorem EncodeToString_eq_empty (src : List UInt8) : EncodeToString src = "" ↔ src = [] := by
  constructor
  · intro h
    cases src with
    | nil => rfl
    | cons b rest =>
      have := congrArg String.data h
      simp [EncodeToString] at this
  · intro h
    subst h
    rfl

end hex

namespace dnsdb

/-- A value that is stored in a field leaves the time fields other than this one as they
are. -/
theorem store_time (lib : json.Library) (raw raw1 : rrsetEncoded) (g f : rrsetField)
    (v : json.Document) (h : rrsetEncoded.store lib raw g v = Except.ok raw1) (hne : g ≠ f) :
    raw1.time f = raw.time f := by
  cases g <;> simp only [rrsetEncoded.store] at h <;>
    obtain ⟨a, _, rfl⟩ := except_map_ok _ _ _ h <;>
    cases f <;>
    first
      | exact absurd rfl hne
      | rfl

/-- A time field for which the object has no member is left as it is. -/
theorem members_time_of_absent (lib : json.Library) (ms : List (String × json.Document))
    (raw raw2 : rrsetEncoded) (f : rrsetField) (habsent : absent lib ms f = true)
    (h : rrsetEncoded.members lib ms raw = Except.ok raw2) : raw2.time f = raw.time f := by
  induction ms generalizing raw with
  | nil =>
    simp only [rrsetEncoded.members, Except.ok.injEq] at h
    subst h
    rfl
  | cons kv rest ih =>
    obtain ⟨key, v⟩ := kv
    simp only [absent, List.all_cons, Bool.and_eq_true, bne_iff_ne, ne_eq] at habsent
    have hrest : absent lib rest f = true := by
      simp only [absent, List.all_eq_true, bne_iff_ne, ne_eq]
      simpa [List.all_eq_true] using habsent.2
    simp only [rrsetEncoded.members] at h
    cases hfield : rrsetEncoded.field lib key with
    | none =>
      simp only [hfield] at h
      exact ih raw hrest h
    | some g =>
      simp only [hfield] at h
      cases hstore : rrsetEncoded.store lib raw g v with
      | error err => simp [hstore] at h
      | ok raw1 =>
        simp only [hstore] at h
        have hg : g ≠ f := by
          intro hc
          apply habsent.1
          rw [hfield, hc]
        rw [ih raw1 hrest h, store_time lib raw raw1 g f v hstore hg]

/-- What `unix` returns: the zero time for 0 and the instant `secs` seconds after the epoch
for another number, and so never the epoch. -/
theorem unix_spec (secs : Int) :
    (secs ≠ 0 → unix secs = { sec := secs, nsec := 0 }) ∧
      (secs = 0 → unix secs = Time.zero) ∧ unix secs ≠ { sec := 0, nsec := 0 } := by
  refine ⟨fun h => ?_, fun h => ?_, ?_⟩
  · simp [unix, h]
  · simp [unix, h]
  · by_cases h : secs = 0
    · simp only [unix, h, if_true]
      decide
    · simp only [unix, h, if_false]
      intro hc
      exact h (congrArg Time.sec hc)

/-- The decoding of a struct whose `raw_rdata` is not hexadecimal. -/
theorem UnmarshalJSON_of_invalid_hex {Data : Type}
    (unmarshal : Data → Except GoError rrsetEncoded) (hexError : String → GoError)
    (data : Data) (raw : rrsetEncoded) (r : RRSet) (rdata : List String)
    (hraw : unmarshal data = Except.ok raw) (hs : switchRData raw.RData = Except.ok rdata)
    (hne : raw.RawRData ≠ "") (hhex : hex.DecodeString raw.RawRData = none) :
    RRSet.UnmarshalJSON unmarshal hexError data r = (r, some (hexError raw.RawRData)) := by
  simp [RRSet.UnmarshalJSON, hraw, hs, hne, hhex]

/-- C33. `RRSet.UnmarshalJSON` on a document that `json.Unmarshal` decodes into the struct
`raw` and whose `rdata` passes the type switch. When `raw_rdata` is empty or hexadecimal, the
call succeeds and each of the four times of the record is `unix` of the number of the struct:
the instant `s` seconds after the Unix epoch for `s ≠ 0` and the zero time `time.Time{}` for 0,
which is the number of the struct when the object has no member for the field; no number
gives the epoch `1970-01-01T00:00:00Z`. A `raw_rdata` that is not empty is decoded from
hexadecimal: the record holds the bytes that `hex.DecodeString` returns, which for the text
that `hex.EncodeToString` writes for some bytes are these bytes; and when `hex.DecodeString`
rejects the text, the call fails with its error and leaves the receiver as it was. -/
theorem rrset_times_and_raw_rdata {Data : Type}
    (unmarshal : Data → Except GoError rrsetEncoded) (hexError : String → GoError)
    (data : Data) (raw : rrsetEncoded) (r : RRSet) (rdata : List String)
    (hraw : unmarshal data = Except.ok raw) (hs : switchRData raw.RData = Except.ok rdata) :
    (∀ bytes, rawBytes raw = some bytes →
      (RRSet.UnmarshalJSON unmarshal hexError data r).2 = none ∧
      (RRSet.UnmarshalJSON unmarshal hexError data r).1.times = raw.times.map unix ∧
      (RRSet.UnmarshalJSON unmarshal hexError data r).1.RawRData = bytes) ∧
    (∀ s : Int, (s ≠ 0 → unix s = { sec := s, nsec := 0 }) ∧ (s = 0 → unix s = Time.zero) ∧
      unix s ≠ { sec := 0, nsec := 0 }) ∧
    (∀ (lib : json.Library) (ms : List (String × json.Document)) (raw1 : rrsetEncoded)
      (f : rrsetField), f.isTime = true → absent lib ms f = true →
      rrsetEncoded.Unmarshal lib (json.Document.object ms) = Except.ok raw1 →
      raw1.time f = 0 ∧ unix (raw1.time f) = Time.zero) ∧
    (∀ bytes, bytes ≠ [] → raw.RawRData = hex.EncodeToString bytes →
      RRSet.UnmarshalJSON unmarshal hexError data r = (decodedRRSet raw rdata bytes, none)) ∧
    (raw.RawRData ≠ "" → hex.DecodeString raw.RawRData = none →
      RRSet.UnmarshalJSON unmarshal hexError data r = (r, some (hexError raw.RawRData))) := by
  refine ⟨fun bytes hb => ?_, unix_spec, ?_, fun bytes hne he => ?_, fun hne hhex => ?_⟩
  · rw [UnmarshalJSON_of_rdata unmarshal hexError data raw r rdata bytes hraw hs hb]
    exact ⟨rfl, rfl, rfl⟩
  · intro lib ms raw1 f _ habsent h
    have h0 := members_time_of_absent lib ms {} raw1 f habsent h
    have hz : raw1.time f = 0 := by
      rw [h0]
      cases f <;> rfl
    exact ⟨hz, by rw [hz]; rfl⟩
  · apply UnmarshalJSON_of_rdata unmarshal hexError data raw r rdata bytes hraw hs
    have hne2 : raw.RawRData ≠ "" := by
      rw [he]
      exact fun hc => hne ((hex.EncodeToString_eq_empty bytes).mp hc)
    simp only [rawBytes, hne2, if_false]
    rw [he, hex.DecodeString_EncodeToString]
  · exact UnmarshalJSON_of_invalid_hex unmarshal hexError data raw r rdata hraw hs hne hhex

/-- The first record of `TestRRSet_UnmarshalJSON`, example 1: the times are those of the test
and the zone times are zero, and `abcd` gives the bytes `0xab`, `0xcd`. The document of
example 1a, as `json.Unmarshal` stores it, has no zone times. -/
theorem rrset_times_and_raw_rdata_witness :
    switchRData exampleEncodedRaw.RData = Except.ok ["66.160.140.81"] ∧
    rawBytes exampleEncodedRaw = some [0xab, 0xcd] ∧
    (RRSet.UnmarshalJSON (fun _ : Unit => Except.ok exampleEncodedRaw) exampleHexError ()
      {}).2 = none ∧
    (RRSet.UnmarshalJSON (fun _ : Unit => Except.ok exampleEncodedRaw) exampleHexError ()
      {}).1.times
      = [{ sec := 1380139330 }, { sec := 1427881899 }, Time.zero, Time.zero] ∧
    (RRSet.UnmarshalJSON (fun _ : Unit => Except.ok exampleEncodedRaw) exampleHexError ()
      {}).1.RawRData = [0xab, 0xcd] ∧
    (rrsetEncoded.Unmarshal json.exampleLibrary exampleDocumentSummary).toOption.map
      rrsetEncoded.times = some [1557859313, 1560537333, 0, 0] :=
  have h := rrset_times_and_raw_rdata (fun _ : Unit => Except.ok exampleEncodedRaw)
    exampleHexError () exampleEncodedRaw {} ["66.160.140.81"] rfl rfl
  have h1 := h.1 [0xab, 0xcd] (by decide)
  ⟨rfl, by decide, h1.1, h1.2.1, h1.2.2, by decide⟩

/-- C38. Decoding is atomic on failure: whenever `RRSet.UnmarshalJSON` returns an error, be it
the error of `json.Unmarshal` (malformed JSON, a field of the wrong type), `ErrInvalidRData`
or the error of `hex.DecodeString`, the receiver is what it was before the call; and whenever
`Rate.UnmarshalJSON` returns an error, be it the error of `json.Unmarshal` or the error of an
invalid sentinel, the receiver is what it was before the call. Each of these failures does
return an error. -/
theorem decoding_is_atomic_on_failure {Data : Type}
    (unmarshalRRSet : Data → Except GoError rrsetEncoded) (hexError : String → GoError)
    (unmarshalRate : Data → Except GoError rateRaw) (data : Data) (r : RRSet) (rate : Rate) :
    ((RRSet.UnmarshalJSON unmarshalRRSet hexError data r).2 ≠ none →
      (RRSet.UnmarshalJSON unmarshalRRSet hexError data r).1 = r) ∧
    ((Rate.UnmarshalJSON unmarshalRate data rate).2 ≠ none →
      (Rate.UnmarshalJSON unmarshalRate data rate).1 = rate) ∧
    (∀ err, unmarshalRRSet data = Except.error err →
      RRSet.UnmarshalJSON unmarshalRRSet hexError data r = (r, some err)) ∧
    (∀ raw, unmarshalRRSet data = Except.ok raw →
      switchRData raw.RData = Except.error ErrInvalidRData →
      RRSet.UnmarshalJSON unmarshalRRSet hexError data r = (r, some ErrInvalidRData)) ∧
    (∀ raw rdata, unmarshalRRSet data = Except.ok raw →
      switchRData raw.RData = Except.ok rdata → rawBytes raw = none →
      RRSet.UnmarshalJSON unmarshalRRSet hexError data r
        = (r, some (hexError raw.RawRData))) ∧
    (∀ err, unmarshalRate data = Except.error err →
      Rate.UnmarshalJSON unmarshalRate data rate = (rate, some err)) ∧
    (∀ raw, unmarshalRate data = Except.ok raw →
      (switchTime raw.Reset ErrInvalidReset).toOption = none ∨
        (switchInt raw.Limit Unlimited ErrInvalidLimit).toOption = none ∨
        (switchInt raw.Remaining NA ErrInvalidRemaining).toOption = none ∨
        (switchTime raw.Expires ErrInvalidExpires).toOption = none →
      ∃ err, Rate.UnmarshalJSON unmarshalRate data rate = (rate, some err)) := by
  refine ⟨?_, ?_, ?_, ?_, ?_, ?_, ?_⟩
  · intro h
    simp only [RRSet.UnmarshalJSON] at h ⊢
    cases hraw : unmarshalRRSet data with
    | error err => simp
    | ok raw =>
      simp only [hraw] at h ⊢
      cases hs : switchRData raw.RData with
      | error err => simp
      | ok rdata =>
        simp only [hs] at h ⊢
        by_cases hne : raw.RawRData = ""
        · simp [hne] at h
        · simp only [ne_eq, hne, not_false_eq_true, if_true] at h ⊢
          cases hhex : hex.DecodeString raw.RawRData with
          | none => simp
          | some bytes => simp [hhex] at h
  · intro h
    simp only [Rate.UnmarshalJSON] at h ⊢
    cases hraw : unmarshalRate data with
    | error err => simp
    | ok raw =>
      simp only [hraw] at h ⊢
      cases h1 : switchTime raw.Reset ErrInvalidReset with
      | error e => simp
      | ok reset =>
        simp only [h1] at h ⊢
        cases h2 : switchInt raw.Limit Unlimited ErrInvalidLimit with
        | error e => simp
        | ok limit =>
          simp only [h2] at h ⊢
          cases h3 : switchInt raw.Remaining NA ErrInvalidRemaining with
          | error e => simp
          | ok remaining =>
            simp only [h3] at h ⊢
            cases h4 : switchTime raw.Expires ErrInvalidExpires with
            | error e => simp
            | ok expires => simp [h4] at h
  · intro err herr
    simp only [RRSet.UnmarshalJSON, herr]
  · intro raw hraw hs
    exact UnmarshalJSON_of_invalid_rdata unmarshalRRSet hexError data raw r hraw hs
  · intro raw rdata hraw hs hb
    have hne : raw.RawRData ≠ "" := by
      intro hc
      simp [rawBytes, hc] at hb
    have hhex : hex.DecodeString raw.RawRData = none := by
      simpa [rawBytes, hne] using hb
    exact UnmarshalJSON_of_invalid_hex unmarshalRRSet hexError data raw r rdata hraw hs hne hhex
  · intro err herr
    simp only [Rate.UnmarshalJSON, herr]
  · intro raw hraw h
    simp only [Rate.UnmarshalJSON, hraw]
    cases h1 : switchTime raw.Reset ErrInvalidReset with
    | error e => exact ⟨e, rfl⟩
    | ok reset =>
      cases h2 : switchInt raw.Limit Unlimited ErrInvalidLimit with
      | error e => exact ⟨e, rfl⟩
      | ok limit =>
        cases h3 : switchInt raw.Remaining NA ErrInvalidRemaining with
        | error e => exact ⟨e, rfl⟩
        | ok remaining =>
          cases h4 : switchTime raw.Expires ErrInvalidExpires with
          | error e => exact ⟨e, rfl⟩
          | ok expires => simp [h1, h2, h3, h4, Except.toOption] at h

/-- The documents `{"rdata":[0]}` of `non-strings in rdata` and `{"results_max":"1"}` of
`TestRateLimit/invalid json`: both calls return an error and leave a receiver that holds a
record, or a rate, as it is. -/
theorem decoding_is_atomic_on_failure_witness :
    (RRSet.UnmarshalJSON (fun _ : Unit => Except.ok exampleEncodedBadElement) exampleHexError
      () exampleRecordSeen).2 ≠ none ∧
    (RRSet.UnmarshalJSON (fun _ : Unit => Except.ok exampleEncodedBadElement) exampleHexError
      () exampleRecordSeen).1 = exampleRecordSeen ∧
    (Rate.UnmarshalJSON (fun _ : Unit => rateRaw.Unmarshal json.exampleLibrary
      exampleDocumentInvalid) () { ResultsMax := 256 }).2 ≠ none ∧
    (Rate.UnmarshalJSON (fun _ : Unit => rateRaw.Unmarshal json.exampleLibrary
      exampleDocumentInvalid) () { ResultsMax := 256 }).1 = { ResultsMax := 256 } :=
  have h := decoding_is_atomic_on_failure
    (fun _ : Unit => Except.ok exampleEncodedBadElement) exampleHexError
    (fun _ : Unit => rateRaw.Unmarshal json.exampleLibrary exampleDocumentInvalid) ()
    exampleRecordSeen { ResultsMax := 256 }
  ⟨by decide, h.1 (by decide), by decide, h.2.1 (by decide)⟩

end dnsdb

/-! ## The base URL of a client: theorems -/

namespace v2

/-- C34. `baseURL` of a v2 client whose `Server` is not nil. The URL returned is the URL of the
server with another `RawQuery`: scheme, host, path and the other fields are those of the
server. Its query is what `Encode` writes for the parameters of the server's query, as `Query`
reads them, to which the call has added, after the values a key may already have, the value
`ClientName` for `swclient` (`go-dnsdb` when the name is empty), the value `ClientVersion` for
`version` (`v0.0` when the version is empty) and, only when `ClientId` is not empty, the value
`ClientId` for `id`; a key of the server's query keeps its values. The call works on a copy:
with the URL variables explicit, the URL returned is a variable that the call has allocated,
and every variable that existed before the call, the URL of the server among them, holds
after the call what it held before. -/
theorem baseURL_keeps_the_server_and_adds_the_client (parseQuery : String → url.Values)
    (encode : url.Values → String) (c : Client) (server : url.URL)
    (hserver : c.Server = some server) :
    ∃ v : url.Values,
      Client.baseURL parseQuery encode c = some { server with RawQuery := encode v } ∧
      (∀ key, url.Values.values v key
        = url.Values.values (parseQuery server.RawQuery) key ++ c.added key) ∧
      (url.Values.values (parseQuery server.RawQuery) SwClientKey = [] →
        url.Values.Get v SwClientKey
          = if c.ClientName ≠ "" then c.ClientName else DefaultClientName) ∧
      (url.Values.values (parseQuery server.RawQuery) VersionKey = [] →
        url.Values.Get v VersionKey
          = if c.ClientVersion ≠ "" then c.ClientVersion else DefaultClientVersion) ∧
      (url.Values.values (parseQuery server.RawQuery) IdKey = [] →
        url.Values.Get v IdKey = c.ClientId) ∧
      (∀ (urls : List url.URL) (p : Nat), p < urls.length → urls.getD p {} = server →
        ∃ urls2 : List url.URL,
          Client.baseURLAt parseQuery encode urls (some p) c = some (urls2, urls.length) ∧
          urls2.getD urls.length {} = { server with RawQuery := encode v } ∧
          ∀ a, a < urls.length → urls2.getD a {} = urls.getD a {}) := by
  have hkeys : ∀ key, url.Values.values
      (let v := parseQuery server.RawQuery
       let v := if c.ClientName ≠ "" then v.Add SwClientKey c.ClientName
         else v.Add SwClientKey DefaultClientName
       let v := if c.ClientVersion ≠ "" then v.Add VersionKey c.ClientVersion
         else v.Add VersionKey DefaultClientVersion
       if c.ClientId ≠ "" then v.Add IdKey c.ClientId else v) key
      = url.Values.values (parseQuery server.RawQuery) key ++ c.added key := by
    intro key
    have h12 : ¬ VersionKey = SwClientKey := by decide
    have h13 : ¬ IdKey = SwClientKey := by decide
    have h23 : ¬ IdKey = VersionKey := by decide
    have h21 : ¬ SwClientKey = VersionKey := by decide
    have h31 : ¬ SwClientKey = IdKey := by decide
    have h32 : ¬ VersionKey = IdKey := by decide
    by_cases hn : c.ClientName = "" <;> by_cases hv : c.ClientVersion = "" <;>
      by_cases hi : c.ClientId = "" <;>
      by_cases k1 : key = SwClientKey <;> by_cases k2 : key = VersionKey <;>
      by_cases k3 : key = IdKey <;>
      first
        | (subst k1; exact absurd k2.symm h12)
        | (subst k1; exact absurd k3.symm h13)
        | (subst k2; exact absurd k3.symm h23)
        | simp [url.Values.values_Add, Client.added, hn, hv, hi, k1, k2, k3, h12, h13, h23,
            h21, h31, h32]
  refine ⟨_, ?_, hkeys, ?_, ?_, ?_, ?_⟩
  · simp only [Client.baseURL, hserver]
  · intro h0
    have h := hkeys SwClientKey
    rw [h0] at h
    have h12 : ¬ SwClientKey = VersionKey := by decide
    have h13 : ¬ SwClientKey = IdKey := by decide
    simp only [url.Values.Get, h, Client.added, if_true, h12, h13, if_false, false_and,
      List.nil_append, List.append_nil, List.headD_cons]
  · intro h0
    have h := hkeys VersionKey
    rw [h0] at h
    have h12 : ¬ VersionKey = SwClientKey := by decide
    have h23 : ¬ VersionKey = IdKey := by decide
    simp only [url.Values.Get, h, Client.added, if_true, h12, h23, if_false, false_and,
      List.nil_append, List.append_nil, List.headD_cons]
  · intro h0
    have h := hkeys IdKey
    rw [h0] at h
    have h13 : ¬ IdKey = SwClientKey := by decide
    have h23 : ¬ IdKey = VersionKey := by decide
    simp only [url.Values.Get, h]
    by_cases hi : c.ClientId = ""
    · simp [Client.added, h13, h23, hi]
    · simp [Client.added, h13, h23, hi]
  · intro urls p hp hget
    have hcopy : ((urls ++ [({} : url.URL)]).set urls.length
        ((urls ++ [({} : url.URL)]).getD p {})).getD urls.length {} = server := by
      rw [dnsdb.getD_set_append_self]
      rw [List.getD_eq_getElem?_getD, List.getElem?_append_left hp,
        ← List.getD_eq_getElem?_getD, hget]
    refine ⟨(urls ++ [({} : url.URL)]).set urls.length { server with RawQuery := encode ?v },
      ?h1, ?h2, ?h3⟩
    case h2 =>
      rw [dnsdb.getD_set_append_self]
      exact rfl
    case h1 => simp only [Client.baseURLAt, hcopy, List.set_set]
    case h3 =>
      intro a ha
      exact dnsdb.getD_set_append_of_lt urls {} _ {} a ha

/-- The client of `TestBaseURL/custom`: the path is the path of the server and the three
parameters are those of the client. -/
theorem baseURL_keeps_the_server_and_adds_the_client_witness :
    exampleClient.Server
      = some { Scheme := "https", Host := "api.dnsdb.info", Path := "/test" } ∧
    Client.baseURL exampleParseQuery exampleEncode exampleClient
      = some
        { Scheme := "https", Host := "api.dnsdb.info", Path := "/test",
          RawQuery := "id=test-abc-def&swclient=testClient&version=v1.2.3.4test1" } ∧
    (∃ v : url.Values,
      Client.baseURL exampleParseQuery exampleEncode exampleClient
        = some
          { Scheme := "https", Host := "api.dnsdb.info", Path := "/test",
            RawQuery := exampleEncode v } ∧
      url.Values.Get v SwClientKey = "testClient") ∧
    Client.baseURLAt exampleParseQuery exampleEncode
      [{ Scheme := "https", Host := "api.dnsdb.info", Path := "/test" }] (some 0) exampleClient
      = some
        ([{ Scheme := "https", Host := "api.dnsdb.info", Path := "/test" },
          { Scheme := "https", Host := "api.dnsdb.info", Path := "/test",
            RawQuery := "id=test-abc-def&swclient=testClient&version=v1.2.3.4test1" }], 1) :=
  have h := baseURL_keeps_the_server_and_adds_the_client exampleParseQuery exampleEncode
    exampleClient { Scheme := "https", Host := "api.dnsdb.info", Path := "/test" } rfl
  ⟨rfl, by decide,
    h.elim fun v hv => ⟨v, hv.1, by
      have h2 := hv.2.2.1 rfl
      rw [h2]
      decide⟩,
    by decide⟩

end v2

/-! ## The path of a flex search: lemmas and theorems -/

namespace path

/-- Four clean paths joined are the four paths with slashes between them. -/
theorem Join_four (a b c d : String) (ha : isClean a = true) (hb : isClean b = true)
    (hc : isClean c = true) (hd : isClean d = true) :
    Join [a, b, c, d] = a ++ "/" ++ b ++ "/" ++ c ++ "/" ++ d := by
  have h := Join_of_isClean [a, b, c, d] (by simp) (by
    intro p hp
    simp only [List.mem_cons, List.mem_singleton, List.not_mem_nil, or_false] at hp
    rcases hp with rfl | rfl | rfl | rfl <;> assumption)
  have e : String.mk (joinElements ([a, b, c, d].map String.data))
      = a ++ "/" ++ b ++ "/" ++ c ++ "/" ++ d := by
    apply String.ext
    simp [joinElements, String.data_append]
  rw [e] at h
  exact h.1

end path

namespace flex

variable {F : Type}

/-- The path of a query whose method is `m` and whose key is `k`. -/
theorem makePath_eq (pathEscape : String → String) (f : flexQuery F) (m k : String)
    (hm : Method.String f.method = some m) (hk : Key.String f.key = some k) :
    f.makePath pathEscape
      = some (path.Join
          (if f.rrtype ≠ "" then [m, k, pathEscape f.value, pathEscape f.rrtype]
           else [m, k, pathEscape f.value])) := by
  simp only [flexQuery.makePath, hm, hk]
  split_ifs <;> rfl

/-- C35, which the code does not meet. `TestFlexSearch` expects the path of a search to hold
`url.PathEscape(value)`, and `path.Join` cleans the path: for the regular expression `.` the
path is `regex/rrnames`, without the slash and the value after the key; for the empty value it
is `glob/rdata`, without the slash; and for the value `foo*` with the type `..` it is
`regex/rrnames`, without the value and the type. -/
theorem flex_makePath_drops_dot_values :
    (NewQuery MethodRegex KeyRRNames "." none {} (none : Option Unit)).bind
        (flexQuery.makePath exampleEscape) = some "regex/rrnames" ∧
    "regex/rrnames/" ++ exampleEscape "." = "regex/rrnames/." ∧
    (NewQuery MethodGlob KeyRData "" none {} (none : Option Unit)).bind
        (flexQuery.makePath exampleEscape) = some "glob/rdata" ∧
    "glob/rdata/" ++ exampleEscape "" = "glob/rdata/" ∧
    (NewQuery MethodRegex KeyRRNames "foo*" none {} (none : Option Unit)).bind
        (fun q => (q.WithRRType "..").makePath exampleEscape) = some "regex/rrnames" ∧
    "regex/rrnames/" ++ exampleEscape "foo*" ++ "/" ++ exampleEscape ".."
      = "regex/rrnames/foo%2A/.." := by
  decide

/-- The path of a flex search on clean values. `NewQuery` panics exactly when the method is
neither `MethodRegex` nor `MethodGlob` or the key is neither `KeyRRNames` nor `KeyRData`. For
a valid method and key, `m` being `regex` or `glob` and `k` being `rrnames` or `rdata`, and
for a value whose escaped form `PathEscape(value)` is a clean path (it is not empty, `.` or
`..` and has no slash at either end or two in a row), the path is `m`, a slash, `k`, a slash
and `PathEscape(value)`, followed by a slash and `PathEscape(rrtype)` exactly when a type has
been set that is not empty, for a type whose escaped form is a clean path too. -/
theorem flex_makePath_of_clean_values (pathEscape : String → String) (method : Method)
    (key : Key) (value : String) (u : Option url.URL) (headers : http.Header)
    (result : Option F) (hmethod : method = MethodRegex ∨ method = MethodGlob)
    (hkey : key = KeyRRNames ∨ key = KeyRData)
    (hvalue : path.isClean (pathEscape value) = true) :
    (∀ (method1 : Method) (key1 : Key),
      NewQuery method1 key1 value u headers result = none ↔
        ¬ (method1 = MethodRegex ∨ method1 = MethodGlob) ∨
          ¬ (key1 = KeyRRNames ∨ key1 = KeyRData)) ∧
    ∃ (q : flexQuery F) (m k : String),
      NewQuery method key value u headers result = some q ∧
      Method.String method = some m ∧ Key.String key = some k ∧
      (method = MethodRegex → m = "regex") ∧ (method = MethodGlob → m = "glob") ∧
      (key = KeyRRNames → k = "rrnames") ∧ (key = KeyRData → k = "rdata") ∧
      q.makePath pathEscape = some (m ++ "/" ++ k ++ "/" ++ pathEscape value) ∧
      (q.WithRRType "").makePath pathEscape
        = some (m ++ "/" ++ k ++ "/" ++ pathEscape value) ∧
      (∀ rrtype : String, rrtype ≠ "" → path.isClean (pathEscape rrtype) = true →
        (q.WithRRType rrtype).makePath pathEscape
          = some (m ++ "/" ++ k ++ "/" ++ pathEscape value ++ "/" ++ pathEscape rrtype)) := by
  refine ⟨fun method1 key1 => ?_, ?_⟩
  · unfold NewQuery
    by_cases h1 : method1 = MethodRegex ∨ method1 = MethodGlob
    · by_cases h2 : key1 = KeyRRNames ∨ key1 = KeyRData
      · simp [h1, h2]
      · simp [h1, h2]
    · simp [h1]
  · have hnew : NewQuery method key value u headers result
        = some
          { method := method, key := key, value := value, url := u, headers := headers,
            result := result } := by
      unfold NewQuery
      simp [hmethod, hkey]
    obtain ⟨m, hm, hm1, hm2, hmc⟩ : ∃ m, Method.String method = some m ∧
        (method = MethodRegex → m = "regex") ∧ (method = MethodGlob → m = "glob") ∧
        path.isClean m = true := by
      rcases hmethod with h | h <;> subst h
      · exact ⟨"regex", rfl, fun _ => rfl, fun h => absurd h (by decide), by decide⟩
      · exact ⟨"glob", rfl, fun h => absurd h (by decide), fun _ => rfl, by decide⟩
    obtain ⟨k, hk, hk1, hk2, hkc⟩ : ∃ k, Key.String key = some k ∧
        (key = KeyRRNames → k = "rrnames") ∧ (key = KeyRData → k = "rdata") ∧
        path.isClean k = true := by
      rcases hkey with h | h <;> subst h
      · exact ⟨"rrnames", rfl, fun _ => rfl, fun h => absurd h (by decide), by decide⟩
      · exact ⟨"rdata", rfl, fun h => absurd h (by decide), fun _ => rfl, by decide⟩
    refine ⟨_, m, k, hnew, hm, hk, hm1, hm2, hk1, hk2, ?_, ?_, ?_⟩
    · rw [makePath_eq pathEscape _ m k hm hk]
      simp only [ne_eq, not_true_eq_false, if_false]
      rw [(path.Join_three m k (pathEscape value) hmc hkc hvalue).1]
    · rw [makePath_eq pathEscape _ m k hm hk]
      simp only [flexQuery.WithRRType, ne_eq, not_true_eq_false, if_false]
      rw [(path.Join_three m k (pathEscape value) hmc hkc hvalue).1]
    · intro rrtype hne hclean
      rw [makePath_eq pathEscape _ m k hm hk]
      simp only [flexQuery.WithRRType, ne_eq, hne, not_false_eq_true, if_true]
      rw [path.Join_four m k (pathEscape value) (pathEscape rrtype) hmc hkc hvalue hclean]

/-- The searches of `TestFlexSearch`: the value `foo*` for the method `regex` and the key
`rrnames`, without a type and with the type `aa aa`. -/
theorem flex_makePath_of_clean_values_witness :
    path.isClean (exampleEscape "foo*") = true ∧
    path.isClean (exampleEscape "aa aa") = true ∧
    (NewQuery MethodRegex KeyRRNames "foo*" none {} (none : Option Unit)).bind
        (flexQuery.makePath exampleEscape) = some "regex/rrnames/foo%2A" ∧
    (NewQuery MethodRegex KeyRRNames "foo*" none {} (none : Option Unit)).bind
        (fun q => (q.WithRRType "aa aa").makePath exampleEscape)
      = some "regex/rrnames/foo%2A/aa%20aa" ∧
    NewQuery 2 KeyRRNames "foo*" none {} (none : Option Unit) = none :=
  have h := flex_makePath_of_clean_values exampleEscape MethodRegex KeyRRNames "foo*" none {}
    (none : Option Unit) (Or.inl rfl) (Or.inl rfl) (by decide)
  ⟨by decide, by decide,
    h.2.elim fun q hq => hq.elim fun m hm => hm.elim fun k hk => by
      rw [hk.1, Option.some_bind, hk.2.2.2.2.2.2.2.1, hk.2.2.2.1 rfl, hk.2.2.2.2.2.1 rfl]
      rfl,
    h.2.elim fun q hq => hq.elim fun m hm => hm.elim fun k hk => by
      rw [hk.1, Option.some_bind, hk.2.2.2.2.2.2.2.2.2 "aa aa" (by decide) (by decide),
        hk.2.2.2.1 rfl, hk.2.2.2.2.2.1 rfl]
      rfl,
    (h.1 2 KeyRRNames).mpr (Or.inl (by decide))⟩

end flex

/-! ## Records as JSON: theorems -/

namespace dnsdb

/-- C37, as the code has it: `RRSet.MarshalJSON` stores a time that is not zero in its map as
a `time.Time`, which `json.Marshal` writes as a JSON string, whatever its text; and
`RRSet.UnmarshalJSON` decodes `time_first` into an `int64`, so that `json.Unmarshal` rejects the
string with a type error. For the record with a name, a count and a time it was first seen,
the call of `UnmarshalJSON` on what `MarshalJSON` returns fails and leaves the receiver as it
was. For the same record without the time, it succeeds and returns the record. In general,
what `json.Marshal` writes for a time of the map is a JSON string, and a JSON string stored in
one of the four time fields of `rrsetEncoded` is a type error. -/
theorem marshalled_time_is_not_accepted (lib : json.Library) (hexError : String → GoError)
    (text : String) (r0 : RRSet) :
    RRSet.MarshalJSON (fun _ => Except.ok text) exampleRecordSeen
      = Except.ok (json.Document.object
          [("count", json.Document.number "5059"),
           ("rrname", json.Document.string "www.farsightsecurity.com."),
           ("time_first", json.Document.string text)]) ∧
    RRSet.UnmarshalJSON (rrsetEncoded.Unmarshal lib) hexError
      (json.Document.object
        [("count", json.Document.number "5059"),
         ("rrname", json.Document.string "www.farsightsecurity.com."),
         ("time_first", json.Document.string text)]) r0
      = (r0, some (lib.typeError "string" "time_first")) ∧
    RRSet.MarshalJSON (fun _ => Except.ok text) exampleRecordUnseen
      = Except.ok (json.Document.object
          [("count", json.Document.number "5059"),
           ("rrname", json.Document.string "www.farsightsecurity.com.")]) ∧
    RRSet.UnmarshalJSON (rrsetEncoded.Unmarshal lib) hexError
      (json.Document.object
        [("count", json.Document.number "5059"),
         ("rrname", json.Document.string "www.farsightsecurity.com.")]) r0
      = (exampleRecordUnseen, none) ∧
    (∀ (marshalTime : Time → Except GoError String) (t : Time) (d : json.Document),
      json.marshalAny marshalTime (json.Any.time t) = Except.ok d →
      ∃ s, d = json.Document.string s) ∧
    (∀ (raw : rrsetEncoded) (f : rrsetField) (s : String), f.isTime = true →
      rrsetEncoded.store lib raw f (json.Document.string s)
        = Except.error (lib.typeError "string" f.name)) := by
  refine ⟨rfl, rfl, rfl, rfl, ?_, ?_⟩
  · intro marshalTime t d h
    simp only [json.marshalAny] at h
    obtain ⟨a, _, rfl⟩ := except_map_ok _ _ _ h
    exact ⟨a, rfl⟩
  · intro raw f s hf
    cases f <;>
      first
        | exact absurd hf (by decide)
        | rfl

end dnsdb

namespace flex

/-- C39, as the code has it: `Record.MarshalJSON` stores `TimeFirst.Unix()` and
`TimeLast.Unix()` in the struct that it encodes, and for the zero time `Unix()` is
-62135596800, not 0, so that the tag `omitempty` does not leave the member out. Whatever the
other fields of the record, a `TimeFirst` that is the zero time is written as the member
`time_first` with the number -62135596800, and likewise `TimeLast`; the record whose fields
are all empty or zero is written with these two members, and without a member `rrname`,
`rdata`, `raw_rdata`, `rrtype` or `count`. -/
theorem zero_time_is_written_as_a_number (r : Record) :
    (Record.MarshalJSON { r with TimeFirst := Time.zero }).member "time_first"
      = some (json.Document.number "-62135596800") ∧
    (Record.MarshalJSON { r with TimeLast := Time.zero }).member "time_last"
      = some (json.Document.number "-62135596800") ∧
    Record.MarshalJSON {}
      = json.Document.object
          [("time_first", json.Document.number "-62135596800"),
           ("time_last", json.Document.number "-62135596800")] ∧
    Time.zero.Unix = -62135596800 := by
  have hz : strconv.Itoa Time.zero.Unix = "-62135596800" := by decide
  have hne : Time.zero.Unix ≠ 0 := by decide
  refine ⟨?_, ?_, rfl, rfl⟩
  · simp only [Record.MarshalJSON, recordEncoded.Marshal, json.Document.member, hz, hne,
      ne_eq, not_false_eq_true, if_true]
    by_cases h1 : r.RRName = "" <;> by_cases h2 : r.RData = "" <;>
      by_cases h3 : hex.EncodeToString r.RawRData = "" <;> by_cases h4 : r.RRType = "" <;>
      by_cases h5 : r.Count = 0 <;>
      simp [h1, h2, h3, h4, h5]
  · simp only [Record.MarshalJSON, recordEncoded.Marshal, json.Document.member, hz, hne,
      ne_eq, not_false_eq_true, if_true]
    by_cases h1 : r.RRName = "" <;> by_cases h2 : r.RData = "" <;>
      by_cases h3 : hex.EncodeToString r.RawRData = "" <;> by_cases h4 : r.RRType = "" <;>
      by_cases h5 : r.Count = 0 <;> by_cases h6 : r.TimeFirst.Unix = 0 <;>
      simp [h1, h2, h3, h4, h5, h6]

end flex
